import Mathlib

/-!
# PranaDB: storage fake, table operations, codec, commands, routing and message parser

A shallow embedding of the ordered key-value store of `cluster/fake_cluster.go`,
of the table operations of `table/table.go`, of the row and key codec of the common
package, of the commands of `command/command.go` and
`command/create_source_command.go`, of the point-get routing of
`pull/exec_builder.go` and of the message parser of `push/source/message_parser.go`,
followed by the properties proved about them.

Conventions of the embedding.

* A byte slice is a list of naturals (`Bytes`); a slice that may be `nil` and
  whose nil-ness the code observes is an `Option Bytes` with `none` for `nil`.
* A Go `error` result is an `Option String` with `none` for `nil`.
* A run-time panic is the `Except.error` of an `Except String _` result, or the
  `Outcome.panic` of a state-changing call; the commands, the routing and the
  parser return a `Result`, which tells a value, an error and a panic apart.
* The B-tree of `github.com/google/btree` is an external library; it is embedded
  by its documented contract, as the list of its items in ascending order.
* The mutex and the log lines have no effect on results and are not embedded.
-/

namespace PranaDB

/-- A byte slice. -/
abbrev Bytes := List Nat

/-- The result of Go's `bytes.Compare`: -1, 0 or 1 by lexicographic byte order;
a nil slice compares as an empty one. -/
def bytesCompare : Bytes → Bytes → Int
  | [], [] => 0
  | [], _ :: _ => -1
  | _ :: _, [] => 1
  | a :: as, b :: bs =>
    if a < b then -1 else if b < a then 1 else bytesCompare as bs

/-- The item type stored in the tree, `kvWrapper` of `fake_cluster.go`. -/
structure kvWrapper where
  key : Bytes
  value : Option Bytes
deriving DecidableEq, Repr

/-- The method `kvWrapper.Less`: `bytes.Compare(thisKey, otherKey) < 0`. -/
def kvWrapper.Less (k than : kvWrapper) : Bool :=
  decide (bytesCompare k.key than.key < 0)

/-- The items of a `btree.BTree`, in ascending order. -/
abbrev BTree := List kvWrapper

/-- The tree invariant: items strictly ascending by `Less`. -/
def BTree.Ordered (t : BTree) : Prop :=
  List.Pairwise (fun a b => kvWrapper.Less a b = true) t

instance (t : BTree) : Decidable (BTree.Ordered t) :=
  inferInstanceAs (Decidable (List.Pairwise (fun a b => kvWrapper.Less a b = true) t))

/-- The method `BTree.ReplaceOrInsert`: adds the item, replacing an item that is
equal to it (neither less than the other). -/
def BTree.ReplaceOrInsert : BTree → kvWrapper → BTree
  | [], item => [item]
  | x :: xs, item =>
    if item.Less x then item :: x :: xs
    else if x.Less item then x :: BTree.ReplaceOrInsert xs item
    else item :: xs

/-- The method `BTree.Delete`: removes the item equal to the given one and
returns it, or returns nil (`none`) when there is none. -/
def BTree.Delete : BTree → kvWrapper → Option kvWrapper × BTree
  | [], _ => (none, [])
  | x :: xs, item =>
    if item.Less x then (none, x :: xs)
    else if x.Less item then
      ((BTree.Delete xs item).1, x :: (BTree.Delete xs item).2)
    else (some x, xs)

/-- The method `BTree.Get`: the item equal to the given one, or nil. -/
def BTree.Get : BTree → kvWrapper → Option kvWrapper
  | [], _ => none
  | x :: xs, item =>
    if item.Less x then none
    else if x.Less item then BTree.Get xs item
    else some x

/-- Calls the iterator on the items in order until it returns false; the
iterator's captured variables are the state `σ`. -/
def BTree.iterate {σ : Type} (iterator : σ → kvWrapper → σ × Bool) : σ → List kvWrapper → σ
  | s, [] => s
  | s, x :: xs =>
    if (iterator s x).2 then BTree.iterate iterator (iterator s x).1 xs
    else (iterator s x).1

/-- The method `BTree.AscendGreaterOrEqual`: calls the iterator for every item
in the range [pivot, last], in ascending order, until it returns false. -/
def BTree.AscendGreaterOrEqual {σ : Type} (t : BTree) (pivot : kvWrapper)
    (iterator : σ → kvWrapper → σ × Bool) (init : σ) : σ :=
  BTree.iterate iterator init (t.filter (fun x => !x.Less pivot))

/-- The struct `KVPair` of the cluster package. -/
structure KVPair where
  Key : Bytes
  Value : Option Bytes
deriving DecidableEq, Repr

/-- The pair `KVPair{Key: wrapper.key, Value: wrapper.value}` that a scan
returns for an item. -/
def kvWrapper.toKVPair (wrapper : kvWrapper) : KVPair :=
  { Key := wrapper.key, Value := wrapper.value }

/-- The struct `WriteBatch` of the cluster package. `puts` and `Deletes` are the
entries of the two Go maps in the order the `range` loops visit them; being
maps, they hold each key once (`WriteBatch.WellFormed`). -/
structure WriteBatch where
  ShardID : Nat
  puts : List (Bytes × Option Bytes)
  Deletes : List Bytes
  NotifyRemote : Bool
deriving DecidableEq, Repr

/-- A Go map holds a key once: the keys of `puts` are pairwise different, and so
are the keys of `Deletes`. -/
def WriteBatch.WellFormed (b : WriteBatch) : Prop :=
  (b.puts.map Prod.fst).Nodup ∧ b.Deletes.Nodup

instance (b : WriteBatch) : Decidable b.WellFormed :=
  inferInstanceAs (Decidable ((b.puts.map Prod.fst).Nodup ∧ b.Deletes.Nodup))

/-- The fields of `FakeCluster` that the embedded methods read or write.
`shardListeners` holds the keys of the Go map (every registered listener is
non-nil); `remoteWrites` records each invocation of `RemoteWriteOccurred` by the
shard id of the listener invoked; `remoteQueryExecutionCallback` and
`shardListenerFactory` say whether the field is set (not nil). -/
structure FakeCluster where
  nodeID : Int
  tableSequence : Nat
  allShardIds : List Nat
  started : Bool
  btree : BTree
  shardListeners : List Nat
  remoteWrites : List Nat
  remoteQueryExecutionCallback : Bool := false
  shardListenerFactory : Bool := false
deriving DecidableEq, Repr

/-- The function `genAllShardIds`: `make` panics on a negative length; the sum
is a `uint64` sum. `DataShardIDBase` is a constant of the cluster package. -/
def genAllShardIds (DataShardIDBase : Nat) (numShards : Int) : Except String (List Nat) :=
  if numShards < 0 then .error "makeslice: len out of range"
  else .ok ((List.range numShards.toNat).map fun i => (i + DataShardIDBase) % 2 ^ 64)

/-- The function `NewFakeCluster`. `UserTableIDBase` is a constant of the common
package, converted to `uint64`. -/
def NewFakeCluster (UserTableIDBase DataShardIDBase : Nat) (nodeID numShards : Int) :
    Except String FakeCluster :=
  match genAllShardIds DataShardIDBase numShards with
  | .error e => .error e
  | .ok ids =>
    .ok { nodeID := nodeID, tableSequence := UserTableIDBase % 2 ^ 64, allShardIds := ids,
          started := false, btree := [], shardListeners := [], remoteWrites := [] }

/-- How a state-changing call ends: it returns a nil error, returns an error,
or panics. -/
inductive Outcome where
  | ok
  | err (msg : String)
  | panic (msg : String)
deriving DecidableEq, Repr

/-- The method `FakeCluster.putInternal`. -/
def FakeCluster.putInternal (f : FakeCluster) (item : kvWrapper) : FakeCluster :=
  { f with btree := f.btree.ReplaceOrInsert item }

/-- The method `FakeCluster.deleteInternal`: an error when the tree had no such
item. -/
def FakeCluster.deleteInternal (f : FakeCluster) (item : kvWrapper) :
    FakeCluster × Option String :=
  match (f.btree.Delete item).1 with
  | none => ({ f with btree := (f.btree.Delete item).2 }, some "didn't find item to delete")
  | some _ => ({ f with btree := (f.btree.Delete item).2 }, none)

/-- The method `FakeCluster.getInternal`. -/
def FakeCluster.getInternal (f : FakeCluster) (key : kvWrapper) : Option Bytes :=
  match f.btree.Get key with
  | some wrapper => wrapper.value
  | none => none

/-- The first loop of `FakeCluster.WriteBatch`: every put, in map order. -/
def FakeCluster.applyPuts (f : FakeCluster) : List (Bytes × Option Bytes) → FakeCluster
  | [] => f
  | (k, v) :: rest => (f.putInternal { key := k, value := v }).applyPuts rest

/-- The second loop of `FakeCluster.WriteBatch`: every delete, in map order,
returning at the first error. -/
def FakeCluster.applyDeletes (f : FakeCluster) : List Bytes → FakeCluster × Option String
  | [] => (f, none)
  | k :: rest =>
    match f.deleteInternal { key := k, value := none } with
    | (f', some e) => (f', some e)
    | (f', none) => f'.applyDeletes rest

/-- The method `FakeCluster.WriteBatch`. `DataShardIDBase` is a constant of the
cluster package. The `go` statement evaluates the method value in the calling
goroutine, so a missing listener (a nil interface) panics there. -/
def FakeCluster.WriteBatch (DataShardIDBase : Nat) (f : FakeCluster) (batch : WriteBatch) :
    FakeCluster × Outcome :=
  if batch.ShardID < DataShardIDBase then
    (f, .panic "invalid shard cluster id")
  else
    match (f.applyPuts batch.puts).applyDeletes batch.Deletes with
    | (f', some e) => (f', .err e)
    | (f', none) =>
      if batch.NotifyRemote then
        if batch.ShardID ∈ f'.shardListeners then
          ({ f' with remoteWrites := f'.remoteWrites ++ [batch.ShardID] }, .ok)
        else (f', .panic "invalid memory address or nil pointer dereference")
      else (f', .ok)

/-- The method `FakeCluster.LocalGet`; the error is always nil. -/
def FakeCluster.LocalGet (f : FakeCluster) (key : Bytes) : Option Bytes × Option String :=
  (f.getInternal { key := key, value := none }, none)

/-- The closure `resFunc` of `FakeCluster.LocalScan`, over its captured
variables `result` and `count`. -/
def resFunc (endKeyPrefix : Option Bytes) (limit : Int) (s : List KVPair × Int)
    (wrapper : kvWrapper) : (List KVPair × Int) × Bool :=
  match endKeyPrefix with
  | some e =>
    if bytesCompare wrapper.key e ≥ 0 then (s, false)
    else ((s.1 ++ [wrapper.toKVPair], s.2 + 1), decide (limit = -1 ∨ s.2 + 1 < limit))
  | none =>
    ((s.1 ++ [wrapper.toKVPair], s.2 + 1), decide (limit = -1 ∨ s.2 + 1 < limit))

/-- The method `FakeCluster.LocalScan`: panics on a nil start key; otherwise
returns the collected pairs and a nil error. -/
def FakeCluster.LocalScan (f : FakeCluster) (startKeyPrefix endKeyPrefix : Option Bytes)
    (limit : Int) : Except String (List KVPair × Option String) :=
  match startKeyPrefix with
  | none => .error "startKeyPrefix cannot be nil"
  | some start =>
    .ok ((f.btree.AscendGreaterOrEqual { key := start, value := none }
      (resFunc endKeyPrefix limit) ([], 0)).1, none)

/-! ### The scan fixture of `dragon_test.go` -/

/-- The key `fmt.Sprintf("foo-%02d/bar-%02d", i, j)` of `testLocalScan`, as
bytes, for `i, j < 100`. -/
def fooBarKey (i j : Nat) : Bytes :=
  [102, 111, 111, 45, 48 + i / 10, 48 + i % 10, 47, 98, 97, 114, 45, 48 + j / 10, 48 + j % 10]

/-- The value `fmt.Sprintf("somevalue%02d", j)` of `testLocalScan`, as bytes. -/
def someValue (j : Nat) : Bytes :=
  [115, 111, 109, 101, 118, 97, 108, 117, 101, 48 + j / 10, 48 + j % 10]

/-- The hundred puts of `testLocalScan`, for `i, j` in 0..9. The test shuffles
them and the batch keeps them in a map; here they are listed with `i` and `j`
descending, the reverse of the key order. -/
def scanFixturePuts : List (Bytes × Option Bytes) :=
  (List.range 10).reverse.flatMap fun i =>
    (List.range 10).reverse.map fun j => (fooBarKey i j, some (someValue j))

/-- A cluster with an empty store, one shard (id 1000) and its listener. -/
def emptyCluster : FakeCluster :=
  { nodeID := 0, tableSequence := 100, allShardIds := [1000], started := true,
    btree := [], shardListeners := [1000], remoteWrites := [],
    remoteQueryExecutionCallback := true, shardListenerFactory := true }

/-- The store of `testLocalScan` after its write batch, with 1000 for
`DataShardIDBase` and for the shard id. -/
def scanFixture : FakeCluster :=
  (emptyCluster.WriteBatch 1000
    { ShardID := 1000, puts := scanFixturePuts, Deletes := [], NotifyRemote := false }).1

/-- The bytes of the string "foo-06". -/
def foo06 : Bytes := [102, 111, 111, 45, 48, 54]

/-- The bytes of the string "foo-07". -/
def foo07 : Bytes := [102, 111, 111, 45, 48, 55]

/-! ### Key prefix (`table/table.go`) -/

/-- The number that a byte string denotes when read most significant byte first. -/
def beValue : Bytes → Nat
  | [] => 0
  | x :: l => x * 256 ^ l.length + beValue l

/-- Modelled from the spec: `common.AppendUint64ToBufferBigEndian`, whose source
file is missing. The spec (4.1, `AppendUint64BE`) has it append the eight bytes of
the value, most significant first, on every host. -/
def AppendUint64ToBufferBigEndian (buffer : Bytes) (v : Nat) : Bytes :=
  buffer ++ [v / 2 ^ 56 % 256, v / 2 ^ 48 % 256, v / 2 ^ 40 % 256, v / 2 ^ 32 % 256,
    v / 2 ^ 24 % 256, v / 2 ^ 16 % 256, v / 2 ^ 8 % 256, v % 256]

/-- The function `EncodeTableKeyPrefix`. `make([]byte, 0, capac)` panics when
`capac` is negative; the capacity has no other effect on the result. -/
def EncodeTableKeyPrefix (tableID shardID : Nat) (capac : Int) : Except String Bytes :=
  if capac < 0 then .error "makeslice: cap out of range"
  else
    .ok (AppendUint64ToBufferBigEndian (AppendUint64ToBufferBigEndian [] shardID) tableID)

/-! ### The codec of the common package

The source files of the codec (`common.EncodeRow`, `common.DecodeRow`,
`common.EncodeKey`, the row and column types) are missing; their callers and tests are
present. The definitions of this section are modelled from the spec (3.2, 3.3, 4.1).
Where the spec leaves a layout detail open, the doc comment of the definition says which
choice is made. -/

/-- Modelled from the spec: the column types of `common.ColumnType` that the codec tests
use (tinyint, int, bigint, double, varchar, decimal with precision and scale). -/
inductive ColumnType where
  | TinyInt
  | Int
  | BigInt
  | Double
  | Varchar
  | Decimal (precision scale : Nat)
deriving DecidableEq, Repr

/-- Modelled from the spec: a cell of `common.Row`. The three integer types hold an
`int64` (the tests append 255 to a tinyint column through `AppendInt64ToColumn`); a double
is its 64-bit IEEE-754 pattern; a varchar is its UTF-8 bytes; a decimal is its unscaled
integer, the scale being that of the column. -/
inductive Value where
  | null
  | int64 (v : Int)
  | float64 (bits : Nat)
  | string (s : Bytes)
  | decimal (unscaled : Int)
deriving DecidableEq, Repr

/-- Modelled from the spec: a row, one cell per column in declaration order. -/
abbrev Row := List Value

/-- Whether a cell is a value of the column type: any type admits NULL; an integer is in
the `int64` range; a double is a 64-bit pattern; a varchar is a string of bytes shorter
than 2^32; a decimal has at most `precision` digits. -/
def Value.validFor : Value → ColumnType → Bool
  | .null, _ => true
  | .int64 v, .TinyInt => decide (-(2 : Int) ^ 63 ≤ v ∧ v < 2 ^ 63)
  | .int64 v, .Int => decide (-(2 : Int) ^ 63 ≤ v ∧ v < 2 ^ 63)
  | .int64 v, .BigInt => decide (-(2 : Int) ^ 63 ≤ v ∧ v < 2 ^ 63)
  | .float64 b, .Double => decide (b < 2 ^ 64)
  | .string s, .Varchar => decide ((∀ x ∈ s, x < 256) ∧ s.length < 2 ^ 32)
  | .decimal u, .Decimal p _ => decide (-(10 : Int) ^ p < u ∧ u < 10 ^ p)
  | _, _ => false

/-- Whether a row is valid for the column types: one valid cell per column. -/
def Row.validFor : Row → List ColumnType → Bool
  | [], [] => true
  | v :: vs, t :: ts => v.validFor t && Row.validFor vs ts
  | _, _ => false

/-- The conversion `uint64(v)` of an `int64`. -/
def toUint64 (v : Int) : Nat := (v % 2 ^ 64).toNat

/-- The conversion `int64(u)` of a `uint64`. -/
def toInt64 (u : Nat) : Int := if u < 2 ^ 63 then (u : Int) else (u : Int) - 2 ^ 64

/-- The number that a byte string denotes when read least significant byte first. -/
def leValue : Bytes → Nat
  | [] => 0
  | x :: l => x + 256 * leValue l

/-- The `n` bytes of `v`, most significant first. -/
def beBytes : Nat → Nat → Bytes
  | 0, _ => []
  | n + 1, v => beBytes n (v / 256) ++ [v % 256]

/-- Modelled from the spec: `common.AppendUint64ToBufferLE` (4.1, `AppendUint64LE`):
appends the eight bytes of the value, least significant first, on every host. -/
def AppendUint64ToBufferLE (buffer : Bytes) (v : Nat) : Bytes :=
  buffer ++ [v % 256, v / 2 ^ 8 % 256, v / 2 ^ 16 % 256, v / 2 ^ 24 % 256,
    v / 2 ^ 32 % 256, v / 2 ^ 40 % 256, v / 2 ^ 48 % 256, v / 2 ^ 56 % 256]

/-- Modelled from the spec: `common.ReadUint64FromBufferLE` (4.1, `ReadUint64LE`), called
as `ReadUint64FromBufferLE(buff, offset)` by the tests: the value of the eight bytes at
the offset and the offset after them. Reading past the end of a slice panics. -/
def ReadUint64FromBufferLE (buffer : Bytes) (offset : Nat) : Except String (Nat × Nat) :=
  if offset + 8 ≤ buffer.length then .ok (leValue ((buffer.drop offset).take 8), offset + 8)
  else .error "index out of range"

/-- Modelled from the spec: `common.AppendUint32ToBufferLE`, the four-byte form. -/
def AppendUint32ToBufferLE (buffer : Bytes) (v : Nat) : Bytes :=
  buffer ++ [v % 256, v / 2 ^ 8 % 256, v / 2 ^ 16 % 256, v / 2 ^ 24 % 256]

/-- Modelled from the spec: `common.ReadUint32FromBufferLE`, the four-byte form. -/
def ReadUint32FromBufferLE (buffer : Bytes) (offset : Nat) : Except String (Nat × Nat) :=
  if offset + 4 ≤ buffer.length then .ok (leValue ((buffer.drop offset).take 4), offset + 4)
  else .error "index out of range"

/-- Modelled from the spec: the width in bytes of the packed form of a decimal column,
"derived from (precision, scale) so all decimals in one column share a width". The spec
does not give the packing; here two decimal digits take one byte, plus one byte. -/
def decimalWidth (precision _scale : Nat) : Nat := precision / 2 + 1

/-- Modelled from the spec: the "fixed-width packed form" of a decimal (3.3), "big-endian"
(3.2). The spec does not give the packing; here it is the unscaled integer plus
`10 ^ precision`, a positive number, in `decimalWidth` bytes, most significant first. -/
def packDecimal (precision scale : Nat) (unscaled : Int) : Bytes :=
  beBytes (decimalWidth precision scale) (unscaled + 10 ^ precision).toNat

/-- Modelled from the spec: the inverse of `packDecimal` on a packed form. -/
def unpackDecimal (precision : Nat) (packed : Bytes) : Int :=
  (beValue packed : Int) - 10 ^ precision

/-- Whether a cell is NULL. -/
def Value.isNull : Value → Bool
  | .null => true
  | _ => false

/-- The number whose binary digits are the given bits, least significant first. -/
def bitsValue : List Bool → Nat
  | [] => 0
  | b :: bs => (if b then 1 else 0) + 2 * bitsValue bs

/-- Modelled from the spec: the null bitmap that starts a row value (3.3). The spec does
not give its layout; here column `i` has bit `i % 8` of byte `i / 8`, set when the cell is
NULL, and the bitmap has one byte per eight columns, rounded up. -/
def nullBitmap (row : Row) : Bytes :=
  (List.range ((row.length + 7) / 8)).map fun j =>
    bitsValue (((row.map Value.isNull).drop (8 * j)).take 8)

/-- Whether the bitmap marks column `i` as NULL. -/
def isNullAt (bitmap : Bytes) (i : Nat) : Bool :=
  decide (bitmap.getD (i / 8) 0 / 2 ^ (i % 8) % 2 = 1)

/-- Modelled from the spec: the payload of a cell that is not NULL (3.3): "fixed 8 bytes
little-endian for integer and double", "length-prefixed bytes for varchar" (here a
four-byte little-endian length), "fixed-width packed form for decimal". A cell of another
type than the column's fails with `TypeMismatch`. -/
def encodeValue (buffer : Bytes) : Value → ColumnType → Except String Bytes
  | .int64 v, .TinyInt => .ok (AppendUint64ToBufferLE buffer (toUint64 v))
  | .int64 v, .Int => .ok (AppendUint64ToBufferLE buffer (toUint64 v))
  | .int64 v, .BigInt => .ok (AppendUint64ToBufferLE buffer (toUint64 v))
  | .float64 b, .Double => .ok (AppendUint64ToBufferLE buffer b)
  | .string s, .Varchar => .ok (AppendUint32ToBufferLE buffer s.length ++ s)
  | .decimal u, .Decimal p sc => .ok (buffer ++ packDecimal p sc u)
  | _, _ => .error "TypeMismatch"

/-- The payloads of the cells of a row that are not NULL, in column order. -/
def encodeCols (buffer : Bytes) : Row → List ColumnType → Except String Bytes
  | [], [] => .ok buffer
  | .null :: vs, _ :: ts => encodeCols buffer vs ts
  | v :: vs, t :: ts =>
    match encodeValue buffer v t with
    | .error e => .error e
    | .ok buffer' => encodeCols buffer' vs ts
  | _, _ => .error "TypeMismatch"

/-- Modelled from the spec: `common.EncodeRow(row, colTypes, buffer)` (3.3, 4.1): appends
`null-bitmap ‖ per-column payload` in column declaration order to the buffer. -/
def EncodeRow (row : Row) (colTypes : List ColumnType) (buffer : Bytes) : Except String Bytes :=
  encodeCols (buffer ++ nullBitmap row) row colTypes

/-- Reads the payload of one cell of the given type at the offset: the cell and the
offset after it. -/
def decodeValue (buffer : Bytes) (offset : Nat) : ColumnType → Except String (Value × Nat)
  | .Double =>
    match ReadUint64FromBufferLE buffer offset with
    | .error e => .error e
    | .ok (u, offset') => .ok (.float64 u, offset')
  | .Varchar =>
    match ReadUint32FromBufferLE buffer offset with
    | .error e => .error e
    | .ok (len, offset') =>
      if offset' + len ≤ buffer.length then
        .ok (.string ((buffer.drop offset').take len), offset' + len)
      else .error "index out of range"
  | .Decimal p sc =>
    if offset + decimalWidth p sc ≤ buffer.length then
      .ok (.decimal (unpackDecimal p ((buffer.drop offset).take (decimalWidth p sc))),
        offset + decimalWidth p sc)
    else .error "index out of range"
  | _ =>
    match ReadUint64FromBufferLE buffer offset with
    | .error e => .error e
    | .ok (u, offset') => .ok (.int64 (toInt64 u), offset')

/-- Reads the cells of the columns from index `i` on, the payloads starting at the
offset. -/
def decodeCols (buffer bitmap : Bytes) : List ColumnType → Nat → Nat → Except String Row
  | [], _, _ => .ok []
  | t :: ts, i, offset =>
    if isNullAt bitmap i then
      match decodeCols buffer bitmap ts (i + 1) offset with
      | .error e => .error e
      | .ok vs => .ok (.null :: vs)
    else
      match decodeValue buffer offset t with
      | .error e => .error e
      | .ok (v, offset') =>
        match decodeCols buffer bitmap ts (i + 1) offset' with
        | .error e => .error e
        | .ok vs => .ok (v :: vs)

/-- Modelled from the spec: `common.DecodeRow(bytes, colTypes, rowsSink)` (4.1): decodes
one row value and appends the row to the sink. -/
def DecodeRow (buffer : Bytes) (colTypes : List ColumnType) (rows : List Row) :
    Except String (List Row) :=
  if (colTypes.length + 7) / 8 ≤ buffer.length then
    match decodeCols buffer (buffer.take ((colTypes.length + 7) / 8)) colTypes 0
        ((colTypes.length + 7) / 8) with
    | .error e => .error e
    | .ok row => .ok (rows ++ [row])
  else .error "index out of range"

/-- The column types of `TestEncodeDecodeRowWithNulls`. -/
def nullsTestColTypes : List ColumnType :=
  [.TinyInt, .TinyInt, .Int, .Int, .BigInt, .BigInt, .Double, .Double, .Varchar, .Varchar,
    .Decimal 10 2, .Decimal 10 2]

/-- The row of `TestEncodeDecodeRowWithNulls`: 255, `math.MaxInt32`, `math.MaxInt64`,
`math.MaxFloat64`, "somestringxyz" and 12345678.32, each followed by a NULL. -/
def nullsTestRow : Row :=
  [.int64 255, .null, .int64 2147483647, .null, .int64 9223372036854775807, .null,
    .float64 0x7FEFFFFFFFFFFFFF, .null,
    .string [115, 111, 109, 101, 115, 116, 114, 105, 110, 103, 120, 121, 122], .null,
    .decimal 1234567832, .null]

/-! ### Key encoding -/

/-- Whether a 64-bit IEEE-754 pattern is a NaN: all exponent bits set and a non-zero
fraction. -/
def float64IsNaN (bits : Nat) : Bool :=
  decide (bits / 2 ^ 52 % 2048 = 2047 ∧ bits % 2 ^ 52 ≠ 0)

/-- The magnitude of the number a 64-bit IEEE-754 pattern denotes, in units of 2^-1074:
the fraction for a subnormal, `(2^52 + fraction) * 2^(exponent - 1)` otherwise. An infinity
gets a magnitude above that of every finite number. -/
def float64Magnitude (bits : Nat) : Nat :=
  if bits / 2 ^ 52 % 2048 = 0 then bits % 2 ^ 52
  else (2 ^ 52 + bits % 2 ^ 52) * 2 ^ (bits / 2 ^ 52 % 2048 - 1)

/-- The number a 64-bit IEEE-754 pattern denotes, in units of 2^-1074, with its sign. -/
def float64Scaled (bits : Nat) : Int :=
  if bits / 2 ^ 63 % 2 = 1 then -(float64Magnitude bits : Int) else float64Magnitude bits

/-- Go's `a <= b` on `float64`: false when either is a NaN, the numeric order otherwise
(so that -0 and +0 are equal). -/
def float64Le (a b : Nat) : Bool :=
  !float64IsNaN a && !float64IsNaN b && decide (float64Scaled a ≤ float64Scaled b)

/-- Go's `a <= b` on strings: the lexicographic order of the bytes. -/
def stringLe : Bytes → Bytes → Bool
  | [], _ => true
  | _ :: _, [] => false
  | a :: as, b :: bs => decide (a < b) || (decide (a = b) && stringLe as bs)

/-- The order `a ≤ b` of two values of one column type that are not NULL. -/
def Value.le : Value → Value → Bool
  | .int64 a, .int64 b => decide (a ≤ b)
  | .float64 a, .float64 b => float64Le a b
  | .string a, .string b => stringLe a b
  | .decimal a, .decimal b => decide (a ≤ b)
  | _, _ => false

/-- Whether a value is a double that is a NaN. -/
def Value.isNaN : Value → Bool
  | .float64 b => float64IsNaN b
  | _ => false

/-- Modelled from the spec: "signed integers flip the sign bit" (4.1), on the `uint64`
form of the integer. -/
def flipSignBit (u : Nat) : Nat := if u < 2 ^ 63 then u + 2 ^ 63 else u - 2 ^ 63

/-- Modelled from the spec: the "IEEE-754 sign/NaN canonicalization" of a double key
(3.2): every NaN becomes the quiet NaN pattern and -0 becomes +0. -/
def canonicalFloat64 (bits : Nat) : Nat :=
  if float64IsNaN bits then 0x7FF8000000000000 else if bits = 2 ^ 63 then 0 else bits

/-- Modelled from the spec: "floats additionally invert the trailing bits when the sign
bit was set" (4.1): a pattern with the sign bit clear gets it set, a pattern with the
sign bit set gets every bit inverted. -/
def keyEncodeFloat64 (bits : Nat) : Nat :=
  if canonicalFloat64 bits < 2 ^ 63 then canonicalFloat64 bits + 2 ^ 63
  else 2 ^ 64 - 1 - canonicalFloat64 bits

/-- Modelled from the spec: the key encoding of one column (3.2): the null marker byte (0
for NULL, 1 for a value), then the value: an integer with its sign bit flipped and a
double in its order-preserving form, both big-endian; a decimal in its big-endian packed
form; a varchar as its raw bytes, NUL-terminated when the key is composite. A value of
another type than the column's fails with `TypeMismatch`. -/
def encodeKeyValue (composite : Bool) (buffer : Bytes) : Value → ColumnType → Except String Bytes
  | .null, _ => .ok (buffer ++ [0])
  | .int64 v, .TinyInt =>
    .ok (AppendUint64ToBufferBigEndian (buffer ++ [1]) (flipSignBit (toUint64 v)))
  | .int64 v, .Int =>
    .ok (AppendUint64ToBufferBigEndian (buffer ++ [1]) (flipSignBit (toUint64 v)))
  | .int64 v, .BigInt =>
    .ok (AppendUint64ToBufferBigEndian (buffer ++ [1]) (flipSignBit (toUint64 v)))
  | .float64 b, .Double =>
    .ok (AppendUint64ToBufferBigEndian (buffer ++ [1]) (keyEncodeFloat64 b))
  | .string s, .Varchar => .ok (buffer ++ [1] ++ s ++ (if composite then [0] else []))
  | .decimal u, .Decimal p sc => .ok (buffer ++ [1] ++ packDecimal p sc u)
  | _, _ => .error "TypeMismatch"

/-- The key columns in order: value `i` of the key is encoded with the column type at
index `keyColIndexes[i]`. -/
def encodeKeyCols (composite : Bool) (colTypes : List ColumnType) (buffer : Bytes) :
    List Value → List Nat → Except String Bytes
  | [], [] => .ok buffer
  | v :: vs, idx :: idxs =>
    match colTypes.get? idx with
    | none => .error "index out of range"
    | some t =>
      match encodeKeyValue composite buffer v t with
      | .error e => .error e
      | .ok buffer' => encodeKeyCols composite colTypes buffer' vs idxs
  | _, _ => .error "index out of range"

/-- Modelled from the spec: `common.EncodeKey(values, colTypes, keyColIndexes, buf)`
(4.1): "appends order-preserving encodings of the listed columns to `buf`. Fails with
`TypeMismatch` if a value's dynamic type does not match `colTypes`." A key of more than
one column is composite. -/
def EncodeKey (key : List Value) (colTypes : List ColumnType) (keyColIndexes : List Nat)
    (buffer : Bytes) : Except String Bytes :=
  encodeKeyCols (decide (1 < keyColIndexes.length)) colTypes buffer key keyColIndexes

/-! ### Table ids, shard ids, range deletion and start (`cluster/fake_cluster.go`) -/

/-- The method `FakeCluster.GenerateTableID`: returns the counter and increments it;
the counter is a `uint64`, so the increment wraps. The error is always nil. -/
def FakeCluster.GenerateTableID (f : FakeCluster) : FakeCluster × Nat × Option String :=
  ({ f with tableSequence := (f.tableSequence + 1) % 2 ^ 64 }, f.tableSequence, none)

/-- The loop of `Executor.generateSequences` (`command/command.go`): `n` successive
calls of `GenerateTableID`, stopping at the first error. -/
def generateSequencesLoop (cluster : FakeCluster) : Nat → FakeCluster × List Nat × Option String
  | 0 => (cluster, [], none)
  | n + 1 =>
    match cluster.GenerateTableID with
    | (cluster', _, some err) => (cluster', [], some err)
    | (cluster', v, none) =>
      match generateSequencesLoop cluster' n with
      | (cluster'', _, some err) => (cluster'', [], some err)
      | (cluster'', vs, none) => (cluster'', v :: vs, none)

/-- The method `Executor.generateSequences`: `make` panics on a negative length. -/
def generateSequences (cluster : FakeCluster) (numValues : Int) :
    Except String (FakeCluster × List Nat × Option String) :=
  if numValues < 0 then .error "makeslice: len out of range"
  else .ok (generateSequencesLoop cluster numValues.toNat)

/-- The method `FakeCluster.GetAllShardIDs`. -/
def FakeCluster.GetAllShardIDs (f : FakeCluster) : List Nat := f.allShardIds

/-- The method `FakeCluster.GetNodeID`. -/
def FakeCluster.GetNodeID (f : FakeCluster) : Int := f.nodeID

/-- The inner loop of `FakeCluster.DeleteAllDataInRange`: deletes the key of every
scanned pair, returning at the first error. -/
def FakeCluster.deletePairs (f : FakeCluster) : List KVPair → FakeCluster × Option String
  | [] => (f, none)
  | pair :: rest =>
    match f.deleteInternal { key := pair.Key, value := none } with
    | (f', some e) => (f', some e)
    | (f', none) => f'.deletePairs rest

/-- The outer loop of `FakeCluster.DeleteAllDataInRange`, over the shard ids. The two
bounds are built by appending to a new slice, so they are never nil. -/
def FakeCluster.deleteInShards (f : FakeCluster) (startPrefix endPrefix : Bytes) :
    List Nat → Except String (FakeCluster × Option String)
  | [] => .ok (f, none)
  | shardID :: rest =>
    match f.LocalScan (some (AppendUint64ToBufferBigEndian [] shardID ++ startPrefix))
        (some (AppendUint64ToBufferBigEndian [] shardID ++ endPrefix)) (-1) with
    | .error e => .error e
    | .ok (_, some err) => .ok (f, some err)
    | .ok (pairs, none) =>
      match f.deletePairs pairs with
      | (f', some e) => .ok (f', some e)
      | (f', none) => f'.deleteInShards startPrefix endPrefix rest

/-- The method `FakeCluster.DeleteAllDataInRange`. A nil prefix appends nothing, as an
empty one. -/
def FakeCluster.DeleteAllDataInRange (f : FakeCluster) (startPrefix endPrefix : Bytes) :
    Except String (FakeCluster × Option String) :=
  f.deleteInShards startPrefix endPrefix f.allShardIds

/-- The method `FakeCluster.startShardListeners`: with a factory set, one listener per
shard id, stored under the shard id. -/
def FakeCluster.startShardListeners (f : FakeCluster) : FakeCluster :=
  if f.shardListenerFactory then
    { f with shardListeners :=
        (f.allShardIds.foldl (fun m shardID => if shardID ∈ m then m else m ++ [shardID])
          f.shardListeners) }
  else f

/-- The method `FakeCluster.Start`. -/
def FakeCluster.Start (f : FakeCluster) : FakeCluster × Outcome :=
  if !f.remoteQueryExecutionCallback then
    (f, .panic "remote query execution callback must be set before start")
  else if !f.shardListenerFactory then
    (f, .panic "shard listener factory must be set before start")
  else if f.started then (f, .ok)
  else ({ f.startShardListeners with started := true }, .ok)

/-! ### Table operations (`table/table.go`) -/

/-- Modelled from the spec: the fields of `common.TableInfo` (3.4) that the table
operations and the commands read or write: the table id, the column types, the offsets of
the primary key columns, the schema name, the table name and the column names. -/
structure TableInfo where
  ID : Nat
  ColumnTypes : List ColumnType
  PrimaryKeyCols : List Nat
  SchemaName : String := ""
  Name : String := ""
  ColumnNames : List String := []
deriving DecidableEq, Repr

/-- The invariant of a table info (3.4): the primary key is not empty and each of its
offsets is the offset of a column; the id is a `uint64`. -/
def TableInfo.valid (t : TableInfo) : Bool :=
  decide (t.PrimaryKeyCols ≠ []) && t.PrimaryKeyCols.all (fun i => decide (i < t.ColumnTypes.length))
    && decide (t.ID < 2 ^ 64)

/-- Modelled from the spec: `cluster.NewWriteBatch(shardID, notifyRemote)`, a batch with
no put and no delete (3.4, 3.5). -/
def NewWriteBatch (shardID : Nat) (notifyRemote : Bool) : WriteBatch :=
  { ShardID := shardID, puts := [], Deletes := [], NotifyRemote := notifyRemote }

/-- Modelled from the spec: `WriteBatch.AddPut(key, value)`; `puts` is a map from key to
value (3.4), so a put of a key that the batch already puts replaces its value. -/
def WriteBatch.AddPut (wb : WriteBatch) (k : Bytes) (v : Option Bytes) : WriteBatch :=
  { wb with puts := (wb.puts.filter fun p => decide (p.1 ≠ k)) ++ [(k, v)] }

/-- Modelled from the spec: `WriteBatch.AddDelete(key)`; `deletes` is a set of keys
(3.4). -/
def WriteBatch.AddDelete (wb : WriteBatch) (k : Bytes) : WriteBatch :=
  { wb with Deletes := if k ∈ wb.Deletes then wb.Deletes else wb.Deletes ++ [k] }

/-- The values of the listed columns of a row; none when an offset is outside the row. -/
def Row.project (row : Row) : List Nat → Option (List Value)
  | [] => some []
  | i :: rest =>
    match row.get? i, Row.project row rest with
    | some v, some vs => some (v :: vs)
    | _, _ => none

/-- The loop of `common.EncodeCols` over the listed column offsets: the column type is
`colTypes[colIndex]`, the value is the column `colIndex` of the row, and the column is
appended in the key encoding of its type. An offset outside the column types or outside
the row panics. -/
def encodeColsLoop (composite : Bool) (row : Row) (colTypes : List ColumnType) :
    List Nat → Bytes → Except String Bytes
  | [], buffer => .ok buffer
  | colIndex :: rest, buffer =>
    match colTypes.get? colIndex with
    | none => .error "index out of range"
    | some colType =>
      match row.get? colIndex with
      | none => .error "index out of range"
      | some v =>
        match encodeKeyValue composite buffer v colType with
        | .error e => .error e
        | .ok buffer' => encodeColsLoop composite row colTypes rest buffer'

/-- Modelled from the spec: `common.EncodeCols(row, colIndexes, colTypes, buffer, flag)`,
which `table.go` calls on the primary key columns of a row to build its key. It reads the
columns from the row, where `EncodeKey` reads a list of key values. The spec (3.2) has
every persisted key be `prefix ‖ encoded-key-cols` and names one key encoding, so each
listed column is appended in the key encoding of its column type; as in `EncodeKey`, a
key of more than one column is composite. The last argument, false at the only call,
has no counterpart in the spec and is not interpreted. -/
def EncodeCols (row : Row) (colIndexes : List Nat) (colTypes : List ColumnType)
    (buffer : Bytes) (_flag : Bool) : Except String Bytes :=
  encodeColsLoop (decide (1 < colIndexes.length)) row colTypes colIndexes buffer

/-- The function `encodeKeyFromRow`. -/
def encodeKeyFromRow (tableInfo : TableInfo) (row : Row) (shardID : Nat) : Except String Bytes :=
  match EncodeTableKeyPrefix tableInfo.ID shardID 32 with
  | .error e => .error e
  | .ok keyBuff => EncodeCols row tableInfo.PrimaryKeyCols tableInfo.ColumnTypes keyBuff false

/-- The function `encodeKey`. -/
def encodeKey (tableInfo : TableInfo) (key : List Value) (keyColIndexes : List Nat)
    (shardID : Nat) : Except String Bytes :=
  match EncodeTableKeyPrefix tableInfo.ID shardID 32 with
  | .error e => .error e
  | .ok keyBuff => EncodeKey key tableInfo.ColumnTypes keyColIndexes keyBuff

/-- A Go slice built by appending to a nil slice: nil when nothing was appended. -/
def sliceOf (b : Bytes) : Option Bytes := if b = [] then none else some b

/-- The function `table.Upsert`: the batch after the call and the error returned. An
error or panic of the codec leaves the batch as it was. -/
def Upsert (tableInfo : TableInfo) (row : Row) (writeBatch : WriteBatch) :
    WriteBatch × Option String :=
  match encodeKeyFromRow tableInfo row writeBatch.ShardID with
  | .error e => (writeBatch, some e)
  | .ok keyBuff =>
    match EncodeRow row tableInfo.ColumnTypes [] with
    | .error e => (writeBatch, some e)
    | .ok valueBuff => (writeBatch.AddPut keyBuff (sliceOf valueBuff), none)

/-- The function `table.Delete`. -/
def Delete (tableInfo : TableInfo) (row : Row) (writeBatch : WriteBatch) :
    WriteBatch × Option String :=
  match encodeKeyFromRow tableInfo row writeBatch.ShardID with
  | .error e => (writeBatch, some e)
  | .ok keyBuff => (writeBatch.AddDelete keyBuff, none)

/-- The function `table.LookupInPk` on the store of a `FakeCluster`: the row found (nil
when the key is absent) and the error; a decode that does not yield one row panics. The
rows factory only supplies the empty sink of `DecodeRow`. -/
def LookupInPk (tableInfo : TableInfo) (key : List Value) (keyColIndexes : List Nat)
    (shardID : Nat) (storage : FakeCluster) : Except String (Option Row × Option String) :=
  match encodeKey tableInfo key keyColIndexes shardID with
  | .error e => .ok (none, some e)
  | .ok buffer =>
    match storage.LocalGet buffer with
    | (_, some e) => .ok (none, some e)
    | (none, none) => .ok (none, none)
    | (some buffRes, none) =>
      match DecodeRow buffRes tableInfo.ColumnTypes [] with
      | .error e => .ok (none, some e)
      | .ok [row] => .ok (some row, none)
      | .ok _ => .error "expected one row"

/-- The table of `TestCreateMaterializedView`: `sensor_readings` with a bigint, a varchar
and a double column, keyed by the first; 1001 stands for its table id. -/
def sensorReadings : TableInfo :=
  { ID := 1001, ColumnTypes := [.BigInt, .Varchar, .Double], PrimaryKeyCols := [0] }

/-- The row `(1, "wincanton", 25.5)` of `TestCreateMaterializedView`. -/
def wincantonRow : Row :=
  [.int64 1, .string [119, 105, 110, 99, 97, 110, 116, 111, 110], .float64 0x4039800000000000]

/-- The key of the row `(1, "wincanton", 25.5)` of `sensor_readings` on shard 1000: the
shard id and the table id 1001, big-endian, then the key encoding of the bigint 1. -/
def wincantonKey : Bytes :=
  [0, 0, 0, 0, 0, 0, 3, 232, 0, 0, 0, 0, 0, 0, 3, 233, 1, 128, 0, 0, 0, 0, 0, 0, 1]

/-- The row value of the row `(1, "wincanton", 25.5)`. -/
def wincantonValue : Bytes :=
  [0, 1, 0, 0, 0, 0, 0, 0, 0, 9, 0, 0, 0, 119, 105, 110, 99, 97, 110, 116, 111, 110,
    0, 0, 0, 0, 0, 128, 57, 64]

/-! ### Commands (`command/command.go`, `command/create_source_command.go`)

The parser, the error package, the meta controller, the push engine and the notification
client are other packages; the commands are embedded over what they use of them. The
syntax tree types are those that the commands read; a call into another package whose
result the commands only pass on is a field of `Externals`. -/

/-- The error kinds of the error package that the commands build, and `other` for an
error that a command returns as it got it or builds with `fmt.Errorf`. A message is the
text of the source with the names it formats in, without quotation marks and without the
counts of the selector message. -/
inductive PranaError where
  | InvalidStatement (msg : String)
  | UnknownTopicEncoding (msg : String)
  | WrongNumberColumnSelectors (msg : String)
  | SourceAlreadyExists (schemaName name : String)
  | other (msg : String)
deriving DecidableEq, Repr

/-- How a call of a command ends: a value and a nil error, an error, or a panic. -/
inductive Result (α : Type) where
  | ok (a : α)
  | err (e : PranaError)
  | panic (msg : String)
deriving DecidableEq, Repr

/-- The encodings `common.Encoding...` that the commands and the message parser name. -/
inductive Encoding where
  | Unknown
  | JSON
  | Protobuf
  | Int16BE
  | Int32BE
  | Int64BE
  | Float32BE
  | Float64BE
  | StringBytes
deriving DecidableEq, Repr

/-- The struct `common.KafkaEncoding`: an encoding and, for protobuf, a schema name. -/
structure KafkaEncoding where
  Encoding : Encoding
  SchemaName : String
deriving DecidableEq, Repr

/-- The value `common.KafkaEncodingUnknown`, which is also the zero value of a
`KafkaEncoding` variable that was never assigned. -/
def KafkaEncodingUnknown : KafkaEncoding := { Encoding := .Unknown, SchemaName := "" }

/-- A column definition of the syntax tree: its name and the result of `ToColumnType`. -/
structure ColumnDef where
  Name : String
  columnType : Except String ColumnType
deriving Repr

/-- An option of `CREATE SOURCE`: a column (nil when absent) or a primary key column name
(empty when absent). -/
structure SourceOption where
  Column : Option ColumnDef
  PrimaryKey : String
deriving Repr

/-- An entry of the topic information of `CREATE SOURCE`; an absent string is empty, an
absent list is nil. -/
structure TopicOption where
  HeaderEncoding : String := ""
  KeyEncoding : String := ""
  ValueEncoding : String := ""
  Properties : Option (List (String × String)) := none
  ColSelectors : Option (List String) := none
  BrokerName : String := ""
  TopicName : String := ""
deriving Repr

/-- The syntax tree `parser.CreateSource`. -/
structure CreateSource where
  Name : String
  Options : List SourceOption
  TopicInformation : List TopicOption
deriving Repr

/-- The struct `common.TopicInfo`. -/
structure TopicInfo where
  BrokerName : String
  TopicName : String
  HeaderEncoding : KafkaEncoding
  KeyEncoding : KafkaEncoding
  ValueEncoding : KafkaEncoding
  ColSelectors : List String
  Properties : Option (List (String × String))
deriving DecidableEq, Repr

/-- The struct `common.SourceInfo`. -/
structure SourceInfo where
  TableInfo : TableInfo
  TopicInfo : TopicInfo
deriving DecidableEq, Repr

/-- The assignment `m[k] = v` on a Go map, kept as a list of entries with one entry per
key. -/
def mapPut {β : Type} (m : List (String × β)) (k : String) (v : β) : List (String × β) :=
  (m.filter fun p => decide (p.1 ≠ k)) ++ [(k, v)]

/-- The lookup `v, ok := m[k]` on a Go map. -/
def mapGet {β : Type} (m : List (String × β)) (k : String) : Option β :=
  (m.find? fun p => decide (p.1 = k)).map Prod.snd

/-- The first loop of `getSourceInfo` (and of `execCreateSource`, which has the same
loop), from option `i` on: the column names, the column types and the primary key
offsets. A column is entered in `colIndex` under the index `i` of its option. -/
def sourceOptionsLoop : List SourceOption → Nat → List String → List ColumnType →
    List (String × Nat) → List Nat → Result (List String × List ColumnType × List Nat)
  | [], _, colNames, colTypes, _, pkCols => .ok (colNames, colTypes, pkCols)
  | option :: rest, i, colNames, colTypes, colIndex, pkCols =>
    match option.Column with
    | some col =>
      match col.columnType with
      | .error e => .err (.other e)
      | .ok colType =>
        sourceOptionsLoop rest (i + 1) (colNames ++ [col.Name]) (colTypes ++ [colType])
          (mapPut colIndex col.Name i) pkCols
    | none =>
      if option.PrimaryKey ≠ "" then
        match mapGet colIndex option.PrimaryKey with
        | none => .err (.other ("invalid primary key column " ++ option.PrimaryKey))
        | some index =>
          sourceOptionsLoop rest (i + 1) colNames colTypes colIndex (pkCols ++ [index])
      else .panic "unsupported option"

/-- The variables that the second loop of `getSourceInfo` assigns. -/
structure TopicVars where
  headerEncoding : KafkaEncoding := KafkaEncodingUnknown
  keyEncoding : KafkaEncoding := KafkaEncodingUnknown
  valueEncoding : KafkaEncoding := KafkaEncodingUnknown
  propsMap : Option (List (String × String)) := none
  colSelectors : List String := []
  brokerName : String := ""
  topicName : String := ""
deriving DecidableEq, Repr

/-- The second loop of `getSourceInfo`, over the topic information; each entry sets the
variable of its first field that is present. `encodingFromString` is
`common.KafkaEncodingFromString`. -/
def topicOptionsLoop (encodingFromString : String → KafkaEncoding) :
    List TopicOption → TopicVars → Result TopicVars
  | [], vars => .ok vars
  | opt :: rest, vars =>
    if opt.HeaderEncoding ≠ "" then
      if (encodingFromString opt.HeaderEncoding).Encoding = .Unknown then
        .err (.UnknownTopicEncoding ("Unknown topic encoding " ++ opt.HeaderEncoding))
      else topicOptionsLoop encodingFromString rest
        { vars with headerEncoding := encodingFromString opt.HeaderEncoding }
    else if opt.KeyEncoding ≠ "" then
      if (encodingFromString opt.KeyEncoding).Encoding = .Unknown then
        .err (.UnknownTopicEncoding ("Unknown topic encoding " ++ opt.KeyEncoding))
      else topicOptionsLoop encodingFromString rest
        { vars with keyEncoding := encodingFromString opt.KeyEncoding }
    else if opt.ValueEncoding ≠ "" then
      if (encodingFromString opt.ValueEncoding).Encoding = .Unknown then
        .err (.UnknownTopicEncoding ("Unknown topic encoding " ++ opt.ValueEncoding))
      else topicOptionsLoop encodingFromString rest
        { vars with valueEncoding := encodingFromString opt.ValueEncoding }
    else
      match opt.Properties, opt.ColSelectors with
      | some props, _ =>
        topicOptionsLoop encodingFromString rest
          { vars with propsMap := some (props.foldl (fun m p => mapPut m p.1 p.2) []) }
      | none, some cs =>
        topicOptionsLoop encodingFromString rest { vars with colSelectors := cs }
      | none, none =>
        if opt.BrokerName ≠ "" then
          topicOptionsLoop encodingFromString rest { vars with brokerName := opt.BrokerName }
        else if opt.TopicName ≠ "" then
          topicOptionsLoop encodingFromString rest { vars with topicName := opt.TopicName }
        else topicOptionsLoop encodingFromString rest vars

/-- The fields of `CreateSourceCommand` that the embedded methods read or write. -/
structure CreateSourceCommand where
  schemaName : String
  sql : String
  tableSequences : List Nat
  ast : Option CreateSource
  sourceInfo : Option SourceInfo := none
deriving Repr

/-- The method `CreateSourceCommand.getSourceInfo`. A nil syntax tree panics at its first
field access, and so does an empty `tableSequences` at `c.tableSequences[0]`. -/
def CreateSourceCommand.getSourceInfo (encodingFromString : String → KafkaEncoding)
    (c : CreateSourceCommand) (ast : Option CreateSource) : Result SourceInfo :=
  match ast with
  | none => .panic "invalid memory address or nil pointer dereference"
  | some ast =>
    match sourceOptionsLoop ast.Options 0 [] [] [] [] with
    | .err e => .err e
    | .panic msg => .panic msg
    | .ok (colNames, colTypes, pkCols) =>
      match topicOptionsLoop encodingFromString ast.TopicInformation {} with
      | .err e => .err e
      | .panic msg => .panic msg
      | .ok vars =>
        if vars.headerEncoding = KafkaEncodingUnknown then
          .err (.InvalidStatement "headerEncoding is required")
        else if vars.keyEncoding = KafkaEncodingUnknown then
          .err (.InvalidStatement "keyEncoding is required")
        else if vars.valueEncoding = KafkaEncodingUnknown then
          .err (.InvalidStatement "valueEncoding is required")
        else if vars.brokerName = "" then .err (.InvalidStatement "brokerName is required")
        else if vars.topicName = "" then .err (.InvalidStatement "topicName is required")
        else if 0 < vars.colSelectors.length ∧ vars.colSelectors.length ≠ colTypes.length then
          .err (.WrongNumberColumnSelectors
            "Number of column selectors must match number of columns")
        else
          match c.tableSequences with
          | [] => .panic "index out of range"
          | id :: _ =>
            .ok { TableInfo :=
                    { ID := id, SchemaName := c.schemaName, Name := ast.Name,
                      PrimaryKeyCols := pkCols, ColumnNames := colNames,
                      ColumnTypes := colTypes },
                  TopicInfo :=
                    { BrokerName := vars.brokerName, TopicName := vars.topicName,
                      HeaderEncoding := vars.headerEncoding, KeyEncoding := vars.keyEncoding,
                      ValueEncoding := vars.valueEncoding, ColSelectors := vars.colSelectors,
                      Properties := vars.propsMap } }

/-- The prepare states `meta.PrepareState...` of a catalog row (3.5). -/
inductive PrepareState where
  | Add
  | Committed
  | Delete
deriving DecidableEq, Repr

/-- Modelled from the spec: the meta controller (4.8), as far as `BeforePrepare` uses it:
the sources registered in memory, by schema and name, and the rows that `PersistSource`
wrote to the catalog, in order. -/
structure MetaController where
  sources : List (String × String)
  persisted : List (SourceInfo × PrepareState)
deriving DecidableEq, Repr

/-- Modelled from the spec: `metaController.GetSource(schemaName, name)`, its `ok`
result: whether the schema has a source of that name. -/
def MetaController.GetSource (m : MetaController) (schemaName name : String) : Bool :=
  decide ((schemaName, name) ∈ m.sources)

/-- Modelled from the spec: `metaController.PersistSource(sourceInfo, prepareState)`:
writes the catalog row of the source with the prepare state (3.5, 4.7). `storeError` is
the error of the write to the store, nil when the write succeeds. -/
def MetaController.PersistSource (m : MetaController) (sourceInfo : SourceInfo)
    (prepareState : PrepareState) (storeError : Option PranaError) :
    MetaController × Option PranaError :=
  match storeError with
  | some e => (m, some e)
  | none => ({ m with persisted := m.persisted ++ [(sourceInfo, prepareState)] }, none)

/-- The method `CreateSourceCommand.BeforePrepare`: the command and the meta controller
after the call, and how the call ends. The assignment `c.sourceInfo, err = ...` stores
nil on an error. -/
def CreateSourceCommand.BeforePrepare (encodingFromString : String → KafkaEncoding)
    (storeError : Option PranaError) (c : CreateSourceCommand) (m : MetaController) :
    CreateSourceCommand × MetaController × Result Unit :=
  match c.getSourceInfo encodingFromString c.ast with
  | .panic msg => (c, m, .panic msg)
  | .err e => ({ c with sourceInfo := none }, m, .err e)
  | .ok sourceInfo =>
    if m.GetSource c.schemaName sourceInfo.TableInfo.Name then
      ({ c with sourceInfo := some sourceInfo }, m,
        .err (.SourceAlreadyExists c.schemaName sourceInfo.TableInfo.Name))
    else
      match m.PersistSource sourceInfo .Add storeError with
      | (m', some e) => ({ c with sourceInfo := some sourceInfo }, m', .err e)
      | (m', none) => ({ c with sourceInfo := some sourceInfo }, m', .ok ())

/-- The notification `notifications.DDLStatementInfo` (6). -/
structure DDLStatementInfo where
  OriginatingNodeId : Int
  SchemaName : String
  Sql : String
  TableSequences : List Nat
deriving DecidableEq, Repr

/-- Modelled from the spec: the sequence generator `common.PreallocSeqGen` over a list
of pre-allocated table sequences (4.7): the sequences and the index of the next one. -/
structure PreallocSeqGen where
  sequences : List Nat
  index : Nat
deriving DecidableEq, Repr

/-- Modelled from the spec: `common.NewPreallocSeqGen(sequences)` starts at the first
pre-allocated sequence. -/
def NewPreallocSeqGen (sequences : List Nat) : PreallocSeqGen :=
  { sequences := sequences, index := 0 }

/-- Modelled from the spec: `PreallocSeqGen.GenerateSequence` hands out the pre-allocated
sequences in order, and panics when none is left. -/
def PreallocSeqGen.GenerateSequence (g : PreallocSeqGen) : Except String (PreallocSeqGen × Nat) :=
  match g.sequences.get? g.index with
  | none => .error "no more pre-allocated sequences"
  | some v => .ok ({ g with index := g.index + 1 }, v)

/-- The syntax tree `parser.CreateMaterializedView`, as the strings that the command
takes from it with `Name.String()` and `Query.String()`. -/
structure CreateMaterializedView where
  Name : String
  Query : String
deriving Repr

/-- The syntax tree `parser.Create`; an absent statement is nil. -/
structure Create where
  MaterializedView : Option CreateMaterializedView
  Source : Option CreateSource
deriving Repr

/-- The syntax tree `parser.AST`; an absent statement is the empty string or nil. -/
structure AST where
  Select : String := ""
  Prepare : String := ""
  Execute : String := ""
  Drop : String := ""
  Create : Option Create := none
deriving Repr

/-- The calls of `command.go` into the parser, the notification client, the meta
controller, the push engine and the pull engine, as far as the executor uses their
results: the parsed statement or the parse error, and the error (nil on success) of each
other call. `engine` is the result of `execSelect`, `execPrepare`, `execExecute` and
`execDrop`, which the statement dispatch returns as it is. -/
structure Externals where
  Parse : String → Except String AST
  BroadcastNotification : DDLStatementInfo → Option PranaError
  RegisterSource : TableInfo → Bool → Option PranaError
  CreateSource : TableInfo → Option PranaError
  CreateMaterializedView : String → String → String → Nat → Option PranaError
  RegisterMaterializedView : String → String → Nat → Bool → Option PranaError
  engine : String → Bool → Result Unit

/-- The struct `Executor` over a `FakeCluster`, with two logs added: the notifications
handed to `notifClient.BroadcastNotification`, and the schema, name and table id of every
source and materialized view that `createSource` and `createMaterializedView` set up. -/
structure Executor where
  cluster : FakeCluster
  sessionIDSequence : Int := -1
  broadcasts : List DDLStatementInfo := []
  assigned : List (String × String × Nat) := []
deriving DecidableEq, Repr

/-- The method `Executor.generateSequences` on the executor's cluster. -/
def Executor.generateSequences (e : Executor) (numValues : Int) :
    Executor × Result (List Nat) :=
  match PranaDB.generateSequences e.cluster numValues with
  | .error msg => (e, .panic msg)
  | .ok (cluster, _, some err) => ({ e with cluster := cluster }, .err (.other err))
  | .ok (cluster, sequences, none) => ({ e with cluster := cluster }, .ok sequences)

/-- The method `Executor.broadcastDDL`. -/
def Executor.broadcastDDL (ext : Externals) (e : Executor) (schemaName sql : String)
    (sequences : List Nat) : Executor × Option PranaError :=
  let statementInfo : DDLStatementInfo :=
    { OriginatingNodeId := e.cluster.GetNodeID, SchemaName := schemaName, Sql := sql,
      TableSequences := sequences }
  ({ e with broadcasts := e.broadcasts ++ [statementInfo] },
    ext.BroadcastNotification statementInfo)

/-- The method `Executor.createSource`; the sequence generator is an interface value,
nil when absent, and a method call on nil panics. -/
def Executor.createSource (ext : Externals) (e : Executor) (schemaName name : String)
    (colNames : List String) (colTypes : List ColumnType) (pkCols : List Nat)
    (seqGenerator : Option PreallocSeqGen) (persist : Bool) : Executor × Result Unit :=
  match seqGenerator with
  | none => (e, .panic "invalid memory address or nil pointer dereference")
  | some g =>
    match g.GenerateSequence with
    | .error msg => (e, .panic msg)
    | .ok (_, id) =>
      let tableInfo : TableInfo :=
        { ID := id, SchemaName := schemaName, Name := name, PrimaryKeyCols := pkCols,
          ColumnNames := colNames, ColumnTypes := colTypes }
      let e' := { e with assigned := e.assigned ++ [(schemaName, name, id)] }
      match ext.RegisterSource tableInfo persist with
      | some err => (e', .err err)
      | none =>
        match ext.CreateSource tableInfo with
        | some err => (e', .err err)
        | none => (e', .ok ())

/-- The method `Executor.createMaterializedView`; the push engine gets the table id drawn
here, and the generator for the further ids it needs. -/
def Executor.createMaterializedView (ext : Externals) (e : Executor) (schemaName name : String)
    (query : String) (seqGenerator : Option PreallocSeqGen) (persist : Bool) :
    Executor × Result Unit :=
  match seqGenerator with
  | none => (e, .panic "invalid memory address or nil pointer dereference")
  | some g =>
    match g.GenerateSequence with
    | .error msg => (e, .panic msg)
    | .ok (_, id) =>
      let e' := { e with assigned := e.assigned ++ [(schemaName, name, id)] }
      match ext.CreateMaterializedView schemaName name query id with
      | some err => (e', .err err)
      | none =>
        match ext.RegisterMaterializedView schemaName name id persist with
        | some err => (e', .err err)
        | none => (e', .ok ())

/-- The method `Executor.execCreateMaterializedView`. -/
def Executor.execCreateMaterializedView (ext : Externals) (e : Executor) (schemaName : String)
    (mv : CreateMaterializedView) (seqGenerator : Option PreallocSeqGen) (persist : Bool) :
    Executor × Result Unit :=
  e.createMaterializedView ext schemaName mv.Name mv.Query seqGenerator persist

/-- The method `Executor.execCreateSource`. -/
def Executor.execCreateSource (ext : Externals) (e : Executor) (schemaName : String)
    (src : CreateSource) (seqGenerator : Option PreallocSeqGen) (persist : Bool) :
    Executor × Result Unit :=
  match sourceOptionsLoop src.Options 0 [] [] [] [] with
  | .err err => (e, .err err)
  | .panic msg => (e, .panic msg)
  | .ok (colNames, colTypes, pkCols) =>
    e.createSource ext schemaName src.Name colNames colTypes pkCols seqGenerator persist

/-- The method `Executor.executeSQLStatementInternal`; of the session it reads the name
of the schema. -/
def Executor.executeSQLStatementInternal (ext : Externals) (e : Executor)
    (schemaName sql : String) (persist : Bool) (seqGenerator : Option PreallocSeqGen) :
    Executor × Result Unit :=
  match ext.Parse sql with
  | .error err => (e, .err (.other err))
  | .ok ast =>
    if ast.Select ≠ "" then (e, ext.engine ast.Select persist)
    else if ast.Prepare ≠ "" then (e, ext.engine ast.Prepare persist)
    else if ast.Execute ≠ "" then (e, ext.engine ast.Execute persist)
    else if ast.Drop ≠ "" then (e, ext.engine ast.Drop persist)
    else
      match ast.Create with
      | none => (e, .panic ("unsupported query " ++ sql))
      | some create =>
        match create.MaterializedView, create.Source with
        | some mv, _ =>
          if persist then
            match e.generateSequences 2 with
            | (e1, .panic msg) => (e1, .panic msg)
            | (e1, .err err) => (e1, .err err)
            | (e1, .ok sequences) =>
              match e1.broadcastDDL ext schemaName sql sequences with
              | (e2, some err) => (e2, .err err)
              | (e2, none) =>
                e2.execCreateMaterializedView ext schemaName mv
                  (some (NewPreallocSeqGen sequences)) persist
          else e.execCreateMaterializedView ext schemaName mv seqGenerator persist
        | none, some src =>
          if persist then
            match e.generateSequences 1 with
            | (e1, .panic msg) => (e1, .panic msg)
            | (e1, .err err) => (e1, .err err)
            | (e1, .ok sequences) =>
              match e1.broadcastDDL ext schemaName sql sequences with
              | (e2, some err) => (e2, .err err)
              | (e2, none) =>
                e2.execCreateSource ext schemaName src
                  (some (NewPreallocSeqGen sequences)) persist
          else e.execCreateSource ext schemaName src seqGenerator persist
        | none, none => (e, .panic ("unsupported query " ++ sql))

/-- The method `Executor.ExecuteSQLStatement`. -/
def Executor.ExecuteSQLStatement (ext : Externals) (e : Executor) (schemaName sql : String) :
    Executor × Result Unit :=
  e.executeSQLStatementInternal ext schemaName sql true none

/-- The method `Executor.CreateSession`: the session id sequence is an `int64` that
`atomic.AddInt64` increments; of the session, the name of its schema is kept. -/
def Executor.CreateSession (e : Executor) (schemaName : String) : Executor × String :=
  ({ e with sessionIDSequence := (e.sessionIDSequence + 1 + 2 ^ 63) % 2 ^ 64 - 2 ^ 63 },
    schemaName)

/-- The method `Executor.HandleNotification` on a `DDLStatementInfo`; an error of the
execution is logged and dropped. -/
def Executor.HandleNotification (ext : Externals) (e : Executor)
    (ddlStmt : DDLStatementInfo) : Executor × Result Unit :=
  let seqGenerator := NewPreallocSeqGen ddlStmt.TableSequences
  match e.CreateSession ddlStmt.SchemaName with
  | (e1, session) =>
    if ddlStmt.OriginatingNodeId ≠ e1.cluster.GetNodeID then
      match e1.executeSQLStatementInternal ext session ddlStmt.Sql false (some seqGenerator) with
      | (e2, .panic msg) => (e2, .panic msg)
      | (e2, _) => (e2, .ok ())
    else (e1, .ok ())

/-- Modelled from the spec: `common.KafkaEncodingFromString` over the encoding names of
the `CREATE SOURCE` grammar (6): `json`, `int16be`, `int32be`, `int64be`, `float32be`,
`float64be`, `string` and `protobuf:<fqn>`; any other string is the unknown encoding. -/
def KafkaEncodingFromString (s : String) : KafkaEncoding :=
  if s = "json" then { Encoding := .JSON, SchemaName := "" }
  else if s = "int16be" then { Encoding := .Int16BE, SchemaName := "" }
  else if s = "int32be" then { Encoding := .Int32BE, SchemaName := "" }
  else if s = "int64be" then { Encoding := .Int64BE, SchemaName := "" }
  else if s = "float32be" then { Encoding := .Float32BE, SchemaName := "" }
  else if s = "float64be" then { Encoding := .Float64BE, SchemaName := "" }
  else if s = "string" then { Encoding := .StringBytes, SchemaName := "" }
  else if "protobuf:".data <+: s.data then
    { Encoding := .Protobuf, SchemaName := String.mk (s.data.drop 9) }
  else KafkaEncodingUnknown

/-- The statement that creates the source `sensor_readings` of
`TestCreateMaterializedView` with three columns keyed by the first, read from topic
`readings` of broker `testbroker` with JSON encodings and one selector per column. -/
def sensorReadingsSource : CreateSource :=
  { Name := "sensor_readings",
    Options :=
      [ { Column := some { Name := "sensor_id", columnType := .ok .BigInt }, PrimaryKey := "" },
        { Column := some { Name := "location", columnType := .ok .Varchar }, PrimaryKey := "" },
        { Column := some { Name := "temperature", columnType := .ok .Double },
          PrimaryKey := "" },
        { Column := none, PrimaryKey := "sensor_id" } ],
    TopicInformation :=
      [ { BrokerName := "testbroker" }, { TopicName := "readings" },
        { HeaderEncoding := "json" }, { KeyEncoding := "json" }, { ValueEncoding := "json" },
        { ColSelectors := some ["k.k0", "v.v1", "v.v2"] } ] }

/-- The same statement without its topic information, which `getSourceInfo` rejects. -/
def sensorReadingsNoTopic : CreateSource :=
  { sensorReadingsSource with TopicInformation := [] }

/-- The command of `CREATE SOURCE sensor_readings` in schema `test`, with table id 1001
pre-allocated. -/
def sensorReadingsCommand (ast : CreateSource) : CreateSourceCommand :=
  { schemaName := "test", sql := "create source sensor_readings", tableSequences := [1001],
    ast := some ast }

/-- A meta controller with no source and an empty catalog. -/
def emptyMeta : MetaController := { sources := [], persisted := [] }

/-- A meta controller of which schema `test` has the source `sensor_readings`. -/
def sensorReadingsMeta : MetaController :=
  { sources := [("test", "sensor_readings")], persisted := [] }

/-- The source info that `getSourceInfo` builds from `sensorReadingsSource`. -/
def sensorReadingsInfo : SourceInfo :=
  { TableInfo :=
      { ID := 1001, SchemaName := "test", Name := "sensor_readings", PrimaryKeyCols := [0],
        ColumnNames := ["sensor_id", "location", "temperature"],
        ColumnTypes := [.BigInt, .Varchar, .Double] },
    TopicInfo :=
      { BrokerName := "testbroker", TopicName := "readings",
        HeaderEncoding := { Encoding := .JSON, SchemaName := "" },
        KeyEncoding := { Encoding := .JSON, SchemaName := "" },
        ValueEncoding := { Encoding := .JSON, SchemaName := "" },
        ColSelectors := ["k.k0", "v.v1", "v.v2"], Properties := none } }

/-- The create branches of `executeSQLStatementInternal` once the generator over the
pre-allocated `sequences` is in place: the materialized view if the statement has one,
else the source. -/
def execCreate (ext : Externals) (e : Executor) (schemaName : String) (create : Create)
    (sequences : List Nat) (persist : Bool) : Executor × Result Unit :=
  match create.MaterializedView, create.Source with
  | some mv, _ =>
    e.execCreateMaterializedView ext schemaName mv (some (NewPreallocSeqGen sequences)) persist
  | none, some src =>
    e.execCreateSource ext schemaName src (some (NewPreallocSeqGen sequences)) persist
  | none, none => (e, .panic "unsupported query")

/-- What a step of the executor may add to the log of assigned table ids: at most one
entry, with table id `t`, and exactly one when the step returns a nil error. Nothing else
of the executor changes. -/
def AssignsOnly (t : Nat) (e : Executor) (res : Executor × Result Unit) : Prop :=
  res.1.cluster = e.cluster ∧ res.1.broadcasts = e.broadcasts ∧
  res.1.sessionIDSequence = e.sessionIDSequence ∧
  ∃ added, res.1.assigned = e.assigned ++ added ∧ added.length ≤ 1 ∧
    (∀ x ∈ added, x.2.2 = t) ∧ (res.2 = .ok () → added.length = 1)

/-- The statement `CREATE MATERIALIZED VIEW max_readings` of
`TestCreateMaterializedView`, parsed. -/
def maxReadingsCreate : Create :=
  { MaterializedView := some
      { Name := "max_readings",
        Query := "select sensor_id, max(temperature) from test.sensor_readings" },
    Source := none }

/-- The two DDL statements of `TestCreateMaterializedView`, parsed; every call into
another package succeeds. -/
def testExternals : Externals :=
  { Parse := fun sql =>
      if sql = "create source sensor_readings" then
        .ok { Create := some { MaterializedView := none, Source := some sensorReadingsSource } }
      else if sql = "create materialized view max_readings" then
        .ok { Create := some maxReadingsCreate }
      else .error "syntax error",
    BroadcastNotification := fun _ => none,
    RegisterSource := fun _ _ => none,
    CreateSource := fun _ => none,
    CreateMaterializedView := fun _ _ _ _ => none,
    RegisterMaterializedView := fun _ _ _ _ => none,
    engine := fun _ _ => .ok () }

/-- The executor of node 0, on a new cluster whose table id counter is at 100. -/
def node0 : Executor := { cluster := emptyCluster }

/-- The executor of node 1, whose own table id counter is at 500. -/
def node1 : Executor := { cluster := { emptyCluster with nodeID := 1, tableSequence := 500 } }

/-! ### Fixtures and auxiliary definitions for `getSourceInfo` -/

/-- The column definitions of an option list, in the order of the options. -/
def declaredColumns (options : List SourceOption) : List ColumnDef :=
  options.filterMap fun option => option.Column

/-- The column names of the PRIMARY KEY options of an option list, in the order of the
options: the options that have no column and a key name. -/
def keyOptions (options : List SourceOption) : List String :=
  (options.filter fun option => option.Column.isNone && decide (option.PrimaryKey ≠ "")).map
    fun option => option.PrimaryKey

/-- The encoding string that an entry of the topic information supplies, if any: the
first of its header, key and value encoding that is not empty, as the switch of
`getSourceInfo` takes them. -/
def TopicOption.suppliedEncoding (opt : TopicOption) : Option String :=
  if opt.HeaderEncoding ≠ "" then some opt.HeaderEncoding
  else if opt.KeyEncoding ≠ "" then some opt.KeyEncoding
  else if opt.ValueEncoding ≠ "" then some opt.ValueEncoding
  else none

/-- The variables of the second loop of `getSourceInfo` after an entry that raises no
error: the assignment that the switch makes for the entry. -/
def topicStep (encodingFromString : String → KafkaEncoding) (opt : TopicOption)
    (vars : TopicVars) : TopicVars :=
  if opt.HeaderEncoding ≠ "" then
    { vars with headerEncoding := encodingFromString opt.HeaderEncoding }
  else if opt.KeyEncoding ≠ "" then
    { vars with keyEncoding := encodingFromString opt.KeyEncoding }
  else if opt.ValueEncoding ≠ "" then
    { vars with valueEncoding := encodingFromString opt.ValueEncoding }
  else
    match opt.Properties, opt.ColSelectors with
    | some props, _ => { vars with propsMap := some (props.foldl (fun m p => mapPut m p.1 p.2) []) }
    | none, some cs => { vars with colSelectors := cs }
    | none, none =>
      if opt.BrokerName ≠ "" then { vars with brokerName := opt.BrokerName }
      else if opt.TopicName ≠ "" then { vars with topicName := opt.TopicName }
      else vars

/-- A source keyed by both of its columns, each PRIMARY KEY option following its
column: `(sensor_id BIGINT, PRIMARY KEY sensor_id, location VARCHAR, PRIMARY KEY
location)`. -/
def interleavedKeySource : CreateSource :=
  { Name := "sensor_locations",
    Options :=
      [ { Column := some { Name := "sensor_id", columnType := .ok .BigInt }, PrimaryKey := "" },
        { Column := none, PrimaryKey := "sensor_id" },
        { Column := some { Name := "location", columnType := .ok .Varchar }, PrimaryKey := "" },
        { Column := none, PrimaryKey := "location" } ],
    TopicInformation :=
      [ { BrokerName := "testbroker" }, { TopicName := "locations" },
        { HeaderEncoding := "json" }, { KeyEncoding := "json" }, { ValueEncoding := "json" },
        { ColSelectors := some ["k.k0", "v.v1"] } ] }

/-- The statement `sensorReadingsSource` without its PRIMARY KEY option. -/
def sensorReadingsNoKey : CreateSource :=
  { sensorReadingsSource with Options := sensorReadingsSource.Options.take 3 }

/-- The statement `sensorReadingsSource` with the value encoding `avro`, which is not an
encoding of the grammar, and without a broker name. -/
def sensorReadingsAvro : CreateSource :=
  { sensorReadingsSource with
    TopicInformation :=
      [ { TopicName := "readings" }, { HeaderEncoding := "json" }, { KeyEncoding := "json" },
        { ValueEncoding := "avro" }, { ColSelectors := some ["k.k0", "v.v1", "v.v2"] } ] }

/-- The statement `sensorReadingsSource` with the value encoding `avro` and with a
PRIMARY KEY option that names a column the statement does not declare. -/
def sensorReadingsBadKey : CreateSource :=
  { sensorReadingsSource with
    Options := sensorReadingsSource.Options.take 3 ++ [{ Column := none, PrimaryKey := "reading_id" }],
    TopicInformation :=
      [ { BrokerName := "testbroker" }, { TopicName := "readings" },
        { HeaderEncoding := "json" }, { KeyEncoding := "json" }, { ValueEncoding := "avro" },
        { ColSelectors := some ["k.k0", "v.v1", "v.v2"] } ] }

/-- The statement `sensorReadingsSource` without column selectors. -/
def sensorReadingsNoSelectors : CreateSource :=
  { sensorReadingsSource with
    TopicInformation := sensorReadingsSource.TopicInformation.take 5 }

/-! ### Point-get routing (`pull/exec_builder.go`) -/

/-- A range of the planner (`ranger.Range`), as `getPointGetShardID` reads it: whether
`IsPoint` holds for it under the statement context of the session, and its low values,
each as `common.TiDBValueToPranaValue` converts it. -/
structure Range where
  IsPoint : Bool
  LowVal : List Value
deriving DecidableEq, Repr

/-- The method `Engine.getPointGetShardID`. `GetTable` is the lookup
`session.Schema.GetTable` followed by `GetTableInfo`, none for an unknown table;
`CalculateShard` is `p.shrder.CalculateShard(sharder.ShardTypeHash, key)`. An index
outside a slice panics. -/
def getPointGetShardID (GetTable : String → Option TableInfo)
    (CalculateShard : Bytes → Except String Nat) (ranges : List Range) (tableName : String) :
    Result Int :=
  match ranges with
  | [rng] =>
    if rng.IsPoint then
      if rng.LowVal.length ≠ 1 then .ok (-1)
      else
        match GetTable tableName with
        | none => .err (.other ("cannot find table " ++ tableName))
        | some table =>
          match table.PrimaryKeyCols.head? with
          | none => .panic "index out of range"
          | some pk =>
            match table.ColumnTypes.get? pk with
            | none => .panic "index out of range"
            | some (.Decimal _ _) => .ok (-1)
            | some _ =>
              match rng.LowVal.head? with
              | none => .panic "index out of range"
              | some v =>
                match EncodeKey [v] table.ColumnTypes table.PrimaryKeyCols [] with
                | .error e => .err (.other e)
                | .ok key =>
                  match CalculateShard key with
                  | .error e => .err (.other e)
                  | .ok pgsid => .ok (toInt64 pgsid)
    else .ok (-1)
  | _ => .ok (-1)

/-- Whether a column type is a decimal type. -/
def ColumnType.isDecimal : ColumnType → Bool
  | .Decimal _ _ => true
  | _ => false

/-- A sharder for the examples: ten shards from shard id 1000, by the sum of the key
bytes. -/
def testSharder (key : Bytes) : Except String Nat := .ok (1000 + key.sum % 10)

/-- The schema of the examples: the table `sensor_readings`. -/
def testSchema (tableName : String) : Option TableInfo :=
  if tableName = "sensor_readings" then some sensorReadings else none

/-! ### `EXECUTE` (`command/command.go`)

Go strings are taken as Lean strings, so as valid UTF-8. The functions of the packages
`strings` and `strconv` are embedded by their documentation. -/

/-- The function `strings.ToLower`: every character mapped by `unicode.ToLower`, here the
parameter `lower`. -/
def ToLower (lower : Char → Char) (s : String) : String := String.mk (s.data.map lower)

/-- The pieces of a list of characters between the occurrences of a separator: `n`
occurrences give `n + 1` pieces, empty ones included. -/
def splitChars (sep : Char) : List Char → List (List Char)
  | [] => [[]]
  | c :: cs =>
    if c = sep then [] :: splitChars sep cs
    else
      match splitChars sep cs with
      | [] => [[c]]
      | piece :: pieces => (c :: piece) :: pieces

/-- The function `strings.Split(s, sep)` for a separator of one character. -/
def Split (s : String) (sep : Char) : List String := (splitChars sep s.data).map String.mk

/-- The loop of `strconv.ParseUint(s, 10, 64)` over the characters of `s`, after the
value `n`: a character that is not a decimal digit is a syntax error; a value above the
`uint64` range is a range error, returned at the digit that passes the range, before the
characters after it are read. -/
def parseUintLoop : List Char → Nat → Except String Nat
  | [], n => .ok n
  | c :: cs, n =>
    if 48 ≤ c.toNat ∧ c.toNat ≤ 57 then
      if (2 ^ 64 - 1) / 10 + 1 ≤ n then .error "value out of range"
      else if 2 ^ 64 - 1 < n * 10 + (c.toNat - 48) then .error "value out of range"
      else parseUintLoop cs (n * 10 + (c.toNat - 48))
    else .error "invalid syntax"

/-- The function `strconv.ParseInt(s, 10, 64)`: an optional sign, then one or more decimal
digits, nothing else; a value outside the `int64` range is an error. A range error of
`ParseUint` comes with the largest `uint64`, which is outside the `int64` range with
either sign, so it stays a range error. -/
def ParseInt (s : String) : Except String Int :=
  match s.data with
  | [] => .error "invalid syntax"
  | c :: cs =>
    let neg := decide (c = '-')
    let digits := if c = '+' ∨ c = '-' then cs else c :: cs
    match digits with
    | [] => .error "invalid syntax"
    | d :: ds =>
      match parseUintLoop (d :: ds) 0 with
      | .error e => .error e
      | .ok un =>
        if neg then
          if un ≤ 2 ^ 63 then .ok (-(un : Int)) else .error "value out of range"
        else
          if un < 2 ^ 63 then .ok (un : Int) else .error "value out of range"

/-- The method `Executor.execExecute`. `ExecutePreparedStatement` is the call of the pull
engine, with the prepared statement id and the arguments; its result is returned as it
is. -/
def execExecute (lower : Char → Char)
    (ExecutePreparedStatement : Int → List String → Result Unit) (sql : String) :
    Result Unit :=
  if ¬ "execute ".data <+: (ToLower lower sql).data then
    .err (.other ("invalid execute command " ++ ToLower lower sql))
  else
    match Split (String.mk ((ToLower lower sql).data.drop 8)) ' ' with
    | [] =>
      .err (.other ("invalid execute command " ++ String.mk ((ToLower lower sql).data.drop 8)
        ++ " no prepared statement id"))
    | id :: args =>
      match ParseInt id with
      | .error e => .err (.other e)
      | .ok psID => ExecutePreparedStatement psID args

/-- The statement `"execute " ++ id ++ " " ++ a1 ++ " " ++ ... ++ " " ++ an`. -/
def executeStatement (id : String) (args : List String) : String :=
  String.mk ("execute ".data ++ id.data ++ args.flatMap fun a => ' ' :: a.data)

/-! ### Message parser (`push/source/message_parser.go`)

The JSON, protobuf and expression libraries, the descriptor registry, the readers of
`common` behind the fixed-width decoders and the coercions of the package (in a file that
is not among the sources) are fields of `ParserExternals`. The column types are those of
the codec above, so the `TypeTimestamp` case and the default case of `evalColumns` (a
column of a type outside them) have no counterpart. -/

/-- A value of type `interface{}` that a decoder or a selector yields: a number, a string,
a time, a JSON object or a protobuf message (the last two by their bytes). The nil
interface is `none` of `Option Dyn`. -/
inductive Dyn where
  | int (v : Int)
  | float (bits : Nat)
  | str (s : Bytes)
  | time (t : Int)
  | object (raw : Bytes)
  | message (raw : Bytes)
deriving DecidableEq, Repr

/-- A header of a message (`kafka.MessageHeader`): key and value, the value nil-able. -/
structure MessageHeader where
  Key : String
  Value : Option Bytes
deriving DecidableEq, Repr

/-- A message of the bus (`kafka.Message`), as the parser reads it. -/
structure KafkaMessage where
  Headers : List MessageHeader
  Key : Option Bytes
  Value : Option Bytes
  TimeStamp : Int
deriving DecidableEq, Repr

/-- The decoders of the parser: `JSONDecoder`, `KafkaDecoder` with its encoding and
`ProtobufDecoder` with the name of its message descriptor. -/
inductive Decoder where
  | json
  | kafka (encoding : KafkaEncoding)
  | protobuf (schemaName : String)
deriving DecidableEq, Repr

/-- A compiled selector (`evaluable`): the closure of `gvalEvaluable` over the expression
of the selector, or the closure of `protoEvaluable` over the scope (the first character
of the selector) and the parsed field path. -/
inductive Evaluable where
  | gval (selector : String)
  | proto (scope : String) (path : String)
deriving DecidableEq, Repr

/-- The map `repMap` after `decodeMessage`: the decoded headers (a nil map when there is
no header decoder or no header), the decoded key, the decoded value and the timestamp. -/
structure RepMap where
  h : Option (List (String × Option Dyn))
  k : Option Dyn
  v : Option Dyn
  t : Int
deriving DecidableEq, Repr

/-- The calls of the parser into other packages and files. `FindDescriptorByName` is the
lookup of the registry, an error or whether the descriptor found is a message descriptor;
`NewEvaluable` and `ParseSelector` are the error (nil on success) of compiling an
expression and of parsing a field path; `jsonUnmarshal` and `protoUnmarshal` decode a
document; `readBE` reads the value of a fixed-width or string encoding; `evalGval` and
`Select` evaluate a compiled selector; the four coercions convert a value to a cell. -/
structure ParserExternals where
  FindDescriptorByName : String → Except String Bool
  NewEvaluable : String → Option String
  ParseSelector : String → Option String
  jsonUnmarshal : Bytes → Except String Dyn
  protoUnmarshal : String → Bytes → Except String Dyn
  readBE : Encoding → Bytes → Dyn
  evalGval : String → RepMap → Except String (Option Dyn)
  Select : String → Bytes → Except String (Option Dyn)
  CoerceInt64 : Dyn → Except String Int
  CoerceFloat64 : Dyn → Except String Nat
  CoerceString : Dyn → Except String Bytes
  CoerceDecimal : Dyn → Except String Int

/-- The struct `MessageParser`: the source info, the compiled selectors and the three
decoders, nil when no selector needs them. The rows factory is that of the column types
of the source info; the map `repMap` is passed from `decodeMessage` to `evalColumns`. -/
structure MessageParser where
  sourceInfo : SourceInfo
  colEvals : List Evaluable
  headerDecoder : Option Decoder
  keyDecoder : Option Decoder
  valueDecoder : Option Decoder
deriving DecidableEq, Repr

/-- The function `getDecoder`. -/
def getDecoder (ext : ParserExternals) (encoding : KafkaEncoding) : Result Decoder :=
  match encoding.Encoding with
  | .JSON => .ok .json
  | .Float64BE => .ok (.kafka { Encoding := .Float64BE, SchemaName := "" })
  | .Float32BE => .ok (.kafka { Encoding := .Float32BE, SchemaName := "" })
  | .Int32BE => .ok (.kafka { Encoding := .Int32BE, SchemaName := "" })
  | .Int64BE => .ok (.kafka { Encoding := .Int64BE, SchemaName := "" })
  | .Int16BE => .ok (.kafka { Encoding := .Int16BE, SchemaName := "" })
  | .StringBytes => .ok (.kafka { Encoding := .StringBytes, SchemaName := "" })
  | .Protobuf =>
    match ext.FindDescriptorByName encoding.SchemaName with
    | .error _ =>
      .err (.other ("could not find protobuf descriptor for " ++ encoding.SchemaName))
    | .ok false =>
      .err (.other ("expected to find MessageDescriptor at " ++ encoding.SchemaName))
    | .ok true => .ok (.protobuf encoding.SchemaName)
  | .Unknown => .panic "unsupported encoding"

/-- The function `gvalEvaluable`. -/
def gvalEvaluable (ext : ParserExternals) (selector : String) : Result Evaluable :=
  match ext.NewEvaluable selector with
  | some e => .err (.other e)
  | none => .ok (.gval selector)

/-- The function `protoEvaluable`. The slice `selector[0:1]` panics on an empty selector.
The selectors that reach the function begin with one of the ASCII letters `h`, `k`, `v`
and `t`, for which the tests on the bytes of the selector are these tests on its
characters. -/
def protoEvaluable (ext : ParserExternals) (selector : String) : Result Evaluable :=
  match selector.data with
  | [] => .panic "slice bounds out of range"
  | c :: rest =>
    if selector.data.length ≤ 2 ∨ rest.head? ≠ some '.' then
      .err (.other ("invalid protobuf selector " ++ selector))
    else
      match ext.ParseSelector (String.mk (selector.data.drop 2)) with
      | some e => .err (.other e)
      | none => .ok (.proto (String.mk [c]) (String.mk (selector.data.drop 2)))

/-- The variables of `NewMessageParser` that its loop assigns: the three decoders and
`encoding`, declared before the loop, whose zero value is the unknown encoding. -/
structure ParserVars where
  headerDecoder : Option Decoder := none
  keyDecoder : Option Decoder := none
  valueDecoder : Option Decoder := none
  encoding : KafkaEncoding := KafkaEncodingUnknown
deriving DecidableEq, Repr

/-- The switch of the loop of `NewMessageParser` on one selector: the scope of the
selector sets `encoding` and the decoder of the scope; a timestamp selector sets
nothing. -/
def selectorDecoder (ext : ParserExternals) (topic : TopicInfo) (selector : String)
    (vars : ParserVars) : Result ParserVars :=
  if selector.data.head? = some 'h' then
    match getDecoder ext topic.HeaderEncoding with
    | .ok d => .ok { vars with encoding := topic.HeaderEncoding, headerDecoder := some d }
    | .err e => .err e
    | .panic p => .panic p
  else if selector.data.head? = some 'k' then
    match getDecoder ext topic.KeyEncoding with
    | .ok d => .ok { vars with encoding := topic.KeyEncoding, keyDecoder := some d }
    | .err e => .err e
    | .panic p => .panic p
  else if selector.data.head? = some 'v' then
    match getDecoder ext topic.ValueEncoding with
    | .ok d => .ok { vars with encoding := topic.ValueEncoding, valueDecoder := some d }
    | .err e => .err e
    | .panic p => .panic p
  else if selector.data.head? = some 't' then .ok vars
  else .panic ("invalid selector " ++ selector)

/-- The loop of `NewMessageParser` over the selectors: after the switch, the selector is
compiled as a protobuf field path if `encoding` is protobuf, else as an expression. -/
def newMessageParserLoop (ext : ParserExternals) (topic : TopicInfo) :
    List String → ParserVars → List Evaluable → Result (ParserVars × List Evaluable)
  | [], vars, selectEvals => .ok (vars, selectEvals)
  | selector :: rest, vars, selectEvals =>
    match selectorDecoder ext topic selector vars with
    | .err e => .err e
    | .panic p => .panic p
    | .ok vars' =>
      match (if vars'.encoding.Encoding = .Protobuf then protoEvaluable ext selector
          else gvalEvaluable ext selector) with
      | .err e => .err e
      | .panic p => .panic p
      | .ok eval => newMessageParserLoop ext topic rest vars' (selectEvals ++ [eval])

/-- The function `NewMessageParser`. -/
def NewMessageParser (ext : ParserExternals) (sourceInfo : SourceInfo) : Result MessageParser :=
  match newMessageParserLoop ext sourceInfo.TopicInfo sourceInfo.TopicInfo.ColSelectors {} [] with
  | .err e => .err e
  | .panic p => .panic p
  | .ok (vars, selectEvals) =>
    .ok { sourceInfo := sourceInfo, colEvals := selectEvals,
          headerDecoder := vars.headerDecoder, keyDecoder := vars.keyDecoder,
          valueDecoder := vars.valueDecoder }

/-- The `Decode` methods of the three decoders. -/
def Decoder.Decode (ext : ParserExternals) : Decoder → Bytes → Result (Option Dyn)
  | .json, bytes =>
    match ext.jsonUnmarshal bytes with
    | .error e => .err (.other e)
    | .ok m => .ok (some m)
  | .kafka encoding, bytes =>
    if bytes.length = 0 then .ok none
    else
      match encoding.Encoding with
      | .Float32BE => .ok (some (ext.readBE .Float32BE bytes))
      | .Float64BE => .ok (some (ext.readBE .Float64BE bytes))
      | .Int32BE => .ok (some (ext.readBE .Int32BE bytes))
      | .Int64BE => .ok (some (ext.readBE .Int64BE bytes))
      | .Int16BE => .ok (some (ext.readBE .Int16BE bytes))
      | .StringBytes => .ok (some (ext.readBE .StringBytes bytes))
      | _ => .panic "unknown encoding"
  | .protobuf schemaName, bytes =>
    match ext.protoUnmarshal schemaName bytes with
    | .error e => .err (.other e)
    | .ok msg => .ok (some msg)

/-- The method `MessageParser.decodeBytes`: nil bytes decode to nil. -/
def decodeBytes (ext : ParserExternals) (decoder : Decoder) (bytes : Option Bytes) :
    Result (Option Dyn) :=
  match bytes with
  | none => .ok none
  | some b => decoder.Decode ext b

/-- The loop of `decodeMessage` over the headers, filling the map of decoded headers. -/
def decodeHeaders (ext : ParserExternals) (decoder : Decoder) :
    List MessageHeader → List (String × Option Dyn) → Result (List (String × Option Dyn))
  | [], hdrs => .ok hdrs
  | hdr :: rest, hdrs =>
    match decodeBytes ext decoder hdr.Value with
    | .err e => .err e
    | .panic p => .panic p
    | .ok hm => decodeHeaders ext decoder rest (mapPut hdrs hdr.Key hm)

/-- The method `MessageParser.decodeMessage`: the map `repMap` that it fills. -/
def MessageParser.decodeMessage (ext : ParserExternals) (m : MessageParser)
    (message : KafkaMessage) : Result RepMap :=
  let hdrsRes : Result (Option (List (String × Option Dyn))) :=
    match m.headerDecoder with
    | none => .ok none
    | some decoder =>
      if 0 < message.Headers.length then
        match decodeHeaders ext decoder message.Headers [] with
        | .err e => .err e
        | .panic p => .panic p
        | .ok hdrs => .ok (some hdrs)
      else .ok none
  match hdrsRes with
  | .err e => .err e
  | .panic p => .panic p
  | .ok hdrs =>
    let kmRes : Result (Option Dyn) :=
      match m.keyDecoder with
      | none => .ok none
      | some decoder => decodeBytes ext decoder message.Key
    match kmRes with
    | .err e => .err e
    | .panic p => .panic p
    | .ok km =>
      let vmRes : Result (Option Dyn) :=
        match m.valueDecoder with
        | none => .ok none
        | some decoder => decodeBytes ext decoder message.Value
      match vmRes with
      | .err e => .err e
      | .panic p => .panic p
      | .ok vm => .ok { h := hdrs, k := km, v := vm, t := message.TimeStamp }

/-- The call of a compiled selector on `repMap`. The closure of `protoEvaluable` asserts
that the entry of its scope is a protobuf message and panics when it is not (nil, the
header map, the timestamp or a value of another decoder). -/
def Evaluable.eval (ext : ParserExternals) : Evaluable → RepMap → Result (Option Dyn)
  | .gval selector, repMap =>
    match ext.evalGval selector repMap with
    | .error e => .err (.other e)
    | .ok val => .ok val
  | .proto scope path, repMap =>
    match (if scope = "k" then repMap.k else if scope = "v" then repMap.v else none) with
    | some (.message raw) =>
      match ext.Select path raw with
      | .error e => .err (.other e)
      | .ok val => .ok val
    | _ => .panic "interface conversion: not a protoreflect.Message"

/-- Modelled from the spec: `common.Rows`, the rows that the parser builds for its
message batch (4.4). The spec does not fix a layout; the `Append...ToColumn(i, value)`
calls of the source fill the rows by column, so the rows are one list of cells per column
of the rows factory, each in the order of the appends. -/
structure Rows where
  columns : List (List Value)
deriving DecidableEq, Repr

/-- Modelled from the spec: `RowsFactory.NewRows`, rows without cells, one column per
column type of the factory. -/
def NewRows (colTypes : List ColumnType) : Rows := { columns := colTypes.map fun _ => [] }

/-- A cell appended to column `i` of a list of columns; none when there is no column
`i`. -/
def appendAt : List (List Value) → Nat → Value → Option (List (List Value))
  | [], _, _ => none
  | col :: cols, 0, v => some ((col ++ [v]) :: cols)
  | col :: cols, i + 1, v => (appendAt cols i v).map fun cols' => col :: cols'

/-- Modelled from the spec: the `Append...ToColumn(i, value)` methods of `common.Rows`; a
column index outside the rows panics. -/
def Rows.appendToColumn (rows : Rows) (i : Nat) (v : Value) : Result Rows :=
  match appendAt rows.columns i v with
  | none => .panic "index out of range"
  | some columns => .ok { columns := columns }

/-- Modelled from the spec: `Rows.RowCount`, the number of cells of the first column, 0
for rows without columns. -/
def Rows.RowCount (rows : Rows) : Nat :=
  match rows.columns with
  | [] => 0
  | col :: _ => col.length

/-- Modelled from the spec: `Rows.GetRow(i)`, the cells at position `i` of the columns;
a column with no cell there gives none. -/
def Rows.GetRow (rows : Rows) (i : Nat) : List (Option Value) :=
  rows.columns.map fun col => col.get? i

/-- The coercion of `evalColumns` for a column type, and the cell that the matching
`Append...ToColumn` call appends. -/
def coerceCell (ext : ParserExternals) (colType : ColumnType) (val : Dyn) : Except String Value :=
  match colType with
  | .TinyInt | .Int | .BigInt => (ext.CoerceInt64 val).map Value.int64
  | .Double => (ext.CoerceFloat64 val).map Value.float64
  | .Varchar => (ext.CoerceString val).map Value.string
  | .Decimal _ _ => (ext.CoerceDecimal val).map Value.decimal

/-- The loop of `MessageParser.evalColumns` from selector `i` on: the column type at the
index of the selector (a panic when there is none), the evaluation, then NULL for a nil
value and the coerced value otherwise, appended to column `i`. -/
def MessageParser.evalColumnsLoop (ext : ParserExternals) (m : MessageParser) (repMap : RepMap) :
    List Evaluable → Nat → Rows → Result Rows
  | [], _, rows => .ok rows
  | eval :: rest, i, rows =>
    match m.sourceInfo.TableInfo.ColumnTypes.get? i with
    | none => .panic "index out of range"
    | some colType =>
      match eval.eval ext repMap with
      | .err e => .err e
      | .panic p => .panic p
      | .ok none =>
        match rows.appendToColumn i .null with
        | .ok rows' => m.evalColumnsLoop ext repMap rest (i + 1) rows'
        | .err e => .err e
        | .panic p => .panic p
      | .ok (some val) =>
        match coerceCell ext colType val with
        | .error e => .err (.other e)
        | .ok cell =>
          match rows.appendToColumn i cell with
          | .ok rows' => m.evalColumnsLoop ext repMap rest (i + 1) rows'
          | .err e => .err e
          | .panic p => .panic p

/-- The method `MessageParser.evalColumns`. -/
def MessageParser.evalColumns (ext : ParserExternals) (m : MessageParser) (repMap : RepMap)
    (rows : Rows) : Result Rows :=
  m.evalColumnsLoop ext repMap m.colEvals 0 rows

/-- The loop of `MessageParser.ParseMessages`: each message is decoded and its columns
are evaluated into the rows; the first error ends the loop. -/
def MessageParser.parseLoop (ext : ParserExternals) (m : MessageParser) :
    List KafkaMessage → Rows → Result Rows
  | [], rows => .ok rows
  | msg :: rest, rows =>
    match m.decodeMessage ext msg with
    | .err e => .err e
    | .panic p => .panic p
    | .ok repMap =>
      match m.evalColumns ext repMap rows with
      | .err e => .err e
      | .panic p => .panic p
      | .ok rows' => m.parseLoop ext rest rows'

/-- The method `MessageParser.ParseMessages`: the rows and a nil error, or no rows and
the error; `errors.WithStack` adds the stack of the call to the error and nothing of the
batch. -/
def MessageParser.ParseMessages (ext : ParserExternals) (m : MessageParser)
    (messages : List KafkaMessage) : Result Rows :=
  m.parseLoop ext messages (NewRows m.sourceInfo.TableInfo.ColumnTypes)

/-! ### Fixtures and auxiliary definitions for the message parser -/

/-- The cells that `evalColumns` computes from selector `i` on, without the rows: the
evaluation and coercion of each selector in turn. -/
def MessageParser.evalCellsLoop (ext : ParserExternals) (m : MessageParser) (repMap : RepMap) :
    List Evaluable → Nat → Result (List Value)
  | [], _ => .ok []
  | eval :: rest, i =>
    match m.sourceInfo.TableInfo.ColumnTypes.get? i with
    | none => .panic "index out of range"
    | some colType =>
      match eval.eval ext repMap with
      | .err e => .err e
      | .panic p => .panic p
      | .ok none =>
        match m.evalCellsLoop ext repMap rest (i + 1) with
        | .ok cells => .ok (.null :: cells)
        | .err e => .err e
        | .panic p => .panic p
      | .ok (some val) =>
        match coerceCell ext colType val with
        | .error e => .err (.other e)
        | .ok cell =>
          match m.evalCellsLoop ext repMap rest (i + 1) with
          | .ok cells => .ok (cell :: cells)
          | .err e => .err e
          | .panic p => .panic p

/-- The row of a message: its decoding followed by the cells of its selectors. -/
def MessageParser.parseRow (ext : ParserExternals) (m : MessageParser) (msg : KafkaMessage) :
    Result (List Value) :=
  match m.decodeMessage ext msg with
  | .err e => .err e
  | .panic p => .panic p
  | .ok repMap => m.evalCellsLoop ext repMap m.colEvals 0

/-- The columns after cell `j` of `cells` is appended to column `i + j`, for every `j`. -/
def appendCells : List (List Value) → Nat → List Value → Option (List (List Value))
  | cols, _, [] => some cols
  | cols, i, cell :: cells =>
    match appendAt cols i cell with
    | none => none
    | some cols' => appendCells cols' (i + 1) cells

/-- The conversion `int16(u)`, `int32(u)` or `int64(u)` of an unsigned number of `w`
bits. -/
def toSigned (w u : Nat) : Int := if u < 2 ^ (w - 1) then (u : Int) else (u : Int) - 2 ^ w

/-- The conversion `float64(f)` of a `float32`, on bit patterns: the sign is kept, the
exponent is rebiased, the fraction is widened; a subnormal `float32` is a normal
`float64`. -/
def float32ToFloat64 (b : Nat) : Nat :=
  if b / 2 ^ 23 % 256 = 255 then b / 2 ^ 31 % 2 * 2 ^ 63 + 2047 * 2 ^ 52 + b % 2 ^ 23 * 2 ^ 29
  else if b / 2 ^ 23 % 256 = 0 then
    if b % 2 ^ 23 = 0 then b / 2 ^ 31 % 2 * 2 ^ 63
    else b / 2 ^ 31 % 2 * 2 ^ 63 + (Nat.log2 (b % 2 ^ 23) + 874) * 2 ^ 52
      + (b % 2 ^ 23 - 2 ^ Nat.log2 (b % 2 ^ 23)) * 2 ^ (52 - Nat.log2 (b % 2 ^ 23))
  else b / 2 ^ 31 % 2 * 2 ^ 63 + (b / 2 ^ 23 % 256 + 896) * 2 ^ 52 + b % 2 ^ 23 * 2 ^ 29

/-- Externals for the examples. Every descriptor is found, every selector compiles; a
JSON document is accepted when it begins with an opening brace; a fixed-width value is read
big-endian from the first bytes of its width, an integer converted to its signed type, a
float as the bit pattern of its double; an expression yields the entry of its scope, the timestamp as a
time; a field path yields the bytes of the message as a string; the coercions accept the
values of the matching kind. -/
def testParserExternals : ParserExternals :=
  { FindDescriptorByName := fun _ => .ok true,
    NewEvaluable := fun _ => none,
    ParseSelector := fun _ => none,
    jsonUnmarshal := fun bytes =>
      if bytes.head? = some 123 then .ok (.object bytes) else .error "invalid character",
    protoUnmarshal := fun _ bytes => .ok (.message bytes),
    readBE := fun encoding bytes =>
      match encoding with
      | .StringBytes => .str bytes
      | .Float32BE => .float (float32ToFloat64 (beValue (bytes.take 4)))
      | .Float64BE => .float (beValue (bytes.take 8))
      | .Int16BE => .int (toSigned 16 (beValue (bytes.take 2)))
      | .Int32BE => .int (toSigned 32 (beValue (bytes.take 4)))
      | _ => .int (toSigned 64 (beValue (bytes.take 8))),
    evalGval := fun selector repMap =>
      if selector.data.head? = some 'k' then .ok repMap.k
      else if selector.data.head? = some 'v' then .ok repMap.v
      else if selector.data.head? = some 't' then .ok (some (.time repMap.t))
      else .ok none,
    Select := fun _ raw => .ok (some (.str raw)),
    CoerceInt64 := fun val =>
      match val with
      | .int v => .ok v
      | .time t => .ok t
      | _ => .error "cannot coerce to int64",
    CoerceFloat64 := fun val =>
      match val with
      | .float b => .ok b
      | _ => .error "cannot coerce to float64",
    CoerceString := fun val =>
      match val with
      | .str s => .ok s
      | .object raw => .ok raw
      | _ => .error "cannot coerce to string",
    CoerceDecimal := fun val =>
      match val with
      | .int v => .ok v
      | _ => .error "cannot coerce to decimal" }

/-- The statement of a source `events` with the columns `payload VARCHAR` and
`received BIGINT`, keyed by `received`, with JSON headers and keys and protobuf values,
and the selectors `k` and `t`. -/
def eventsSource : CreateSource :=
  { Name := "events",
    Options :=
      [ { Column := some { Name := "payload", columnType := .ok .Varchar }, PrimaryKey := "" },
        { Column := some { Name := "received", columnType := .ok .BigInt }, PrimaryKey := "" },
        { Column := none, PrimaryKey := "received" } ],
    TopicInformation :=
      [ { BrokerName := "testbroker" }, { TopicName := "events" },
        { HeaderEncoding := "json" }, { KeyEncoding := "json" },
        { ValueEncoding := "protobuf:squareup.Event" },
        { ColSelectors := some ["k", "t"] } ] }

/-- The source info that `getSourceInfo` builds from `eventsSource`. -/
def eventsInfo : SourceInfo :=
  { TableInfo :=
      { ID := 1001, SchemaName := "test", Name := "events", PrimaryKeyCols := [1],
        ColumnNames := ["payload", "received"], ColumnTypes := [.Varchar, .BigInt] },
    TopicInfo :=
      { BrokerName := "testbroker", TopicName := "events",
        HeaderEncoding := { Encoding := .JSON, SchemaName := "" },
        KeyEncoding := { Encoding := .JSON, SchemaName := "" },
        ValueEncoding := { Encoding := .Protobuf, SchemaName := "squareup.Event" },
        ColSelectors := ["k", "t"], Properties := none } }

/-- The source info of `events` with other column selectors. -/
def eventsInfoWith (selectors : List String) : SourceInfo :=
  { eventsInfo with TopicInfo := { eventsInfo.TopicInfo with ColSelectors := selectors } }

/-- The parser of `events`: the key is decoded as JSON, the two selectors are
expressions. -/
def eventsParser : MessageParser :=
  { sourceInfo := eventsInfo, colEvals := [.gval "k", .gval "t"], headerDecoder := none,
    keyDecoder := some .json, valueDecoder := none }

/-- A message whose key is the JSON document `{}`, with a timestamp. -/
def goodMessage (t : Int) : KafkaMessage :=
  { Headers := [], Key := some [123, 125], Value := none, TimeStamp := t }

/-- A message whose key, `x`, is not a JSON document. -/
def badMessage : KafkaMessage :=
  { Headers := [], Key := some [120], Value := none, TimeStamp := 7 }

/-- The source info that `getSourceInfo` builds from `sensorReadingsNoSelectors`. -/
def sensorReadingsNoSelectorsInfo : SourceInfo :=
  { sensorReadingsInfo with
    TopicInfo := { sensorReadingsInfo.TopicInfo with ColSelectors := [] } }

end PranaDB

namespace PranaDB

/-! ## Byte order -/

theorem bytesCompare_self (a : Bytes) : bytesCompare a a = 0 := by
  induction a with
  | nil => rfl
  | cons x xs ih => simp [bytesCompare, ih]

theorem bytesCompare_eq_zero {a b : Bytes} : bytesCompare a b = 0 ↔ a = b := by
  constructor
  · intro h
    induction a generalizing b with
    | nil => cases b with
      | nil => rfl
      | cons y ys => simp [bytesCompare] at h
    | cons x xs ih => cases b with
      | nil => simp [bytesCompare] at h
      | cons y ys =>
        simp only [bytesCompare] at h
        split_ifs at h with h1 h2
        · omega
        · have : x = y := by omega
          rw [this, ih h]
  · rintro rfl; exact bytesCompare_self a

theorem bytesCompare_swap (a b : Bytes) : bytesCompare b a = - bytesCompare a b := by
  induction a generalizing b with
  | nil => cases b <;> simp [bytesCompare]
  | cons x xs ih => cases b with
    | nil => simp [bytesCompare]
    | cons y ys =>
      simp only [bytesCompare]
      split_ifs <;> first | omega | simp | exact ih ys

theorem bytesCompare_lt_trans {a b c : Bytes} (h1 : bytesCompare a b < 0)
    (h2 : bytesCompare b c < 0) : bytesCompare a c < 0 := by
  induction a generalizing b c with
  | nil => cases c with
    | nil => cases b <;> simp [bytesCompare] at h1 h2
    | cons z zs => simp [bytesCompare]
  | cons x xs ih => cases b with
    | nil => simp [bytesCompare] at h1
    | cons y ys => cases c with
      | nil => simp [bytesCompare] at h2
      | cons z zs =>
        simp only [bytesCompare] at h1 h2 ⊢
        split_ifs at h1 h2 ⊢ <;> first | omega | exact ih h1 h2

theorem bytesCompare_le_of_lt_of_le {a b c : Bytes} (h1 : bytesCompare a b < 0)
    (h2 : bytesCompare b c ≤ 0) : bytesCompare a c < 0 := by
  rcases lt_or_eq_of_le h2 with h | h
  · exact bytesCompare_lt_trans h1 h
  · rw [bytesCompare_eq_zero] at h; subst h; exact h1

theorem bytesCompare_le_of_le_of_lt {a b c : Bytes} (h1 : bytesCompare a b ≤ 0)
    (h2 : bytesCompare b c < 0) : bytesCompare a c < 0 := by
  rcases lt_or_eq_of_le h1 with h | h
  · exact bytesCompare_lt_trans h h2
  · rw [bytesCompare_eq_zero] at h; subst h; exact h2

/-! ## The ordered tree -/

theorem less_iff (x y : kvWrapper) : x.Less y = true ↔ bytesCompare x.key y.key < 0 := by
  simp [kvWrapper.Less]

theorem less_false_iff (x y : kvWrapper) : x.Less y = false ↔ 0 ≤ bytesCompare x.key y.key := by
  simp [kvWrapper.Less]

theorem less_trans {x y z : kvWrapper} (h1 : x.Less y = true) (h2 : y.Less z = true) :
    x.Less z = true := by
  rw [less_iff] at *; exact bytesCompare_lt_trans h1 h2

theorem less_asymm {x y : kvWrapper} (h1 : x.Less y = true) : y.Less x = false := by
  rw [less_iff] at h1; rw [less_false_iff, bytesCompare_swap]; omega

theorem key_eq_of_not_less {x y : kvWrapper} (h1 : x.Less y = false) (h2 : y.Less x = false) :
    x.key = y.key := by
  rw [less_false_iff] at h1 h2
  rw [bytesCompare_swap] at h2
  exact bytesCompare_eq_zero.mp (by omega)

theorem less_of_key_eq_left {x y z : kvWrapper} (h : x.key = y.key) :
    x.Less z = y.Less z := by
  simp [kvWrapper.Less, h]

theorem less_of_key_eq_right {x y z : kvWrapper} (h : x.key = y.key) :
    z.Less x = z.Less y := by
  simp [kvWrapper.Less, h]

theorem less_irrefl_of_key_eq {x y : kvWrapper} (h : x.key = y.key) : x.Less y = false := by
  rw [less_false_iff, h, bytesCompare_self]

theorem key_ne_of_less {x y : kvWrapper} (h : x.Less y = true) : x.key ≠ y.key := by
  intro e; rw [less_irrefl_of_key_eq e] at h; exact Bool.false_ne_true h

theorem ordered_cons {x : kvWrapper} {xs : BTree} :
    BTree.Ordered (x :: xs) ↔ (∀ y ∈ xs, x.Less y = true) ∧ BTree.Ordered xs := by
  unfold BTree.Ordered; exact List.pairwise_cons

theorem ordered_nil : BTree.Ordered [] := List.Pairwise.nil

/-- The result of `Get` depends on the key of the probe only. -/
theorem get_congr (t : BTree) {q q' : kvWrapper} (h : q.key = q'.key) :
    BTree.Get t q = BTree.Get t q' := by
  induction t with
  | nil => rfl
  | cons x xs ih =>
    simp only [BTree.Get, less_of_key_eq_left h, less_of_key_eq_right h, ih]

theorem get_none_of_all_less {t : BTree} {q : kvWrapper} (h : ∀ y ∈ t, q.Less y = true) :
    BTree.Get t q = none := by
  cases t with
  | nil => rfl
  | cons x xs => simp [BTree.Get, h x (List.mem_cons_self _ _)]

theorem get_eq_some_iff {t : BTree} (ht : t.Ordered) (q x : kvWrapper) :
    BTree.Get t q = some x ↔ x ∈ t ∧ x.key = q.key := by
  induction t with
  | nil => simp [BTree.Get]
  | cons y ys ih =>
    obtain ⟨hy, hys⟩ := ordered_cons.mp ht
    simp only [BTree.Get, List.mem_cons]
    by_cases h1 : q.Less y = true
    · simp only [h1, if_true]
      constructor
      · intro h; cases h
      · rintro ⟨rfl | hx, hk⟩
        · rw [less_irrefl_of_key_eq hk.symm] at h1; cases h1
        · have := less_trans h1 (hy x hx)
          rw [less_irrefl_of_key_eq hk.symm] at this; cases this
    · simp only [h1]
      by_cases h2 : y.Less q = true
      · simp only [h2, if_true, Bool.false_eq_true, if_false]
        rw [ih hys]
        constructor
        · rintro ⟨hx, hk⟩; exact ⟨Or.inr hx, hk⟩
        · rintro ⟨rfl | hx, hk⟩
          · rw [less_irrefl_of_key_eq hk] at h2; cases h2
          · exact ⟨hx, hk⟩
      · simp only [h2, Bool.false_eq_true, if_false, Option.some.injEq]
        have hk : y.key = q.key :=
          key_eq_of_not_less (by simpa using h2) (by simpa using h1)
        constructor
        · rintro rfl; exact ⟨Or.inl rfl, hk⟩
        · rintro ⟨rfl | hx, hk'⟩
          · rfl
          · have := hy x hx
            rw [less_irrefl_of_key_eq (hk.trans hk'.symm)] at this; cases this

theorem get_eq_none_iff {t : BTree} (ht : t.Ordered) (q : kvWrapper) :
    BTree.Get t q = none ↔ ∀ x ∈ t, x.key ≠ q.key := by
  constructor
  · intro h x hx hk
    have := (get_eq_some_iff ht q x).mpr ⟨hx, hk⟩
    rw [h] at this; cases this
  · intro h
    cases hg : BTree.Get t q with
    | none => rfl
    | some x =>
      obtain ⟨hx, hk⟩ := (get_eq_some_iff ht q x).mp hg
      exact absurd hk (h x hx)

theorem mem_replaceOrInsert {t : BTree} {item y : kvWrapper}
    (h : y ∈ BTree.ReplaceOrInsert t item) : y = item ∨ y ∈ t := by
  induction t with
  | nil => simp [BTree.ReplaceOrInsert] at h; exact Or.inl h
  | cons x xs ih =>
    simp only [BTree.ReplaceOrInsert] at h
    split_ifs at h with h1 h2
    · simp only [List.mem_cons] at h ⊢; tauto
    · simp only [List.mem_cons] at h ⊢
      rcases h with h | h
      · tauto
      · rcases ih h with h | h <;> tauto
    · simp only [List.mem_cons] at h ⊢; tauto

theorem replaceOrInsert_ordered {t : BTree} (ht : t.Ordered) (item : kvWrapper) :
    (BTree.ReplaceOrInsert t item).Ordered := by
  induction t with
  | nil => simp [BTree.ReplaceOrInsert, BTree.Ordered]
  | cons x xs ih =>
    obtain ⟨hx, hxs⟩ := ordered_cons.mp ht
    simp only [BTree.ReplaceOrInsert]
    split_ifs with h1 h2
    · refine ordered_cons.mpr ⟨?_, ht⟩
      intro y hy
      rcases List.mem_cons.mp hy with rfl | hy
      · exact h1
      · exact less_trans h1 (hx y hy)
    · refine ordered_cons.mpr ⟨?_, ih hxs⟩
      intro y hy
      rcases mem_replaceOrInsert hy with rfl | hy
      · exact h2
      · exact hx y hy
    · refine ordered_cons.mpr ⟨?_, hxs⟩
      intro y hy
      have hk : item.key = x.key :=
        key_eq_of_not_less (by simpa using h1) (by simpa using h2)
      rw [less_of_key_eq_left hk]; exact hx y hy

theorem get_replaceOrInsert (t : BTree) (item q : kvWrapper) :
    BTree.Get (BTree.ReplaceOrInsert t item) q
      = if q.key = item.key then some item else BTree.Get t q := by
  induction t with
  | nil =>
    simp only [BTree.ReplaceOrInsert, BTree.Get]
    by_cases hk : q.key = item.key
    · simp [hk, less_irrefl_of_key_eq hk, less_irrefl_of_key_eq hk.symm]
    · simp only [hk, if_false]
      split_ifs with h1 h2
      · rfl
      · rfl
      · exact absurd (key_eq_of_not_less (by simpa using h1) (by simpa using h2)) hk
  | cons x xs ih =>
    simp only [BTree.ReplaceOrInsert]
    by_cases h1 : item.Less x = true
    · simp only [h1, if_true]
      by_cases hk : q.key = item.key
      · simp only [hk, if_true]
        simp [BTree.Get, less_irrefl_of_key_eq hk, less_irrefl_of_key_eq hk.symm]
      · simp only [hk, if_false]
        rw [BTree.Get]
        split_ifs with h3 h4
        · rw [BTree.Get, less_trans h3 h1]; rfl
        · rfl
        · exact absurd (key_eq_of_not_less (by simpa using h3) (by simpa using h4)) hk
    · simp only [h1]
      by_cases h2 : x.Less item = true
      · simp only [h2, if_true, Bool.false_eq_true, if_false]
        rw [BTree.Get, BTree.Get, ih]
        by_cases h3 : q.Less x = true
        · have : q.key ≠ item.key := key_ne_of_less (less_trans h3 h2)
          simp [h3, this]
        · by_cases h4 : x.Less q = true
          · simp [h3, h4]
          · have hk : q.key = x.key :=
              key_eq_of_not_less (by simpa using h3) (by simpa using h4)
            have : q.key ≠ item.key := by rw [hk]; exact key_ne_of_less h2
            simp [h3, h4, this]
      · simp only [h2, Bool.false_eq_true, if_false]
        have hk : item.key = x.key :=
          key_eq_of_not_less (by simpa using h1) (by simpa using h2)
        rw [BTree.Get, BTree.Get, less_of_key_eq_right hk, less_of_key_eq_left hk]
        by_cases h3 : q.Less x = true
        · have : q.key ≠ item.key := by rw [hk]; exact key_ne_of_less h3
          simp [h3, this]
        · by_cases h4 : x.Less q = true
          · have : q.key ≠ item.key := by rw [hk]; exact (key_ne_of_less h4).symm
            simp [h3, h4, this]
          · have hq : q.key = item.key :=
              (key_eq_of_not_less (by simpa using h3) (by simpa using h4)).trans hk.symm
            simp [h3, h4, hq]

theorem delete_fst (t : BTree) (item : kvWrapper) :
    (BTree.Delete t item).1 = BTree.Get t item := by
  induction t with
  | nil => rfl
  | cons x xs ih =>
    simp only [BTree.Delete, BTree.Get]
    split_ifs <;> simp [ih]

theorem mem_delete {t : BTree} {item y : kvWrapper} (h : y ∈ (BTree.Delete t item).2) :
    y ∈ t := by
  induction t with
  | nil => simp [BTree.Delete] at h
  | cons x xs ih =>
    simp only [BTree.Delete] at h
    split_ifs at h with h1 h2
    · exact h
    · simp only [List.mem_cons] at h ⊢
      rcases h with h | h
      · exact Or.inl h
      · exact Or.inr (ih h)
    · exact List.mem_cons_of_mem _ h

theorem delete_ordered {t : BTree} (ht : t.Ordered) (item : kvWrapper) :
    (BTree.Delete t item).2.Ordered := by
  induction t with
  | nil => simp [BTree.Delete, BTree.Ordered]
  | cons x xs ih =>
    obtain ⟨hx, hxs⟩ := ordered_cons.mp ht
    simp only [BTree.Delete]
    split_ifs with h1 h2
    · exact ht
    · exact ordered_cons.mpr ⟨fun y hy => hx y (mem_delete hy), ih hxs⟩
    · exact hxs

theorem get_delete {t : BTree} (ht : t.Ordered) (item q : kvWrapper) :
    BTree.Get (BTree.Delete t item).2 q
      = if q.key = item.key then none else BTree.Get t q := by
  induction t with
  | nil => simp [BTree.Delete, BTree.Get]
  | cons x xs ih =>
    obtain ⟨hx, hxs⟩ := ordered_cons.mp ht
    simp only [BTree.Delete]
    by_cases h1 : item.Less x = true
    · simp only [h1, if_true]
      by_cases hk : q.key = item.key
      · simp only [hk, if_true]
        rw [BTree.Get, less_of_key_eq_left hk, h1]; rfl
      · simp [hk]
    · simp only [h1]
      by_cases h2 : x.Less item = true
      · simp only [h2, if_true, Bool.false_eq_true, if_false]
        rw [BTree.Get, BTree.Get, ih hxs]
        by_cases h3 : q.Less x = true
        · have : q.key ≠ item.key := key_ne_of_less (less_trans h3 h2)
          simp [h3, this]
        · by_cases h4 : x.Less q = true
          · simp [h3, h4]
          · have hk : q.key = x.key :=
              key_eq_of_not_less (by simpa using h3) (by simpa using h4)
            have : q.key ≠ item.key := by rw [hk]; exact key_ne_of_less h2
            simp [h3, h4, this]
      · simp only [h2, Bool.false_eq_true, if_false]
        have hk : item.key = x.key :=
          key_eq_of_not_less (by simpa using h1) (by simpa using h2)
        by_cases hq : q.key = item.key
        · simp only [hq, if_true]
          apply get_none_of_all_less
          intro y hy
          rw [less_of_key_eq_left (hq.trans hk)]; exact hx y hy
        · simp only [hq, if_false]
          rw [BTree.Get]
          have hqx : q.key ≠ x.key := by rw [← hk]; exact hq
          split_ifs with h3 h4
          · exact get_none_of_all_less fun y hy => less_trans h3 (hx y hy)
          · rfl
          · exact absurd (key_eq_of_not_less (by simpa using h3) (by simpa using h4)) hqx

end PranaDB

namespace PranaDB

/-! ## The write loops -/

theorem applyPuts_btree_ordered (f : FakeCluster) (ps : List (Bytes × Option Bytes))
    (h : f.btree.Ordered) : (f.applyPuts ps).btree.Ordered := by
  induction ps generalizing f with
  | nil => exact h
  | cons p ps ih =>
    obtain ⟨k, v⟩ := p
    exact ih _ (replaceOrInsert_ordered h _)

theorem applyPuts_frame (f : FakeCluster) (ps : List (Bytes × Option Bytes)) :
    f.applyPuts ps = { f with btree := (f.applyPuts ps).btree } := by
  induction ps generalizing f with
  | nil => rfl
  | cons p ps ih =>
    obtain ⟨k, v⟩ := p
    rw [FakeCluster.applyPuts, ih]; rfl

theorem applyPuts_get_of_not_mem (f : FakeCluster) (ps : List (Bytes × Option Bytes))
    (q : kvWrapper) (h : q.key ∉ ps.map Prod.fst) :
    (f.applyPuts ps).btree.Get q = f.btree.Get q := by
  induction ps generalizing f with
  | nil => rfl
  | cons p ps ih =>
    obtain ⟨k, v⟩ := p
    simp only [List.map_cons, List.mem_cons, not_or] at h
    rw [FakeCluster.applyPuts, ih _ h.2]
    simp [FakeCluster.putInternal, get_replaceOrInsert, h.1]

theorem applyPuts_get_of_mem (f : FakeCluster) (ps : List (Bytes × Option Bytes))
    (hnd : (ps.map Prod.fst).Nodup) (k : Bytes) (v : Option Bytes) (hm : (k, v) ∈ ps)
    (q : kvWrapper) (hq : q.key = k) :
    (f.applyPuts ps).btree.Get q = some { key := k, value := v } := by
  induction ps generalizing f with
  | nil => cases hm
  | cons p ps ih =>
    obtain ⟨k', v'⟩ := p
    simp only [List.map_cons, List.nodup_cons] at hnd
    rw [FakeCluster.applyPuts]
    rcases List.mem_cons.mp hm with heq | hm'
    · cases heq
      rw [applyPuts_get_of_not_mem _ _ _ (by rw [hq]; exact hnd.1)]
      simp [FakeCluster.putInternal, get_replaceOrInsert, hq]
    · exact ih _ hnd.2 hm'

theorem deleteInternal_btree (f : FakeCluster) (item : kvWrapper) :
    (f.deleteInternal item).1.btree = (f.btree.Delete item).2 := by
  unfold FakeCluster.deleteInternal; split <;> rfl

theorem deleteInternal_frame (f : FakeCluster) (item : kvWrapper) :
    (f.deleteInternal item).1 = { f with btree := (f.btree.Delete item).2 } := by
  unfold FakeCluster.deleteInternal; split <;> rfl

theorem deleteInternal_err (f : FakeCluster) (item : kvWrapper) :
    (f.deleteInternal item).2 = none ↔ f.btree.Get item ≠ none := by
  unfold FakeCluster.deleteInternal
  rw [← delete_fst]
  split <;> simp_all

theorem applyDeletes_cons (f : FakeCluster) (k : Bytes) (ds : List Bytes) :
    f.applyDeletes (k :: ds)
      = if (f.deleteInternal { key := k, value := none }).2 = none then
          (f.deleteInternal { key := k, value := none }).1.applyDeletes ds
        else f.deleteInternal { key := k, value := none } := by
  rw [FakeCluster.applyDeletes]
  rcases hd : f.deleteInternal { key := k, value := none } with ⟨f', e⟩
  cases e <;> simp

theorem applyDeletes_btree_ordered (f : FakeCluster) (ds : List Bytes)
    (h : f.btree.Ordered) : (f.applyDeletes ds).1.btree.Ordered := by
  induction ds generalizing f with
  | nil => exact h
  | cons k ds ih =>
    rw [applyDeletes_cons]
    split_ifs
    · exact ih _ (by rw [deleteInternal_btree]; exact delete_ordered h _)
    · rw [deleteInternal_btree]; exact delete_ordered h _

theorem applyDeletes_frame (f : FakeCluster) (ds : List Bytes) :
    (f.applyDeletes ds).1 = { f with btree := (f.applyDeletes ds).1.btree } := by
  induction ds generalizing f with
  | nil => rfl
  | cons k ds ih =>
    rw [applyDeletes_cons]
    split_ifs
    · rw [ih, deleteInternal_frame]
    · rw [deleteInternal_frame]

theorem applyDeletes_get_of_not_mem (f : FakeCluster) (ds : List Bytes)
    (h : f.btree.Ordered) (q : kvWrapper) (hq : q.key ∉ ds) :
    (f.applyDeletes ds).1.btree.Get q = f.btree.Get q := by
  induction ds generalizing f with
  | nil => rfl
  | cons k ds ih =>
    simp only [List.mem_cons, not_or] at hq
    have hstep : (f.deleteInternal { key := k, value := none }).1.btree.Get q = f.btree.Get q := by
      rw [deleteInternal_btree, get_delete h]; simp [hq.1]
    rw [applyDeletes_cons]
    split_ifs
    · rw [ih _ (by rw [deleteInternal_btree]; exact delete_ordered h _) hq.2, hstep]
    · exact hstep

theorem applyDeletes_get_of_mem (f : FakeCluster) (ds : List Bytes)
    (h : f.btree.Ordered) (hok : (f.applyDeletes ds).2 = none) (q : kvWrapper)
    (hq : q.key ∈ ds) : (f.applyDeletes ds).1.btree.Get q = none := by
  induction ds generalizing f with
  | nil => cases hq
  | cons k ds ih =>
    have ho : (f.deleteInternal { key := k, value := none }).1.btree.Ordered := by
      rw [deleteInternal_btree]; exact delete_ordered h _
    rw [applyDeletes_cons] at hok ⊢
    split_ifs at hok ⊢ with h1
    · by_cases hmem : q.key ∈ ds
      · exact ih _ ho hok hmem
      · have hk : q.key = k := by
          rcases List.mem_cons.mp hq with h | h
          · exact h
          · exact absurd h hmem
        rw [applyDeletes_get_of_not_mem _ _ ho _ hmem, deleteInternal_btree, get_delete h]
        simp [hk]
    · exact absurd hok h1

theorem applyDeletes_ok_iff (f : FakeCluster) (ds : List Bytes)
    (h : f.btree.Ordered) (hnd : ds.Nodup) :
    (f.applyDeletes ds).2 = none
      ↔ ∀ k ∈ ds, f.btree.Get { key := k, value := none } ≠ none := by
  induction ds generalizing f with
  | nil => simp [FakeCluster.applyDeletes]
  | cons k ds ih =>
    have ho : (f.deleteInternal { key := k, value := none }).1.btree.Ordered := by
      rw [deleteInternal_btree]; exact delete_ordered h _
    obtain ⟨hk, hnd'⟩ := List.nodup_cons.mp hnd
    rw [applyDeletes_cons]
    split_ifs with h1
    · rw [ih _ ho hnd']
      have h1' := (deleteInternal_err f _).mp h1
      constructor
      · intro hall k' hk'
        rcases List.mem_cons.mp hk' with rfl | hk'
        · exact h1'
        · have := hall k' hk'
          rw [deleteInternal_btree, get_delete h] at this
          intro hn; apply this; simp [hn]
      · intro hall k' hk'
        have := hall k' (List.mem_cons_of_mem _ hk')
        rw [deleteInternal_btree, get_delete h]
        have hne : k' ≠ k := fun e => hk (e ▸ hk')
        simpa [hne] using this
    · constructor
      · intro hc; exact absurd hc h1
      · intro hall
        exact absurd ((deleteInternal_err f _).mpr (hall k (List.mem_cons_self _ _))) h1

end PranaDB

namespace PranaDB

/-! ## Scans -/

/-- The items a scan with the given end bound may still take. -/
theorem iterate_resFunc_unbounded (e : Option Bytes) (xs : List kvWrapper)
    (acc : List KVPair) (c : Int) :
    (BTree.iterate (resFunc e (-1)) (acc, c) xs).1
      = acc ++ (xs.takeWhile fun x =>
          match e with
          | some e => decide (bytesCompare x.key e < 0)
          | none => true).map kvWrapper.toKVPair := by
  induction xs generalizing acc c with
  | nil => simp [BTree.iterate]
  | cons x xs ih =>
    cases e with
    | none =>
      simp only [BTree.iterate, resFunc, true_or, decide_True, if_true]
      rw [ih]; simp
    | some e =>
      by_cases hx : bytesCompare x.key e < 0
      · have hx' : ¬ bytesCompare x.key e ≥ 0 := by omega
        simp only [BTree.iterate, resFunc, hx', if_false, true_or, decide_True, if_true]
        rw [ih]; simp [List.takeWhile_cons, hx]
      · have hx' : bytesCompare x.key e ≥ 0 := by omega
        simp [BTree.iterate, resFunc, hx', List.takeWhile_cons, hx]

theorem iterate_resFunc_limit (e : Option Bytes) (limit : Int) (hl : limit ≠ -1)
    (xs : List kvWrapper) (acc : List KVPair) (c : Int) :
    (BTree.iterate (resFunc e limit) (acc, c) xs).1
      = acc ++ ((xs.takeWhile fun x =>
          match e with
          | some e => decide (bytesCompare x.key e < 0)
          | none => true).take (max 1 (limit - c)).toNat).map kvWrapper.toKVPair := by
  induction xs generalizing acc c with
  | nil => simp [BTree.iterate]
  | cons x xs ih =>
    have key : ∀ (rest : List kvWrapper),
        (if decide (limit = -1 ∨ c + 1 < limit) = true then
            acc ++ [x.toKVPair] ++ (rest.take (max 1 (limit - (c + 1))).toNat).map kvWrapper.toKVPair
          else acc ++ [x.toKVPair])
        = acc ++ ((x :: rest).take (max 1 (limit - c)).toNat).map kvWrapper.toKVPair := by
      intro rest
      by_cases hc : c + 1 < limit
      · have h1 : (max 1 (limit - c)).toNat = (max 1 (limit - (c + 1))).toNat + 1 := by
          omega
        simp [hc, h1]
      · have h1 : (max 1 (limit - c)).toNat = 1 := by omega
        simp [hc, hl, h1]
    cases e with
    | none =>
      simp only [List.takeWhile_cons, if_true]
      rw [← key, BTree.iterate]
      simp only [resFunc]
      split_ifs with h1
      · rw [ih]
      · rfl
    | some e =>
      by_cases hx : bytesCompare x.key e < 0
      · have hx' : ¬ bytesCompare x.key e ≥ 0 := by omega
        simp only [List.takeWhile_cons, hx, decide_True, if_true]
        rw [← key, BTree.iterate]
        simp only [resFunc, hx', if_false]
        split_ifs with h1
        · rw [ih]
        · rfl
      · have hx' : bytesCompare x.key e ≥ 0 := by omega
        simp [BTree.iterate, resFunc, hx', List.takeWhile_cons, hx]

/-- On an ordered list, taking while below a bound is filtering by the bound. -/
theorem takeWhile_eq_filter_of_ordered (e : Bytes) (t : BTree) (ht : t.Ordered) :
    t.takeWhile (fun x => decide (bytesCompare x.key e < 0))
      = t.filter (fun x => decide (bytesCompare x.key e < 0)) := by
  induction t with
  | nil => rfl
  | cons x xs ih =>
    obtain ⟨hx, hxs⟩ := ordered_cons.mp ht
    by_cases h : bytesCompare x.key e < 0
    · simp [List.takeWhile_cons, List.filter_cons, h, ih hxs]
    · simp only [List.takeWhile_cons, List.filter_cons, h, decide_False, Bool.false_eq_true,
        if_false]
      symm
      rw [List.filter_eq_nil_iff]
      intro y hy
      have hxy := (less_iff x y).mp (hx y hy)
      simp only [decide_eq_true_eq, not_lt]
      by_contra hc
      exact h (bytesCompare_lt_trans hxy (by omega))

theorem filter_ordered (p : kvWrapper → Bool) (t : BTree) (ht : t.Ordered) :
    BTree.Ordered (t.filter p) :=
  List.Pairwise.sublist (List.filter_sublist t) ht

theorem not_less_pivot (x : kvWrapper) (start : Bytes) :
    (!x.Less { key := start, value := none }) = decide (bytesCompare start x.key ≤ 0) := by
  rw [Bool.eq_iff_iff]
  simp only [Bool.not_eq_true', less_false_iff, decide_eq_true_eq]
  rw [bytesCompare_swap]; omega

/-- The unbounded scan on an ordered store: the items in the range, in order. -/
theorem localScan_unbounded (f : FakeCluster) (hf : f.btree.Ordered) (start : Bytes)
    (e : Option Bytes) :
    f.LocalScan (some start) e (-1)
      = .ok ((f.btree.filter fun x =>
          decide (bytesCompare start x.key ≤ 0) &&
            match e with
            | some e => decide (bytesCompare x.key e < 0)
            | none => true).map kvWrapper.toKVPair, none) := by
  simp only [FakeCluster.LocalScan, BTree.AscendGreaterOrEqual]
  rw [iterate_resFunc_unbounded]
  simp only [List.nil_append, not_less_pivot]
  cases e with
  | none =>
    have : ∀ l : List kvWrapper, l.takeWhile (fun _ => true) = l := by
      intro l; induction l with
      | nil => rfl
      | cons a l ih => simp [List.takeWhile_cons, ih]
    simp [this]
  | some e =>
    simp only
    rw [takeWhile_eq_filter_of_ordered e _ (filter_ordered _ _ hf), List.filter_filter]
    have : (fun a : kvWrapper => decide (bytesCompare a.key e < 0) && decide (bytesCompare start a.key ≤ 0))
        = fun x => decide (bytesCompare start x.key ≤ 0) && decide (bytesCompare x.key e < 0) := by
      funext x; rw [Bool.and_comm]
    rw [this]

/-- A scan with a limit other than -1 returns the first `max 1 limit` pairs of
the unbounded scan. -/
theorem localScan_limit (f : FakeCluster) (start : Bytes) (e : Option Bytes) (limit : Int)
    (hl : limit ≠ -1) :
    ∃ full, f.LocalScan (some start) e (-1) = .ok (full, none) ∧
      f.LocalScan (some start) e limit = .ok (full.take (max 1 limit).toNat, none) := by
  refine ⟨_, rfl, ?_⟩
  simp only [FakeCluster.LocalScan, BTree.AscendGreaterOrEqual]
  rw [iterate_resFunc_limit _ _ hl, iterate_resFunc_unbounded]
  simp [List.map_take]

/-- Every scan returns a sublist of the stored items, as pairs. -/
theorem localScan_sublist (f : FakeCluster) (start : Bytes) (e : Option Bytes) (limit : Int) :
    ∃ l, List.Sublist l f.btree ∧
      f.LocalScan (some start) e limit = .ok (l.map kvWrapper.toKVPair, none) := by
  by_cases hl : limit = -1
  · subst hl
    refine ⟨(f.btree.filter fun x => !x.Less { key := start, value := none }).takeWhile fun x =>
        match e with
        | some e => decide (bytesCompare x.key e < 0)
        | none => true, ?_, ?_⟩
    · exact (List.takeWhile_sublist _).trans (List.filter_sublist _)
    · simp only [FakeCluster.LocalScan, BTree.AscendGreaterOrEqual]
      rw [iterate_resFunc_unbounded]; rfl
  · refine ⟨((f.btree.filter fun x => !x.Less { key := start, value := none }).takeWhile fun x =>
        match e with
        | some e => decide (bytesCompare x.key e < 0)
        | none => true).take (max 1 (limit - 0)).toNat, ?_, ?_⟩
    · exact ((List.take_sublist _ _).trans (List.takeWhile_sublist _)).trans
        (List.filter_sublist _)
    · simp only [FakeCluster.LocalScan, BTree.AscendGreaterOrEqual]
      rw [iterate_resFunc_limit _ _ hl]; rfl

end PranaDB

namespace PranaDB

/-! ## Write batches -/

theorem writeBatch_btree (base : Nat) (f : FakeCluster) (batch : WriteBatch)
    (hs : ¬ batch.ShardID < base) :
    (f.WriteBatch base batch).1.btree
      = ((f.applyPuts batch.puts).applyDeletes batch.Deletes).1.btree := by
  unfold FakeCluster.WriteBatch
  rw [if_neg hs]
  rcases h : (f.applyPuts batch.puts).applyDeletes batch.Deletes with ⟨f', e⟩
  cases e with
  | some e => rfl
  | none =>
    simp only
    split_ifs <;> rfl

theorem writeBatch_err_iff (base : Nat) (f : FakeCluster) (batch : WriteBatch)
    (hs : ¬ batch.ShardID < base) :
    (∃ e, (f.WriteBatch base batch).2 = .err e)
      ↔ ((f.applyPuts batch.puts).applyDeletes batch.Deletes).2 ≠ none := by
  unfold FakeCluster.WriteBatch
  rw [if_neg hs]
  rcases h : (f.applyPuts batch.puts).applyDeletes batch.Deletes with ⟨f', e⟩
  cases e with
  | some e => simp
  | none =>
    simp only
    split_ifs <;> simp

theorem writeBatch_ok (base : Nat) (f : FakeCluster) (batch : WriteBatch)
    (hok : (f.WriteBatch base batch).2 = .ok) :
    ¬ batch.ShardID < base ∧
      ((f.applyPuts batch.puts).applyDeletes batch.Deletes).2 = none := by
  unfold FakeCluster.WriteBatch at hok
  by_cases hs : batch.ShardID < base
  · rw [if_pos hs] at hok; cases hok
  · refine ⟨hs, ?_⟩
    rw [if_neg hs] at hok
    rcases h : (f.applyPuts batch.puts).applyDeletes batch.Deletes with ⟨f', e⟩
    rw [h] at hok
    cases e with
    | some e => cases hok
    | none => rfl

/-- The store stays ordered under every write batch, whatever its outcome. -/
theorem writeBatch_ordered (base : Nat) (f : FakeCluster) (batch : WriteBatch)
    (hf : f.btree.Ordered) : (f.WriteBatch base batch).1.btree.Ordered := by
  by_cases hs : batch.ShardID < base
  · unfold FakeCluster.WriteBatch; rw [if_pos hs]; exact hf
  · rw [writeBatch_btree _ _ _ hs]
    exact applyDeletes_btree_ordered _ _ (applyPuts_btree_ordered _ _ hf)

/-- A new cluster has an ordered (empty) store. -/
theorem newFakeCluster_ordered (u base : Nat) (nodeID numShards : Int) (f : FakeCluster)
    (h : NewFakeCluster u base nodeID numShards = .ok f) : f.btree.Ordered := by
  unfold NewFakeCluster at h
  split at h
  · cases h
  · cases h; exact ordered_nil

theorem localGet_eq (f : FakeCluster) (k : Bytes) :
    f.LocalGet k = ((f.btree.Get { key := k, value := none }).bind kvWrapper.value, none) := by
  unfold FakeCluster.LocalGet FakeCluster.getInternal
  cases f.btree.Get { key := k, value := none } <;> rfl

/-- The scan of the whole key space lists the store. -/
theorem localScan_all (f : FakeCluster) :
    f.LocalScan (some []) none (-1) = .ok (f.btree.map kvWrapper.toKVPair, none) := by
  simp only [FakeCluster.LocalScan, BTree.AscendGreaterOrEqual]
  rw [iterate_resFunc_unbounded]
  have h1 : ∀ l : List kvWrapper, l.takeWhile (fun _ => true) = l := by
    intro l; induction l with
    | nil => rfl
    | cons a l ih => simp [List.takeWhile_cons, ih]
  have h2 : f.btree.filter (fun x => !x.Less { key := [], value := none }) = f.btree := by
    rw [List.filter_eq_self]
    intro x _
    simp only [Bool.not_eq_true', less_false_iff]
    cases x.key <;> simp [bytesCompare]
  simp [h1, h2]

theorem toKVPair_mem_iff {t : BTree} (ht : t.Ordered) (k : Bytes) (v : Option Bytes) :
    (⟨k, v⟩ : KVPair) ∈ t.map kvWrapper.toKVPair
      ↔ BTree.Get t { key := k, value := none } = some { key := k, value := v } := by
  rw [get_eq_some_iff ht, List.mem_map]
  constructor
  · rintro ⟨x, hx, he⟩
    obtain ⟨xk, xv⟩ := x
    simp only [kvWrapper.toKVPair, KVPair.mk.injEq] at he
    obtain ⟨rfl, rfl⟩ := he
    exact ⟨hx, rfl⟩
  · rintro ⟨hx, _⟩
    exact ⟨_, hx, rfl⟩

theorem key_not_mem_scan_iff {t : BTree} (ht : t.Ordered) (k : Bytes) :
    (∀ p ∈ t.map kvWrapper.toKVPair, p.Key ≠ k)
      ↔ BTree.Get t { key := k, value := none } = none := by
  rw [get_eq_none_iff ht]
  simp [kvWrapper.toKVPair]

/-- C1, as amended. On an ordered store and a batch whose maps hold each key once and
whose shard id is at least `DataShardIDBase`: `WriteBatch` returns an error exactly when
some delete key is neither stored nor among the puts; when it ends without error or
panic, every delete is visible (`LocalGet` gives nil, no scan pair has the key), every
put whose key is not also deleted is visible (`LocalGet` gives its value, the full scan
lists the pair), and a key the batch does not name reads as before. -/
theorem writeBatch_visibility (base : Nat) (f : FakeCluster) (batch : WriteBatch)
    (hf : f.btree.Ordered) (hb : batch.WellFormed) (hs : base ≤ batch.ShardID) :
    ((∃ e, (f.WriteBatch base batch).2 = .err e)
        ↔ ∃ k ∈ batch.Deletes,
            f.btree.Get { key := k, value := none } = none ∧ k ∉ batch.puts.map Prod.fst) ∧
    ((f.WriteBatch base batch).2 = .ok →
      (∀ k ∈ batch.Deletes,
        (f.WriteBatch base batch).1.LocalGet k = (none, none) ∧
          ∃ res, (f.WriteBatch base batch).1.LocalScan (some []) none (-1) = .ok (res, none) ∧
            ∀ p ∈ res, p.Key ≠ k) ∧
      (∀ k v, (k, v) ∈ batch.puts → k ∉ batch.Deletes →
        (f.WriteBatch base batch).1.LocalGet k = (v, none) ∧
          ∃ res, (f.WriteBatch base batch).1.LocalScan (some []) none (-1) = .ok (res, none) ∧
            (⟨k, v⟩ : KVPair) ∈ res) ∧
      (∀ k, k ∉ batch.puts.map Prod.fst → k ∉ batch.Deletes →
        (f.WriteBatch base batch).1.LocalGet k = f.LocalGet k)) := by
  have hs' : ¬ batch.ShardID < base := by omega
  have hpo := applyPuts_btree_ordered f batch.puts hf
  have hord := writeBatch_ordered base f batch hf
  refine ⟨?_, ?_⟩
  · rw [writeBatch_err_iff _ _ _ hs', Ne, applyDeletes_ok_iff _ _ hpo hb.2]
    simp only [not_forall, Classical.not_not, exists_prop]
    constructor
    · rintro ⟨k, hk, hg⟩
      refine ⟨k, hk, ?_⟩
      by_cases hm : k ∈ batch.puts.map Prod.fst
      · obtain ⟨⟨k', v⟩, hkv, rfl⟩ := List.mem_map.mp hm
        rw [applyPuts_get_of_mem f _ hb.1 _ v hkv _ rfl] at hg
        cases hg
      · rw [applyPuts_get_of_not_mem f _ _ hm] at hg
        exact ⟨hg, hm⟩
    · rintro ⟨k, hk, hg, hm⟩
      exact ⟨k, hk, by rw [applyPuts_get_of_not_mem f _ _ hm]; exact hg⟩
  · intro hok
    obtain ⟨_, hdel⟩ := writeBatch_ok _ _ _ hok
    refine ⟨?_, ?_, ?_⟩
    · intro k hk
      have hg : (f.WriteBatch base batch).1.btree.Get { key := k, value := none } = none := by
        rw [writeBatch_btree _ _ _ hs']
        exact applyDeletes_get_of_mem _ _ hpo hdel _ hk
      refine ⟨by rw [localGet_eq, hg]; rfl, _, localScan_all _, ?_⟩
      exact (key_not_mem_scan_iff hord k).mpr hg
    · intro k v hkv hnd
      have hg : (f.WriteBatch base batch).1.btree.Get { key := k, value := none }
          = some { key := k, value := v } := by
        rw [writeBatch_btree _ _ _ hs', applyDeletes_get_of_not_mem _ _ hpo _ hnd]
        exact applyPuts_get_of_mem f _ hb.1 _ v hkv _ rfl
      refine ⟨by rw [localGet_eq, hg]; rfl, _, localScan_all _, ?_⟩
      exact (toKVPair_mem_iff hord k v).mpr hg
    · intro k hp hd
      rw [localGet_eq, localGet_eq, writeBatch_btree _ _ _ hs',
        applyDeletes_get_of_not_mem _ _ hpo _ hd, applyPuts_get_of_not_mem f _ _ hp]

end PranaDB

namespace PranaDB

/-- C1, counterexample. A batch that puts key [1] and deletes the absent key [3] returns
the error of `deleteInternal`, yet its put is visible afterwards, so the store is not
unchanged; and a batch that puts and deletes the same key [1] returns no error, yet its
put is not visible. -/
theorem writeBatch_not_all_or_nothing :
    ((emptyCluster.WriteBatch 1000
        { ShardID := 1000, puts := [([1], some [2])], Deletes := [[3]],
          NotifyRemote := false }).2 = .err "didn't find item to delete" ∧
      emptyCluster.LocalGet [1] = (none, none) ∧
      (emptyCluster.WriteBatch 1000
        { ShardID := 1000, puts := [([1], some [2])], Deletes := [[3]],
          NotifyRemote := false }).1.LocalGet [1] = (some [2], none)) ∧
    ((emptyCluster.WriteBatch 1000
        { ShardID := 1000, puts := [([1], some [2])], Deletes := [[1]],
          NotifyRemote := false }).2 = .ok ∧
      (emptyCluster.WriteBatch 1000
        { ShardID := 1000, puts := [([1], some [2])], Deletes := [[1]],
          NotifyRemote := false }).1.LocalGet [1] = (none, none)) := by
  decide

/-- Witness of `writeBatch_visibility`: a store holding keys [1] and [5], and a batch
that puts [2] and [5] and deletes [1] and [5]. -/
theorem writeBatch_visibility_witness :
    BTree.Ordered [⟨[1], some [7]⟩, ⟨[5], some [8]⟩] ∧
    WriteBatch.WellFormed
      { ShardID := 1000, puts := [([5], some [9]), ([2], none)], Deletes := [[5], [1]],
        NotifyRemote := true } ∧
    1000 ≤ 1000 ∧
    (({ emptyCluster with btree := [⟨[1], some [7]⟩, ⟨[5], some [8]⟩] }).WriteBatch 1000
      { ShardID := 1000, puts := [([5], some [9]), ([2], none)], Deletes := [[5], [1]],
        NotifyRemote := true }).2 = .ok ∧
    (({ emptyCluster with btree := [⟨[1], some [7]⟩, ⟨[5], some [8]⟩] }).WriteBatch 1000
      { ShardID := 1000, puts := [([5], some [9]), ([2], none)], Deletes := [[5], [1]],
        NotifyRemote := true }).1.LocalGet [5] = (none, none) :=
  ⟨by decide, by decide, by decide, by decide,
    (((writeBatch_visibility 1000
      { emptyCluster with btree := [⟨[1], some [7]⟩, ⟨[5], some [8]⟩] }
      { ShardID := 1000, puts := [([5], some [9]), ([2], none)], Deletes := [[5], [1]],
        NotifyRemote := true }
      (by decide) (by decide) (by decide)).2 (by decide)).1 [5] (by decide)).1⟩

/-! ## Claims on scans -/

/-- C5. On an ordered store, for non-nil `start` and `end`, `LocalScan(start, end, -1)`
returns exactly the stored pairs whose key `k` has `start ≤ k < end` in byte order, each
with its stored value, in key order; with a nil end it returns every stored pair whose key
is at least `start`. -/
theorem localScan_range_exact (f : FakeCluster) (hf : f.btree.Ordered) (start stop : Bytes) :
    f.LocalScan (some start) (some stop) (-1)
        = .ok ((f.btree.filter fun x =>
            decide (bytesCompare start x.key ≤ 0) && decide (bytesCompare x.key stop < 0)).map
              kvWrapper.toKVPair, none) ∧
    f.LocalScan (some start) none (-1)
        = .ok ((f.btree.filter fun x => decide (bytesCompare start x.key ≤ 0)).map
              kvWrapper.toKVPair, none) := by
  refine ⟨localScan_unbounded f hf start (some stop), ?_⟩
  rw [localScan_unbounded f hf start none]
  simp

/-- Witness of `localScan_range_exact`: the hundred keys of the scan test, scanned from
"foo-06" to "foo-07". -/
theorem localScan_range_exact_witness :
    scanFixture.btree.Ordered ∧
    scanFixture.LocalScan (some foo06) (some foo07) (-1)
        = .ok ((scanFixture.btree.filter fun x =>
            decide (bytesCompare foo06 x.key ≤ 0) && decide (bytesCompare x.key foo07 < 0)).map
              kvWrapper.toKVPair, none) :=
  ⟨by decide, (localScan_range_exact scanFixture (by decide) foo06 foo07).1⟩

/-- C6. On an ordered store, for every non-nil start, every end and every limit,
`LocalScan` returns, and the keys it returns are in strictly ascending byte order, so no
key appears twice. (With a nil start the call panics and returns no key.) -/
theorem localScan_strictly_ascending (f : FakeCluster) (hf : f.btree.Ordered) (start : Bytes)
    (stop : Option Bytes) (limit : Int) :
    (∃ res, f.LocalScan (some start) stop limit = .ok (res, none) ∧
      res.Pairwise (fun a b => bytesCompare a.Key b.Key < 0) ∧
      (res.map KVPair.Key).Nodup) ∧
    f.LocalScan none stop limit = .error "startKeyPrefix cannot be nil" := by
  refine ⟨?_, rfl⟩
  obtain ⟨l, hsub, hl⟩ := localScan_sublist f start stop limit
  have hp : (l.map kvWrapper.toKVPair).Pairwise (fun a b => bytesCompare a.Key b.Key < 0) := by
    rw [List.pairwise_map]
    have := List.Pairwise.sublist hsub hf
    exact this.imp fun {a b} h => (less_iff a b).mp h
  refine ⟨_, hl, hp, ?_⟩
  rw [List.Nodup, List.pairwise_map]
  refine hp.imp ?_
  intro a b h e
  rw [e, bytesCompare_self] at h
  exact lt_irrefl _ h

/-- Witness of `localScan_strictly_ascending`: the scan test's store, limit 3. -/
theorem localScan_strictly_ascending_witness :
    scanFixture.btree.Ordered ∧
    ∃ res, scanFixture.LocalScan (some foo06) (some foo07) 3 = .ok (res, none) ∧
      res.Pairwise (fun a b => bytesCompare a.Key b.Key < 0) ∧
      (res.map KVPair.Key).Nodup :=
  ⟨by decide,
    (localScan_strictly_ascending scanFixture (by decide) foo06 (some foo07) 3).1⟩

/-- C7. On an ordered store, after a `WriteBatch` that puts `(k, v)`, does not delete `k`
and returns no error, `LocalGet(k)` returns `v` and a nil error, whatever `k` held
before. (Returning no error implies that the shard id is at least `DataShardIDBase`.) -/
theorem put_then_get (base : Nat) (f : FakeCluster) (batch : WriteBatch)
    (hf : f.btree.Ordered) (hb : batch.WellFormed) (k : Bytes) (v : Option Bytes)
    (hput : (k, v) ∈ batch.puts) (hnd : k ∉ batch.Deletes)
    (hok : (f.WriteBatch base batch).2 = .ok) :
    (f.WriteBatch base batch).1.LocalGet k = (v, none) := by
  obtain ⟨hs, _⟩ := writeBatch_ok _ _ _ hok
  have hg : (f.WriteBatch base batch).1.btree.Get { key := k, value := none }
      = some { key := k, value := v } := by
    rw [writeBatch_btree _ _ _ hs,
      applyDeletes_get_of_not_mem _ _ (applyPuts_btree_ordered _ _ hf) _ hnd]
    exact applyPuts_get_of_mem f _ hb.1 _ v hput _ rfl
  rw [localGet_eq, hg]
  rfl

/-- Witness of `put_then_get`: the put of "somekey" over an older value. -/
theorem put_then_get_witness :
    BTree.Ordered [⟨[115, 111, 109, 101, 107, 101, 121], some [1]⟩] ∧
    (({ emptyCluster with btree := [⟨[115, 111, 109, 101, 107, 101, 121], some [1]⟩] }).WriteBatch
      1000 { ShardID := 1000,
             puts := [([115, 111, 109, 101, 107, 101, 121], some (someValue 0))],
             Deletes := [], NotifyRemote := false }).2 = .ok ∧
    (({ emptyCluster with btree := [⟨[115, 111, 109, 101, 107, 101, 121], some [1]⟩] }).WriteBatch
      1000 { ShardID := 1000,
             puts := [([115, 111, 109, 101, 107, 101, 121], some (someValue 0))],
             Deletes := [], NotifyRemote := false }).1.LocalGet
        [115, 111, 109, 101, 107, 101, 121] = (some (someValue 0), none) :=
  ⟨by decide, by decide,
    put_then_get 1000
      { emptyCluster with btree := [⟨[115, 111, 109, 101, 107, 101, 121], some [1]⟩] }
      { ShardID := 1000, puts := [([115, 111, 109, 101, 107, 101, 121], some (someValue 0))],
        Deletes := [], NotifyRemote := false }
      (by decide) (by decide) _ _ (by decide) (by decide) (by decide)⟩

/-- C8. On an ordered store, after a `WriteBatch` whose deletes contain `k` returns no
error, `LocalGet(k)` returns nil and a nil error (also when the batch puts `k` as well);
and `LocalGet` of a key that no stored item has returns nil and a nil error. -/
theorem put_then_delete (base : Nat) (f : FakeCluster) (batch : WriteBatch)
    (hf : f.btree.Ordered) (k : Bytes) (hdel : k ∈ batch.Deletes)
    (hok : (f.WriteBatch base batch).2 = .ok) :
    (f.WriteBatch base batch).1.LocalGet k = (none, none) ∧
      ∀ k', (∀ x ∈ f.btree, x.key ≠ k') → f.LocalGet k' = (none, none) := by
  obtain ⟨hs, hdok⟩ := writeBatch_ok _ _ _ hok
  constructor
  · rw [localGet_eq, writeBatch_btree _ _ _ hs,
      applyDeletes_get_of_mem _ _ (applyPuts_btree_ordered _ _ hf) hdok _ hdel]
    rfl
  · intro k' hk'
    rw [localGet_eq, (get_eq_none_iff hf _).mpr hk']
    rfl

/-- Witness of `put_then_delete`: "somekey" is stored, then deleted. -/
theorem put_then_delete_witness :
    BTree.Ordered [⟨[115, 111, 109, 101, 107, 101, 121], some (someValue 0)⟩] ∧
    (({ emptyCluster with
          btree := [⟨[115, 111, 109, 101, 107, 101, 121], some (someValue 0)⟩] }).WriteBatch
      1000 { ShardID := 1000, puts := [], Deletes := [[115, 111, 109, 101, 107, 101, 121]],
             NotifyRemote := false }).2 = .ok ∧
    (({ emptyCluster with
          btree := [⟨[115, 111, 109, 101, 107, 101, 121], some (someValue 0)⟩] }).WriteBatch
      1000 { ShardID := 1000, puts := [], Deletes := [[115, 111, 109, 101, 107, 101, 121]],
             NotifyRemote := false }).1.LocalGet
        [115, 111, 109, 101, 107, 101, 121] = (none, none) :=
  ⟨by decide, by decide,
    (put_then_delete 1000
      { emptyCluster with
          btree := [⟨[115, 111, 109, 101, 107, 101, 121], some (someValue 0)⟩] }
      { ShardID := 1000, puts := [], Deletes := [[115, 111, 109, 101, 107, 101, 121]],
        NotifyRemote := false }
      (by decide) _ (by decide) (by decide)).1⟩

/-- C9, the code at the failing input. With limit 0 the scan of a store holding two keys
returns one pair, not none: the callback appends the pair before it tests the count
against the limit. -/
theorem localScan_limit_zero_returns_one :
    ({ emptyCluster with btree := [⟨[1], some [7]⟩, ⟨[5], some [8]⟩] }).LocalScan
      (some [1]) none 0 = .ok ([⟨[1], some [7]⟩], none) := by
  rfl

end PranaDB

namespace PranaDB

/-! ## Scans by prefix -/

theorem localScan_start_eq_end (f : FakeCluster) (p : Bytes) :
    f.LocalScan (some p) (some p) (-1) = .ok ([], none) := by
  simp only [FakeCluster.LocalScan, BTree.AscendGreaterOrEqual]
  rw [iterate_resFunc_unbounded]
  simp only [List.nil_append]
  have : (f.btree.filter fun x => !x.Less { key := p, value := none }).takeWhile
      (fun x => decide (bytesCompare x.key p < 0)) = [] := by
    generalize hl : (f.btree.filter fun x => !x.Less { key := p, value := none }) = l
    cases l with
    | nil => rfl
    | cons x xs =>
      have hx : x ∈ f.btree.filter fun x => !x.Less { key := p, value := none } := by
        rw [hl]; exact List.mem_cons_self _ _
      have := (List.mem_filter.mp hx).2
      simp only [Bool.not_eq_true', less_false_iff] at this
      have h2 : ¬ bytesCompare x.key p < 0 := by omega
      simp [List.takeWhile_cons, h2]
  rw [this]; rfl

theorem prefix_iff_in_range (q : Bytes) (c : Nat) (k : Bytes) :
    (bytesCompare (q ++ [c]) k ≤ 0 ∧ bytesCompare k (q ++ [c + 1]) < 0) ↔ (q ++ [c]) <+: k := by
  induction q generalizing k with
  | nil =>
    cases k with
    | nil => simp [bytesCompare]
    | cons d r =>
      simp only [List.nil_append, bytesCompare, List.cons_prefix_cons, List.nil_prefix, and_true]
      have h1 : bytesCompare [] r ≤ 0 := by cases r <;> simp [bytesCompare]
      have h2 : 0 ≤ bytesCompare r [] := by cases r <;> simp [bytesCompare]
      split_ifs <;> constructor <;> intro h <;> omega
  | cons a q ih =>
    cases k with
    | nil => simp [bytesCompare]
    | cons d r =>
      simp only [List.cons_append, bytesCompare, List.cons_prefix_cons]
      rw [← ih r]
      split_ifs <;> constructor <;> intro h <;>
        first
        | omega
        | exact absurd h.1 (by omega)
        | exact ⟨by omega, h⟩
        | exact h.2

/-- C10, as amended. On an ordered store, a scan whose start and end are the same byte
string returns no pair, the end being exclusive; the stored pairs whose key begins with a
prefix `p = q ++ [c]` are exactly the result of the scan from `p` to `q ++ [c + 1]`, in
ascending key order. -/
theorem localScan_of_prefix_exact (f : FakeCluster) (hf : f.btree.Ordered) (q : Bytes) (c : Nat)
    (hc : c < 255) :
    f.LocalScan (some (q ++ [c])) (some (q ++ [c])) (-1) = .ok ([], none) ∧
    f.LocalScan (some (q ++ [c])) (some (q ++ [c + 1])) (-1)
      = .ok ((f.btree.filter fun x => decide ((q ++ [c]) <+: x.key)).map
          kvWrapper.toKVPair, none) ∧
    ((f.btree.filter fun x => decide ((q ++ [c]) <+: x.key)).map kvWrapper.toKVPair).Pairwise
      (fun a b => bytesCompare a.Key b.Key < 0) ∧
    c + 1 < 256 := by
  have hscan : f.LocalScan (some (q ++ [c])) (some (q ++ [c + 1])) (-1)
      = .ok ((f.btree.filter fun x => decide ((q ++ [c]) <+: x.key)).map
          kvWrapper.toKVPair, none) := by
    rw [localScan_unbounded f hf (q ++ [c]) (some (q ++ [c + 1]))]
    congr 3
    apply List.filter_congr
    intro x _
    rw [Bool.eq_iff_iff]
    simp only [Bool.and_eq_true, decide_eq_true_eq]
    exact prefix_iff_in_range q c x.key
  refine ⟨localScan_start_eq_end f _, hscan, ?_, by omega⟩
  rw [List.pairwise_map]
  exact (filter_ordered _ _ hf).imp fun {a b} h => (less_iff a b).mp h

/-- C10, counterexample. On the hundred keys of the scan test, ten stored keys begin with
"foo-06", yet the scan with "foo-06" as start and as end returns no pair. -/
theorem localScan_same_start_end_empty :
    scanFixture.LocalScan (some foo06) (some foo06) (-1) = .ok ([], none) ∧
    (scanFixture.btree.filter fun x => decide (foo06 <+: x.key)).map kvWrapper.toKVPair
      = (List.range 10).map fun j => ⟨fooBarKey 6 j, some (someValue j)⟩ :=
  ⟨rfl, by decide⟩

/-- Witness of `localScan_of_prefix_exact`: on the hundred keys of the scan test, the scan
from "foo-06" to "foo-07" returns the ten pairs foo-06/bar-00 .. foo-06/bar-09 in
order. -/
theorem localScan_of_prefix_exact_witness :
    scanFixture.btree.Ordered ∧ 54 < 255 ∧
    scanFixture.LocalScan (some ([102, 111, 111, 45, 48] ++ [54]))
        (some ([102, 111, 111, 45, 48] ++ [54 + 1])) (-1)
      = .ok ((scanFixture.btree.filter fun x =>
          decide (([102, 111, 111, 45, 48] ++ [54]) <+: x.key)).map kvWrapper.toKVPair, none) ∧
    (scanFixture.btree.filter fun x =>
        decide (([102, 111, 111, 45, 48] ++ [54]) <+: x.key)).map kvWrapper.toKVPair
      = (List.range 10).map fun j => ⟨fooBarKey 6 j, some (someValue j)⟩ :=
  ⟨by decide, by decide,
    (localScan_of_prefix_exact scanFixture (by decide) [102, 111, 111, 45, 48] 54
      (by decide)).2.1,
    by decide⟩

end PranaDB

namespace PranaDB

/-! ## Big-endian prefixes -/

theorem appendUint64BE_eq (buffer : Bytes) (v : Nat) :
    AppendUint64ToBufferBigEndian buffer v = buffer ++ AppendUint64ToBufferBigEndian [] v := by
  simp [AppendUint64ToBufferBigEndian]

theorem appendUint64BE_length (v : Nat) : (AppendUint64ToBufferBigEndian [] v).length = 8 := by
  simp [AppendUint64ToBufferBigEndian]

theorem appendUint64BE_byte (v : Nat) : ∀ x ∈ AppendUint64ToBufferBigEndian [] v, x < 256 := by
  intro x hx
  simp only [AppendUint64ToBufferBigEndian, List.nil_append, List.mem_cons, List.mem_singleton,
    List.not_mem_nil, or_false] at hx
  rcases hx with h | h | h | h | h | h | h | h <;> (rw [h]; exact Nat.mod_lt _ (by norm_num))

theorem beValue_lt (l : Bytes) (hl : ∀ x ∈ l, x < 256) : beValue l < 256 ^ l.length := by
  induction l with
  | nil => simp [beValue]
  | cons x l ih =>
    have hx : x < 256 := hl x (List.mem_cons_self _ _)
    have := ih fun y hy => hl y (List.mem_cons_of_mem _ hy)
    simp only [beValue, List.length_cons, pow_succ]
    nlinarith

theorem beValue_append (l r : Bytes) :
    beValue (l ++ r) = beValue l * 256 ^ r.length + beValue r := by
  induction l with
  | nil => simp [beValue]
  | cons x l ih =>
    rw [List.cons_append, beValue, beValue, ih, List.length_append, pow_add]
    ring

/-- Comparing two buffers that start with byte strings of one length compares the numbers
these denote first and the remainders next. -/
theorem bytesCompare_of_beValue (l₁ l₂ r s : Bytes) (hlen : l₁.length = l₂.length)
    (h₁ : ∀ x ∈ l₁, x < 256) (h₂ : ∀ x ∈ l₂, x < 256) :
    bytesCompare (l₁ ++ r) (l₂ ++ s)
      = if beValue l₁ < beValue l₂ then -1
        else if beValue l₂ < beValue l₁ then 1 else bytesCompare r s := by
  induction l₁ generalizing l₂ with
  | nil =>
    cases l₂ with
    | nil => simp [beValue]
    | cons y l₂ => simp at hlen
  | cons x l₁ ih =>
    cases l₂ with
    | nil => simp at hlen
    | cons y l₂ =>
      simp only [List.length_cons, add_left_inj] at hlen
      have hv₁ := beValue_lt l₁ fun z hz => h₁ z (List.mem_cons_of_mem _ hz)
      have hv₂ := beValue_lt l₂ fun z hz => h₂ z (List.mem_cons_of_mem _ hz)
      have ih' := ih l₂ hlen (fun z hz => h₁ z (List.mem_cons_of_mem _ hz))
        (fun z hz => h₂ z (List.mem_cons_of_mem _ hz))
      rw [List.cons_append, List.cons_append, bytesCompare, beValue, beValue, ih', hlen]
      rw [hlen] at hv₁
      have hpos : 0 < 256 ^ l₂.length := by positivity
      by_cases hxy : x < y
      · have : x * 256 ^ l₂.length + beValue l₁ < y * 256 ^ l₂.length + beValue l₂ := by
          nlinarith
        simp [hxy, this]
      · by_cases hyx : y < x
        · have h1 : y * 256 ^ l₂.length + beValue l₂ < x * 256 ^ l₂.length + beValue l₁ := by
            nlinarith
          have h2 : ¬ x * 256 ^ l₂.length + beValue l₁ < y * 256 ^ l₂.length + beValue l₂ := by
            omega
          simp [hxy, hyx, h1, h2]
        · have : x = y := by omega
          subst this
          simp

theorem appendUint64BE_value (v : Nat) (hv : v < 2 ^ 64) :
    beValue (AppendUint64ToBufferBigEndian [] v) = v := by
  simp only [AppendUint64ToBufferBigEndian, List.nil_append, beValue, List.length_cons,
    List.length_nil]
  norm_num at hv ⊢
  omega

theorem bytesCompare_appendUint64BE (a b : Nat) (ha : a < 2 ^ 64) (hb : b < 2 ^ 64)
    (r s : Bytes) :
    bytesCompare (AppendUint64ToBufferBigEndian [] a ++ r)
        (AppendUint64ToBufferBigEndian [] b ++ s)
      = if a < b then -1 else if b < a then 1 else bytesCompare r s := by
  rw [bytesCompare_of_beValue _ _ _ _ (by simp [appendUint64BE_length])
    (appendUint64BE_byte a) (appendUint64BE_byte b), appendUint64BE_value a ha,
    appendUint64BE_value b hb]

/-- C4, counterexample. With a negative capacity `make` panics and no prefix is
returned. -/
theorem encodeTableKeyPrefix_negative_capacity :
    EncodeTableKeyPrefix 1 2 (-1) = .error "makeslice: cap out of range" := by
  rfl

/-- C4, as amended. For every capacity that is not negative, and 64-bit ids,
`EncodeTableKeyPrefix(tableID, shardID, capac)` is exactly the 16 bytes big-endian(shardID)
followed by big-endian(tableID): sixteen bytes that denote `shardID * 2^64 + tableID` most
significant byte first. It preserves order: the prefix of `(s1, t1)` is lexicographically
less than the prefix of `(s2, t2)` if and only if `s1 < s2`, or `s1 = s2` and `t1 < t2`. -/
theorem encodeTableKeyPrefix_order (t₁ s₁ t₂ s₂ : Nat) (c₁ c₂ : Int)
    (ht₁ : t₁ < 2 ^ 64) (hs₁ : s₁ < 2 ^ 64) (ht₂ : t₂ < 2 ^ 64) (hs₂ : s₂ < 2 ^ 64)
    (hc₁ : 0 ≤ c₁) (hc₂ : 0 ≤ c₂) :
    ∃ b₁ b₂, EncodeTableKeyPrefix t₁ s₁ c₁ = .ok b₁ ∧ EncodeTableKeyPrefix t₂ s₂ c₂ = .ok b₂ ∧
      b₁ = AppendUint64ToBufferBigEndian [] s₁ ++ AppendUint64ToBufferBigEndian [] t₁ ∧
      b₁.length = 16 ∧ (∀ x ∈ b₁, x < 256) ∧ beValue b₁ = s₁ * 2 ^ 64 + t₁ ∧
      (bytesCompare b₁ b₂ < 0 ↔ s₁ < s₂ ∨ (s₁ = s₂ ∧ t₁ < t₂)) := by
  have e₁ : EncodeTableKeyPrefix t₁ s₁ c₁
      = .ok (AppendUint64ToBufferBigEndian [] s₁ ++ AppendUint64ToBufferBigEndian [] t₁) := by
    unfold EncodeTableKeyPrefix
    rw [if_neg (by omega), appendUint64BE_eq]
  have e₂ : EncodeTableKeyPrefix t₂ s₂ c₂
      = .ok (AppendUint64ToBufferBigEndian [] s₂ ++ AppendUint64ToBufferBigEndian [] t₂) := by
    unfold EncodeTableKeyPrefix
    rw [if_neg (by omega), appendUint64BE_eq]
  refine ⟨_, _, e₁, e₂, rfl, by simp [appendUint64BE_length], ?_, ?_, ?_⟩
  · intro x hx
    rcases List.mem_append.mp hx with h | h
    · exact appendUint64BE_byte _ x h
    · exact appendUint64BE_byte _ x h
  · rw [beValue_append, appendUint64BE_value s₁ hs₁, appendUint64BE_value t₁ ht₁,
      appendUint64BE_length]
    norm_num
  · rw [bytesCompare_appendUint64BE s₁ s₂ hs₁ hs₂]
    have ht := bytesCompare_appendUint64BE t₁ t₂ ht₁ ht₂ [] []
    simp only [List.append_nil] at ht
    rw [ht]
    simp only [bytesCompare]
    split_ifs <;> constructor <;> intro h <;> omega

/-- Witness of `encodeTableKeyPrefix_order`: shard 1000, tables 7 and 300, capacity 32. -/
theorem encodeTableKeyPrefix_order_witness :
    (7 : Nat) < 2 ^ 64 ∧ (1000 : Nat) < 2 ^ 64 ∧ (300 : Nat) < 2 ^ 64 ∧ (0 : Int) ≤ 32 ∧
    EncodeTableKeyPrefix 7 1000 32
      = .ok [0, 0, 0, 0, 0, 0, 3, 232, 0, 0, 0, 0, 0, 0, 0, 7] ∧
    ∃ b₁ b₂, EncodeTableKeyPrefix 7 1000 32 = .ok b₁ ∧ EncodeTableKeyPrefix 300 1000 32 = .ok b₂ ∧
      b₁ = AppendUint64ToBufferBigEndian [] 1000 ++ AppendUint64ToBufferBigEndian [] 7 ∧
      b₁.length = 16 ∧ (∀ x ∈ b₁, x < 256) ∧ beValue b₁ = 1000 * 2 ^ 64 + 7 ∧
      (bytesCompare b₁ b₂ < 0 ↔ 1000 < 1000 ∨ (1000 = 1000 ∧ 7 < 300)) :=
  ⟨by decide, by decide, by decide, by decide, rfl,
    encodeTableKeyPrefix_order 7 1000 300 1000 32 32 (by decide) (by decide) (by decide)
      (by decide) (by decide) (by decide)⟩

end PranaDB

namespace PranaDB

/-! ## Row codec -/

theorem drop_prefix_take (pre x post : Bytes) :
    ((pre ++ x ++ post).drop pre.length).take x.length = x := by
  rw [List.append_assoc, List.drop_left, List.take_left]

theorem leValue_uint64 (v : Nat) (hv : v < 2 ^ 64) :
    leValue (AppendUint64ToBufferLE [] v) = v := by
  simp only [AppendUint64ToBufferLE, List.nil_append, leValue]
  norm_num at hv ⊢
  omega

theorem leValue_uint32 (v : Nat) (hv : v < 2 ^ 32) :
    leValue (AppendUint32ToBufferLE [] v) = v := by
  simp only [AppendUint32ToBufferLE, List.nil_append, leValue]
  norm_num at hv ⊢
  omega

theorem appendUint64LE_eq (buffer : Bytes) (v : Nat) :
    AppendUint64ToBufferLE buffer v = buffer ++ AppendUint64ToBufferLE [] v := by
  simp [AppendUint64ToBufferLE]

theorem appendUint32LE_eq (buffer : Bytes) (v : Nat) :
    AppendUint32ToBufferLE buffer v = buffer ++ AppendUint32ToBufferLE [] v := by
  simp [AppendUint32ToBufferLE]

theorem appendUint64LE_length (v : Nat) : (AppendUint64ToBufferLE [] v).length = 8 := by
  simp [AppendUint64ToBufferLE]

theorem appendUint32LE_length (v : Nat) : (AppendUint32ToBufferLE [] v).length = 4 := by
  simp [AppendUint32ToBufferLE]

/-- Reading back an appended 64-bit value, wherever it lies in the buffer. -/
theorem readUint64LE_append (pre post : Bytes) (v : Nat) (hv : v < 2 ^ 64) :
    ReadUint64FromBufferLE (pre ++ AppendUint64ToBufferLE [] v ++ post) pre.length
      = .ok (v, pre.length + 8) := by
  unfold ReadUint64FromBufferLE
  have hlen : pre.length + 8 ≤ (pre ++ AppendUint64ToBufferLE [] v ++ post).length := by
    simp [appendUint64LE_length]
  rw [if_pos hlen]
  have := drop_prefix_take pre (AppendUint64ToBufferLE [] v) post
  rw [appendUint64LE_length] at this
  rw [this, leValue_uint64 v hv]

theorem readUint32LE_append (pre post : Bytes) (v : Nat) (hv : v < 2 ^ 32) :
    ReadUint32FromBufferLE (pre ++ AppendUint32ToBufferLE [] v ++ post) pre.length
      = .ok (v, pre.length + 4) := by
  unfold ReadUint32FromBufferLE
  have hlen : pre.length + 4 ≤ (pre ++ AppendUint32ToBufferLE [] v ++ post).length := by
    simp [appendUint32LE_length]
  rw [if_pos hlen]
  have := drop_prefix_take pre (AppendUint32ToBufferLE [] v) post
  rw [appendUint32LE_length] at this
  rw [this, leValue_uint32 v hv]

theorem toUint64_lt (v : Int) : toUint64 v < 2 ^ 64 := by
  unfold toUint64
  have h := Int.emod_lt_of_pos v (show (0 : Int) < 2 ^ 64 by norm_num)
  have h0 := Int.emod_nonneg v (show (2 : Int) ^ 64 ≠ 0 by norm_num)
  zify
  rw [Int.toNat_of_nonneg h0]
  exact_mod_cast h

theorem toInt64_toUint64 (v : Int) (h₁ : -(2 : Int) ^ 63 ≤ v) (h₂ : v < 2 ^ 63) :
    toInt64 (toUint64 v) = v := by
  unfold toInt64 toUint64
  have h0 := Int.emod_nonneg v (show (2 : Int) ^ 64 ≠ 0 by norm_num)
  have hcast : (((v % 2 ^ 64).toNat : Nat) : Int) = v % 2 ^ 64 := Int.toNat_of_nonneg h0
  norm_num at h₁ h₂ hcast ⊢
  split_ifs with h <;> omega

theorem beBytes_length (n v : Nat) : (beBytes n v).length = n := by
  induction n generalizing v with
  | zero => rfl
  | succ n ih => simp [beBytes, ih]

theorem beBytes_byte (n v : Nat) : ∀ x ∈ beBytes n v, x < 256 := by
  induction n generalizing v with
  | zero => simp [beBytes]
  | succ n ih =>
    intro x hx
    simp only [beBytes, List.mem_append, List.mem_singleton] at hx
    rcases hx with h | h
    · exact ih _ x h
    · rw [h]; exact Nat.mod_lt _ (by norm_num)

theorem beValue_beBytes (n v : Nat) (hv : v < 256 ^ n) : beValue (beBytes n v) = v := by
  induction n generalizing v with
  | zero => simp at hv; simp [beBytes, beValue, hv]
  | succ n ih =>
    have h1 : v / 256 < 256 ^ n := by
      rw [Nat.div_lt_iff_lt_mul (by norm_num)]
      rw [pow_succ] at hv; exact hv
    rw [beBytes, beValue_append, ih _ h1]
    simp only [List.length_singleton, pow_one, beValue, List.length_nil, pow_zero, mul_one,
      add_zero]
    omega

theorem decimal_fits (p : Nat) : 2 * 10 ^ p ≤ 256 ^ (p / 2 + 1) := by
  have hp : p = 2 * (p / 2) + p % 2 := by omega
  have h10 : 10 ^ p ≤ 100 ^ (p / 2) * 10 := by
    conv_lhs => rw [hp, pow_add, pow_mul]
    norm_num
    rcases Nat.mod_two_eq_zero_or_one p with h | h <;> rw [h] <;> norm_num
  have h100 : 100 ^ (p / 2) ≤ 256 ^ (p / 2) := Nat.pow_le_pow_left (by norm_num) _
  rw [pow_succ]
  generalize 256 ^ (p / 2) = x at h100 ⊢
  generalize 100 ^ (p / 2) = y at h10 h100
  generalize 10 ^ p = z at h10 ⊢
  omega

theorem packDecimal_length (p sc : Nat) (u : Int) :
    (packDecimal p sc u).length = decimalWidth p sc := by
  simp [packDecimal, beBytes_length]

theorem unpack_packDecimal (p sc : Nat) (u : Int) (h₁ : -(10 : Int) ^ p < u)
    (h₂ : u < 10 ^ p) : unpackDecimal p (packDecimal p sc u) = u := by
  unfold unpackDecimal packDecimal decimalWidth
  have hfit := decimal_fits p
  have hnn : 0 ≤ u + 10 ^ p := by linarith
  have hlt : (u + 10 ^ p).toNat < 256 ^ (p / 2 + 1) := by
    zify
    rw [Int.toNat_of_nonneg hnn]
    have : (2 : Int) * 10 ^ p ≤ 256 ^ (p / 2 + 1) := by exact_mod_cast hfit
    linarith
  rw [beValue_beBytes _ _ hlt, Int.toNat_of_nonneg hnn]
  ring

end PranaDB

namespace PranaDB

theorem bitsValue_testBit (bs : List Bool) (k : Nat) :
    bitsValue bs / 2 ^ k % 2 = 1 ↔ bs.getD k false = true := by
  induction bs generalizing k with
  | nil => simp [bitsValue]
  | cons b bs ih =>
    cases k with
    | zero =>
      cases b <;> simp [bitsValue]
    | succ k =>
      have : bitsValue (b :: bs) / 2 ^ (k + 1) = bitsValue bs / 2 ^ k := by
        rw [pow_succ, mul_comm, ← Nat.div_div_eq_div_mul]
        congr 1
        cases b
        · simp [bitsValue]
        · simp only [bitsValue, if_true]
          omega
      rw [this, ih k]
      simp

theorem nullBitmap_length (row : Row) : (nullBitmap row).length = (row.length + 7) / 8 := by
  simp [nullBitmap]

theorem isNullAt_nullBitmap (row : Row) (i : Nat) :
    isNullAt (nullBitmap row) i = (row.map Value.isNull).getD i false := by
  unfold isNullAt
  rw [Bool.eq_iff_iff, decide_eq_true_eq]
  by_cases hj : i / 8 < (row.length + 7) / 8
  · have hb : (nullBitmap row).getD (i / 8) 0
        = bitsValue (((row.map Value.isNull).drop (8 * (i / 8))).take 8) := by
      rw [List.getD_eq_getElem _ _ (by rw [nullBitmap_length]; exact hj)]
      simp [nullBitmap]
    rw [hb, bitsValue_testBit]
    have hk : i % 8 < 8 := Nat.mod_lt _ (by norm_num)
    have hi : 8 * (i / 8) + i % 8 = i := Nat.div_add_mod i 8
    simp only [List.getD_eq_getElem?_getD, List.getElem?_take, hk, if_true, List.getElem?_drop, hi]
  · have hb : (nullBitmap row).getD (i / 8) 0 = 0 := by
      rw [List.getD_eq_default]
      rw [nullBitmap_length]; omega
    have hlen : (row.map Value.isNull).length ≤ i := by
      rw [List.length_map]; omega
    rw [hb, List.getD_eq_default _ _ hlen]
    simp

/-- The payload of a valid cell that is not NULL is read back by `decodeValue`, wherever
it lies in the buffer. -/
theorem decodeValue_encodeValue (v : Value) (t : ColumnType) (hv : v.validFor t = true)
    (hn : v.isNull = false) :
    ∃ p, (∀ pre, encodeValue pre v t = .ok (pre ++ p)) ∧
      ∀ pre post, decodeValue (pre ++ p ++ post) pre.length t = .ok (v, (pre ++ p).length) := by
  cases v with
  | null => simp [Value.isNull] at hn
  | int64 x =>
    have key : ∀ pre post,
        ReadUint64FromBufferLE (pre ++ AppendUint64ToBufferLE [] (toUint64 x) ++ post) pre.length
          = .ok (toUint64 x, (pre ++ AppendUint64ToBufferLE [] (toUint64 x)).length) := by
      intro pre post
      rw [readUint64LE_append _ _ _ (toUint64_lt x), List.length_append, appendUint64LE_length]
    cases t with
    | TinyInt =>
      simp only [Value.validFor, decide_eq_true_eq] at hv
      refine ⟨AppendUint64ToBufferLE [] (toUint64 x), fun pre => ?_, fun pre post => ?_⟩
      · rw [encodeValue, appendUint64LE_eq]
      · simp only [decodeValue, key, toInt64_toUint64 x hv.1 hv.2]
    | Int =>
      simp only [Value.validFor, decide_eq_true_eq] at hv
      refine ⟨AppendUint64ToBufferLE [] (toUint64 x), fun pre => ?_, fun pre post => ?_⟩
      · rw [encodeValue, appendUint64LE_eq]
      · simp only [decodeValue, key, toInt64_toUint64 x hv.1 hv.2]
    | BigInt =>
      simp only [Value.validFor, decide_eq_true_eq] at hv
      refine ⟨AppendUint64ToBufferLE [] (toUint64 x), fun pre => ?_, fun pre post => ?_⟩
      · rw [encodeValue, appendUint64LE_eq]
      · simp only [decodeValue, key, toInt64_toUint64 x hv.1 hv.2]
    | Double => simp [Value.validFor] at hv
    | Varchar => simp [Value.validFor] at hv
    | Decimal p sc => simp [Value.validFor] at hv
  | float64 b =>
    cases t with
    | Double =>
      simp only [Value.validFor, decide_eq_true_eq] at hv
      refine ⟨AppendUint64ToBufferLE [] b, fun pre => ?_, fun pre post => ?_⟩
      · rw [encodeValue, appendUint64LE_eq]
      · simp only [decodeValue, readUint64LE_append _ _ _ hv, List.length_append,
          appendUint64LE_length]
    | TinyInt => simp [Value.validFor] at hv
    | Int => simp [Value.validFor] at hv
    | BigInt => simp [Value.validFor] at hv
    | Varchar => simp [Value.validFor] at hv
    | Decimal p sc => simp [Value.validFor] at hv
  | string s =>
    cases t with
    | Varchar =>
      simp only [Value.validFor, decide_eq_true_eq] at hv
      refine ⟨AppendUint32ToBufferLE [] s.length ++ s, fun pre => ?_, fun pre post => ?_⟩
      · rw [encodeValue, appendUint32LE_eq, List.append_assoc]
      · have e1 : pre ++ (AppendUint32ToBufferLE [] s.length ++ s) ++ post
            = pre ++ AppendUint32ToBufferLE [] s.length ++ (s ++ post) := by
          simp only [List.append_assoc]
        have e2 : pre ++ (AppendUint32ToBufferLE [] s.length ++ s) ++ post
            = (pre ++ AppendUint32ToBufferLE [] s.length) ++ s ++ post := by
          simp only [List.append_assoc]
        have hd := drop_prefix_take (pre ++ AppendUint32ToBufferLE [] s.length) s post
        rw [List.length_append, appendUint32LE_length] at hd
        have hl : pre.length + 4 + s.length
            ≤ (pre ++ (AppendUint32ToBufferLE [] s.length ++ s) ++ post).length := by
          simp only [List.length_append, appendUint32LE_length]; omega
        rw [decodeValue]
        conv_lhs => rw [e1, readUint32LE_append _ _ _ hv.2]
        simp only
        rw [← e1, if_pos hl, e2, hd]
        simp only [List.length_append, appendUint32LE_length]
        rw [Nat.add_assoc]
    | TinyInt => simp [Value.validFor] at hv
    | Int => simp [Value.validFor] at hv
    | BigInt => simp [Value.validFor] at hv
    | Double => simp [Value.validFor] at hv
    | Decimal p sc => simp [Value.validFor] at hv
  | decimal u =>
    cases t with
    | Decimal p sc =>
      simp only [Value.validFor, decide_eq_true_eq] at hv
      refine ⟨packDecimal p sc u, fun pre => ?_, fun pre post => ?_⟩
      · rw [encodeValue]
      · have hd := drop_prefix_take pre (packDecimal p sc u) post
        rw [packDecimal_length] at hd
        have hl : pre.length + decimalWidth p sc
            ≤ (pre ++ packDecimal p sc u ++ post).length := by
          simp only [List.length_append, packDecimal_length]; omega
        rw [decodeValue, if_pos hl, hd, unpack_packDecimal p sc u hv.1 hv.2]
        simp only [List.length_append, packDecimal_length]
    | TinyInt => simp [Value.validFor] at hv
    | Int => simp [Value.validFor] at hv
    | BigInt => simp [Value.validFor] at hv
    | Double => simp [Value.validFor] at hv
    | Varchar => simp [Value.validFor] at hv

theorem eq_null_of_isNull (v : Value) (h : v.isNull = true) : v = .null := by
  cases v <;> simp [Value.isNull] at h ⊢

theorem encodeCols_cons_of_not_null (buffer buffer' : Bytes) (v : Value) (vs : Row)
    (t : ColumnType) (ts : List ColumnType) (hn : v.isNull = false)
    (he : encodeValue buffer v t = .ok buffer') :
    encodeCols buffer (v :: vs) (t :: ts) = encodeCols buffer' vs ts := by
  cases v with
  | null => simp [Value.isNull] at hn
  | int64 x => simp [encodeCols, he]
  | float64 b => simp [encodeCols, he]
  | string s => simp [encodeCols, he]
  | decimal u => simp [encodeCols, he]

/-- The payloads of a valid row are read back by `decodeCols`, given a bitmap that marks
the NULL cells. -/
theorem decodeCols_encodeCols (vs : Row) (ts : List ColumnType) (hv : Row.validFor vs ts = true) :
    ∃ pay, (∀ pre, encodeCols pre vs ts = .ok (pre ++ pay)) ∧
      ∀ (pre post bitmap : Bytes) (i : Nat),
        (∀ j, j < vs.length → isNullAt bitmap (i + j) = (vs.map Value.isNull).getD j false) →
        decodeCols (pre ++ pay ++ post) bitmap ts i pre.length = .ok vs := by
  induction vs generalizing ts with
  | nil =>
    cases ts with
    | nil => exact ⟨[], fun pre => by simp [encodeCols], fun _ _ _ _ _ => by simp [decodeCols]⟩
    | cons t ts => simp [Row.validFor] at hv
  | cons v vs ih =>
    cases ts with
    | nil => simp [Row.validFor] at hv
    | cons t ts =>
      simp only [Row.validFor, Bool.and_eq_true] at hv
      obtain ⟨pay', henc', hdec'⟩ := ih ts hv.2
      have hbits : ∀ (bitmap : Bytes) (i : Nat),
          (∀ j, j < (v :: vs).length →
            isNullAt bitmap (i + j) = ((v :: vs).map Value.isNull).getD j false) →
          isNullAt bitmap i = v.isNull ∧
            ∀ j, j < vs.length →
              isNullAt bitmap (i + 1 + j) = (vs.map Value.isNull).getD j false := by
        intro bitmap i h
        refine ⟨by simpa using h 0 (by simp), fun j hj => ?_⟩
        have := h (j + 1) (by simpa using hj)
        rw [show i + (j + 1) = i + 1 + j by omega] at this
        simpa using this
      by_cases hn : v.isNull = true
      · have hvn : v = .null := eq_null_of_isNull v hn
        subst hvn
        refine ⟨pay', fun pre => ?_, fun pre post bitmap i h => ?_⟩
        · rw [encodeCols]; exact henc' pre
        · obtain ⟨h0, hrest⟩ := hbits bitmap i h
          rw [decodeCols, if_pos (by rw [h0]; rfl), hdec' pre post bitmap (i + 1) hrest]
      · have hn' : v.isNull = false := by simpa using hn
        obtain ⟨p, hencv, hdecv⟩ := decodeValue_encodeValue v t hv.1 hn'
        refine ⟨p ++ pay', fun pre => ?_, fun pre post bitmap i h => ?_⟩
        · rw [encodeCols_cons_of_not_null _ _ _ _ _ _ hn' (hencv pre), henc' (pre ++ p),
            List.append_assoc]
        · obtain ⟨h0, hrest⟩ := hbits bitmap i h
          have e1 : pre ++ (p ++ pay') ++ post = pre ++ p ++ (pay' ++ post) := by
            simp only [List.append_assoc]
          have e2 : pre ++ (p ++ pay') ++ post = (pre ++ p) ++ pay' ++ post := by
            simp only [List.append_assoc]
          rw [decodeCols, if_neg (by rw [h0, hn']; simp)]
          conv_lhs => rw [e1, hdecv pre (pay' ++ post)]
          simp only
          rw [← e1, e2, hdec' (pre ++ p) post bitmap (i + 1) hrest]

theorem validFor_length (vs : Row) (ts : List ColumnType) (hv : Row.validFor vs ts = true) :
    vs.length = ts.length := by
  induction vs generalizing ts with
  | nil => cases ts <;> simp_all [Row.validFor]
  | cons v vs ih =>
    cases ts with
    | nil => simp [Row.validFor] at hv
    | cons t ts =>
      simp only [Row.validFor, Bool.and_eq_true] at hv
      simp [ih ts hv.2]

/-- C2. For every list of column types and every row valid for them, with NULL allowed in
any column, `EncodeRow` on an empty buffer succeeds, and `DecodeRow` of its result
succeeds and appends exactly one row, equal to the original row cell by cell. -/
theorem decodeRow_encodeRow (row : Row) (colTypes : List ColumnType) (rows : List Row)
    (hv : row.validFor colTypes = true) :
    ∃ buffer, EncodeRow row colTypes [] = .ok buffer ∧
      DecodeRow buffer colTypes rows = .ok (rows ++ [row]) := by
  obtain ⟨pay, henc, hdec⟩ := decodeCols_encodeCols row colTypes hv
  have hlen := validFor_length row colTypes hv
  refine ⟨nullBitmap row ++ pay, ?_, ?_⟩
  · rw [EncodeRow, List.nil_append, henc]
  · have hb : (nullBitmap row ++ pay).take ((colTypes.length + 7) / 8) = nullBitmap row := by
      rw [← hlen, ← nullBitmap_length, List.take_left]
    have hd := hdec (nullBitmap row) [] (nullBitmap row) 0
      (fun j _ => by rw [Nat.zero_add]; exact isNullAt_nullBitmap row j)
    rw [List.append_nil, nullBitmap_length, hlen] at hd
    have hl : (colTypes.length + 7) / 8 ≤ (nullBitmap row ++ pay).length := by
      rw [List.length_append, nullBitmap_length, hlen]; omega
    rw [DecodeRow, if_pos hl, hb, hd]

end PranaDB

namespace PranaDB

/-- Witness of `decodeRow_encodeRow`: the row with NULLs of the codec test. -/
theorem decodeRow_encodeRow_witness :
    nullsTestRow.validFor nullsTestColTypes = true ∧
    ∃ buffer, EncodeRow nullsTestRow nullsTestColTypes [] = .ok buffer ∧
      DecodeRow buffer nullsTestColTypes [nullsTestRow] = .ok ([nullsTestRow] ++ [nullsTestRow]) :=
  ⟨by decide, decodeRow_encodeRow nullsTestRow nullsTestColTypes [nullsTestRow] (by decide)⟩

/-! ## Key encoding -/

theorem bytesCompare_le_iff_stringLe (a b : Bytes) :
    bytesCompare a b ≤ 0 ↔ stringLe a b = true := by
  induction a generalizing b with
  | nil => cases b <;> simp [bytesCompare, stringLe]
  | cons x xs ih =>
    cases b with
    | nil => simp [bytesCompare, stringLe]
    | cons y ys =>
      simp only [bytesCompare, stringLe, Bool.or_eq_true, Bool.and_eq_true, decide_eq_true_eq]
      rw [← ih ys]
      split_ifs with h1 h2
      · simp [h1]
      · constructor
        · intro h; omega
        · rintro (h | ⟨h, _⟩) <;> omega
      · have : x = y := by omega
        simp [this]

/-- With the marker byte 1 in front, two big-endian forms of one width compare as the
numbers they denote. -/
theorem bytesCompare_marked_le (X Y : Bytes) (hlen : X.length = Y.length)
    (hX : ∀ x ∈ X, x < 256) (hY : ∀ x ∈ Y, x < 256) :
    bytesCompare (1 :: X) (1 :: Y) ≤ 0 ↔ beValue X ≤ beValue Y := by
  have h := bytesCompare_of_beValue X Y [] [] hlen hX hY
  simp only [List.append_nil] at h
  simp only [bytesCompare, lt_irrefl, if_false, h]
  split_ifs <;> constructor <;> intro _ <;> omega

theorem flipSignBit_toUint64 (v : Int) (h₁ : -(2 : Int) ^ 63 ≤ v) (h₂ : v < 2 ^ 63) :
    (flipSignBit (toUint64 v) : Int) = v + 2 ^ 63 := by
  unfold flipSignBit toUint64
  have h0 := Int.emod_nonneg v (show (2 : Int) ^ 64 ≠ 0 by norm_num)
  have hcast : (((v % 2 ^ 64).toNat : Nat) : Int) = v % 2 ^ 64 := Int.toNat_of_nonneg h0
  norm_num at h₁ h₂ hcast ⊢
  split_ifs with h <;> omega

theorem float64Magnitude_mod (a : Nat) :
    float64Magnitude a = float64Magnitude (a % 2 ^ 63) := by
  unfold float64Magnitude
  have e1 : a % 2 ^ 63 / 2 ^ 52 % 2048 = a / 2 ^ 52 % 2048 := by
    norm_num
    omega
  have e2 : a % 2 ^ 63 % 2 ^ 52 = a % 2 ^ 52 := by
    norm_num
  rw [e1, e2]

theorem float64Magnitude_strictMono (a b : Nat) (hb : b < 2 ^ 63) (h : a < b) :
    float64Magnitude a < float64Magnitude b := by
  have ha : a < 2 ^ 63 := lt_trans h hb
  have ea : a / 2 ^ 52 % 2048 = a / 2 ^ 52 := by
    apply Nat.mod_eq_of_lt; norm_num at ha ⊢; omega
  have eb : b / 2 ^ 52 % 2048 = b / 2 ^ 52 := by
    apply Nat.mod_eq_of_lt; norm_num at hb ⊢; omega
  unfold float64Magnitude
  rw [ea, eb]
  have hma : a % 2 ^ 52 < 2 ^ 52 := Nat.mod_lt _ (by norm_num)
  have hmb : b % 2 ^ 52 < 2 ^ 52 := Nat.mod_lt _ (by norm_num)
  have hda := Nat.div_add_mod a (2 ^ 52)
  have hdb := Nat.div_add_mod b (2 ^ 52)
  have hle : a / 2 ^ 52 ≤ b / 2 ^ 52 := Nat.div_le_div_right (le_of_lt h)
  by_cases h0 : a / 2 ^ 52 = 0
  · rw [if_pos h0]
    by_cases h1 : b / 2 ^ 52 = 0
    · rw [if_pos h1]
      rw [h0] at hda; rw [h1] at hdb
      omega
    · rw [if_neg h1]
      have hp : 1 ≤ 2 ^ (b / 2 ^ 52 - 1) := Nat.one_le_two_pow
      calc a % 2 ^ 52 < 2 ^ 52 + b % 2 ^ 52 := by omega
        _ = (2 ^ 52 + b % 2 ^ 52) * 1 := by ring
        _ ≤ (2 ^ 52 + b % 2 ^ 52) * 2 ^ (b / 2 ^ 52 - 1) := Nat.mul_le_mul_left _ hp
  · have h1 : b / 2 ^ 52 ≠ 0 := by omega
    rw [if_neg h0, if_neg h1]
    rcases Nat.lt_or_ge (a / 2 ^ 52) (b / 2 ^ 52) with hlt | hge
    · have hpow : 2 * 2 ^ (a / 2 ^ 52 - 1) ≤ 2 ^ (b / 2 ^ 52 - 1) := by
        rw [← pow_succ']
        exact Nat.pow_le_pow_right (by norm_num) (by omega)
      have hpos : 0 < 2 ^ (a / 2 ^ 52 - 1) := by positivity
      calc (2 ^ 52 + a % 2 ^ 52) * 2 ^ (a / 2 ^ 52 - 1)
          < (2 ^ 52 + 2 ^ 52) * 2 ^ (a / 2 ^ 52 - 1) :=
            Nat.mul_lt_mul_of_pos_right (by omega) hpos
        _ = 2 ^ 52 * (2 * 2 ^ (a / 2 ^ 52 - 1)) := by ring
        _ ≤ 2 ^ 52 * 2 ^ (b / 2 ^ 52 - 1) := Nat.mul_le_mul_left _ hpow
        _ ≤ (2 ^ 52 + b % 2 ^ 52) * 2 ^ (b / 2 ^ 52 - 1) :=
            Nat.mul_le_mul_right _ (by omega)
    · have heq : a / 2 ^ 52 = b / 2 ^ 52 := by omega
      rw [heq]
      have hpos : 0 < 2 ^ (b / 2 ^ 52 - 1) := by positivity
      apply Nat.mul_lt_mul_of_pos_right _ hpos
      rw [heq] at hda
      omega

theorem float64Magnitude_zero : float64Magnitude 0 = 0 := by
  simp [float64Magnitude]

/-- For two doubles that are not NaN, the order-preserving forms compare as the numbers. -/
theorem keyEncodeFloat64_le_iff (a b : Nat) (ha : a < 2 ^ 64) (hb : b < 2 ^ 64)
    (hna : float64IsNaN a = false) (hnb : float64IsNaN b = false) :
    keyEncodeFloat64 a ≤ keyEncodeFloat64 b ↔ float64Scaled a ≤ float64Scaled b := by
  have hra : a % 2 ^ 63 < 2 ^ 63 := Nat.mod_lt _ (by norm_num)
  have hrb : b % 2 ^ 63 < 2 ^ 63 := Nat.mod_lt _ (by norm_num)
  have hzero : ∀ x : Nat, x < 2 ^ 63 →
      (x = 0 ∧ float64Magnitude x = 0) ∨ (0 < x ∧ 0 < float64Magnitude x) := by
    intro x hx
    rcases Nat.eq_zero_or_pos x with h | h
    · exact Or.inl ⟨h, by rw [h, float64Magnitude_zero]⟩
    · refine Or.inr ⟨h, ?_⟩
      have := float64Magnitude_strictMono 0 x hx h
      rw [float64Magnitude_zero] at this
      exact this
  have hA := hzero _ hra
  have hB := hzero _ hrb
  have hAB : (a % 2 ^ 63 < b % 2 ^ 63 ∧
        float64Magnitude (a % 2 ^ 63) < float64Magnitude (b % 2 ^ 63)) ∨
      (a % 2 ^ 63 = b % 2 ^ 63 ∧
        float64Magnitude (a % 2 ^ 63) = float64Magnitude (b % 2 ^ 63)) ∨
      (b % 2 ^ 63 < a % 2 ^ 63 ∧
        float64Magnitude (b % 2 ^ 63) < float64Magnitude (a % 2 ^ 63)) := by
    rcases lt_trichotomy (a % 2 ^ 63) (b % 2 ^ 63) with h | h | h
    · exact Or.inl ⟨h, float64Magnitude_strictMono _ _ hrb h⟩
    · exact Or.inr (Or.inl ⟨h, by rw [h]⟩)
    · exact Or.inr (Or.inr ⟨h, float64Magnitude_strictMono _ _ hra h⟩)
  clear hzero
  unfold keyEncodeFloat64 canonicalFloat64 float64Scaled
  rw [hna, hnb, float64Magnitude_mod a, float64Magnitude_mod b]
  generalize float64Magnitude (a % 2 ^ 63) = Ma at *
  generalize float64Magnitude (b % 2 ^ 63) = Mb at *
  simp only [Bool.false_eq_true, if_false]
  norm_num at ha hb hra hrb hA hB hAB ⊢
  split_ifs <;> constructor <;> intro _ <;> omega

end PranaDB

namespace PranaDB

theorem encodeKey_single (a : Value) (t : ColumnType) :
    EncodeKey [a] [t] [0] [] = encodeKeyValue false [] a t := by
  simp only [EncodeKey, encodeKeyCols, List.length_singleton, lt_irrefl, decide_False,
    List.get?_cons_zero]
  cases encodeKeyValue false [] a t <;> rfl

theorem marked_uint64_order (x y : Nat) (hx : x < 2 ^ 64) (hy : y < 2 ^ 64) :
    (bytesCompare (AppendUint64ToBufferBigEndian ([] ++ [1]) x)
        (AppendUint64ToBufferBigEndian ([] ++ [1]) y) ≤ 0 ↔ x ≤ y) ∧
    bytesCompare ([] ++ [0]) (AppendUint64ToBufferBigEndian ([] ++ [1]) x) < 0 := by
  rw [appendUint64BE_eq _ x, appendUint64BE_eq _ y]
  simp only [List.nil_append, List.singleton_append]
  constructor
  · rw [bytesCompare_marked_le _ _ (by simp [appendUint64BE_length]) (appendUint64BE_byte x)
      (appendUint64BE_byte y), appendUint64BE_value x hx, appendUint64BE_value y hy]
  · simp [bytesCompare]

theorem int64_key_order (va vb : Int) (ha₁ : -(2 : Int) ^ 63 ≤ va) (ha₂ : va < 2 ^ 63)
    (hb₁ : -(2 : Int) ^ 63 ≤ vb) (hb₂ : vb < 2 ^ 63) :
    (bytesCompare (AppendUint64ToBufferBigEndian ([] ++ [1]) (flipSignBit (toUint64 va)))
        (AppendUint64ToBufferBigEndian ([] ++ [1]) (flipSignBit (toUint64 vb))) ≤ 0
      ↔ va ≤ vb) ∧
    bytesCompare ([] ++ [0])
      (AppendUint64ToBufferBigEndian ([] ++ [1]) (flipSignBit (toUint64 va))) < 0 := by
  have fa := flipSignBit_toUint64 va ha₁ ha₂
  have fb := flipSignBit_toUint64 vb hb₁ hb₂
  have hx : flipSignBit (toUint64 va) < 2 ^ 64 := by
    zify; rw [fa]; norm_num at ha₂ ⊢; omega
  have hy : flipSignBit (toUint64 vb) < 2 ^ 64 := by
    zify; rw [fb]; norm_num at hb₂ ⊢; omega
  obtain ⟨h1, h2⟩ := marked_uint64_order _ _ hx hy
  refine ⟨?_, h2⟩
  rw [h1]
  zify
  rw [fa, fb]
  omega

theorem keyEncodeFloat64_lt (a : Nat) (ha : a < 2 ^ 64) : keyEncodeFloat64 a < 2 ^ 64 := by
  unfold keyEncodeFloat64 canonicalFloat64
  norm_num at ha ⊢
  split_ifs <;> omega

theorem float64_key_order (a b : Nat) (ha : a < 2 ^ 64) (hb : b < 2 ^ 64) :
    (float64IsNaN a = false → float64IsNaN b = false →
      (bytesCompare (AppendUint64ToBufferBigEndian ([] ++ [1]) (keyEncodeFloat64 a))
          (AppendUint64ToBufferBigEndian ([] ++ [1]) (keyEncodeFloat64 b)) ≤ 0
        ↔ float64Le a b = true)) ∧
    bytesCompare ([] ++ [0])
      (AppendUint64ToBufferBigEndian ([] ++ [1]) (keyEncodeFloat64 a)) < 0 := by
  obtain ⟨h1, h2⟩ := marked_uint64_order _ _ (keyEncodeFloat64_lt a ha) (keyEncodeFloat64_lt b hb)
  refine ⟨fun hna hnb => ?_, h2⟩
  rw [h1, keyEncodeFloat64_le_iff a b ha hb hna hnb]
  simp [float64Le, hna, hnb]

theorem packDecimal_value (p sc : Nat) (u : Int) (h₁ : -(10 : Int) ^ p < u) (h₂ : u < 10 ^ p) :
    (beValue (packDecimal p sc u) : Int) = u + 10 ^ p := by
  have := unpack_packDecimal p sc u h₁ h₂
  unfold unpackDecimal at this
  linarith

theorem decimal_key_order (p sc : Nat) (ua ub : Int) (ha₁ : -(10 : Int) ^ p < ua)
    (ha₂ : ua < 10 ^ p) (hb₁ : -(10 : Int) ^ p < ub) (hb₂ : ub < 10 ^ p) :
    (bytesCompare ([] ++ [1] ++ packDecimal p sc ua) ([] ++ [1] ++ packDecimal p sc ub) ≤ 0
      ↔ ua ≤ ub) ∧
    bytesCompare ([] ++ [0]) ([] ++ [1] ++ packDecimal p sc ua) < 0 := by
  simp only [List.nil_append, List.singleton_append]
  constructor
  · rw [bytesCompare_marked_le _ _ (by simp [packDecimal_length])
      (by unfold packDecimal; exact beBytes_byte _ _)
      (by unfold packDecimal; exact beBytes_byte _ _)]
    zify
    rw [packDecimal_value p sc ua ha₁ ha₂, packDecimal_value p sc ub hb₁ hb₂]
    omega
  · simp [bytesCompare]

theorem string_key_order (a b : Bytes) :
    (bytesCompare ([] ++ [1] ++ a ++ (if false = true then [0] else []))
        ([] ++ [1] ++ b ++ (if false = true then [0] else [])) ≤ 0
      ↔ stringLe a b = true) ∧
    bytesCompare ([] ++ [0]) ([] ++ [1] ++ a ++ (if false = true then [0] else [])) < 0 := by
  simp only [List.nil_append, List.singleton_append, Bool.false_eq_true, if_false,
    List.append_nil]
  constructor
  · rw [← bytesCompare_le_iff_stringLe]
    simp [bytesCompare]
  · simp [bytesCompare]

/-- C3, as amended. For every key column type and every two values `a`, `b` of that type
that are not NULL, `EncodeKey` succeeds on each; when neither is a NaN, the bytes it
produces for `a` are lexicographically at most those for `b` if and only if `a ≤ b`; and
the bytes it produces for NULL are strictly less than those for `a`. -/
theorem encodeKey_order_preserving (t : ColumnType) (a b : Value)
    (ha : a.validFor t = true) (hb : b.validFor t = true)
    (hna : a.isNull = false) (hnb : b.isNull = false) :
    ∃ ka kb kn, EncodeKey [a] [t] [0] [] = .ok ka ∧ EncodeKey [b] [t] [0] [] = .ok kb ∧
      EncodeKey [.null] [t] [0] [] = .ok kn ∧
      (a.isNaN = false → b.isNaN = false →
        (bytesCompare ka kb ≤ 0 ↔ Value.le a b = true)) ∧
      bytesCompare kn ka < 0 := by
  simp only [encodeKey_single]
  cases t with
  | TinyInt =>
    cases a <;> simp [Value.validFor, Value.isNull] at ha hna
    cases b <;> simp [Value.validFor, Value.isNull] at hb hnb
    rename_i va vb
    obtain ⟨h1, h2⟩ := int64_key_order va vb ha.1 ha.2 hb.1 hb.2
    exact ⟨_, _, _, rfl, rfl, rfl, fun _ _ => by simpa [Value.le] using h1, h2⟩
  | Int =>
    cases a <;> simp [Value.validFor, Value.isNull] at ha hna
    cases b <;> simp [Value.validFor, Value.isNull] at hb hnb
    rename_i va vb
    obtain ⟨h1, h2⟩ := int64_key_order va vb ha.1 ha.2 hb.1 hb.2
    exact ⟨_, _, _, rfl, rfl, rfl, fun _ _ => by simpa [Value.le] using h1, h2⟩
  | BigInt =>
    cases a <;> simp [Value.validFor, Value.isNull] at ha hna
    cases b <;> simp [Value.validFor, Value.isNull] at hb hnb
    rename_i va vb
    obtain ⟨h1, h2⟩ := int64_key_order va vb ha.1 ha.2 hb.1 hb.2
    exact ⟨_, _, _, rfl, rfl, rfl, fun _ _ => by simpa [Value.le] using h1, h2⟩
  | Double =>
    cases a <;> simp [Value.validFor, Value.isNull] at ha hna
    cases b <;> simp [Value.validFor, Value.isNull] at hb hnb
    rename_i va vb
    obtain ⟨h1, h2⟩ := float64_key_order va vb ha hb
    exact ⟨_, _, _, rfl, rfl, rfl,
      fun hnana hnanb => by simpa [Value.le] using h1 hnana hnanb, h2⟩
  | Varchar =>
    cases a <;> simp [Value.validFor, Value.isNull] at ha hna
    cases b <;> simp [Value.validFor, Value.isNull] at hb hnb
    rename_i va vb
    obtain ⟨h1, h2⟩ := string_key_order va vb
    exact ⟨_, _, _, rfl, rfl, rfl, fun _ _ => by simpa [Value.le] using h1, h2⟩
  | Decimal p sc =>
    cases a <;> simp [Value.validFor, Value.isNull] at ha hna
    cases b <;> simp [Value.validFor, Value.isNull] at hb hnb
    rename_i va vb
    obtain ⟨h1, h2⟩ := decimal_key_order p sc va vb ha.1 ha.2 hb.1 hb.2
    exact ⟨_, _, _, rfl, rfl, rfl, fun _ _ => by simpa [Value.le] using h1, h2⟩

/-- C3, counterexample. A NaN is a value of type double; `EncodeKey` produces bytes for
it, which are lexicographically at most themselves, yet `NaN ≤ NaN` is false. -/
theorem encodeKey_nan_not_ordered :
    Value.validFor (.float64 0x7FF8000000000000) .Double = true ∧
    EncodeKey [.float64 0x7FF8000000000000] [.Double] [0] []
      = .ok [1, 255, 248, 0, 0, 0, 0, 0, 0] ∧
    bytesCompare [1, 255, 248, 0, 0, 0, 0, 0, 0] [1, 255, 248, 0, 0, 0, 0, 0, 0] ≤ 0 ∧
    Value.le (.float64 0x7FF8000000000000) (.float64 0x7FF8000000000000) = false :=
  ⟨by decide, rfl, by decide, by decide⟩

/-- Witness of `encodeKey_order_preserving`: two doubles of opposite sign, -2^-923 and
2^-923. -/
theorem encodeKey_order_preserving_witness :
    Value.validFor (.float64 0x8640000000000000) .Double = true ∧
    Value.validFor (.float64 0x0640000000000000) .Double = true ∧
    Value.isNull (.float64 0x8640000000000000) = false ∧
    Value.isNull (.float64 0x0640000000000000) = false ∧
    Value.le (.float64 0x8640000000000000) (.float64 0x0640000000000000) = true ∧
    ∃ ka kb kn, EncodeKey [.float64 0x8640000000000000] [.Double] [0] [] = .ok ka ∧
      EncodeKey [.float64 0x0640000000000000] [.Double] [0] [] = .ok kb ∧
      EncodeKey [.null] [.Double] [0] [] = .ok kn ∧
      (Value.isNaN (.float64 0x8640000000000000) = false →
        Value.isNaN (.float64 0x0640000000000000) = false →
        (bytesCompare ka kb ≤ 0
          ↔ Value.le (.float64 0x8640000000000000) (.float64 0x0640000000000000) = true)) ∧
      bytesCompare kn ka < 0 :=
  ⟨by decide, by decide, by decide, by decide, by decide,
    encodeKey_order_preserving .Double (.float64 0x8640000000000000)
      (.float64 0x0640000000000000) (by decide) (by decide) (by decide) (by decide)⟩

end PranaDB

namespace PranaDB

/-! ## Table ids -/

theorem generateTableID_eq (f : FakeCluster) :
    f.GenerateTableID = ({ f with tableSequence := (f.tableSequence + 1) % 2 ^ 64 },
      f.tableSequence, none) := rfl

/-- The closed form of `n` successive calls: the `k`-th returns the counter plus `k`,
modulo 2^64, and the store is not touched. -/
theorem generateSequencesLoop_closed (f : FakeCluster) (hc : f.tableSequence < 2 ^ 64) (n : Nat) :
    generateSequencesLoop f n
      = ({ f with tableSequence := (f.tableSequence + n) % 2 ^ 64 },
          (List.range n).map (fun k => (f.tableSequence + k) % 2 ^ 64), none) := by
  induction n generalizing f with
  | zero =>
    simp only [generateSequencesLoop, List.range_zero, List.map_nil, Nat.add_zero,
      Nat.mod_eq_of_lt hc]
  | succ n ih =>
    have hlt : (f.tableSequence + 1) % 2 ^ 64 < 2 ^ 64 := Nat.mod_lt _ (by norm_num)
    rw [generateSequencesLoop, generateTableID_eq]
    simp only []
    rw [ih _ hlt]
    simp only [List.range_succ_eq_map, List.map_cons, List.map_map, Nat.add_zero,
      Nat.mod_eq_of_lt hc]
    refine Prod.ext ?_ (Prod.ext ?_ rfl)
    · simp only
      congr 1
      rw [Nat.mod_add_mod]
      congr 1
      omega
    · simp only
      congr 1
      apply List.map_congr_left
      intro k _
      simp only [Function.comp, Nat.mod_add_mod]
      congr 1
      omega

theorem generateSequencesLoop_no_wrap (f : FakeCluster) (n : Nat)
    (hc : f.tableSequence + n ≤ 2 ^ 64) (hn : 0 < n) :
    (generateSequencesLoop f n).2.1 = (List.range n).map (fun k => f.tableSequence + k) ∧
      (generateSequencesLoop f n).2.2 = none := by
  rw [generateSequencesLoop_closed f (by omega) n]
  refine ⟨?_, rfl⟩
  apply List.map_congr_left
  intro k hk
  have := List.mem_range.mp hk
  exact Nat.mod_eq_of_lt (by omega)

/-- C11, as amended. In every sequence of `n` calls of `GenerateTableID` on one cluster
that does not take the `uint64` counter past 2^64, the `k`-th call returns the initial
counter plus `k` and a nil error, so each call returns a value strictly greater than every
earlier call's value, and no two calls return the same id. -/
theorem generateTableID_strictly_increasing (f : FakeCluster) (n : Nat)
    (hc : f.tableSequence + n ≤ 2 ^ 64) :
    (generateSequencesLoop f n).2.1 = (List.range n).map (fun k => f.tableSequence + k) ∧
    (generateSequencesLoop f n).2.2 = none ∧
    (generateSequencesLoop f n).2.1.Pairwise (· < ·) ∧
    (generateSequencesLoop f n).2.1.Nodup := by
  rcases Nat.eq_zero_or_pos n with h0 | hpos
  · subst h0
    simp [generateSequencesLoop]
  · obtain ⟨h1, h2⟩ := generateSequencesLoop_no_wrap f n hc hpos
    have hp : ((List.range n).map (fun k => f.tableSequence + k)).Pairwise (· < ·) := by
      rw [List.pairwise_map]
      exact (List.pairwise_lt_range n).imp fun {a b} h => by omega
    rw [h1]
    exact ⟨rfl, h2, hp, hp.imp fun {a b} h => Nat.ne_of_lt h⟩

/-- C11, counterexample. On a cluster whose counter is 2^64 - 1, two successive calls
return 2^64 - 1 and then 0: the second value is not greater than the first. -/
theorem generateTableID_wraps :
    (generateSequencesLoop { emptyCluster with tableSequence := 2 ^ 64 - 1 } 2).2.1
      = [2 ^ 64 - 1, 0] := by
  decide

/-- Witness of `generateTableID_strictly_increasing`: three calls from counter 100. -/
theorem generateTableID_strictly_increasing_witness :
    emptyCluster.tableSequence + 3 ≤ 2 ^ 64 ∧
    (generateSequencesLoop emptyCluster 3).2.1
      = (List.range 3).map (fun k => emptyCluster.tableSequence + k) ∧
    (generateSequencesLoop emptyCluster 3).2.1 = [100, 101, 102] :=
  ⟨by decide, (generateTableID_strictly_increasing emptyCluster 3 (by decide)).1, by decide⟩

theorem newFakeCluster_tableSequence (u base : Nat) (nodeID numShards : Int) (f : FakeCluster)
    (h : NewFakeCluster u base nodeID numShards = .ok f) : f.tableSequence = u % 2 ^ 64 := by
  unfold NewFakeCluster at h
  split at h
  · cases h
  · cases h; rfl

/-- C12, as amended. On a cluster created by `NewFakeCluster`, with `UserTableIDBase` a
`uint64` that is at least 100, no call of `GenerateTableID` among the first
`2^64 - UserTableIDBase` returns a value below `UserTableIDBase`, hence none below 100. -/
theorem generateTableID_reserved (u base : Nat) (nodeID numShards : Int) (f : FakeCluster)
    (n : Nat) (hu : 100 ≤ u) (hn : u + n ≤ 2 ^ 64)
    (h : NewFakeCluster u base nodeID numShards = .ok f) :
    ∀ id ∈ (generateSequencesLoop f n).2.1, u ≤ id ∧ 100 ≤ id := by
  have hc := newFakeCluster_tableSequence u base nodeID numShards f h
  rcases Nat.eq_zero_or_pos n with h0 | hpos
  · subst h0
    simp [generateSequencesLoop]
  · have hu' : u % 2 ^ 64 = u := Nat.mod_eq_of_lt (by omega)
    rw [hu'] at hc
    obtain ⟨h1, _⟩ := generateSequencesLoop_no_wrap f n (by omega) hpos
    intro id hid
    rw [h1, List.mem_map] at hid
    obtain ⟨k, _, rfl⟩ := hid
    omega

/-- C12, counterexample. On the cluster that `NewFakeCluster` creates with
`UserTableIDBase` 100, the call that follows the first 2^64 - 100 calls returns 0. -/
theorem generateTableID_reserved_wraps :
    NewFakeCluster 100 1000 0 1
      = .ok { nodeID := 0, tableSequence := 100, allShardIds := [1000], started := false,
              btree := [], shardListeners := [], remoteWrites := [] } ∧
    ((generateSequencesLoop
        { nodeID := 0, tableSequence := 100, allShardIds := [1000], started := false,
          btree := [], shardListeners := [], remoteWrites := [] }
        (2 ^ 64 - 100)).1.GenerateTableID).2.1 = 0 := by
  refine ⟨rfl, ?_⟩
  rw [generateSequencesLoop_closed _ (by decide)]
  decide

/-- Witness of `generateTableID_reserved`: three calls on a new cluster. -/
theorem generateTableID_reserved_witness :
    100 ≤ 100 ∧ 100 + 3 ≤ 2 ^ 64 ∧
    NewFakeCluster 100 1000 0 1
      = .ok { nodeID := 0, tableSequence := 100, allShardIds := [1000], started := false,
              btree := [], shardListeners := [], remoteWrites := [] } ∧
    ∀ id ∈ (generateSequencesLoop
        { nodeID := 0, tableSequence := 100, allShardIds := [1000], started := false,
          btree := [], shardListeners := [], remoteWrites := [] } 3).2.1,
      100 ≤ id ∧ 100 ≤ id :=
  ⟨by decide, by decide, rfl,
    generateTableID_reserved 100 1000 0 1 _ 3 (by decide) (by decide) rfl⟩

/-- C13, as amended. On a cluster newly created by `NewFakeCluster`, ten successive
`GenerateTableID` calls return `UserTableIDBase, UserTableIDBase + 1, ...,
UserTableIDBase + 9` in order: the `i`-th call (counting from 0) returns
`UserTableIDBase + i`. -/
theorem generateTableID_first_ten (u base : Nat) (nodeID numShards : Int) (f : FakeCluster)
    (hu : u + 10 ≤ 2 ^ 64) (h : NewFakeCluster u base nodeID numShards = .ok f) :
    (generateSequencesLoop f 10).2.1
      = [u, u + 1, u + 2, u + 3, u + 4, u + 5, u + 6, u + 7, u + 8, u + 9] ∧
    (generateSequencesLoop f 10).2.2 = none := by
  have hc := newFakeCluster_tableSequence u base nodeID numShards f h
  rw [Nat.mod_eq_of_lt (by omega)] at hc
  obtain ⟨h1, h2⟩ := generateSequencesLoop_no_wrap f 10 (by omega) (by norm_num)
  refine ⟨?_, h2⟩
  rw [h1, hc]
  rfl

/-- C13, counterexample. With `UserTableIDBase` 100, the first 100 ids being reserved, the
ten calls on a new cluster return 100, ..., 109, not 0, ..., 9. -/
theorem generateTableID_first_ten_from_base :
    NewFakeCluster 100 1000 0 1
      = .ok { nodeID := 0, tableSequence := 100, allShardIds := [1000], started := false,
              btree := [], shardListeners := [], remoteWrites := [] } ∧
    (generateSequencesLoop
        { nodeID := 0, tableSequence := 100, allShardIds := [1000], started := false,
          btree := [], shardListeners := [], remoteWrites := [] } 10).2.1
      = [100, 101, 102, 103, 104, 105, 106, 107, 108, 109] :=
  ⟨rfl, by decide⟩

/-- Witness of `generateTableID_first_ten`: `UserTableIDBase` 1000. -/
theorem generateTableID_first_ten_witness :
    1000 + 10 ≤ 2 ^ 64 ∧
    NewFakeCluster 1000 1000 0 1
      = .ok { nodeID := 0, tableSequence := 1000, allShardIds := [1000], started := false,
              btree := [], shardListeners := [], remoteWrites := [] } ∧
    (generateSequencesLoop
        { nodeID := 0, tableSequence := 1000, allShardIds := [1000], started := false,
          btree := [], shardListeners := [], remoteWrites := [] } 10).2.1
      = [1000, 1000 + 1, 1000 + 2, 1000 + 3, 1000 + 4, 1000 + 5, 1000 + 6, 1000 + 7, 1000 + 8,
          1000 + 9] :=
  ⟨by decide, rfl, (generateTableID_first_ten 1000 1000 0 1 _ (by decide) rfl).1⟩

/-! ## Shard ids -/

/-- C14. For every `numShards >= 0` (a Go `int`), with `DataShardIDBase` at most 2^63,
`NewFakeCluster(nodeID, numShards)` returns a cluster whose `GetAllShardIDs` is exactly the
`numShards` pairwise distinct shard ids `DataShardIDBase, DataShardIDBase + 1, ...,
DataShardIDBase + numShards - 1` in that order, each at least `DataShardIDBase`. -/
theorem getAllShardIDs_dense (u base : Nat) (nodeID numShards : Int)
    (hb : base ≤ 2 ^ 63) (h0 : 0 ≤ numShards) (hn : numShards < 2 ^ 63) :
    ∃ f, NewFakeCluster u base nodeID numShards = .ok f ∧
      f.GetAllShardIDs = (List.range numShards.toNat).map (fun i => base + i) ∧
      (f.GetAllShardIDs.length : Int) = numShards ∧
      f.GetAllShardIDs.Nodup ∧
      ∀ s ∈ f.GetAllShardIDs, base ≤ s := by
  have hlt : numShards.toNat < 2 ^ 63 := by
    zify
    rw [Int.toNat_of_nonneg h0]
    exact hn
  have hids : (List.range numShards.toNat).map (fun i => (i + base) % 2 ^ 64)
      = (List.range numShards.toNat).map (fun i => base + i) := by
    apply List.map_congr_left
    intro i hi
    have := List.mem_range.mp hi
    rw [Nat.mod_eq_of_lt (by norm_num at hb hlt ⊢; omega)]
    omega
  refine ⟨{ nodeID := nodeID, tableSequence := u % 2 ^ 64,
            allShardIds := (List.range numShards.toNat).map (fun i => base + i),
            started := false, btree := [], shardListeners := [], remoteWrites := [] },
    ?_, rfl, ?_, ?_, ?_⟩
  · unfold NewFakeCluster genAllShardIds
    rw [if_neg (by omega), hids]
  · simp only [FakeCluster.GetAllShardIDs, List.length_map, List.length_range]
    exact Int.toNat_of_nonneg h0
  · simp only [FakeCluster.GetAllShardIDs]
    exact (List.nodup_range _).map fun a b hab => by omega
  · intro s hs
    simp only [FakeCluster.GetAllShardIDs, List.mem_map] at hs
    obtain ⟨i, _, rfl⟩ := hs
    omega

/-- Witness of `getAllShardIDs_dense`: the ten shards of the tests, from base 1000. -/
theorem getAllShardIDs_dense_witness :
    (1000 : Nat) ≤ 2 ^ 63 ∧ (0 : Int) ≤ 10 ∧ (10 : Int) < 2 ^ 63 ∧
    ∃ f, NewFakeCluster 100 1000 0 10 = .ok f ∧
      f.GetAllShardIDs = (List.range (10 : Int).toNat).map (fun i => 1000 + i) ∧
      (f.GetAllShardIDs.length : Int) = 10 ∧
      f.GetAllShardIDs.Nodup ∧
      ∀ s ∈ f.GetAllShardIDs, 1000 ≤ s :=
  ⟨by decide, by decide, by decide,
    getAllShardIDs_dense 100 1000 0 10 (by decide) (by decide) (by decide)⟩

end PranaDB

namespace PranaDB

/-! ## Deleting a range -/

theorem deletePairs_eq_applyDeletes (f : FakeCluster) (pairs : List KVPair) :
    f.deletePairs pairs = f.applyDeletes (pairs.map KVPair.Key) := by
  induction pairs generalizing f with
  | nil => rfl
  | cons p ps ih =>
    rw [FakeCluster.deletePairs, List.map_cons, FakeCluster.applyDeletes]
    rcases h : f.deleteInternal { key := p.Key, value := none } with ⟨f', e⟩
    cases e with
    | some e => rfl
    | none => exact ih f'

theorem applyDeletes_get (f : FakeCluster) (ds : List Bytes) (h : f.btree.Ordered)
    (hok : (f.applyDeletes ds).2 = none) (q : kvWrapper) :
    (f.applyDeletes ds).1.btree.Get q = if q.key ∈ ds then none else f.btree.Get q := by
  by_cases hq : q.key ∈ ds
  · rw [if_pos hq]; exact applyDeletes_get_of_mem f ds h hok q hq
  · rw [if_neg hq]; exact applyDeletes_get_of_not_mem f ds h q hq

theorem mem_iff_get {t : BTree} (ht : t.Ordered) (x : kvWrapper) :
    x ∈ t ↔ BTree.Get t { key := x.key, value := none } = some x := by
  rw [get_eq_some_iff ht]
  exact ⟨fun h => ⟨h, rfl⟩, fun h => h.1⟩

/-- After a successful run of the delete loop on an ordered store, the store holds the
items it held whose key is not among the deleted keys. -/
theorem mem_applyDeletes_iff (f : FakeCluster) (ds : List Bytes) (h : f.btree.Ordered)
    (hok : (f.applyDeletes ds).2 = none) (x : kvWrapper) :
    x ∈ (f.applyDeletes ds).1.btree ↔ x ∈ f.btree ∧ x.key ∉ ds := by
  rw [mem_iff_get (applyDeletes_btree_ordered f ds h), applyDeletes_get f ds h hok,
    mem_iff_get h]
  by_cases hq : x.key ∈ ds
  · simp [hq]
  · simp [hq]

theorem ordered_keys_nodup {t : BTree} (ht : t.Ordered) : (t.map kvWrapper.key).Nodup := by
  rw [List.Nodup, List.pairwise_map]
  exact ht.imp fun {a b} hab => key_ne_of_less hab

theorem map_key_toKVPair (l : List kvWrapper) :
    (l.map kvWrapper.toKVPair).map KVPair.Key = l.map kvWrapper.key := by
  rw [List.map_map]
  rfl

/-- One round of `DeleteAllDataInRange`: the scan of a range on an ordered store
succeeds, the deletion of the scanned pairs returns no error, and the store keeps exactly
the items outside the range. -/
theorem scan_then_delete (f : FakeCluster) (hf : f.btree.Ordered) (start stop : Bytes) :
    ∃ pairs f', f.LocalScan (some start) (some stop) (-1) = .ok (pairs, none) ∧
      f.deletePairs pairs = (f', none) ∧ f'.btree.Ordered ∧
      f' = { f with btree := f'.btree } ∧
      ∀ x, x ∈ f'.btree ↔
        x ∈ f.btree ∧ ¬ (bytesCompare start x.key ≤ 0 ∧ bytesCompare x.key stop < 0) := by
  have hscan := localScan_unbounded f hf start (some stop)
  simp only at hscan
  refine ⟨(f.btree.filter fun x => decide (bytesCompare start x.key ≤ 0) &&
      decide (bytesCompare x.key stop < 0)).map kvWrapper.toKVPair,
    (f.deletePairs ((f.btree.filter fun x => decide (bytesCompare start x.key ≤ 0) &&
      decide (bytesCompare x.key stop < 0)).map kvWrapper.toKVPair)).1, hscan, ?_, ?_, ?_, ?_⟩
  · refine Prod.ext rfl ?_
    show (f.deletePairs _).2 = none
    rw [deletePairs_eq_applyDeletes, map_key_toKVPair,
      applyDeletes_ok_iff f _ hf (ordered_keys_nodup (filter_ordered _ _ hf))]
    intro k hk
    obtain ⟨x, hx, rfl⟩ := List.mem_map.mp hk
    have hx' := (List.mem_filter.mp hx).1
    rw [(mem_iff_get hf x).mp hx']
    exact Option.some_ne_none x
  · rw [deletePairs_eq_applyDeletes]
    exact applyDeletes_btree_ordered f _ hf
  · rw [deletePairs_eq_applyDeletes]
    exact applyDeletes_frame f _
  · intro x
    have hok : (f.applyDeletes
        ((f.btree.filter fun x => decide (bytesCompare start x.key ≤ 0) &&
          decide (bytesCompare x.key stop < 0)).map kvWrapper.key)).2 = none := by
      rw [applyDeletes_ok_iff f _ hf (ordered_keys_nodup (filter_ordered _ _ hf))]
      intro k hk
      obtain ⟨y, hy, rfl⟩ := List.mem_map.mp hk
      have hy' := (List.mem_filter.mp hy).1
      rw [(mem_iff_get hf y).mp hy']
      exact Option.some_ne_none y
    rw [deletePairs_eq_applyDeletes, map_key_toKVPair, mem_applyDeletes_iff f _ hf hok]
    constructor
    · rintro ⟨hx, hk⟩
      refine ⟨hx, fun hr => hk ?_⟩
      exact List.mem_map.mpr ⟨x, List.mem_filter.mpr ⟨hx, by simpa using hr⟩, rfl⟩
    · rintro ⟨hx, hr⟩
      refine ⟨hx, fun hk => hr ?_⟩
      obtain ⟨y, hy, hyk⟩ := List.mem_map.mp hk
      have hy2 := List.mem_filter.mp hy
      have hxy : y = x := by
        have h1 := (mem_iff_get hf y).mp hy2.1
        have h2 := (mem_iff_get hf x).mp hx
        rw [hyk, h2] at h1
        exact (Option.some.inj h1).symm
      rw [← hxy]
      simpa using hy2.2

/-- The loop over the shard ids: no error, and the store keeps exactly the items that
lie in the range of none of the shard ids. -/
theorem deleteInShards_spec (startPrefix endPrefix : Bytes) (ids : List Nat) (f : FakeCluster)
    (hf : f.btree.Ordered) :
    ∃ f', f.deleteInShards startPrefix endPrefix ids = .ok (f', none) ∧ f'.btree.Ordered ∧
      f' = { f with btree := f'.btree } ∧
      ∀ x, x ∈ f'.btree ↔
        x ∈ f.btree ∧ ∀ s ∈ ids,
          ¬ (bytesCompare (AppendUint64ToBufferBigEndian [] s ++ startPrefix) x.key ≤ 0 ∧
            bytesCompare x.key (AppendUint64ToBufferBigEndian [] s ++ endPrefix) < 0) := by
  induction ids generalizing f with
  | nil => exact ⟨f, rfl, hf, rfl, fun x => by simp⟩
  | cons s rest ih =>
    obtain ⟨pairs, f₁, hscan, hdel, ho₁, hfr₁, hm₁⟩ :=
      scan_then_delete f hf (AppendUint64ToBufferBigEndian [] s ++ startPrefix)
        (AppendUint64ToBufferBigEndian [] s ++ endPrefix)
    obtain ⟨f₂, hrest, ho₂, hfr₂, hm₂⟩ := ih f₁ ho₁
    refine ⟨f₂, ?_, ho₂, ?_, ?_⟩
    · rw [FakeCluster.deleteInShards, hscan]
      simp only [hdel]
      exact hrest
    · rw [hfr₂, hfr₁]
    · intro x
      rw [hm₂ x, hm₁ x]
      simp only [List.mem_cons, forall_eq_or_imp]
      tauto

/-- A key that begins with `p` lies from `p` up to, and not including, every byte string
of the length of `p` that denotes a larger number. -/
theorem in_range_of_isPrefix (p p' k : Bytes) (hlen : p.length = p'.length)
    (hp : ∀ x ∈ p, x < 256) (hp' : ∀ x ∈ p', x < 256) (hlt : beValue p < beValue p')
    (hpre : p <+: k) : bytesCompare p k ≤ 0 ∧ bytesCompare k p' < 0 := by
  obtain ⟨r, rfl⟩ := hpre
  constructor
  · have h := bytesCompare_of_beValue p p [] r rfl hp hp
    rw [List.append_nil] at h
    rw [h]
    simp only [lt_irrefl, if_false]
    cases r <;> simp [bytesCompare]
  · have h := bytesCompare_of_beValue p p' r [] hlen hp hp'
    rw [List.append_nil] at h
    rw [h, if_pos hlt]
    norm_num

/-- C15. On an ordered store, for every start and end prefix, `DeleteAllDataInRange`
returns no error, and afterwards, for every shard id `s` of the cluster, the store
contains no key `k` with `big-endian(s) ++ start <= k < big-endian(s) ++ end`. So, with
64-bit ids, after the call on `big-endian(t)` and `big-endian(t + 1)` no stored key begins
with `big-endian(s) ++ big-endian(t)`: no key of table `t` remains on any shard. -/
theorem deleteAllDataInRange_clears (f : FakeCluster) (hf : f.btree.Ordered)
    (startPrefix endPrefix : Bytes) :
    (∃ f', f.DeleteAllDataInRange startPrefix endPrefix = .ok (f', none) ∧
      ∀ s ∈ f.allShardIds, ∀ x ∈ f'.btree,
        ¬ (bytesCompare (AppendUint64ToBufferBigEndian [] s ++ startPrefix) x.key ≤ 0 ∧
          bytesCompare x.key (AppendUint64ToBufferBigEndian [] s ++ endPrefix) < 0)) ∧
    ((∀ s ∈ f.allShardIds, s < 2 ^ 64) → ∀ t, t + 1 < 2 ^ 64 →
      ∃ f', f.DeleteAllDataInRange (AppendUint64ToBufferBigEndian [] t)
          (AppendUint64ToBufferBigEndian [] (t + 1)) = .ok (f', none) ∧
        ∀ s ∈ f.allShardIds, ∀ x ∈ f'.btree,
          ¬ (AppendUint64ToBufferBigEndian [] s ++ AppendUint64ToBufferBigEndian [] t)
              <+: x.key) := by
  constructor
  · obtain ⟨f', h, _, _, hm⟩ := deleteInShards_spec startPrefix endPrefix f.allShardIds f hf
    exact ⟨f', h, fun s hs x hx => ((hm x).mp hx).2 s hs⟩
  · intro hids t ht
    obtain ⟨f', h, _, _, hm⟩ := deleteInShards_spec (AppendUint64ToBufferBigEndian [] t)
      (AppendUint64ToBufferBigEndian [] (t + 1)) f.allShardIds f hf
    refine ⟨f', h, fun s hs x hx hpre => ((hm x).mp hx).2 s hs ?_⟩
    have hbyte : ∀ v, ∀ y ∈ AppendUint64ToBufferBigEndian [] s ++ AppendUint64ToBufferBigEndian [] v,
        y < 256 := by
      intro v y hy
      rcases List.mem_append.mp hy with h | h
      · exact appendUint64BE_byte _ y h
      · exact appendUint64BE_byte _ y h
    apply in_range_of_isPrefix _ _ _ _ (hbyte t) (hbyte (t + 1)) _ hpre
    · simp [appendUint64BE_length]
    · rw [beValue_append, beValue_append, appendUint64BE_value t (by omega),
        appendUint64BE_value (t + 1) ht, appendUint64BE_length, appendUint64BE_length]
      omega

/-- Witness of `deleteAllDataInRange_clears`: a store with keys of tables 7 and 8 on
shard 1000; the range of table 7 is deleted, the key of table 8 stays. -/
theorem deleteAllDataInRange_clears_witness :
    BTree.Ordered
      [⟨[0, 0, 0, 0, 0, 0, 3, 232, 0, 0, 0, 0, 0, 0, 0, 7, 1], some [1]⟩,
        ⟨[0, 0, 0, 0, 0, 0, 3, 232, 0, 0, 0, 0, 0, 0, 0, 7, 2], some [2]⟩,
        ⟨[0, 0, 0, 0, 0, 0, 3, 232, 0, 0, 0, 0, 0, 0, 0, 8, 1], some [3]⟩] ∧
    ({ emptyCluster with btree :=
        [⟨[0, 0, 0, 0, 0, 0, 3, 232, 0, 0, 0, 0, 0, 0, 0, 7, 1], some [1]⟩,
          ⟨[0, 0, 0, 0, 0, 0, 3, 232, 0, 0, 0, 0, 0, 0, 0, 7, 2], some [2]⟩,
          ⟨[0, 0, 0, 0, 0, 0, 3, 232, 0, 0, 0, 0, 0, 0, 0, 8, 1], some [3]⟩] }).DeleteAllDataInRange
        [0, 0, 0, 0, 0, 0, 0, 7] [0, 0, 0, 0, 0, 0, 0, 8]
      = .ok ({ emptyCluster with btree :=
          [⟨[0, 0, 0, 0, 0, 0, 3, 232, 0, 0, 0, 0, 0, 0, 0, 8, 1], some [3]⟩] }, none) ∧
    ∃ f', ({ emptyCluster with btree :=
        [⟨[0, 0, 0, 0, 0, 0, 3, 232, 0, 0, 0, 0, 0, 0, 0, 7, 1], some [1]⟩,
          ⟨[0, 0, 0, 0, 0, 0, 3, 232, 0, 0, 0, 0, 0, 0, 0, 7, 2], some [2]⟩,
          ⟨[0, 0, 0, 0, 0, 0, 3, 232, 0, 0, 0, 0, 0, 0, 0, 8, 1], some [3]⟩] }).DeleteAllDataInRange
        [0, 0, 0, 0, 0, 0, 0, 7] [0, 0, 0, 0, 0, 0, 0, 8] = .ok (f', none) ∧
      ∀ s ∈ [1000], ∀ x ∈ f'.btree,
        ¬ (bytesCompare (AppendUint64ToBufferBigEndian [] s ++ [0, 0, 0, 0, 0, 0, 0, 7]) x.key ≤ 0 ∧
          bytesCompare x.key (AppendUint64ToBufferBigEndian [] s ++ [0, 0, 0, 0, 0, 0, 0, 8]) < 0) :=
  ⟨by decide, rfl,
    (deleteAllDataInRange_clears
      { emptyCluster with btree :=
        [⟨[0, 0, 0, 0, 0, 0, 3, 232, 0, 0, 0, 0, 0, 0, 0, 7, 1], some [1]⟩,
          ⟨[0, 0, 0, 0, 0, 0, 3, 232, 0, 0, 0, 0, 0, 0, 0, 7, 2], some [2]⟩,
          ⟨[0, 0, 0, 0, 0, 0, 3, 232, 0, 0, 0, 0, 0, 0, 0, 8, 1], some [3]⟩] }
      (by decide) [0, 0, 0, 0, 0, 0, 0, 7] [0, 0, 0, 0, 0, 0, 0, 8]).1⟩

end PranaDB

namespace PranaDB

/-! ## Remote-write notification -/

theorem applyPuts_remoteWrites (f : FakeCluster) (ps : List (Bytes × Option Bytes)) :
    (f.applyPuts ps).remoteWrites = f.remoteWrites ∧
      (f.applyPuts ps).shardListeners = f.shardListeners := by
  rw [applyPuts_frame]
  exact ⟨rfl, rfl⟩

theorem applyDeletes_remoteWrites (f : FakeCluster) (ds : List Bytes) :
    (f.applyDeletes ds).1.remoteWrites = f.remoteWrites ∧
      (f.applyDeletes ds).1.shardListeners = f.shardListeners := by
  rw [applyDeletes_frame]
  exact ⟨rfl, rfl⟩

theorem writes_remoteWrites (f : FakeCluster) (batch : WriteBatch) :
    ((f.applyPuts batch.puts).applyDeletes batch.Deletes).1.remoteWrites = f.remoteWrites ∧
      ((f.applyPuts batch.puts).applyDeletes batch.Deletes).1.shardListeners
        = f.shardListeners := by
  obtain ⟨h1, h2⟩ := applyDeletes_remoteWrites (f.applyPuts batch.puts) batch.Deletes
  obtain ⟨h3, h4⟩ := applyPuts_remoteWrites f batch.puts
  exact ⟨h1.trans h3, h2.trans h4⟩

theorem foldl_register_subset (ids m : List Nat) :
    ∀ s ∈ m, s ∈ ids.foldl (fun m shardID => if shardID ∈ m then m else m ++ [shardID]) m := by
  induction ids generalizing m with
  | nil => intro s hs; exact hs
  | cons i ids ih =>
    intro s hs
    rw [List.foldl_cons]
    apply ih
    split_ifs
    · exact hs
    · exact List.mem_append_left _ hs

theorem foldl_register_mem (ids m : List Nat) :
    ∀ s ∈ ids, s ∈ ids.foldl (fun m shardID => if shardID ∈ m then m else m ++ [shardID]) m := by
  induction ids generalizing m with
  | nil => intro s hs; cases hs
  | cons i ids ih =>
    intro s hs
    rw [List.foldl_cons]
    rcases List.mem_cons.mp hs with rfl | hs'
    · apply foldl_register_subset
      split_ifs with h
      · exact h
      · exact List.mem_append_right _ (List.mem_singleton_self _)
    · exact ih _ s hs'

/-- C18. For every batch: when `WriteBatch` returns no error and `NotifyRemote` is set, it
has invoked `RemoteWriteOccurred` exactly once, on the listener registered for
`batch.ShardID`; when `NotifyRemote` is unset, or the write returns an error (or panics),
it has invoked no listener. With a listener registered for the shard, a write whose
loops raise no error returns no error; and `Start` on a cluster not yet started registers
a listener for every shard id of the cluster. -/
theorem writeBatch_notifies (base : Nat) (f : FakeCluster) (batch : WriteBatch) :
    ((f.WriteBatch base batch).2 = .ok → batch.NotifyRemote = true →
      (f.WriteBatch base batch).1.remoteWrites = f.remoteWrites ++ [batch.ShardID] ∧
        batch.ShardID ∈ f.shardListeners) ∧
    ((f.WriteBatch base batch).2 = .ok → batch.NotifyRemote = false →
      (f.WriteBatch base batch).1.remoteWrites = f.remoteWrites) ∧
    (∀ e, (f.WriteBatch base batch).2 = .err e →
      (f.WriteBatch base batch).1.remoteWrites = f.remoteWrites) ∧
    (∀ e, (f.WriteBatch base batch).2 = .panic e →
      (f.WriteBatch base batch).1.remoteWrites = f.remoteWrites) ∧
    (base ≤ batch.ShardID → batch.ShardID ∈ f.shardListeners →
      ((f.applyPuts batch.puts).applyDeletes batch.Deletes).2 = none →
      (f.WriteBatch base batch).2 = .ok) ∧
    (f.started = false → f.Start.2 = .ok →
      ∀ s ∈ f.allShardIds, s ∈ f.Start.1.shardListeners) := by
  obtain ⟨hrw, hsl⟩ := writes_remoteWrites f batch
  have key : ∀ (P : FakeCluster × Outcome → Prop),
      (batch.ShardID < base → P (f, .panic "invalid shard cluster id")) →
      (∀ e, ¬ batch.ShardID < base →
        ((f.applyPuts batch.puts).applyDeletes batch.Deletes).2 = some e →
        P (((f.applyPuts batch.puts).applyDeletes batch.Deletes).1, .err e)) →
      (¬ batch.ShardID < base →
        ((f.applyPuts batch.puts).applyDeletes batch.Deletes).2 = none →
        batch.NotifyRemote = true →
        batch.ShardID ∈ ((f.applyPuts batch.puts).applyDeletes batch.Deletes).1.shardListeners →
        P ({ ((f.applyPuts batch.puts).applyDeletes batch.Deletes).1 with
              remoteWrites := ((f.applyPuts batch.puts).applyDeletes batch.Deletes).1.remoteWrites
                ++ [batch.ShardID] }, .ok)) →
      (¬ batch.ShardID < base →
        ((f.applyPuts batch.puts).applyDeletes batch.Deletes).2 = none →
        batch.NotifyRemote = true →
        batch.ShardID ∉ ((f.applyPuts batch.puts).applyDeletes batch.Deletes).1.shardListeners →
        P (((f.applyPuts batch.puts).applyDeletes batch.Deletes).1,
          .panic "invalid memory address or nil pointer dereference")) →
      (¬ batch.ShardID < base →
        ((f.applyPuts batch.puts).applyDeletes batch.Deletes).2 = none →
        batch.NotifyRemote = false →
        P (((f.applyPuts batch.puts).applyDeletes batch.Deletes).1, .ok)) →
      P (f.WriteBatch base batch) := by
    intro P h1 h2 h3 h4 h5
    unfold FakeCluster.WriteBatch
    by_cases hs : batch.ShardID < base
    · rw [if_pos hs]; exact h1 hs
    · rw [if_neg hs]
      rcases hd : (f.applyPuts batch.puts).applyDeletes batch.Deletes with ⟨f', e⟩
      rw [hd] at h2 h3 h4 h5
      cases e with
      | some e => exact h2 e hs rfl
      | none =>
        simp only
        by_cases hn : batch.NotifyRemote = true
        · rw [if_pos hn]
          by_cases hl : batch.ShardID ∈ f'.shardListeners
          · rw [if_pos hl]; exact h3 hs rfl hn hl
          · rw [if_neg hl]; exact h4 hs rfl hn hl
        · rw [if_neg hn]
          exact h5 hs rfl (by simpa using hn)
  refine ⟨?_, ?_, ?_, ?_, ?_, ?_⟩
  · refine key (fun r => r.2 = .ok → batch.NotifyRemote = true →
      r.1.remoteWrites = f.remoteWrites ++ [batch.ShardID] ∧ batch.ShardID ∈ f.shardListeners)
      ?_ ?_ ?_ ?_ ?_
    · intro _ h; cases h
    · intro e _ _ h; cases h
    · intro _ _ _ hl _ _
      exact ⟨by simp only [hrw], hsl ▸ hl⟩
    · intro _ _ _ _ h; cases h
    · intro _ _ hn _ hn'; rw [hn] at hn'; cases hn'
  · refine key (fun r => r.2 = .ok → batch.NotifyRemote = false →
      r.1.remoteWrites = f.remoteWrites) ?_ ?_ ?_ ?_ ?_
    · intro _ h; cases h
    · intro e _ _ h; cases h
    · intro _ _ hn _ _ hn'; rw [hn] at hn'; cases hn'
    · intro _ _ _ _ h; cases h
    · intro _ _ _ _ _; exact hrw
  · intro e
    refine key (fun r => r.2 = .err e → r.1.remoteWrites = f.remoteWrites) ?_ ?_ ?_ ?_ ?_
    · intro _ h; cases h
    · intro _ _ _ _; exact hrw
    · intro _ _ _ _ h; cases h
    · intro _ _ _ _ h; cases h
    · intro _ _ _ h; cases h
  · intro e
    refine key (fun r => r.2 = .panic e → r.1.remoteWrites = f.remoteWrites) ?_ ?_ ?_ ?_ ?_
    · intro _ _; rfl
    · intro _ _ _ h; cases h
    · intro _ _ _ _ h; cases h
    · intro _ _ _ _ _; exact hrw
    · intro _ _ _ h; cases h
  · intro hb hl hd
    refine key (fun r => r.2 = .ok) ?_ ?_ ?_ ?_ ?_
    · intro h; omega
    · intro e _ he; rw [hd] at he; cases he
    · intro _ _ _ _; rfl
    · intro _ _ _ hl'; exact absurd (hsl ▸ hl) hl'
    · intro _ _ _; rfl
  · intro hst hok s hs
    unfold FakeCluster.Start at hok ⊢
    by_cases h1 : (!f.remoteQueryExecutionCallback) = true
    · rw [if_pos h1] at hok; cases hok
    · rw [if_neg h1] at hok ⊢
      by_cases h2 : (!f.shardListenerFactory) = true
      · rw [if_pos h2] at hok; cases hok
      · rw [if_neg h2] at hok ⊢
        rw [hst]
        simp only [Bool.false_eq_true, if_false]
        have hfac : f.shardListenerFactory = true := by simpa using h2
        simp only [FakeCluster.startShardListeners, hfac, if_true]
        exact foldl_register_mem _ _ s hs

/-- An instance of `writeBatch_notifies` by evaluation: a batch for shard 1000 with
`NotifyRemote` set invokes the listener of shard 1000 once; the same batch with a delete
of an absent key returns an error and invokes none. -/
theorem writeBatch_notifies_example :
    (emptyCluster.WriteBatch 1000
      { ShardID := 1000, puts := [([1], some [2])], Deletes := [],
        NotifyRemote := true }).2 = .ok ∧
    (emptyCluster.WriteBatch 1000
      { ShardID := 1000, puts := [([1], some [2])], Deletes := [],
        NotifyRemote := true }).1.remoteWrites = [1000] ∧
    (emptyCluster.WriteBatch 1000
      { ShardID := 1000, puts := [([1], some [2])], Deletes := [[3]],
        NotifyRemote := true }).1.remoteWrites = [] := by
  decide

end PranaDB

namespace PranaDB

/-! ## Table operations -/

theorem encodeKeyValue_isPrefix (c : Bool) (buffer out : Bytes) (v : Value) (t : ColumnType)
    (h : encodeKeyValue c buffer v t = .ok out) : buffer <+: out := by
  cases v <;> cases t <;> simp only [encodeKeyValue] at h <;> cases h <;>
    (try rw [appendUint64BE_eq]) <;> (try simp only [List.append_assoc]) <;>
    exact List.prefix_append _ _

theorem encodeKeyCols_isPrefix (c : Bool) (colTypes : List ColumnType) (key : List Value)
    (idxs : List Nat) (buffer out : Bytes)
    (h : encodeKeyCols c colTypes buffer key idxs = .ok out) : buffer <+: out := by
  induction key generalizing idxs buffer with
  | nil =>
    cases idxs with
    | nil => simp only [encodeKeyCols] at h; cases h; exact List.prefix_refl _
    | cons i idxs => simp [encodeKeyCols] at h
  | cons v vs ih =>
    cases idxs with
    | nil => simp [encodeKeyCols] at h
    | cons i idxs =>
      rw [encodeKeyCols] at h
      cases ht : colTypes.get? i with
      | none => rw [ht] at h; cases h
      | some t =>
        rw [ht] at h
        simp only at h
        cases hv : encodeKeyValue c buffer v t with
        | error e => rw [hv] at h; cases h
        | ok b' =>
          rw [hv] at h
          exact (encodeKeyValue_isPrefix c buffer b' v t hv).trans (ih idxs b' h)

theorem encodeKeyValue_ok_of_valid (c : Bool) (buffer : Bytes) (v : Value) (t : ColumnType)
    (h : v.validFor t = true) : ∃ out, encodeKeyValue c buffer v t = .ok out := by
  cases v <;> cases t <;> simp only [Value.validFor] at h <;>
    first
    | exact absurd h Bool.false_ne_true
    | exact ⟨_, rfl⟩

theorem validFor_get (row : Row) (colTypes : List ColumnType) (h : row.validFor colTypes = true)
    (i : Nat) (hi : i < colTypes.length) :
    ∃ v t, row.get? i = some v ∧ colTypes.get? i = some t ∧ v.validFor t = true := by
  induction row generalizing colTypes i with
  | nil =>
    cases colTypes with
    | nil => simp at hi
    | cons t ts => simp [Row.validFor] at h
  | cons v vs ih =>
    cases colTypes with
    | nil => simp [Row.validFor] at h
    | cons t ts =>
      simp only [Row.validFor, Bool.and_eq_true] at h
      cases i with
      | zero => exact ⟨v, t, rfl, rfl, h.1⟩
      | succ i =>
        simp only [List.length_cons, Nat.add_lt_add_iff_right] at hi
        simpa using ih ts h.2 i hi

/-- The listed columns of a valid row, at offsets of columns, project and encode. -/
theorem encodeKeyCols_ok_of_valid (c : Bool) (row : Row) (colTypes : List ColumnType)
    (h : row.validFor colTypes = true) (idxs : List Nat)
    (hidx : ∀ i ∈ idxs, i < colTypes.length) (buffer : Bytes) :
    ∃ key out, row.project idxs = some key ∧
      encodeKeyCols c colTypes buffer key idxs = .ok out := by
  induction idxs generalizing buffer with
  | nil => exact ⟨[], buffer, rfl, rfl⟩
  | cons i idxs ih =>
    obtain ⟨v, t, hv, ht, hvt⟩ := validFor_get row colTypes h i (hidx i (List.mem_cons_self _ _))
    obtain ⟨b', hb'⟩ := encodeKeyValue_ok_of_valid c buffer v t hvt
    obtain ⟨key, out, hk, ho⟩ := ih (fun j hj => hidx j (List.mem_cons_of_mem _ hj)) b'
    refine ⟨v :: key, out, ?_, ?_⟩
    · simp only [Row.project, hv, hk]
    · rw [encodeKeyCols, ht]
      simp only [hb']
      exact ho

/-- The loop of `EncodeCols` over the columns of a row gives what the loop of `EncodeKey`
gives over the values of those columns, taken from the row beforehand. -/
theorem encodeColsLoop_eq_encodeKeyCols (c : Bool) (row : Row) (colTypes : List ColumnType)
    (idxs : List Nat) (key : List Value) (buffer : Bytes)
    (h : row.project idxs = some key) :
    encodeColsLoop c row colTypes idxs buffer = encodeKeyCols c colTypes buffer key idxs := by
  induction idxs generalizing key buffer with
  | nil =>
    simp only [Row.project, Option.some.injEq] at h
    subst h
    rfl
  | cons i idxs ih =>
    rw [Row.project] at h
    cases hv : row.get? i with
    | none => rw [hv] at h; cases h
    | some v =>
      cases hk : row.project idxs with
      | none => rw [hv, hk] at h; cases h
      | some vs =>
        rw [hv, hk] at h
        simp only [Option.some.injEq] at h
        subst h
        rw [encodeColsLoop, encodeKeyCols, hv]
        cases colTypes.get? i with
        | none => rfl
        | some t =>
          simp only
          cases encodeKeyValue c buffer v t with
          | error e => rfl
          | ok b => exact ih vs b hk

theorem encodeColsLoop_isPrefix (c : Bool) (row : Row) (colTypes : List ColumnType)
    (idxs : List Nat) (buffer out : Bytes)
    (h : encodeColsLoop c row colTypes idxs buffer = .ok out) : buffer <+: out := by
  induction idxs generalizing buffer with
  | nil => simp only [encodeColsLoop] at h; cases h; exact List.prefix_refl _
  | cons i idxs ih =>
    rw [encodeColsLoop] at h
    cases ht : colTypes.get? i with
    | none => rw [ht] at h; cases h
    | some t =>
      rw [ht] at h
      simp only at h
      cases hv : row.get? i with
      | none => rw [hv] at h; cases h
      | some v =>
        rw [hv] at h
        simp only at h
        cases he : encodeKeyValue c buffer v t with
        | error e => rw [he] at h; cases h
        | ok b' =>
          rw [he] at h
          exact (encodeKeyValue_isPrefix c buffer b' v t he).trans (ih b' h)

/-- The key that `encodeKeyFromRow` builds from a row is the key that `encodeKey` builds
from the values of the primary key columns of the row. -/
theorem encodeKeyFromRow_eq_encodeKey (tableInfo : TableInfo) (row : Row) (key : List Value)
    (s : Nat) (h : row.project tableInfo.PrimaryKeyCols = some key) :
    encodeKeyFromRow tableInfo row s = encodeKey tableInfo key tableInfo.PrimaryKeyCols s := by
  unfold encodeKeyFromRow encodeKey EncodeCols EncodeKey
  cases EncodeTableKeyPrefix tableInfo.ID s 32 with
  | error e => rfl
  | ok b => exact encodeColsLoop_eq_encodeKeyCols _ _ _ _ _ _ h

theorem encodeTableKeyPrefix_32 (tableID shardID : Nat) :
    EncodeTableKeyPrefix tableID shardID 32
      = .ok (AppendUint64ToBufferBigEndian [] shardID ++ AppendUint64ToBufferBigEndian [] tableID) := by
  unfold EncodeTableKeyPrefix
  rw [if_neg (by norm_num), appendUint64BE_eq]

/-- Every key that `encodeKeyFromRow` returns begins with the table key prefix. -/
theorem encodeKeyFromRow_isPrefix (tableInfo : TableInfo) (row : Row) (s : Nat) (key : Bytes)
    (h : encodeKeyFromRow tableInfo row s = .ok key) :
    (AppendUint64ToBufferBigEndian [] s ++ AppendUint64ToBufferBigEndian [] tableInfo.ID)
      <+: key := by
  unfold encodeKeyFromRow at h
  rw [encodeTableKeyPrefix_32] at h
  simp only [EncodeCols] at h
  exact encodeColsLoop_isPrefix _ _ _ _ _ _ h

theorem encodeKeyFromRow_ok_of_valid (tableInfo : TableInfo) (row : Row) (s : Nat)
    (ht : tableInfo.valid = true) (hr : row.validFor tableInfo.ColumnTypes = true) :
    ∃ pk key, row.project tableInfo.PrimaryKeyCols = some pk ∧
      encodeKeyFromRow tableInfo row s = .ok key := by
  simp only [TableInfo.valid, Bool.and_eq_true, decide_eq_true_eq, List.all_eq_true] at ht
  obtain ⟨pk, out, hpk, hout⟩ := encodeKeyCols_ok_of_valid
    (decide (1 < tableInfo.PrimaryKeyCols.length)) row tableInfo.ColumnTypes hr
    tableInfo.PrimaryKeyCols ht.1.2
    (AppendUint64ToBufferBigEndian [] s ++ AppendUint64ToBufferBigEndian [] tableInfo.ID)
  refine ⟨pk, out, hpk, ?_⟩
  unfold encodeKeyFromRow
  rw [encodeTableKeyPrefix_32]
  simp only [EncodeCols]
  rw [encodeColsLoop_eq_encodeKeyCols _ _ _ _ _ _ hpk]
  exact hout

/-- The row value of a valid row decodes to the row; it is not empty when the table has a
column. -/
theorem encodeRow_decodes (row : Row) (colTypes : List ColumnType)
    (hv : row.validFor colTypes = true) :
    ∃ buffer, EncodeRow row colTypes [] = .ok buffer ∧
      DecodeRow buffer colTypes [] = .ok [row] ∧ (colTypes ≠ [] → buffer ≠ []) := by
  obtain ⟨pay, henc, hdec⟩ := decodeCols_encodeCols row colTypes hv
  have hlen := validFor_length row colTypes hv
  refine ⟨nullBitmap row ++ pay, ?_, ?_, ?_⟩
  · rw [EncodeRow, List.nil_append, henc]
  · have hb : (nullBitmap row ++ pay).take ((colTypes.length + 7) / 8) = nullBitmap row := by
      rw [← hlen, ← nullBitmap_length, List.take_left]
    have hd := hdec (nullBitmap row) [] (nullBitmap row) 0
      (fun j _ => by rw [Nat.zero_add]; exact isNullAt_nullBitmap row j)
    rw [List.append_nil, nullBitmap_length, hlen] at hd
    have hl : (colTypes.length + 7) / 8 ≤ (nullBitmap row ++ pay).length := by
      rw [List.length_append, nullBitmap_length, hlen]; omega
    rw [DecodeRow, if_pos hl, hb, hd]
    rfl
  · intro hne hnil
    have h0 : (nullBitmap row ++ pay).length = 0 := by rw [hnil]; rfl
    rw [List.length_append, nullBitmap_length, hlen] at h0
    have : 0 < colTypes.length := List.length_pos.mpr hne
    omega

theorem addPut_wellFormed (wb : WriteBatch) (k : Bytes) (v : Option Bytes)
    (h : wb.WellFormed) : (wb.AddPut k v).WellFormed := by
  obtain ⟨h1, h2⟩ := h
  refine ⟨?_, h2⟩
  simp only [WriteBatch.AddPut, List.map_append, List.map_cons, List.map_nil]
  rw [List.nodup_append]
  refine ⟨?_, List.nodup_singleton _, ?_⟩
  · exact (List.Nodup.sublist (List.Sublist.map _ (List.filter_sublist _)) h1)
  · intro a ha hb
    rw [List.mem_singleton] at hb
    subst hb
    obtain ⟨p, hp, rfl⟩ := List.mem_map.mp ha
    have := (List.mem_filter.mp hp).2
    simp at this

theorem addPut_mem (wb : WriteBatch) (k : Bytes) (v : Option Bytes) :
    (k, v) ∈ (wb.AddPut k v).puts := by
  simp [WriteBatch.AddPut]

end PranaDB

namespace PranaDB

theorem upsert_eq_of_ok (tableInfo : TableInfo) (row : Row) (batch : WriteBatch)
    (key buffer : Bytes) (hk : encodeKeyFromRow tableInfo row batch.ShardID = .ok key)
    (hb : EncodeRow row tableInfo.ColumnTypes [] = .ok buffer) :
    Upsert tableInfo row batch = (batch.AddPut key (sliceOf buffer), none) := by
  unfold Upsert
  rw [hk]
  simp only [hb]

theorem delete_eq_of_ok (tableInfo : TableInfo) (row : Row) (batch : WriteBatch)
    (key : Bytes) (hk : encodeKeyFromRow tableInfo row batch.ShardID = .ok key) :
    Delete tableInfo row batch = (batch.AddDelete key, none) := by
  unfold Delete
  rw [hk]

/-- The batch of the lookup examples that already deletes the row of Wincanton: the
batch for shard 1000 after `table.Delete` of the row, as in an update that deletes a row
and upserts its new version in one batch. -/
theorem delete_wincanton_batch :
    Delete sensorReadings wincantonRow (NewWriteBatch 1000 false)
      = ({ ShardID := 1000, puts := [], Deletes := [wincantonKey], NotifyRemote := false },
          none) := by
  decide

/-- The upsert of the row of Wincanton into the batch that already deletes it: the batch
then holds the put and the delete of the one key. -/
theorem upsert_wincanton_after_delete :
    Upsert sensorReadings wincantonRow
        { ShardID := 1000, puts := [], Deletes := [wincantonKey], NotifyRemote := false }
      = ({ ShardID := 1000, puts := [(wincantonKey, some wincantonValue)],
           Deletes := [wincantonKey], NotifyRemote := false }, none) := by
  decide

/-- When the batch already holds a delete of the key of the row, the upserted row is not
found: `WriteBatch` applies the puts of a batch and then its deletes, so after a
`WriteBatch` that returns no error `LookupInPk` returns no row and no error. -/
theorem upsert_deleted_key_not_found (base : Nat) (f : FakeCluster) (tableInfo : TableInfo)
    (r : Row) (batch : WriteBatch) (hf : f.btree.Ordered) (ht : tableInfo.valid = true)
    (hr : r.validFor tableInfo.ColumnTypes = true)
    (hdel : ∃ k, encodeKeyFromRow tableInfo r batch.ShardID = .ok k ∧ k ∈ batch.Deletes)
    (hok : (f.WriteBatch base (Upsert tableInfo r batch).1).2 = .ok) :
    ∃ pk, r.project tableInfo.PrimaryKeyCols = some pk ∧
      (Upsert tableInfo r batch).2 = none ∧
      LookupInPk tableInfo pk tableInfo.PrimaryKeyCols batch.ShardID
        (f.WriteBatch base (Upsert tableInfo r batch).1).1 = .ok (none, none) := by
  obtain ⟨pk, key, hpk, hkey⟩ := encodeKeyFromRow_ok_of_valid tableInfo r batch.ShardID ht hr
  obtain ⟨buffer, henc, _, _⟩ := encodeRow_decodes r tableInfo.ColumnTypes hr
  obtain ⟨k, hk, hmem⟩ := hdel
  rw [hkey] at hk
  cases hk
  have hup := upsert_eq_of_ok tableInfo r batch key buffer hkey henc
  rw [hup] at hok ⊢
  refine ⟨pk, hpk, rfl, ?_⟩
  simp only at hok ⊢
  obtain ⟨hs, hnone⟩ := writeBatch_ok _ _ _ hok
  have hg : (f.WriteBatch base (batch.AddPut key (sliceOf buffer))).1.btree.Get
      { key := key, value := none } = none := by
    rw [writeBatch_btree _ _ _ hs]
    exact applyDeletes_get_of_mem _ _ (applyPuts_btree_ordered _ _ hf) hnone _ hmem
  have hget : (f.WriteBatch base (batch.AddPut key (sliceOf buffer))).1.LocalGet key
      = (none, none) := by
    rw [localGet_eq, hg]
    rfl
  unfold LookupInPk
  rw [← encodeKeyFromRow_eq_encodeKey tableInfo r pk batch.ShardID hpk, hkey]
  simp only [hget]

/-- C16, as stated, fails: the table `sensor_readings` has valid primary key columns, the
row `(1, "wincanton", 25.5)` is valid for it, and the batch for shard 1000 that holds the
delete of the row (added by `table.Delete`) takes the upsert of the row without an error;
`WriteBatch` of the batch on the empty store returns no error, and `LookupInPk` on the
primary key value 1 then returns no row, because the delete was applied after the put. -/
theorem upsert_after_delete_not_found :
    sensorReadings.valid = true ∧
    wincantonRow.validFor sensorReadings.ColumnTypes = true ∧
    wincantonRow.project sensorReadings.PrimaryKeyCols = some [.int64 1] ∧
    (Delete sensorReadings wincantonRow (NewWriteBatch 1000 false)).2 = none ∧
    (Upsert sensorReadings wincantonRow
      (Delete sensorReadings wincantonRow (NewWriteBatch 1000 false)).1).2 = none ∧
    (emptyCluster.WriteBatch 1000 (Upsert sensorReadings wincantonRow
      (Delete sensorReadings wincantonRow (NewWriteBatch 1000 false)).1).1).2 = .ok ∧
    LookupInPk sensorReadings [.int64 1] sensorReadings.PrimaryKeyCols 1000
      (emptyCluster.WriteBatch 1000 (Upsert sensorReadings wincantonRow
        (Delete sensorReadings wincantonRow (NewWriteBatch 1000 false)).1).1).1
      = .ok (none, none) := by
  have hd := delete_wincanton_batch
  have hu : Upsert sensorReadings wincantonRow
      (Delete sensorReadings wincantonRow (NewWriteBatch 1000 false)).1
      = ({ ShardID := 1000, puts := [(wincantonKey, some wincantonValue)],
           Deletes := [wincantonKey], NotifyRemote := false }, none) := by
    rw [hd]
    exact upsert_wincanton_after_delete
  refine ⟨by decide, by decide, by decide, ?_, ?_, ?_, ?_⟩
  · rw [hd]
  · rw [hu]
  · rw [hu]
    rfl
  · rw [hu]
    rfl

/-- C16. For every table info with valid primary key columns, every row `r` valid for the
table's column types, and a batch for shard `s` that holds no delete of the key of `r`:
`Upsert` returns no error; the key that it writes, built by `EncodeCols` from the row, is
the key that `LookupInPk` builds by `EncodeKey` from the primary key values of `r`; and
after a `WriteBatch` of the batch that returns no error (so `s >= DataShardIDBase`) on an
ordered store, `LookupInPk` on the primary key values of `r`, with
`tableInfo.PrimaryKeyCols` as offsets and shard `s`, returns a row equal to `r` and no
error. -/
theorem upsert_then_lookup (base : Nat) (f : FakeCluster) (tableInfo : TableInfo) (r : Row)
    (batch : WriteBatch) (hf : f.btree.Ordered) (ht : tableInfo.valid = true)
    (hr : r.validFor tableInfo.ColumnTypes = true) (hb : batch.WellFormed)
    (hdel : ∀ k, encodeKeyFromRow tableInfo r batch.ShardID = .ok k → k ∉ batch.Deletes)
    (hok : (f.WriteBatch base (Upsert tableInfo r batch).1).2 = .ok) :
    ∃ pk key, r.project tableInfo.PrimaryKeyCols = some pk ∧
      (Upsert tableInfo r batch).2 = none ∧
      encodeKeyFromRow tableInfo r batch.ShardID = .ok key ∧
      encodeKey tableInfo pk tableInfo.PrimaryKeyCols batch.ShardID = .ok key ∧
      key ∈ (Upsert tableInfo r batch).1.puts.map Prod.fst ∧
      LookupInPk tableInfo pk tableInfo.PrimaryKeyCols batch.ShardID
        (f.WriteBatch base (Upsert tableInfo r batch).1).1 = .ok (some r, none) := by
  obtain ⟨pk, key, hpk, hkey⟩ := encodeKeyFromRow_ok_of_valid tableInfo r batch.ShardID ht hr
  obtain ⟨buffer, henc, hdec, hne⟩ := encodeRow_decodes r tableInfo.ColumnTypes hr
  have hcols : tableInfo.ColumnTypes ≠ [] := by
    simp only [TableInfo.valid, Bool.and_eq_true, decide_eq_true_eq, List.all_eq_true] at ht
    obtain ⟨⟨hpkne, hidx⟩, _⟩ := ht
    obtain ⟨i, rest, hi⟩ := List.exists_cons_of_ne_nil hpkne
    have := hidx i (by rw [hi]; exact List.mem_cons_self _ _)
    intro hnil
    rw [hnil] at this
    simp at this
  have hslice : sliceOf buffer = some buffer := by
    unfold sliceOf
    rw [if_neg (hne hcols)]
  have hup := upsert_eq_of_ok tableInfo r batch key buffer hkey henc
  rw [hslice] at hup
  rw [hup] at hok ⊢
  refine ⟨pk, key, hpk, rfl, hkey,
    (encodeKeyFromRow_eq_encodeKey tableInfo r pk batch.ShardID hpk) ▸ hkey,
    List.mem_map.mpr ⟨(key, some buffer), addPut_mem batch key (some buffer), rfl⟩, ?_⟩
  simp only at hok ⊢
  obtain ⟨hs, _⟩ := writeBatch_ok _ _ _ hok
  have hwf := addPut_wellFormed batch key (some buffer) hb
  have hg : (f.WriteBatch base (batch.AddPut key (some buffer))).1.btree.Get
      { key := key, value := none } = some { key := key, value := some buffer } := by
    rw [writeBatch_btree _ _ _ hs,
      applyDeletes_get_of_not_mem _ _ (applyPuts_btree_ordered _ _ hf) _ (hdel key hkey)]
    exact applyPuts_get_of_mem f _ hwf.1 _ _ (addPut_mem batch key (some buffer)) _ rfl
  have hget : (f.WriteBatch base (batch.AddPut key (some buffer))).1.LocalGet key
      = (some buffer, none) := by
    rw [localGet_eq, hg]
    rfl
  unfold LookupInPk
  rw [← encodeKeyFromRow_eq_encodeKey tableInfo r pk batch.ShardID hpk, hkey]
  simp only [hget, hdec]

/-- Witness of `upsert_then_lookup`: the row `(1, "wincanton", 25.5)` of the sensor
readings table, upserted into a new batch for shard 1000, which holds no delete, and
written to an empty store. -/
theorem upsert_then_lookup_witness :
    BTree.Ordered emptyCluster.btree ∧ sensorReadings.valid = true ∧
    wincantonRow.validFor sensorReadings.ColumnTypes = true ∧
    (NewWriteBatch 1000 false).WellFormed ∧
    (NewWriteBatch 1000 false).Deletes = [] ∧
    (emptyCluster.WriteBatch 1000 (Upsert sensorReadings wincantonRow
      (NewWriteBatch 1000 false)).1).2 = .ok ∧
    ∃ pk key, wincantonRow.project sensorReadings.PrimaryKeyCols = some pk ∧
      (Upsert sensorReadings wincantonRow (NewWriteBatch 1000 false)).2 = none ∧
      encodeKeyFromRow sensorReadings wincantonRow (NewWriteBatch 1000 false).ShardID
        = .ok key ∧
      encodeKey sensorReadings pk sensorReadings.PrimaryKeyCols
        (NewWriteBatch 1000 false).ShardID = .ok key ∧
      key ∈ (Upsert sensorReadings wincantonRow (NewWriteBatch 1000 false)).1.puts.map
        Prod.fst ∧
      LookupInPk sensorReadings pk sensorReadings.PrimaryKeyCols (NewWriteBatch 1000 false).ShardID
        (emptyCluster.WriteBatch 1000 (Upsert sensorReadings wincantonRow
          (NewWriteBatch 1000 false)).1).1 = .ok (some wincantonRow, none) :=
  ⟨by decide, by decide, by decide, by decide, rfl, by decide,
    upsert_then_lookup 1000 emptyCluster sensorReadings wincantonRow (NewWriteBatch 1000 false)
      (by decide) (by decide) (by decide) (by decide)
      (fun _ _ h => (by cases h)) (by decide)⟩

/-- C17. Every key that `table.Upsert` or `table.Delete` adds to a write batch begins with
`big-endian(batch.ShardID)` followed by `big-endian(tableInfo.ID)`; when `Upsert` succeeds,
`Delete` of the same row on the same batch succeeds with the same key; `Upsert` adds one
put and no delete, `Delete` adds one delete and no put; and when either returns an error
the batch is unchanged. -/
theorem table_ops_key_invariant (tableInfo : TableInfo) (row : Row) (batch : WriteBatch) :
    ((Upsert tableInfo row batch).2 = none →
      ∃ key value, encodeKeyFromRow tableInfo row batch.ShardID = .ok key ∧
        (Upsert tableInfo row batch).1 = batch.AddPut key value ∧
        (Upsert tableInfo row batch).1.Deletes = batch.Deletes ∧
        ((AppendUint64ToBufferBigEndian [] batch.ShardID ++
          AppendUint64ToBufferBigEndian [] tableInfo.ID) <+: key) ∧
        Delete tableInfo row batch = (batch.AddDelete key, none)) ∧
    ((Delete tableInfo row batch).2 = none →
      ∃ key, encodeKeyFromRow tableInfo row batch.ShardID = .ok key ∧
        (Delete tableInfo row batch).1 = batch.AddDelete key ∧
        (Delete tableInfo row batch).1.puts = batch.puts ∧
        ((AppendUint64ToBufferBigEndian [] batch.ShardID ++
          AppendUint64ToBufferBigEndian [] tableInfo.ID) <+: key)) ∧
    ((Upsert tableInfo row batch).2 ≠ none → (Upsert tableInfo row batch).1 = batch) ∧
    ((Delete tableInfo row batch).2 ≠ none → (Delete tableInfo row batch).1 = batch) := by
  refine ⟨?_, ?_, ?_, ?_⟩
  · intro h
    cases hk : encodeKeyFromRow tableInfo row batch.ShardID with
    | error e => simp [Upsert, hk] at h
    | ok key =>
      cases hb : EncodeRow row tableInfo.ColumnTypes [] with
      | error e => simp [Upsert, hk, hb] at h
      | ok buffer =>
        refine ⟨key, sliceOf buffer, rfl, ?_, ?_, encodeKeyFromRow_isPrefix _ _ _ _ hk,
          delete_eq_of_ok _ _ _ _ hk⟩
        · rw [upsert_eq_of_ok _ _ _ _ _ hk hb]
        · rw [upsert_eq_of_ok _ _ _ _ _ hk hb]
          rfl
  · intro h
    cases hk : encodeKeyFromRow tableInfo row batch.ShardID with
    | error e => simp [Delete, hk] at h
    | ok key =>
      refine ⟨key, rfl, ?_, ?_, encodeKeyFromRow_isPrefix _ _ _ _ hk⟩
      · rw [delete_eq_of_ok _ _ _ _ hk]
      · rw [delete_eq_of_ok _ _ _ _ hk]
        rfl
  · intro h
    cases hk : encodeKeyFromRow tableInfo row batch.ShardID with
    | error e => simp [Upsert, hk]
    | ok key =>
      cases hb : EncodeRow row tableInfo.ColumnTypes [] with
      | error e => simp [Upsert, hk, hb]
      | ok buffer => rw [upsert_eq_of_ok _ _ _ _ _ hk hb] at h; exact absurd rfl h
  · intro h
    cases hk : encodeKeyFromRow tableInfo row batch.ShardID with
    | error e => simp [Delete, hk]
    | ok key => rw [delete_eq_of_ok _ _ _ _ hk] at h; exact absurd rfl h

/-- An instance of `table_ops_key_invariant` by evaluation: the key of the sensor readings
row on shard 1000, and a row of the wrong type, which leaves the batch as it was. -/
theorem table_ops_key_invariant_example :
    (Upsert sensorReadings wincantonRow (NewWriteBatch 1000 false)).1.puts.map Prod.fst
      = [[0, 0, 0, 0, 0, 0, 3, 232, 0, 0, 0, 0, 0, 0, 3, 233, 1, 128, 0, 0, 0, 0, 0, 0, 1]] ∧
    (Delete sensorReadings wincantonRow (NewWriteBatch 1000 false)).1.Deletes
      = [[0, 0, 0, 0, 0, 0, 3, 232, 0, 0, 0, 0, 0, 0, 3, 233, 1, 128, 0, 0, 0, 0, 0, 0, 1]] ∧
    Upsert sensorReadings [.string [1], .string [2], .float64 0] (NewWriteBatch 1000 false)
      = (NewWriteBatch 1000 false, some "TypeMismatch") := by
  decide

end PranaDB

namespace PranaDB

/-! ## `CreateSourceCommand.BeforePrepare` -/

/-- A source info that `getSourceInfo` returns carries the name of the statement, the
schema name of the command and the first pre-allocated table sequence. -/
theorem getSourceInfo_ok (encodingFromString : String → KafkaEncoding) (c : CreateSourceCommand)
    (ast : Option CreateSource) (sourceInfo : SourceInfo)
    (h : c.getSourceInfo encodingFromString ast = .ok sourceInfo) :
    ∃ a, ast = some a ∧ sourceInfo.TableInfo.Name = a.Name ∧
      sourceInfo.TableInfo.SchemaName = c.schemaName ∧
      c.tableSequences.head? = some sourceInfo.TableInfo.ID := by
  unfold CreateSourceCommand.getSourceInfo at h
  split at h
  · cases h
  · rename_i a
    refine ⟨a, rfl, ?_⟩
    split at h
    · cases h
    · cases h
    · split at h
      · cases h
      · cases h
      · split_ifs at h
        split at h
        · cases h
        · rename_i id rest hseq
          cases h
          simp only [hseq, List.head?_cons, and_self]

/-- An invalid statement: `BeforePrepare` returns the error of `getSourceInfo` and leaves
the meta controller as it was, whether or not the name is taken. -/
theorem beforePrepare_invalid (encodingFromString : String → KafkaEncoding)
    (storeError : Option PranaError) (c : CreateSourceCommand) (m : MetaController)
    (e : PranaError) (h : c.getSourceInfo encodingFromString c.ast = .err e) :
    (c.BeforePrepare encodingFromString storeError m).2 = (m, .err e) := by
  simp only [CreateSourceCommand.BeforePrepare, h]

/-- C20, counterexample. Schema `test` already has a source `sensor_readings`, and the
statement that creates a source of that name has no topic information: `BeforePrepare`
returns the invalid-statement error of `getSourceInfo`, not a source-already-exists
error. -/
theorem beforePrepare_invalid_statement_first :
    sensorReadingsMeta.GetSource "test" sensorReadingsNoTopic.Name = true ∧
    ((sensorReadingsCommand sensorReadingsNoTopic).BeforePrepare KafkaEncodingFromString none
        sensorReadingsMeta).2.2 = .err (.InvalidStatement "headerEncoding is required") ∧
    ((sensorReadingsCommand sensorReadingsNoTopic).BeforePrepare KafkaEncodingFromString none
        sensorReadingsMeta).2.2 ≠ .err (.SourceAlreadyExists "test" "sensor_readings") := by
  decide

/-- C20, as amended. When the statement is valid, so that `getSourceInfo` returns a source
info (whose name is the name in the statement): if the schema already has a source of that
name, `BeforePrepare` returns a source-already-exists error and leaves the meta controller
and its catalog as they were; otherwise it calls `PersistSource` once with prepare state
add, so that the catalog gains exactly the row of the source in state add when the write
succeeds, and `BeforePrepare` returns the error of the write, leaving the catalog as it
was, when it fails. -/
theorem beforePrepare_rejects_collisions (encodingFromString : String → KafkaEncoding)
    (storeError : Option PranaError) (c : CreateSourceCommand) (m : MetaController)
    (sourceInfo : SourceInfo)
    (hvalid : c.getSourceInfo encodingFromString c.ast = .ok sourceInfo) :
    (∃ a, c.ast = some a ∧ sourceInfo.TableInfo.Name = a.Name) ∧
    (m.GetSource c.schemaName sourceInfo.TableInfo.Name = true →
      (c.BeforePrepare encodingFromString storeError m).2
        = (m, .err (.SourceAlreadyExists c.schemaName sourceInfo.TableInfo.Name))) ∧
    (m.GetSource c.schemaName sourceInfo.TableInfo.Name = false → storeError = none →
      (c.BeforePrepare encodingFromString storeError m).2
        = ({ m with persisted := m.persisted ++ [(sourceInfo, PrepareState.Add)] }, .ok ())) ∧
    (m.GetSource c.schemaName sourceInfo.TableInfo.Name = false → ∀ e, storeError = some e →
      (c.BeforePrepare encodingFromString storeError m).2 = (m, .err e)) := by
  obtain ⟨a, ha, hn, _, _⟩ := getSourceInfo_ok encodingFromString c c.ast sourceInfo hvalid
  refine ⟨⟨a, ha, hn⟩, ?_, ?_, ?_⟩
  · intro hg
    simp only [CreateSourceCommand.BeforePrepare, hvalid, hg, if_true]
  · intro hg hs
    subst hs
    simp only [CreateSourceCommand.BeforePrepare, hvalid, hg, MetaController.PersistSource]
    rfl
  · intro hg e hs
    subst hs
    simp only [CreateSourceCommand.BeforePrepare, hvalid, hg, MetaController.PersistSource]
    rfl

theorem beforePrepare_rejects_collisions_witness :
    (sensorReadingsCommand sensorReadingsSource).getSourceInfo KafkaEncodingFromString
        (sensorReadingsCommand sensorReadingsSource).ast = .ok sensorReadingsInfo ∧
    sensorReadingsMeta.GetSource "test" "sensor_readings" = true ∧
    emptyMeta.GetSource "test" "sensor_readings" = false ∧
    ((sensorReadingsCommand sensorReadingsSource).BeforePrepare KafkaEncodingFromString none
        sensorReadingsMeta).2
      = (sensorReadingsMeta, .err (.SourceAlreadyExists "test" "sensor_readings")) ∧
    ((sensorReadingsCommand sensorReadingsSource).BeforePrepare KafkaEncodingFromString none
        emptyMeta).2
      = ({ sources := [], persisted := [(sensorReadingsInfo, PrepareState.Add)] }, .ok ()) :=
  ⟨by decide, by decide, by decide,
    (beforePrepare_rejects_collisions KafkaEncodingFromString none
      (sensorReadingsCommand sensorReadingsSource) sensorReadingsMeta sensorReadingsInfo
      (by decide)).2.1 (by decide),
    (beforePrepare_rejects_collisions KafkaEncodingFromString none
      (sensorReadingsCommand sensorReadingsSource) emptyMeta sensorReadingsInfo
      (by decide)).2.2.1 (by decide) rfl⟩

end PranaDB

namespace PranaDB

/-! ## Table ids of a broadcast DDL statement -/

theorem assignsOnly_unchanged (t : Nat) (e : Executor) (r : Result Unit) (hr : r ≠ .ok ()) :
    AssignsOnly t e (e, r) :=
  ⟨rfl, rfl, rfl, [], (List.append_nil _).symm, Nat.zero_le _, fun _ h => (by cases h),
    fun h => absurd h hr⟩

theorem assignsOnly_one (t : Nat) (e : Executor) (schemaName name : String) (r : Result Unit) :
    AssignsOnly t e ({ e with assigned := e.assigned ++ [(schemaName, name, t)] }, r) :=
  ⟨rfl, rfl, rfl, [(schemaName, name, t)], rfl, Nat.le_refl _,
    fun x h => (by rw [List.mem_singleton.mp h]), fun _ => rfl⟩

theorem createSource_assigns (ext : Externals) (e : Executor) (schemaName name : String)
    (colNames : List String) (colTypes : List ColumnType) (pkCols : List Nat)
    (t : Nat) (rest : List Nat) (persist : Bool) :
    AssignsOnly t e (e.createSource ext schemaName name colNames colTypes pkCols
      (some (NewPreallocSeqGen (t :: rest))) persist) := by
  simp only [Executor.createSource, NewPreallocSeqGen, PreallocSeqGen.GenerateSequence,
    List.get?_cons_zero]
  split
  · exact assignsOnly_one _ _ _ _ _
  · split <;> exact assignsOnly_one _ _ _ _ _

theorem createMaterializedView_assigns (ext : Externals) (e : Executor)
    (schemaName name query : String) (t : Nat) (rest : List Nat) (persist : Bool) :
    AssignsOnly t e (e.createMaterializedView ext schemaName name query
      (some (NewPreallocSeqGen (t :: rest))) persist) := by
  simp only [Executor.createMaterializedView, NewPreallocSeqGen,
    PreallocSeqGen.GenerateSequence, List.get?_cons_zero]
  split
  · exact assignsOnly_one _ _ _ _ _
  · split <;> exact assignsOnly_one _ _ _ _ _

theorem execCreateSource_assigns (ext : Externals) (e : Executor) (schemaName : String)
    (src : CreateSource) (t : Nat) (rest : List Nat) (persist : Bool) :
    AssignsOnly t e (e.execCreateSource ext schemaName src
      (some (NewPreallocSeqGen (t :: rest))) persist) := by
  unfold Executor.execCreateSource
  split
  · exact assignsOnly_unchanged _ _ _ (by simp)
  · exact assignsOnly_unchanged _ _ _ (by simp)
  · exact createSource_assigns _ _ _ _ _ _ _ _ _ _

theorem execCreate_assigns (ext : Externals) (e : Executor) (schemaName : String)
    (create : Create) (t : Nat) (rest : List Nat) (persist : Bool) :
    AssignsOnly t e (execCreate ext e schemaName create (t :: rest) persist) := by
  unfold execCreate
  split
  · exact createMaterializedView_assigns _ _ _ _ _ _ _ _
  · exact execCreateSource_assigns _ _ _ _ _ _ _
  · exact assignsOnly_unchanged _ _ _ (by simp)

/-- A create statement that arrives with pre-allocated sequences (persist is false) runs
the create branch with them and touches neither the cluster nor the broadcasts. -/
theorem executeInternal_prealloc (ext : Externals) (e : Executor) (schemaName sql : String)
    (ast : AST) (create : Create) (sequences : List Nat)
    (hparse : ext.Parse sql = .ok ast) (hsel : ast.Select = "") (hprep : ast.Prepare = "")
    (hexe : ast.Execute = "") (hdrop : ast.Drop = "") (hcreate : ast.Create = some create)
    (hkind : create.MaterializedView.isSome ∨ create.Source.isSome) :
    e.executeSQLStatementInternal ext schemaName sql false (some (NewPreallocSeqGen sequences))
      = execCreate ext e schemaName create sequences false := by
  simp only [Executor.executeSQLStatementInternal, hparse, hsel, hprep, hexe, hdrop, hcreate,
    ne_eq, not_true_eq_false, if_false, execCreate]
  rcases hmv : create.MaterializedView with _ | mv <;>
    rcases hsrc : create.Source with _ | src <;>
    simp_all

/-- A create statement on the originating node (persist is true): the sequences are
drawn from the cluster, starting with its counter, then broadcast, then used. -/
theorem executeInternal_persist (ext : Externals) (e : Executor) (schemaName sql : String)
    (ast : AST) (create : Create) (g : Option PreallocSeqGen)
    (hparse : ext.Parse sql = .ok ast) (hsel : ast.Select = "") (hprep : ast.Prepare = "")
    (hexe : ast.Execute = "") (hdrop : ast.Drop = "") (hcreate : ast.Create = some create)
    (hkind : create.MaterializedView.isSome ∨ create.Source.isSome) :
    ∃ rest, ∃ e1 : Executor,
      e1.assigned = e.assigned ∧
      e1.broadcasts = e.broadcasts ++
        [{ OriginatingNodeId := e.cluster.GetNodeID, SchemaName := schemaName, Sql := sql,
           TableSequences := e.cluster.tableSequence :: rest }] ∧
      (e.executeSQLStatementInternal ext schemaName sql true g
          = execCreate ext e1 schemaName create (e.cluster.tableSequence :: rest) true ∨
        ∃ err, e.executeSQLStatementInternal ext schemaName sql true g = (e1, .err err)) := by
  have h1 : e.generateSequences 1
      = ({ e with cluster :=
            { e.cluster with tableSequence := (e.cluster.tableSequence + 1) % 2 ^ 64 } },
          .ok [e.cluster.tableSequence]) := rfl
  have h2 : e.generateSequences 2
      = ({ e with cluster :=
            { e.cluster with
              tableSequence := ((e.cluster.tableSequence + 1) % 2 ^ 64 + 1) % 2 ^ 64 } },
          .ok [e.cluster.tableSequence, (e.cluster.tableSequence + 1) % 2 ^ 64]) := rfl
  rcases hmv : create.MaterializedView with _ | mv
  · rcases hsrc : create.Source with _ | src
    · simp [hmv, hsrc] at hkind
    · refine ⟨[],
        { e with
          cluster := { e.cluster with tableSequence := (e.cluster.tableSequence + 1) % 2 ^ 64 },
          broadcasts := e.broadcasts ++
            [{ OriginatingNodeId := e.cluster.GetNodeID, SchemaName := schemaName, Sql := sql,
               TableSequences := [e.cluster.tableSequence] }] }, rfl, rfl, ?_⟩
      simp only [Executor.executeSQLStatementInternal, hparse, hsel, hprep, hexe, hdrop,
        hcreate, ne_eq, not_true_eq_false, if_false, if_true, execCreate, h1, hmv, hsrc,
        Executor.broadcastDDL]
      split
      · rename_i e2 err heq
        simp only [Prod.mk.injEq] at heq
        obtain ⟨rfl, _⟩ := heq
        right
        exact ⟨err, rfl⟩
      · rename_i e2 heq
        simp only [Prod.mk.injEq] at heq
        obtain ⟨rfl, _⟩ := heq
        left
        rfl
  · refine ⟨[(e.cluster.tableSequence + 1) % 2 ^ 64],
      { e with
        cluster := { e.cluster with
          tableSequence := ((e.cluster.tableSequence + 1) % 2 ^ 64 + 1) % 2 ^ 64 },
        broadcasts := e.broadcasts ++
          [{ OriginatingNodeId := e.cluster.GetNodeID, SchemaName := schemaName, Sql := sql,
             TableSequences :=
               [e.cluster.tableSequence, (e.cluster.tableSequence + 1) % 2 ^ 64] }] },
      rfl, rfl, ?_⟩
    simp only [Executor.executeSQLStatementInternal, hparse, hsel, hprep, hexe, hdrop,
      hcreate, ne_eq, not_true_eq_false, if_false, if_true, execCreate, h2, hmv,
      Executor.broadcastDDL]
    split
    · rename_i e2 err heq
      simp only [Prod.mk.injEq] at heq
      obtain ⟨rfl, _⟩ := heq
      right
      exact ⟨err, rfl⟩
    · rename_i e2 heq
      simp only [Prod.mk.injEq] at heq
      obtain ⟨rfl, _⟩ := heq
      left
      rfl

theorem handleNotification_fst (ext : Externals) (e : Executor) (ddlStmt : DDLStatementInfo) :
    (e.HandleNotification ext ddlStmt).1
      = if ddlStmt.OriginatingNodeId ≠ e.cluster.GetNodeID then
          ((e.CreateSession ddlStmt.SchemaName).1.executeSQLStatementInternal ext
            ddlStmt.SchemaName ddlStmt.Sql false
            (some (NewPreallocSeqGen ddlStmt.TableSequences))).1
        else (e.CreateSession ddlStmt.SchemaName).1 := by
  simp only [Executor.HandleNotification, Executor.CreateSession, FakeCluster.GetNodeID]
  split_ifs
  · split <;> simp_all
  · rfl

/-- C19. A statement that parses to a CREATE SOURCE or a CREATE MATERIALIZED VIEW is
executed with persist true on an originating node `e`. The table sequences it broadcasts
start with the value of the cluster counter, and every table id that the originating node
assigns is that first sequence (one is assigned whenever the statement succeeds). On any
node `e2` that handles the broadcast notification: its cluster, and so its table id
counter, is unchanged (no call of `GenerateTableID`), it broadcasts nothing, a node with
the originating node id assigns nothing (the statement is not executed again), and any
other node assigns only table ids equal to that same first sequence, and assigns one
whenever its execution of the statement succeeds. -/
theorem ddl_same_table_id (ext : Externals) (e : Executor) (schemaName sql : String)
    (ast : AST) (create : Create)
    (hparse : ext.Parse sql = .ok ast) (hsel : ast.Select = "") (hprep : ast.Prepare = "")
    (hexe : ast.Execute = "") (hdrop : ast.Drop = "") (hcreate : ast.Create = some create)
    (hkind : create.MaterializedView.isSome ∨ create.Source.isSome) :
    ∃ sequences added,
      sequences.head? = some e.cluster.tableSequence ∧
      (e.ExecuteSQLStatement ext schemaName sql).1.broadcasts
        = e.broadcasts ++
            [{ OriginatingNodeId := e.cluster.GetNodeID, SchemaName := schemaName, Sql := sql,
               TableSequences := sequences }] ∧
      (e.ExecuteSQLStatement ext schemaName sql).1.assigned = e.assigned ++ added ∧
      added.length ≤ 1 ∧ (∀ x ∈ added, x.2.2 = e.cluster.tableSequence) ∧
      ((e.ExecuteSQLStatement ext schemaName sql).2 = .ok () → added.length = 1) ∧
      ∀ (ext2 : Externals) (e2 : Executor), ext2.Parse sql = .ok ast →
        (e2.HandleNotification ext2
            { OriginatingNodeId := e.cluster.GetNodeID, SchemaName := schemaName, Sql := sql,
              TableSequences := sequences }).1.cluster = e2.cluster ∧
        (e2.HandleNotification ext2
            { OriginatingNodeId := e.cluster.GetNodeID, SchemaName := schemaName, Sql := sql,
              TableSequences := sequences }).1.broadcasts = e2.broadcasts ∧
        (e2.cluster.GetNodeID = e.cluster.GetNodeID →
          (e2.HandleNotification ext2
              { OriginatingNodeId := e.cluster.GetNodeID, SchemaName := schemaName, Sql := sql,
                TableSequences := sequences }).1.assigned = e2.assigned) ∧
        (e2.cluster.GetNodeID ≠ e.cluster.GetNodeID →
          ∃ added2,
            (e2.HandleNotification ext2
                { OriginatingNodeId := e.cluster.GetNodeID, SchemaName := schemaName,
                  Sql := sql, TableSequences := sequences }).1.assigned
              = e2.assigned ++ added2 ∧
            added2.length ≤ 1 ∧ (∀ x ∈ added2, x.2.2 = e.cluster.tableSequence) ∧
            (((e2.CreateSession schemaName).1.executeSQLStatementInternal ext2 schemaName sql
                false (some (NewPreallocSeqGen sequences))).2 = .ok () →
              added2.length = 1)) := by
  obtain ⟨rest, e1, ha, hb, hor⟩ :=
    executeInternal_persist ext e schemaName sql ast create none hparse hsel hprep hexe hdrop
      hcreate hkind
  have horig : ∃ added, (e.ExecuteSQLStatement ext schemaName sql).1.broadcasts = e1.broadcasts ∧
      (e.ExecuteSQLStatement ext schemaName sql).1.assigned = e1.assigned ++ added ∧
      added.length ≤ 1 ∧ (∀ x ∈ added, x.2.2 = e.cluster.tableSequence) ∧
      ((e.ExecuteSQLStatement ext schemaName sql).2 = .ok () → added.length = 1) := by
    unfold Executor.ExecuteSQLStatement
    rcases hor with h | ⟨err, h⟩
    · rw [h]
      obtain ⟨_, h2, _, added, h4, h5, h6, h7⟩ :=
        execCreate_assigns ext e1 schemaName create e.cluster.tableSequence rest true
      exact ⟨added, h2, h4, h5, h6, h7⟩
    · rw [h]
      exact ⟨[], rfl, (List.append_nil _).symm, Nat.zero_le _, fun _ hx => (by cases hx),
        fun hx => (by cases hx)⟩
  obtain ⟨added, h1, h2, h3, h4, h5⟩ := horig
  refine ⟨e.cluster.tableSequence :: rest, added, rfl, h1.trans hb, h2.trans (by rw [ha]),
    h3, h4, h5, ?_⟩
  intro ext2 e2 hparse2
  have hfst := handleNotification_fst ext2 e2
    { OriginatingNodeId := e.cluster.GetNodeID, SchemaName := schemaName, Sql := sql,
      TableSequences := e.cluster.tableSequence :: rest }
  have hexec := executeInternal_prealloc ext2 (e2.CreateSession schemaName).1 schemaName sql
    ast create (e.cluster.tableSequence :: rest) hparse2 hsel hprep hexe hdrop hcreate hkind
  obtain ⟨g1, g2, _, added2, g4, g5, g6, g7⟩ :=
    execCreate_assigns ext2 (e2.CreateSession schemaName).1 schemaName create
      e.cluster.tableSequence rest false
  simp only at hfst
  rw [hexec] at hfst
  by_cases hid : e2.cluster.GetNodeID = e.cluster.GetNodeID
  · have hne : ¬ (e.cluster.GetNodeID ≠ e2.cluster.GetNodeID) := fun h => h hid.symm
    rw [if_neg hne] at hfst
    rw [hfst]
    exact ⟨rfl, rfl, fun _ => rfl, fun h => absurd hid h⟩
  · have hne : e.cluster.GetNodeID ≠ e2.cluster.GetNodeID := fun h => hid h.symm
    rw [if_pos hne] at hfst
    rw [hfst, hexec]
    exact ⟨g1, g2, fun h => absurd h hid, fun _ => ⟨added2, g4, g5, g6, g7⟩⟩

theorem ddl_same_table_id_witness :
    (testExternals.Parse "create materialized view max_readings"
        = .ok { Create := some maxReadingsCreate } ∧
      (maxReadingsCreate.MaterializedView.isSome ∨ maxReadingsCreate.Source.isSome)) ∧
    ∃ sequences,
      sequences.head? = some 100 ∧
      (∀ e2 : Executor,
        (e2.HandleNotification testExternals
            { OriginatingNodeId := 0, SchemaName := "test",
              Sql := "create materialized view max_readings",
              TableSequences := sequences }).1.cluster = e2.cluster) :=
  ⟨⟨rfl, by decide⟩,
    match ddl_same_table_id testExternals node0 "test" "create materialized view max_readings"
        { Create := some maxReadingsCreate } maxReadingsCreate rfl rfl rfl rfl rfl rfl
        (by decide) with
    | ⟨sequences, _, h1, _, _, _, _, _, h7⟩ =>
      ⟨sequences, h1, fun e2 => (h7 testExternals e2 rfl).1⟩⟩

/-- The statements of `TestCreateMaterializedView` on two nodes: node 0 executes them and
assigns the table ids 100 and 101, its counter ending at 103; node 1, whose own counter is
at 500, handles the two notifications, assigns the same ids and keeps its counter; node 0
handling its own notifications assigns nothing more. -/
theorem ddl_same_table_id_example :
    ((node0.ExecuteSQLStatement testExternals "test" "create source sensor_readings").1
        |>.ExecuteSQLStatement testExternals "test" "create materialized view max_readings").1
      = { cluster := { emptyCluster with tableSequence := 103 },
          broadcasts :=
            [{ OriginatingNodeId := 0, SchemaName := "test",
               Sql := "create source sensor_readings", TableSequences := [100] },
             { OriginatingNodeId := 0, SchemaName := "test",
               Sql := "create materialized view max_readings",
               TableSequences := [101, 102] }],
          assigned := [("test", "sensor_readings", 100), ("test", "max_readings", 101)] } ∧
    ((node1.HandleNotification testExternals
          { OriginatingNodeId := 0, SchemaName := "test",
            Sql := "create source sensor_readings", TableSequences := [100] }).1
        |>.HandleNotification testExternals
          { OriginatingNodeId := 0, SchemaName := "test",
            Sql := "create materialized view max_readings", TableSequences := [101, 102] }).1
      = { cluster := node1.cluster, sessionIDSequence := 1,
          assigned := [("test", "sensor_readings", 100), ("test", "max_readings", 101)] } ∧
    (node0.HandleNotification testExternals
        { OriginatingNodeId := 0, SchemaName := "test",
          Sql := "create source sensor_readings", TableSequences := [100] }).1
      = { cluster := node0.cluster, sessionIDSequence := 0 } := by
  decide

end PranaDB

namespace PranaDB

/-! ## `CreateSourceCommand.getSourceInfo` -/

/-- The first loop of `getSourceInfo`, when it ends without error: the column names are
those of the declared columns, in order; there is one column type per declared column and
one primary key offset per PRIMARY KEY option. -/
theorem sourceOptionsLoop_ok (options : List SourceOption) :
    ∀ (i : Nat) (colNames : List String) (colTypes : List ColumnType)
      (colIndex : List (String × Nat)) (pkCols : List Nat)
      (colNames' : List String) (colTypes' : List ColumnType) (pkCols' : List Nat),
      sourceOptionsLoop options i colNames colTypes colIndex pkCols
        = .ok (colNames', colTypes', pkCols') →
      colNames' = colNames ++ (declaredColumns options).map (fun col => col.Name) ∧
      colTypes'.length = colTypes.length + (declaredColumns options).length ∧
      pkCols'.length = pkCols.length + (keyOptions options).length := by
  induction options with
  | nil =>
    intro i colNames colTypes colIndex pkCols colNames' colTypes' pkCols' h
    simp only [sourceOptionsLoop, Result.ok.injEq, Prod.mk.injEq] at h
    obtain ⟨rfl, rfl, rfl⟩ := h
    simp [declaredColumns, keyOptions]
  | cons option rest ih =>
    intro i colNames colTypes colIndex pkCols colNames' colTypes' pkCols' h
    rw [sourceOptionsLoop] at h
    rcases hcol : option.Column with _ | col
    · rw [hcol] at h
      simp only at h
      by_cases hpk : option.PrimaryKey = ""
      · simp [hpk] at h
      · rw [if_pos hpk] at h
        rcases hget : mapGet colIndex option.PrimaryKey with _ | index
        · simp [hget] at h
        · rw [hget] at h
          obtain ⟨h1, h2, h3⟩ := ih _ _ _ _ _ _ _ _ h
          refine ⟨?_, ?_, ?_⟩
          · simpa [declaredColumns, hcol] using h1
          · simpa [declaredColumns, hcol] using h2
          · simp only [keyOptions, List.filter_cons, hcol, Option.isNone_none, Bool.true_and,
              decide_eq_true_eq, ne_eq, hpk, not_false_eq_true, if_true, List.map_cons,
              List.length_cons, decide_True] at h3 ⊢
            simp only [keyOptions, List.length_append, List.length_singleton,
              List.length_map] at h3 ⊢
            omega
    · rw [hcol] at h
      simp only at h
      rcases hty : col.columnType with e | colType
      · simp [hty] at h
      · rw [hty] at h
        obtain ⟨h1, h2, h3⟩ := ih _ _ _ _ _ _ _ _ h
        refine ⟨?_, ?_, ?_⟩
        · simpa [declaredColumns, hcol] using h1
        · simp only [declaredColumns, List.filterMap_cons, hcol, List.length_cons,
            List.length_append, List.length_singleton, List.length_nil] at h2 ⊢
          omega
        · simpa [keyOptions, hcol] using h3

/-- One entry of the second loop of `getSourceInfo`: an unknown encoding string ends the
loop with an error, any other entry makes its assignment and the loop goes on. -/
theorem topicOptionsLoop_cons (encodingFromString : String → KafkaEncoding)
    (opt : TopicOption) (rest : List TopicOption) (vars : TopicVars) :
    topicOptionsLoop encodingFromString (opt :: rest) vars
      = match opt.suppliedEncoding with
        | some s =>
          if (encodingFromString s).Encoding = .Unknown then
            .err (.UnknownTopicEncoding ("Unknown topic encoding " ++ s))
          else topicOptionsLoop encodingFromString rest (topicStep encodingFromString opt vars)
        | none => topicOptionsLoop encodingFromString rest (topicStep encodingFromString opt vars) := by
  rw [topicOptionsLoop]
  by_cases hh : opt.HeaderEncoding = ""
  · by_cases hk : opt.KeyEncoding = ""
    · by_cases hv : opt.ValueEncoding = ""
      · simp only [TopicOption.suppliedEncoding, topicStep, hh, hk, hv, ne_eq,
          not_true_eq_false, if_false]
        rcases opt.Properties with _ | props
        · rcases opt.ColSelectors with _ | cs
          · simp only
            split_ifs <;> rfl
          · rfl
        · rfl
      · simp only [TopicOption.suppliedEncoding, topicStep, hh, hk, hv, ne_eq,
          not_true_eq_false, not_false_eq_true, if_false, if_true]
    · simp only [TopicOption.suppliedEncoding, topicStep, hh, hk, ne_eq,
        not_true_eq_false, not_false_eq_true, if_false, if_true]
  · simp only [TopicOption.suppliedEncoding, topicStep, hh, ne_eq, not_false_eq_true, if_true]

/-- The second loop of `getSourceInfo` never panics, and its only error is an unknown
topic encoding: it fails exactly when an entry supplies an encoding string that is not a
known encoding. -/
theorem topicOptionsLoop_err_iff (encodingFromString : String → KafkaEncoding)
    (topics : List TopicOption) :
    ∀ vars : TopicVars,
      ((∃ vars', topicOptionsLoop encodingFromString topics vars = .ok vars') ∨
        ∃ msg, topicOptionsLoop encodingFromString topics vars
          = .err (.UnknownTopicEncoding msg)) ∧
      ((∃ msg, topicOptionsLoop encodingFromString topics vars
          = .err (.UnknownTopicEncoding msg)) ↔
        ∃ opt ∈ topics, ∃ s, opt.suppliedEncoding = some s ∧
          (encodingFromString s).Encoding = .Unknown) := by
  induction topics with
  | nil =>
    intro vars
    simp [topicOptionsLoop]
  | cons opt rest ih =>
    intro vars
    obtain ⟨ih1, ih2⟩ := ih (topicStep encodingFromString opt vars)
    rw [topicOptionsLoop_cons]
    rcases hs : opt.suppliedEncoding with _ | s
    · simp only
      refine ⟨ih1, ih2.trans ⟨?_, ?_⟩⟩
      · rintro ⟨o, ho, h⟩
        exact ⟨o, List.mem_cons_of_mem _ ho, h⟩
      · rintro ⟨o, ho, s, h1, h2⟩
        rcases List.mem_cons.mp ho with rfl | ho
        · rw [hs] at h1
          cases h1
        · exact ⟨o, ho, s, h1, h2⟩
    · simp only
      by_cases hu : (encodingFromString s).Encoding = .Unknown
      · rw [if_pos hu]
        exact ⟨Or.inr ⟨_, rfl⟩, fun _ => ⟨opt, List.mem_cons_self _ _, s, hs, hu⟩,
          fun _ => ⟨_, rfl⟩⟩
      · rw [if_neg hu]
        refine ⟨ih1, ih2.trans ⟨?_, ?_⟩⟩
        · rintro ⟨o, ho, h⟩
          exact ⟨o, List.mem_cons_of_mem _ ho, h⟩
        · rintro ⟨o, ho, s', h1, h2⟩
          rcases List.mem_cons.mp ho with rfl | ho
          · rw [hs] at h1
            cases h1
            exact absurd h2 hu
          · exact ⟨o, ho, s', h1, h2⟩

/-- What one entry assigns: each variable keeps its value or takes the value that the
entry supplies for it. -/
theorem topicStep_vars (encodingFromString : String → KafkaEncoding) (opt : TopicOption)
    (vars : TopicVars) :
    ((topicStep encodingFromString opt vars).headerEncoding = vars.headerEncoding ∨
      (opt.HeaderEncoding ≠ "" ∧ opt.suppliedEncoding = some opt.HeaderEncoding ∧
        (topicStep encodingFromString opt vars).headerEncoding
          = encodingFromString opt.HeaderEncoding)) ∧
    ((topicStep encodingFromString opt vars).keyEncoding = vars.keyEncoding ∨
      (opt.KeyEncoding ≠ "" ∧ opt.suppliedEncoding = some opt.KeyEncoding ∧
        (topicStep encodingFromString opt vars).keyEncoding
          = encodingFromString opt.KeyEncoding)) ∧
    ((topicStep encodingFromString opt vars).valueEncoding = vars.valueEncoding ∨
      (opt.ValueEncoding ≠ "" ∧ opt.suppliedEncoding = some opt.ValueEncoding ∧
        (topicStep encodingFromString opt vars).valueEncoding
          = encodingFromString opt.ValueEncoding)) ∧
    ((topicStep encodingFromString opt vars).brokerName = vars.brokerName ∨
      (opt.BrokerName ≠ "" ∧
        (topicStep encodingFromString opt vars).brokerName = opt.BrokerName)) ∧
    ((topicStep encodingFromString opt vars).topicName = vars.topicName ∨
      (opt.TopicName ≠ "" ∧
        (topicStep encodingFromString opt vars).topicName = opt.TopicName)) ∧
    ((topicStep encodingFromString opt vars).colSelectors = vars.colSelectors ∨
      opt.ColSelectors = some (topicStep encodingFromString opt vars).colSelectors) := by
  unfold topicStep TopicOption.suppliedEncoding
  by_cases hh : opt.HeaderEncoding = ""
  · by_cases hk : opt.KeyEncoding = ""
    · by_cases hv : opt.ValueEncoding = ""
      · simp only [hh, hk, hv, ne_eq, not_true_eq_false, if_false]
        rcases hp : opt.Properties with _ | props
        · rcases hc : opt.ColSelectors with _ | cs
          · simp only
            by_cases hb : opt.BrokerName = ""
            · by_cases ht : opt.TopicName = ""
              · simp [hb, ht]
              · simp [hb, ht]
            · simp [hb]
          · simp
        · simp
      · simp [hh, hk, hv]
    · simp [hh, hk]
  · simp [hh]

/-- The variables at the end of the second loop: each keeps its initial value or has the
value that an entry of the topic information supplies, and an encoding so supplied is a
known one. -/
theorem topicOptionsLoop_vars (encodingFromString : String → KafkaEncoding)
    (topics : List TopicOption) :
    ∀ vars vars' : TopicVars, topicOptionsLoop encodingFromString topics vars = .ok vars' →
      (vars'.headerEncoding = vars.headerEncoding ∨
        ∃ opt ∈ topics, opt.HeaderEncoding ≠ "" ∧
          vars'.headerEncoding = encodingFromString opt.HeaderEncoding ∧
          (encodingFromString opt.HeaderEncoding).Encoding ≠ .Unknown) ∧
      (vars'.keyEncoding = vars.keyEncoding ∨
        ∃ opt ∈ topics, opt.KeyEncoding ≠ "" ∧
          vars'.keyEncoding = encodingFromString opt.KeyEncoding ∧
          (encodingFromString opt.KeyEncoding).Encoding ≠ .Unknown) ∧
      (vars'.valueEncoding = vars.valueEncoding ∨
        ∃ opt ∈ topics, opt.ValueEncoding ≠ "" ∧
          vars'.valueEncoding = encodingFromString opt.ValueEncoding ∧
          (encodingFromString opt.ValueEncoding).Encoding ≠ .Unknown) ∧
      (vars'.brokerName = vars.brokerName ∨
        ∃ opt ∈ topics, opt.BrokerName ≠ "" ∧ vars'.brokerName = opt.BrokerName) ∧
      (vars'.topicName = vars.topicName ∨
        ∃ opt ∈ topics, opt.TopicName ≠ "" ∧ vars'.topicName = opt.TopicName) ∧
      (vars'.colSelectors = vars.colSelectors ∨
        ∃ opt ∈ topics, opt.ColSelectors = some vars'.colSelectors) := by
  induction topics with
  | nil =>
    intro vars vars' h
    simp only [topicOptionsLoop, Result.ok.injEq] at h
    subst h
    exact ⟨Or.inl rfl, Or.inl rfl, Or.inl rfl, Or.inl rfl, Or.inl rfl, Or.inl rfl⟩
  | cons opt rest ih =>
    intro vars vars' h
    rw [topicOptionsLoop_cons] at h
    have hstep : topicOptionsLoop encodingFromString rest
          (topicStep encodingFromString opt vars) = .ok vars' ∧
        ∀ s, opt.suppliedEncoding = some s → (encodingFromString s).Encoding ≠ .Unknown := by
      rcases hs : opt.suppliedEncoding with _ | s
      · rw [hs] at h
        exact ⟨h, fun s hs' => by cases hs'⟩
      · rw [hs] at h
        simp only at h
        by_cases hu : (encodingFromString s).Encoding = .Unknown
        · rw [if_pos hu] at h
          cases h
        · rw [if_neg hu] at h
          exact ⟨h, fun s' hs' => by cases hs'; exact hu⟩
    obtain ⟨hrest, hknown⟩ := hstep
    obtain ⟨i1, i2, i3, i4, i5, i6⟩ := ih _ _ hrest
    obtain ⟨s1, s2, s3, s4, s5, s6⟩ := topicStep_vars encodingFromString opt vars
    refine ⟨?_, ?_, ?_, ?_, ?_, ?_⟩
    · rcases i1 with h1 | ⟨o, ho, hP⟩
      · rcases s1 with h2 | ⟨h2, h3, h4⟩
        · exact Or.inl (h1.trans h2)
        · exact Or.inr ⟨opt, List.mem_cons_self _ _, h2, h1.trans h4, hknown _ h3⟩
      · exact Or.inr ⟨o, List.mem_cons_of_mem _ ho, hP⟩
    · rcases i2 with h1 | ⟨o, ho, hP⟩
      · rcases s2 with h2 | ⟨h2, h3, h4⟩
        · exact Or.inl (h1.trans h2)
        · exact Or.inr ⟨opt, List.mem_cons_self _ _, h2, h1.trans h4, hknown _ h3⟩
      · exact Or.inr ⟨o, List.mem_cons_of_mem _ ho, hP⟩
    · rcases i3 with h1 | ⟨o, ho, hP⟩
      · rcases s3 with h2 | ⟨h2, h3, h4⟩
        · exact Or.inl (h1.trans h2)
        · exact Or.inr ⟨opt, List.mem_cons_self _ _, h2, h1.trans h4, hknown _ h3⟩
      · exact Or.inr ⟨o, List.mem_cons_of_mem _ ho, hP⟩
    · rcases i4 with h1 | ⟨o, ho, hP⟩
      · rcases s4 with h2 | ⟨h2, h4⟩
        · exact Or.inl (h1.trans h2)
        · exact Or.inr ⟨opt, List.mem_cons_self _ _, h2, h1.trans h4⟩
      · exact Or.inr ⟨o, List.mem_cons_of_mem _ ho, hP⟩
    · rcases i5 with h1 | ⟨o, ho, hP⟩
      · rcases s5 with h2 | ⟨h2, h4⟩
        · exact Or.inl (h1.trans h2)
        · exact Or.inr ⟨opt, List.mem_cons_self _ _, h2, h1.trans h4⟩
      · exact Or.inr ⟨o, List.mem_cons_of_mem _ ho, hP⟩
    · rcases i6 with h1 | ⟨o, ho, hP⟩
      · rcases s6 with h2 | h2
        · exact Or.inl (h1.trans h2)
        · exact Or.inr ⟨opt, List.mem_cons_self _ _, by rw [h1]; exact h2⟩
      · exact Or.inr ⟨o, List.mem_cons_of_mem _ ho, hP⟩

/-- The checks of `getSourceInfo` after its two loops, once both have ended without
error. -/
theorem getSourceInfo_after_loops (encodingFromString : String → KafkaEncoding)
    (c : CreateSourceCommand) (ast : CreateSource) (colNames : List String)
    (colTypes : List ColumnType) (pkCols : List Nat) (vars : TopicVars)
    (hopts : sourceOptionsLoop ast.Options 0 [] [] [] [] = .ok (colNames, colTypes, pkCols))
    (htopic : topicOptionsLoop encodingFromString ast.TopicInformation {} = .ok vars) :
    c.getSourceInfo encodingFromString (some ast)
      = if vars.headerEncoding = KafkaEncodingUnknown then
          .err (.InvalidStatement "headerEncoding is required")
        else if vars.keyEncoding = KafkaEncodingUnknown then
          .err (.InvalidStatement "keyEncoding is required")
        else if vars.valueEncoding = KafkaEncodingUnknown then
          .err (.InvalidStatement "valueEncoding is required")
        else if vars.brokerName = "" then .err (.InvalidStatement "brokerName is required")
        else if vars.topicName = "" then .err (.InvalidStatement "topicName is required")
        else if 0 < vars.colSelectors.length ∧ vars.colSelectors.length ≠ colTypes.length then
          .err (.WrongNumberColumnSelectors
            "Number of column selectors must match number of columns")
        else
          match c.tableSequences.head? with
          | none => .panic "index out of range"
          | some id =>
            .ok { TableInfo :=
                    { ID := id, SchemaName := c.schemaName, Name := ast.Name,
                      PrimaryKeyCols := pkCols, ColumnNames := colNames,
                      ColumnTypes := colTypes },
                  TopicInfo :=
                    { BrokerName := vars.brokerName, TopicName := vars.topicName,
                      HeaderEncoding := vars.headerEncoding, KeyEncoding := vars.keyEncoding,
                      ValueEncoding := vars.valueEncoding, ColSelectors := vars.colSelectors,
                      Properties := vars.propsMap } } := by
  simp only [CreateSourceCommand.getSourceInfo, hopts, htopic]
  split_ifs <;> first | rfl | (cases c.tableSequences <;> rfl)

/-- A source info that `getSourceInfo` returns comes from the results of the two loops,
which both ended without error and passed every check after them. -/
theorem getSourceInfo_ok_inv (encodingFromString : String → KafkaEncoding)
    (c : CreateSourceCommand) (ast : CreateSource) (info : SourceInfo)
    (h : c.getSourceInfo encodingFromString (some ast) = .ok info) :
    ∃ vars, sourceOptionsLoop ast.Options 0 [] [] [] []
        = .ok (info.TableInfo.ColumnNames, info.TableInfo.ColumnTypes,
            info.TableInfo.PrimaryKeyCols) ∧
      topicOptionsLoop encodingFromString ast.TopicInformation {} = .ok vars ∧
      vars.headerEncoding ≠ KafkaEncodingUnknown ∧ vars.keyEncoding ≠ KafkaEncodingUnknown ∧
      vars.valueEncoding ≠ KafkaEncodingUnknown ∧ vars.brokerName ≠ "" ∧
      vars.topicName ≠ "" ∧
      ¬ (0 < vars.colSelectors.length ∧
        vars.colSelectors.length ≠ info.TableInfo.ColumnTypes.length) ∧
      info.TopicInfo =
        { BrokerName := vars.brokerName, TopicName := vars.topicName,
          HeaderEncoding := vars.headerEncoding, KeyEncoding := vars.keyEncoding,
          ValueEncoding := vars.valueEncoding, ColSelectors := vars.colSelectors,
          Properties := vars.propsMap } := by
  rcases hopts : sourceOptionsLoop ast.Options 0 [] [] [] [] with ⟨colNames, colTypes, pkCols⟩ | e | p
  · rcases htopic : topicOptionsLoop encodingFromString ast.TopicInformation {} with vars | e | p
    · rw [getSourceInfo_after_loops encodingFromString c ast _ _ _ _ hopts htopic] at h
      split_ifs at h with h1 h2 h3 h4 h5 h6
      split at h
      · cases h
      · cases h
        exact ⟨vars, rfl, rfl, h1, h2, h3, h4, h5, h6, rfl⟩
    · simp [CreateSourceCommand.getSourceInfo, hopts, htopic] at h
    · simp [CreateSourceCommand.getSourceInfo, hopts, htopic] at h
  · simp [CreateSourceCommand.getSourceInfo, hopts] at h
  · simp [CreateSourceCommand.getSourceInfo, hopts] at h

end PranaDB

namespace PranaDB

/-- C21. For every CREATE SOURCE statement that passes the earlier checks of
`getSourceInfo` (both loops end without error, the three encodings and the broker and topic
names are set), where the column selector list is the one that the topic information
supplies (empty when it supplies none) and there is one column type per declared column:
`getSourceInfo` fails with `WrongNumberColumnSelectors` if and only if the selector list
is not empty and its length differs from the number of declared columns; and every source
info it returns has no column selectors or exactly as many as column types. -/
theorem getSourceInfo_selector_count (encodingFromString : String → KafkaEncoding)
    (c : CreateSourceCommand) (ast : CreateSource) (colNames : List String)
    (colTypes : List ColumnType) (pkCols : List Nat) (vars : TopicVars)
    (hopts : sourceOptionsLoop ast.Options 0 [] [] [] [] = .ok (colNames, colTypes, pkCols))
    (htopic : topicOptionsLoop encodingFromString ast.TopicInformation {} = .ok vars)
    (hh : vars.headerEncoding ≠ KafkaEncodingUnknown)
    (hk : vars.keyEncoding ≠ KafkaEncodingUnknown)
    (hv : vars.valueEncoding ≠ KafkaEncodingUnknown)
    (hb : vars.brokerName ≠ "") (ht : vars.topicName ≠ "") :
    colTypes.length = (declaredColumns ast.Options).length ∧
    (vars.colSelectors = [] ∨
      ∃ opt ∈ ast.TopicInformation, opt.ColSelectors = some vars.colSelectors) ∧
    ((∃ msg, c.getSourceInfo encodingFromString (some ast)
        = .err (.WrongNumberColumnSelectors msg)) ↔
      (vars.colSelectors ≠ [] ∧
        vars.colSelectors.length ≠ (declaredColumns ast.Options).length)) ∧
    (∀ info, c.getSourceInfo encodingFromString (some ast) = .ok info →
      info.TopicInfo.ColSelectors = [] ∨
        info.TopicInfo.ColSelectors.length = info.TableInfo.ColumnTypes.length) := by
  have hlen : colTypes.length = (declaredColumns ast.Options).length := by
    have := (sourceOptionsLoop_ok ast.Options 0 [] [] [] [] _ _ _ hopts).2.1
    simpa using this
  have hsel := (topicOptionsLoop_vars encodingFromString ast.TopicInformation _ _ htopic).2.2.2.2.2
  have hres := getSourceInfo_after_loops encodingFromString c ast _ _ _ _ hopts htopic
  rw [if_neg hh, if_neg hk, if_neg hv, if_neg hb, if_neg ht] at hres
  refine ⟨hlen, hsel, ?_, ?_⟩
  · rw [hres, ← hlen]
    by_cases hc : 0 < vars.colSelectors.length ∧ vars.colSelectors.length ≠ colTypes.length
    · rw [if_pos hc]
      exact ⟨fun _ => ⟨List.ne_nil_of_length_pos hc.1, hc.2⟩, fun _ => ⟨_, rfl⟩⟩
    · rw [if_neg hc]
      constructor
      · rintro ⟨msg, h⟩
        split at h <;> cases h
      · rintro ⟨h1, h2⟩
        exact absurd ⟨List.length_pos.mpr h1, h2⟩ hc
  · intro info h
    rw [hres] at h
    by_cases hc : 0 < vars.colSelectors.length ∧ vars.colSelectors.length ≠ colTypes.length
    · rw [if_pos hc] at h
      cases h
    · rw [if_neg hc] at h
      split at h
      · cases h
      · cases h
        simp only
        rcases Nat.eq_zero_or_pos vars.colSelectors.length with h0 | hpos
        · exact Or.inl (List.length_eq_zero.mp h0)
        · right
          by_contra hne
          exact hc ⟨hpos, hne⟩

theorem getSourceInfo_selector_count_witness :
    (sourceOptionsLoop sensorReadingsSource.Options 0 [] [] [] []
        = .ok (["sensor_id", "location", "temperature"], [.BigInt, .Varchar, .Double], [0]) ∧
      topicOptionsLoop KafkaEncodingFromString sensorReadingsSource.TopicInformation {}
        = .ok { headerEncoding := { Encoding := .JSON, SchemaName := "" },
                keyEncoding := { Encoding := .JSON, SchemaName := "" },
                valueEncoding := { Encoding := .JSON, SchemaName := "" },
                colSelectors := ["k.k0", "v.v1", "v.v2"], brokerName := "testbroker",
                topicName := "readings" }) ∧
    ¬ ∃ msg, (sensorReadingsCommand sensorReadingsSource).getSourceInfo KafkaEncodingFromString
        (some sensorReadingsSource) = .err (.WrongNumberColumnSelectors msg) :=
  ⟨⟨by decide, by decide⟩,
    fun h => ((getSourceInfo_selector_count KafkaEncodingFromString
      (sensorReadingsCommand sensorReadingsSource) sensorReadingsSource
      ["sensor_id", "location", "temperature"] [.BigInt, .Varchar, .Double] [0]
      { headerEncoding := { Encoding := .JSON, SchemaName := "" },
        keyEncoding := { Encoding := .JSON, SchemaName := "" },
        valueEncoding := { Encoding := .JSON, SchemaName := "" },
        colSelectors := ["k.k0", "v.v1", "v.v2"], brokerName := "testbroker",
        topicName := "readings" }
      (by decide) (by decide) (by decide) (by decide) (by decide) (by decide)
      (by decide)).2.2.1.mp h).2 (by decide)⟩

/-- C22, failing input. The statement `(sensor_id BIGINT, PRIMARY KEY sensor_id, location
VARCHAR, PRIMARY KEY location)` is accepted by `getSourceInfo`; the returned source info
has the two columns `sensor_id` and `location` and the primary key offsets 0 and 2: the
second is the index of the option of `location`, not the offset of the column, and is
outside the column names and column types. `execCreateSource` builds the same lists. -/
theorem getSourceInfo_key_offset_is_option_index :
    ∃ info, (sensorReadingsCommand interleavedKeySource).getSourceInfo KafkaEncodingFromString
        (some interleavedKeySource) = .ok info ∧
      keyOptions interleavedKeySource.Options = ["sensor_id", "location"] ∧
      info.TableInfo.ColumnNames = ["sensor_id", "location"] ∧
      info.TableInfo.ColumnTypes = [.BigInt, .Varchar] ∧
      info.TableInfo.PrimaryKeyCols = [0, 2] ∧
      info.TableInfo.ColumnNames.get? 2 = none ∧
      info.TableInfo.ColumnTypes.get? 2 = none ∧
      sourceOptionsLoop interleavedKeySource.Options 0 [] [] [] []
        = .ok (["sensor_id", "location"], [.BigInt, .Varchar], [0, 2]) :=
  ⟨_, rfl, by decide, rfl, rfl, rfl, rfl, rfl, by decide⟩

/-- C23, counterexample. The statement of `sensor_readings` without a PRIMARY KEY option
is accepted by `getSourceInfo`, and the source info it returns has no primary key
offset. -/
theorem getSourceInfo_accepts_no_key :
    keyOptions sensorReadingsNoKey.Options = [] ∧
    ∃ info, (sensorReadingsCommand sensorReadingsNoKey).getSourceInfo KafkaEncodingFromString
        (some sensorReadingsNoKey) = .ok info ∧
      info.TableInfo.PrimaryKeyCols = [] :=
  ⟨by decide, _, rfl, rfl⟩

/-- C23, as amended. Every source info that `getSourceInfo` returns has one primary key
offset for each PRIMARY KEY option of the statement, so its primary key offsets are empty
exactly when the statement has no PRIMARY KEY option. -/
theorem getSourceInfo_key_count (encodingFromString : String → KafkaEncoding)
    (c : CreateSourceCommand) (ast : CreateSource) (info : SourceInfo)
    (h : c.getSourceInfo encodingFromString (some ast) = .ok info) :
    info.TableInfo.PrimaryKeyCols.length = (keyOptions ast.Options).length ∧
    (info.TableInfo.PrimaryKeyCols = [] ↔ keyOptions ast.Options = []) := by
  obtain ⟨vars, hopts, -⟩ := getSourceInfo_ok_inv encodingFromString c ast info h
  have hlen : info.TableInfo.PrimaryKeyCols.length = (keyOptions ast.Options).length := by
    have := (sourceOptionsLoop_ok ast.Options 0 [] [] [] [] _ _ _ hopts).2.2
    simpa using this
  refine ⟨hlen, ?_⟩
  rw [← List.length_eq_zero, ← List.length_eq_zero, hlen]

theorem getSourceInfo_key_count_witness :
    (sensorReadingsCommand sensorReadingsSource).getSourceInfo KafkaEncodingFromString
        (some sensorReadingsSource) = .ok sensorReadingsInfo ∧
    sensorReadingsInfo.TableInfo.PrimaryKeyCols.length
      = (keyOptions sensorReadingsSource.Options).length ∧
    (sensorReadingsInfo.TableInfo.PrimaryKeyCols = [] ↔
      keyOptions sensorReadingsSource.Options = []) :=
  ⟨by decide,
    getSourceInfo_key_count KafkaEncodingFromString (sensorReadingsCommand sensorReadingsSource)
      sensorReadingsSource sensorReadingsInfo (by decide)⟩

/-- C24, counterexample. Two statements with a value encoding `avro`, which is not a known
encoding. The first has no broker name either, and fails with `UnknownTopicEncoding`, not
with `InvalidStatement`, although its broker name is missing. The second has a PRIMARY KEY
option for an undeclared column, and fails with the error of that option, not with
`UnknownTopicEncoding`, although it supplies an unknown encoding. -/
theorem getSourceInfo_first_defect_decides :
    (∃ opt ∈ sensorReadingsAvro.TopicInformation, opt.suppliedEncoding = some "avro") ∧
    (∀ opt ∈ sensorReadingsAvro.TopicInformation, opt.BrokerName = "") ∧
    (sensorReadingsCommand sensorReadingsAvro).getSourceInfo KafkaEncodingFromString
        (some sensorReadingsAvro)
      = .err (.UnknownTopicEncoding "Unknown topic encoding avro") ∧
    (¬ ∃ msg, (sensorReadingsCommand sensorReadingsAvro).getSourceInfo KafkaEncodingFromString
        (some sensorReadingsAvro) = .err (.InvalidStatement msg)) ∧
    (∃ opt ∈ sensorReadingsBadKey.TopicInformation, opt.suppliedEncoding = some "avro") ∧
    (KafkaEncodingFromString "avro").Encoding = .Unknown ∧
    (sensorReadingsCommand sensorReadingsBadKey).getSourceInfo KafkaEncodingFromString
        (some sensorReadingsBadKey)
      = .err (.other "invalid primary key column reading_id") ∧
    (¬ ∃ msg, (sensorReadingsCommand sensorReadingsBadKey).getSourceInfo
        KafkaEncodingFromString (some sensorReadingsBadKey)
      = .err (.UnknownTopicEncoding msg)) := by
  have h1 : (sensorReadingsCommand sensorReadingsAvro).getSourceInfo KafkaEncodingFromString
        (some sensorReadingsAvro)
      = .err (.UnknownTopicEncoding "Unknown topic encoding avro") := by decide
  have h2 : (sensorReadingsCommand sensorReadingsBadKey).getSourceInfo KafkaEncodingFromString
        (some sensorReadingsBadKey)
      = .err (.other "invalid primary key column reading_id") := by decide
  refine ⟨by decide, by decide, h1, ?_, by decide, by decide, h2, ?_⟩
  · rintro ⟨msg, h⟩
    rw [h1] at h
    cases h
  · rintro ⟨msg, h⟩
    rw [h2] at h
    cases h

/-- C24, as amended. `getSourceInfo` returns a source info only if an entry of the topic
information supplies each of the header, key and value encodings, each is a known
encoding, and the broker and topic names are not empty. When the column and primary key
options are accepted: if an entry supplies an encoding string that is not a known
encoding, `getSourceInfo` fails with `UnknownTopicEncoding`; and if every supplied
encoding is known, so that the loop over the topic information ends, and an encoding, the
broker name or the topic name is missing, it fails with `InvalidStatement`. -/
theorem getSourceInfo_encodings_known (encodingFromString : String → KafkaEncoding)
    (c : CreateSourceCommand) (ast : CreateSource) (colNames : List String)
    (colTypes : List ColumnType) (pkCols : List Nat)
    (hopts : sourceOptionsLoop ast.Options 0 [] [] [] [] = .ok (colNames, colTypes, pkCols)) :
    (∀ info, c.getSourceInfo encodingFromString (some ast) = .ok info →
      (∃ opt ∈ ast.TopicInformation, opt.HeaderEncoding ≠ "" ∧
        info.TopicInfo.HeaderEncoding = encodingFromString opt.HeaderEncoding ∧
        info.TopicInfo.HeaderEncoding.Encoding ≠ .Unknown) ∧
      (∃ opt ∈ ast.TopicInformation, opt.KeyEncoding ≠ "" ∧
        info.TopicInfo.KeyEncoding = encodingFromString opt.KeyEncoding ∧
        info.TopicInfo.KeyEncoding.Encoding ≠ .Unknown) ∧
      (∃ opt ∈ ast.TopicInformation, opt.ValueEncoding ≠ "" ∧
        info.TopicInfo.ValueEncoding = encodingFromString opt.ValueEncoding ∧
        info.TopicInfo.ValueEncoding.Encoding ≠ .Unknown) ∧
      info.TopicInfo.BrokerName ≠ "" ∧ info.TopicInfo.TopicName ≠ "") ∧
    ((∃ opt ∈ ast.TopicInformation, ∃ s, opt.suppliedEncoding = some s ∧
        (encodingFromString s).Encoding = .Unknown) →
      ∃ msg, c.getSourceInfo encodingFromString (some ast)
        = .err (.UnknownTopicEncoding msg)) ∧
    (∀ vars, topicOptionsLoop encodingFromString ast.TopicInformation {} = .ok vars →
      (vars.headerEncoding = KafkaEncodingUnknown ∨ vars.keyEncoding = KafkaEncodingUnknown ∨
        vars.valueEncoding = KafkaEncodingUnknown ∨ vars.brokerName = "" ∨
        vars.topicName = "") →
      ∃ msg, c.getSourceInfo encodingFromString (some ast) = .err (.InvalidStatement msg)) ∧
    (∀ vars, topicOptionsLoop encodingFromString ast.TopicInformation {} = .ok vars →
      ((∀ opt ∈ ast.TopicInformation, opt.HeaderEncoding = "") →
        vars.headerEncoding = KafkaEncodingUnknown) ∧
      ((∀ opt ∈ ast.TopicInformation, opt.KeyEncoding = "") →
        vars.keyEncoding = KafkaEncodingUnknown) ∧
      ((∀ opt ∈ ast.TopicInformation, opt.ValueEncoding = "") →
        vars.valueEncoding = KafkaEncodingUnknown) ∧
      ((∀ opt ∈ ast.TopicInformation, opt.BrokerName = "") → vars.brokerName = "") ∧
      ((∀ opt ∈ ast.TopicInformation, opt.TopicName = "") → vars.topicName = "")) := by
  refine ⟨?_, ?_, ?_, ?_⟩
  · intro info h
    obtain ⟨vars, -, htopic, hh, hk, hv, hb, ht, -, hti⟩ :=
      getSourceInfo_ok_inv encodingFromString c ast info h
    obtain ⟨v1, v2, v3, -, -, -⟩ :=
      topicOptionsLoop_vars encodingFromString ast.TopicInformation _ _ htopic
    rw [hti]
    refine ⟨?_, ?_, ?_, hb, ht⟩
    · rcases v1 with h0 | ⟨opt, ho, h1, h2, h3⟩
      · exact absurd h0 hh
      · exact ⟨opt, ho, h1, h2, by rw [h2]; exact h3⟩
    · rcases v2 with h0 | ⟨opt, ho, h1, h2, h3⟩
      · exact absurd h0 hk
      · exact ⟨opt, ho, h1, h2, by rw [h2]; exact h3⟩
    · rcases v3 with h0 | ⟨opt, ho, h1, h2, h3⟩
      · exact absurd h0 hv
      · exact ⟨opt, ho, h1, h2, by rw [h2]; exact h3⟩
  · intro hbad
    obtain ⟨msg, hmsg⟩ :=
      ((topicOptionsLoop_err_iff encodingFromString ast.TopicInformation {}).2).mpr hbad
    exact ⟨msg, by simp only [CreateSourceCommand.getSourceInfo, hopts, hmsg]⟩
  · intro vars htopic hmiss
    rw [getSourceInfo_after_loops encodingFromString c ast _ _ _ _ hopts htopic]
    by_cases hh : vars.headerEncoding = KafkaEncodingUnknown
    · exact ⟨_, by rw [if_pos hh]⟩
    · rw [if_neg hh]
      by_cases hk : vars.keyEncoding = KafkaEncodingUnknown
      · exact ⟨_, by rw [if_pos hk]⟩
      · rw [if_neg hk]
        by_cases hv : vars.valueEncoding = KafkaEncodingUnknown
        · exact ⟨_, by rw [if_pos hv]⟩
        · rw [if_neg hv]
          by_cases hb : vars.brokerName = ""
          · exact ⟨_, by rw [if_pos hb]⟩
          · rw [if_neg hb]
            by_cases ht : vars.topicName = ""
            · exact ⟨_, by rw [if_pos ht]⟩
            · rcases hmiss with h | h | h | h | h
              · exact absurd h hh
              · exact absurd h hk
              · exact absurd h hv
              · exact absurd h hb
              · exact absurd h ht
  · intro vars htopic
    obtain ⟨v1, v2, v3, v4, v5, -⟩ :=
      topicOptionsLoop_vars encodingFromString ast.TopicInformation _ _ htopic
    refine ⟨?_, ?_, ?_, ?_, ?_⟩
    · intro hno
      rcases v1 with h0 | ⟨opt, ho, h1, -⟩
      · exact h0
      · exact absurd (hno opt ho) h1
    · intro hno
      rcases v2 with h0 | ⟨opt, ho, h1, -⟩
      · exact h0
      · exact absurd (hno opt ho) h1
    · intro hno
      rcases v3 with h0 | ⟨opt, ho, h1, -⟩
      · exact h0
      · exact absurd (hno opt ho) h1
    · intro hno
      rcases v4 with h0 | ⟨opt, ho, h1, -⟩
      · exact h0
      · exact absurd (hno opt ho) h1
    · intro hno
      rcases v5 with h0 | ⟨opt, ho, h1, -⟩
      · exact h0
      · exact absurd (hno opt ho) h1

theorem getSourceInfo_encodings_known_witness :
    sourceOptionsLoop sensorReadingsAvro.Options 0 [] [] [] []
        = .ok (["sensor_id", "location", "temperature"], [.BigInt, .Varchar, .Double], [0]) ∧
    (∃ opt ∈ sensorReadingsAvro.TopicInformation, ∃ s, opt.suppliedEncoding = some s ∧
        (KafkaEncodingFromString s).Encoding = .Unknown) ∧
    ∃ msg, (sensorReadingsCommand sensorReadingsAvro).getSourceInfo KafkaEncodingFromString
        (some sensorReadingsAvro) = .err (.UnknownTopicEncoding msg) :=
  ⟨by decide, by decide,
    (getSourceInfo_encodings_known KafkaEncodingFromString
      (sensorReadingsCommand sensorReadingsAvro) sensorReadingsAvro
      ["sensor_id", "location", "temperature"] [.BigInt, .Varchar, .Double] [0]
      (by decide)).2.1 (by decide)⟩

/-- The statement of `sensor_readings` without topic information: every encoding, the
broker name and the topic name are missing, and `getSourceInfo` fails with
`InvalidStatement`. -/
theorem getSourceInfo_missing_example :
    (sensorReadingsCommand sensorReadingsNoTopic).getSourceInfo KafkaEncodingFromString
        (some sensorReadingsNoTopic) = .err (.InvalidStatement "headerEncoding is required") := by
  decide

end PranaDB

namespace PranaDB

/-! ## The frame of `DeleteAllDataInRange` -/

theorem bytesCompare_nil_right (r : Bytes) : 0 ≤ bytesCompare r [] := by
  cases r <;> simp [bytesCompare]

/-- A key of table `t2` on shard `s` lies outside the key range of every other table `t`
on every shard `s2`. -/
theorem other_table_not_in_range (s s2 t t2 : Nat) (hs : s < 2 ^ 64) (hs2 : s2 < 2 ^ 64)
    (ht : t + 1 < 2 ^ 64) (ht2 : t2 < 2 ^ 64) (hne : t2 ≠ t) (key : Bytes)
    (hpre : (AppendUint64ToBufferBigEndian [] s ++ AppendUint64ToBufferBigEndian [] t2) <+: key) :
    ¬ (bytesCompare (AppendUint64ToBufferBigEndian [] s2 ++ AppendUint64ToBufferBigEndian [] t)
          key ≤ 0 ∧
        bytesCompare key
          (AppendUint64ToBufferBigEndian [] s2 ++ AppendUint64ToBufferBigEndian [] (t + 1)) < 0) := by
  obtain ⟨r, rfl⟩ := hpre
  have hbyte : ∀ a b, ∀ y ∈ AppendUint64ToBufferBigEndian [] a ++ AppendUint64ToBufferBigEndian [] b,
      y < 256 := by
    intro a b y hy
    rcases List.mem_append.mp hy with h | h
    · exact appendUint64BE_byte _ y h
    · exact appendUint64BE_byte _ y h
  have hlen : ∀ a b c d, (AppendUint64ToBufferBigEndian [] a ++ AppendUint64ToBufferBigEndian [] b).length
      = (AppendUint64ToBufferBigEndian [] c ++ AppendUint64ToBufferBigEndian [] d).length := by
    intro a b c d
    simp [appendUint64BE_length]
  have hval : ∀ a b, a < 2 ^ 64 → b < 2 ^ 64 →
      beValue (AppendUint64ToBufferBigEndian [] a ++ AppendUint64ToBufferBigEndian [] b)
        = a * 2 ^ 64 + b := by
    intro a b ha hb
    rw [beValue_append, appendUint64BE_value a ha, appendUint64BE_value b hb,
      appendUint64BE_length]
    norm_num
  have h1 := bytesCompare_of_beValue
    (AppendUint64ToBufferBigEndian [] s2 ++ AppendUint64ToBufferBigEndian [] t)
    (AppendUint64ToBufferBigEndian [] s ++ AppendUint64ToBufferBigEndian [] t2) [] r
    (hlen _ _ _ _) (hbyte _ _) (hbyte _ _)
  have h2 := bytesCompare_of_beValue
    (AppendUint64ToBufferBigEndian [] s ++ AppendUint64ToBufferBigEndian [] t2)
    (AppendUint64ToBufferBigEndian [] s2 ++ AppendUint64ToBufferBigEndian [] (t + 1)) r []
    (hlen _ _ _ _) (hbyte _ _) (hbyte _ _)
  rw [List.append_nil] at h1 h2
  rw [h1, h2, hval s2 t hs2 (by omega), hval s t2 hs ht2, hval s2 (t + 1) hs2 ht]
  have hr := bytesCompare_nil_right r
  rintro ⟨c1, c2⟩
  norm_num at hs hs2 ht ht2 c1 c2
  split_ifs at c1 c2 <;> omega

/-- C30. On an ordered store, for every start and end prefix, `DeleteAllDataInRange`
returns no error and changes nothing but the store (so the table id counter is unchanged);
the store afterwards holds only pairs it held before, and still holds, with the same key
and the same value, every pair whose key is in the range `[big-endian(s) ++ start,
big-endian(s) ++ end)` of no shard id `s` of the cluster; such a key reads the same with
`LocalGet` before and after. So, with 64-bit ids, deleting the key range of table `t`
keeps every row of every other table `t2` on every shard. -/
theorem deleteAllDataInRange_frame (f : FakeCluster) (hf : f.btree.Ordered)
    (startPrefix endPrefix : Bytes) :
    (∃ f', f.DeleteAllDataInRange startPrefix endPrefix = .ok (f', none) ∧
      f'.tableSequence = f.tableSequence ∧ f' = { f with btree := f'.btree } ∧
      (∀ x ∈ f'.btree, x ∈ f.btree) ∧
      (∀ x ∈ f.btree,
        (∀ s ∈ f.allShardIds,
          ¬ (bytesCompare (AppendUint64ToBufferBigEndian [] s ++ startPrefix) x.key ≤ 0 ∧
            bytesCompare x.key (AppendUint64ToBufferBigEndian [] s ++ endPrefix) < 0)) →
        x ∈ f'.btree) ∧
      (∀ key,
        (∀ s ∈ f.allShardIds,
          ¬ (bytesCompare (AppendUint64ToBufferBigEndian [] s ++ startPrefix) key ≤ 0 ∧
            bytesCompare key (AppendUint64ToBufferBigEndian [] s ++ endPrefix) < 0)) →
        f'.LocalGet key = f.LocalGet key)) ∧
    ((∀ s ∈ f.allShardIds, s < 2 ^ 64) → ∀ t, t + 1 < 2 ^ 64 →
      ∃ f', f.DeleteAllDataInRange (AppendUint64ToBufferBigEndian [] t)
          (AppendUint64ToBufferBigEndian [] (t + 1)) = .ok (f', none) ∧
        ∀ s t2, s < 2 ^ 64 → t2 < 2 ^ 64 → t2 ≠ t → ∀ x ∈ f.btree,
          (AppendUint64ToBufferBigEndian [] s ++ AppendUint64ToBufferBigEndian [] t2) <+: x.key →
          x ∈ f'.btree) := by
  constructor
  · obtain ⟨f', h, ho, hfr, hm⟩ := deleteInShards_spec startPrefix endPrefix f.allShardIds f hf
    refine ⟨f', h, ?_, hfr, fun x hx => ((hm x).mp hx).1, fun x hx hout => (hm x).mpr ⟨hx, hout⟩,
      ?_⟩
    · rw [hfr]
    · intro key hout
      rw [localGet_eq, localGet_eq]
      have hget : f'.btree.Get { key := key, value := none }
          = f.btree.Get { key := key, value := none } := by
        rcases hg : f.btree.Get { key := key, value := none } with _ | x
        · rw [get_eq_none_iff ho]
          intro x hx
          exact (get_eq_none_iff hf _).mp hg x ((hm x).mp hx).1
        · obtain ⟨hx, hk⟩ := (get_eq_some_iff hf _ x).mp hg
          rw [get_eq_some_iff ho]
          refine ⟨(hm x).mpr ⟨hx, ?_⟩, hk⟩
          simp only at hk
          rw [hk]
          exact hout
      rw [hget]
  · intro hids t ht
    obtain ⟨f', h, _, _, hm⟩ := deleteInShards_spec (AppendUint64ToBufferBigEndian [] t)
      (AppendUint64ToBufferBigEndian [] (t + 1)) f.allShardIds f hf
    refine ⟨f', h, fun s t2 hs ht2 hne x hx hpre => (hm x).mpr ⟨hx, fun s2 hs2 => ?_⟩⟩
    exact other_table_not_in_range s s2 t t2 hs (hids s2 hs2) ht ht2 hne x.key hpre

theorem deleteAllDataInRange_frame_witness :
    BTree.Ordered
      [⟨[0, 0, 0, 0, 0, 0, 3, 232, 0, 0, 0, 0, 0, 0, 0, 7, 1], some [1]⟩,
        ⟨[0, 0, 0, 0, 0, 0, 3, 232, 0, 0, 0, 0, 0, 0, 0, 7, 2], some [2]⟩,
        ⟨[0, 0, 0, 0, 0, 0, 3, 232, 0, 0, 0, 0, 0, 0, 0, 8, 1], some [3]⟩] ∧
    ∃ f', ({ emptyCluster with btree :=
        [⟨[0, 0, 0, 0, 0, 0, 3, 232, 0, 0, 0, 0, 0, 0, 0, 7, 1], some [1]⟩,
          ⟨[0, 0, 0, 0, 0, 0, 3, 232, 0, 0, 0, 0, 0, 0, 0, 7, 2], some [2]⟩,
          ⟨[0, 0, 0, 0, 0, 0, 3, 232, 0, 0, 0, 0, 0, 0, 0, 8, 1], some [3]⟩] }).DeleteAllDataInRange
        [0, 0, 0, 0, 0, 0, 0, 7] [0, 0, 0, 0, 0, 0, 0, 8] = .ok (f', none) ∧
      f'.tableSequence = 100 ∧
      f'.LocalGet [0, 0, 0, 0, 0, 0, 3, 232, 0, 0, 0, 0, 0, 0, 0, 8, 1] = (some [3], none) :=
  ⟨by decide,
    match (deleteAllDataInRange_frame
      { emptyCluster with btree :=
        [⟨[0, 0, 0, 0, 0, 0, 3, 232, 0, 0, 0, 0, 0, 0, 0, 7, 1], some [1]⟩,
          ⟨[0, 0, 0, 0, 0, 0, 3, 232, 0, 0, 0, 0, 0, 0, 0, 7, 2], some [2]⟩,
          ⟨[0, 0, 0, 0, 0, 0, 3, 232, 0, 0, 0, 0, 0, 0, 0, 8, 1], some [3]⟩] }
      (by decide) [0, 0, 0, 0, 0, 0, 0, 7] [0, 0, 0, 0, 0, 0, 0, 8]).1 with
    | ⟨f', h1, h2, _, _, _, h6⟩ =>
      ⟨f', h1, h2, (h6 [0, 0, 0, 0, 0, 0, 3, 232, 0, 0, 0, 0, 0, 0, 0, 8, 1]
        (by decide)).trans (by decide)⟩⟩

end PranaDB

namespace PranaDB

/-! ## Point-get routing -/

theorem toInt64_of_lt (s : Nat) (h : s < 2 ^ 63) : toInt64 s = (s : Int) := by
  unfold toInt64
  rw [if_pos h]

/-- C25. `getPointGetShardID` returns -1 and no error when the number of ranges is not
exactly one, when the single range is not a point, and when the range does not have
exactly one low value (so also when it has more than one); for a single point range with
one low value it returns an error when the table is unknown; for a known table with valid
primary key columns it returns -1 when the type of the first primary key column is a
decimal type, and in every other case the shard id, as an `int64`, that the sharder
computes for the key that `EncodeKey` builds from the low value under the column types and
primary key columns of the table, or the error of `EncodeKey` or of the sharder. -/
theorem getPointGetShardID_routing (GetTable : String → Option TableInfo)
    (CalculateShard : Bytes → Except String Nat) (ranges : List Range) (tableName : String) :
    (ranges.length ≠ 1 →
      getPointGetShardID GetTable CalculateShard ranges tableName = .ok (-1)) ∧
    (∀ rng, ranges = [rng] → rng.IsPoint = false →
      getPointGetShardID GetTable CalculateShard ranges tableName = .ok (-1)) ∧
    (∀ rng, ranges = [rng] → rng.IsPoint = true → rng.LowVal.length ≠ 1 →
      getPointGetShardID GetTable CalculateShard ranges tableName = .ok (-1)) ∧
    (∀ rng v, ranges = [rng] → rng.IsPoint = true → rng.LowVal = [v] →
      GetTable tableName = none →
      ∃ e, getPointGetShardID GetTable CalculateShard ranges tableName = .err e) ∧
    (∀ rng v table, ranges = [rng] → rng.IsPoint = true → rng.LowVal = [v] →
      GetTable tableName = some table → table.valid = true →
      ∃ pk t, table.PrimaryKeyCols.head? = some pk ∧ table.ColumnTypes.get? pk = some t ∧
        (t.isDecimal = true →
          getPointGetShardID GetTable CalculateShard ranges tableName = .ok (-1)) ∧
        (t.isDecimal = false →
          (∀ e, EncodeKey [v] table.ColumnTypes table.PrimaryKeyCols [] = .error e →
            getPointGetShardID GetTable CalculateShard ranges tableName = .err (.other e)) ∧
          (∀ key, EncodeKey [v] table.ColumnTypes table.PrimaryKeyCols [] = .ok key →
            (∀ e, CalculateShard key = .error e →
              getPointGetShardID GetTable CalculateShard ranges tableName
                = .err (.other e)) ∧
            (∀ s, CalculateShard key = .ok s →
              getPointGetShardID GetTable CalculateShard ranges tableName
                  = .ok (toInt64 s) ∧
                (s < 2 ^ 63 →
                  getPointGetShardID GetTable CalculateShard ranges tableName
                    = .ok (s : Int)))))) := by
  refine ⟨?_, ?_, ?_, ?_, ?_⟩
  · intro h
    rcases ranges with _ | ⟨rng, _ | ⟨r2, rest⟩⟩
    · rfl
    · simp at h
    · rfl
  · rintro rng rfl hp
    simp [getPointGetShardID, hp]
  · rintro rng rfl hp hl
    simp [getPointGetShardID, hp, hl]
  · rintro rng v rfl hp hl hg
    exact ⟨.other ("cannot find table " ++ tableName), by
      simp only [getPointGetShardID, hp, hl, hg, if_true, List.length_singleton,
        ne_eq, not_true_eq_false, if_false]⟩
  · rintro rng v table rfl hp hl hg hvalid
    simp only [TableInfo.valid, Bool.and_eq_true, decide_eq_true_eq, List.all_eq_true] at hvalid
    obtain ⟨⟨hne, hidx⟩, -⟩ := hvalid
    obtain ⟨pk, rest, hpk⟩ := List.exists_cons_of_ne_nil hne
    have hlt : pk < table.ColumnTypes.length := hidx pk (by rw [hpk]; exact List.mem_cons_self _ _)
    obtain ⟨t, ht⟩ : ∃ t, table.ColumnTypes.get? pk = some t :=
      ⟨_, List.get?_eq_get hlt⟩
    have hhead : table.PrimaryKeyCols.head? = some pk := by rw [hpk]; rfl
    refine ⟨pk, t, hhead, ht, ?_, ?_⟩
    · intro hd
      cases t <;> simp [ColumnType.isDecimal] at hd
      simp only [getPointGetShardID, hp, hl, hg, hhead, ht, if_true, List.length_singleton,
        ne_eq, not_true_eq_false, if_false, List.head?_cons]
    · intro hd
      refine ⟨fun e he => ?_, fun key hk => ⟨fun e he => ?_, fun s hs => ?_⟩⟩
      · cases t <;> simp [ColumnType.isDecimal] at hd <;>
          simp only [getPointGetShardID, hp, hl, hg, hhead, ht, if_true, List.length_singleton,
            ne_eq, not_true_eq_false, if_false, List.head?_cons, he]
      · cases t <;> simp [ColumnType.isDecimal] at hd <;>
          simp only [getPointGetShardID, hp, hl, hg, hhead, ht, if_true, List.length_singleton,
            ne_eq, not_true_eq_false, if_false, List.head?_cons, hk, he]
      · have hres : getPointGetShardID GetTable CalculateShard [rng] tableName
            = .ok (toInt64 s) := by
          cases t <;> simp [ColumnType.isDecimal] at hd <;>
          simp only [getPointGetShardID, hp, hl, hg, hhead, ht, if_true, List.length_singleton,
            ne_eq, not_true_eq_false, if_false, List.head?_cons, hk, hs]
        exact ⟨hres, fun hlt => by rw [hres, toInt64_of_lt s hlt]⟩

/-- The routing on the table `sensor_readings`, keyed by a bigint column: the point range
of the value 1 goes to the shard that the sharder computes for the key of 1, here shard
1000; two ranges, a range that is not a point and a range of two values fan out; an
unknown table is an error. -/
theorem getPointGetShardID_example :
    EncodeKey [.int64 1] sensorReadings.ColumnTypes sensorReadings.PrimaryKeyCols []
      = .ok [1, 128, 0, 0, 0, 0, 0, 0, 1] ∧
    testSharder [1, 128, 0, 0, 0, 0, 0, 0, 1] = .ok 1000 ∧
    getPointGetShardID testSchema testSharder [⟨true, [.int64 1]⟩] "sensor_readings"
      = .ok 1000 ∧
    getPointGetShardID testSchema testSharder [⟨true, [.int64 1]⟩, ⟨true, [.int64 2]⟩]
      "sensor_readings" = .ok (-1) ∧
    getPointGetShardID testSchema testSharder [⟨false, [.int64 1]⟩] "sensor_readings"
      = .ok (-1) ∧
    getPointGetShardID testSchema testSharder [⟨true, [.int64 1, .int64 2]⟩] "sensor_readings"
      = .ok (-1) ∧
    getPointGetShardID testSchema testSharder [⟨true, [.int64 1]⟩] "max_readings"
      = .err (.other "cannot find table max_readings") :=
  ⟨rfl, rfl, by decide, by decide, by decide, by decide, by decide⟩

/-- The routing theorem at the point range of the value 1 on the table `sensor_readings`,
a known table with valid primary key columns and a bigint key: the result is the shard
1000 that the sharder computes for the encoded key. -/
theorem getPointGetShardID_routing_witness :
    testSchema "sensor_readings" = some sensorReadings ∧ sensorReadings.valid = true ∧
    getPointGetShardID testSchema testSharder [⟨true, [.int64 1]⟩] "sensor_readings"
      = .ok (1000 : Int) := by
  obtain ⟨pk, t, hpk, ht, _, h⟩ :=
    (getPointGetShardID_routing testSchema testSharder [⟨true, [.int64 1]⟩]
      "sensor_readings").2.2.2.2 ⟨true, [.int64 1]⟩ (.int64 1) sensorReadings rfl rfl rfl rfl
      (by decide)
  have hpk0 : pk = 0 := by
    have h0 : sensorReadings.PrimaryKeyCols.head? = some 0 := rfl
    rw [h0] at hpk
    exact (Option.some.inj hpk).symm
  subst hpk0
  have ht0 : t = .BigInt := by
    have h0 : sensorReadings.ColumnTypes.get? 0 = some .BigInt := rfl
    rw [h0] at ht
    exact (Option.some.inj ht).symm
  subst ht0
  exact ⟨rfl, by decide,
    (((h rfl).2 [1, 128, 0, 0, 0, 0, 0, 0, 1] rfl).2 1000 rfl).2 (by decide)⟩

end PranaDB

namespace PranaDB

/-! ## `EXECUTE` -/

theorem splitChars_of_not_mem (sep : Char) (t : List Char) (h : sep ∉ t) :
    splitChars sep t = [t] := by
  induction t with
  | nil => rfl
  | cons c cs ih =>
    have hc : c ≠ sep := fun e => h (e ▸ List.mem_cons_self _ _)
    have hcs : sep ∉ cs := fun e => h (List.mem_cons_of_mem _ e)
    rw [splitChars, if_neg hc, ih hcs]

theorem splitChars_append_sep (sep : Char) (t cs : List Char) (h : sep ∉ t) :
    splitChars sep (t ++ sep :: cs) = t :: splitChars sep cs := by
  induction t with
  | nil => simp [splitChars]
  | cons c t ih =>
    have hc : c ≠ sep := fun e => h (e ▸ List.mem_cons_self _ _)
    have ht : sep ∉ t := fun e => h (List.mem_cons_of_mem _ e)
    rw [List.cons_append, splitChars, if_neg hc, ih ht]

/-- Splitting a first token followed by further tokens, each after a separator, gives
the tokens back when no token holds the separator. -/
theorem splitChars_tokens (sep : Char) (rest : List (List Char)) :
    ∀ t : List Char, sep ∉ t → (∀ a ∈ rest, sep ∉ a) →
      splitChars sep (t ++ rest.flatMap fun a => sep :: a) = t :: rest := by
  induction rest with
  | nil =>
    intro t ht _
    simp only [List.flatMap_nil, List.append_nil]
    exact splitChars_of_not_mem sep t ht
  | cons a rest ih =>
    intro t ht hr
    simp only [List.flatMap_cons, List.cons_append]
    rw [splitChars_append_sep sep t _ ht,
      ih a (hr a (List.mem_cons_self _ _)) fun b hb => hr b (List.mem_cons_of_mem _ hb)]

/-- What `execExecute` passes on, for every statement `execute id a1 ... an`: the
prepared statement id that the lowered id token denotes, and the tokens after it in lower
case, not as they are written. The tokens are taken in lower case because the whole
statement is lowered before it is split. -/
theorem execExecute_passes_lowered (lower : Char → Char)
    (ExecutePreparedStatement : Int → List String → Result Unit) (id : String)
    (args : List String) (n : Int)
    (hkw : "execute ".data.map lower = "execute ".data) (hsp : lower ' ' = ' ')
    (hid : ParseInt (ToLower lower id) = .ok n) (hids : ' ' ∉ (ToLower lower id).data)
    (hargs : ∀ a ∈ args, ' ' ∉ (ToLower lower a).data) :
    execExecute lower ExecutePreparedStatement (executeStatement id args)
      = ExecutePreparedStatement n (args.map (ToLower lower)) := by
  have hlow : (ToLower lower (executeStatement id args)).data
      = "execute ".data ++ ((ToLower lower id).data ++
          (args.map fun a => (ToLower lower a).data).flatMap fun a => ' ' :: a) := by
    simp only [ToLower, executeStatement, List.map_append, hkw, List.append_assoc,
      List.append_cancel_left_eq]
    induction args with
    | nil => rfl
    | cons a args ih =>
      simp only [List.flatMap_cons, List.map_append, List.map_cons, hsp, List.cons_append]
      rw [ih fun b hb => hargs b (List.mem_cons_of_mem _ hb)]
  have hpre : "execute ".data <+: (ToLower lower (executeStatement id args)).data := by
    rw [hlow]
    exact List.prefix_append _ _
  have hdrop : (ToLower lower (executeStatement id args)).data.drop 8
      = (ToLower lower id).data ++
          (args.map fun a => (ToLower lower a).data).flatMap fun a => ' ' :: a := by
    rw [hlow]
    exact List.drop_left' rfl
  have hsplit : Split (String.mk ((ToLower lower (executeStatement id args)).data.drop 8)) ' '
      = ToLower lower id :: args.map (ToLower lower) := by
    unfold Split
    rw [hdrop, splitChars_tokens ' ' _ _ hids (by
      intro a ha
      obtain ⟨b, hb, rfl⟩ := List.mem_map.mp ha
      exact hargs b hb)]
    simp [ToLower]
  unfold execExecute
  rw [if_neg (not_not.mpr hpre), hsplit]
  simp only [hid]

/-- C29, failing input. The statement `execute 1 Wincanton`: `execExecute` calls
`ExecutePreparedStatement` with the prepared statement id 1 and the one argument
`wincanton`; the token of the statement is `Wincanton`. -/
theorem execExecute_lowers_arguments
    (ExecutePreparedStatement : Int → List String → Result Unit) :
    executeStatement "1" ["Wincanton"] = "execute 1 Wincanton" ∧
    execExecute Char.toLower ExecutePreparedStatement "execute 1 Wincanton"
      = ExecutePreparedStatement 1 ["wincanton"] :=
  ⟨by decide, rfl⟩

/-- A statement whose text after `execute ` does not start with a decimal integer, and a
statement that is not an `execute` statement: an error, and no call of
`ExecutePreparedStatement`, whatever that call would return. -/
theorem execExecute_error_example
    (ExecutePreparedStatement : Int → List String → Result Unit) :
    execExecute Char.toLower ExecutePreparedStatement "execute one 2"
      = .err (.other "invalid syntax") ∧
    execExecute Char.toLower ExecutePreparedStatement "select 1"
      = .err (.other "invalid execute command select 1") :=
  ⟨rfl, rfl⟩

end PranaDB

namespace PranaDB

/-! ## Message parser: the rows of a batch -/

theorem appendAt_of_lt (v : Value) :
    ∀ (cols : List (List Value)) (i : Nat), i < cols.length →
      ∃ cols', appendAt cols i v = some cols' ∧ cols'.length = cols.length := by
  intro cols
  induction cols with
  | nil => intro i h; simp at h
  | cons col cols ih =>
    intro i h
    cases i with
    | zero => exact ⟨_, rfl, rfl⟩
    | succ i =>
      obtain ⟨cols', h1, h2⟩ := ih i (by simpa using h)
      exact ⟨col :: cols', by simp [appendAt, h1], by simp [h2]⟩

theorem appendAt_append (v : Value) (col : List Value) (cols : List (List Value)) :
    ∀ pre : List (List Value),
      appendAt (pre ++ col :: cols) pre.length v = some (pre ++ (col ++ [v]) :: cols) := by
  intro pre
  induction pre with
  | nil => rfl
  | cons p pre ih => simp [appendAt, ih]

/-- Appending one cell to each column in turn appends the cells to the columns side by
side. -/
theorem appendCells_zipWith :
    ∀ (cols pre : List (List Value)) (cells : List Value), cells.length = cols.length →
      appendCells (pre ++ cols) pre.length cells
        = some (pre ++ List.zipWith (fun col c => col ++ [c]) cols cells) := by
  intro cols
  induction cols with
  | nil =>
    intro pre cells h
    have : cells = [] := List.length_eq_zero.mp (by simpa using h)
    subst this
    simp [appendCells]
  | cons col cols ih =>
    intro pre cells h
    cases cells with
    | nil => simp at h
    | cons c cells =>
      have hlen : cells.length = cols.length := by simpa using h
      rw [appendCells, appendAt_append]
      simp only
      have := ih (pre ++ [col ++ [c]]) cells hlen
      simp only [List.length_append, List.length_singleton, List.append_assoc,
        List.singleton_append] at this
      rw [this]
      simp

/-- The loop of `evalColumns` on rows that have one column per column type: it ends as
the evaluation of the cells ends, and on success it has appended cell `j` to column
`i + j`. -/
theorem evalColumnsLoop_cells (ext : ParserExternals) (m : MessageParser) (repMap : RepMap)
    (evals : List Evaluable) :
    ∀ (i : Nat) (rows : Rows),
      rows.columns.length = m.sourceInfo.TableInfo.ColumnTypes.length →
      (∀ cells, m.evalCellsLoop ext repMap evals i = .ok cells →
        cells.length = evals.length ∧
        ∃ cols, appendCells rows.columns i cells = some cols ∧
          cols.length = m.sourceInfo.TableInfo.ColumnTypes.length ∧
          m.evalColumnsLoop ext repMap evals i rows = .ok { columns := cols }) ∧
      (∀ e, m.evalCellsLoop ext repMap evals i = .err e →
        m.evalColumnsLoop ext repMap evals i rows = .err e) ∧
      (∀ p, m.evalCellsLoop ext repMap evals i = .panic p →
        m.evalColumnsLoop ext repMap evals i rows = .panic p) := by
  induction evals with
  | nil =>
    intro i rows _
    refine ⟨?_, ?_, ?_⟩
    · intro cells h
      simp only [MessageParser.evalCellsLoop, Result.ok.injEq] at h
      subst h
      exact ⟨rfl, rows.columns, rfl, by assumption, rfl⟩
    · intro e h
      simp [MessageParser.evalCellsLoop] at h
    · intro p h
      simp [MessageParser.evalCellsLoop] at h
  | cons eval rest ih =>
    intro i rows hrows
    rw [MessageParser.evalCellsLoop, MessageParser.evalColumnsLoop]
    rcases hty : m.sourceInfo.TableInfo.ColumnTypes.get? i with _ | colType
    · simp
    · have hi : i < rows.columns.length := by
        rw [hrows]
        exact (List.get?_eq_some.mp hty).1
      have step : ∀ cell : Value,
          (∀ cells, m.evalCellsLoop ext repMap rest (i + 1) = .ok cells →
            (cell :: cells).length = (eval :: rest).length ∧
            ∃ cols, appendCells rows.columns i (cell :: cells) = some cols ∧
              cols.length = m.sourceInfo.TableInfo.ColumnTypes.length ∧
              (match rows.appendToColumn i cell with
                | .ok rows' => m.evalColumnsLoop ext repMap rest (i + 1) rows'
                | .err e => .err e
                | .panic p => .panic p) = .ok { columns := cols }) ∧
          (∀ e, m.evalCellsLoop ext repMap rest (i + 1) = .err e →
            (match rows.appendToColumn i cell with
              | .ok rows' => m.evalColumnsLoop ext repMap rest (i + 1) rows'
              | .err e => .err e
              | .panic p => .panic p) = .err e) ∧
          (∀ p, m.evalCellsLoop ext repMap rest (i + 1) = .panic p →
            (match rows.appendToColumn i cell with
              | .ok rows' => m.evalColumnsLoop ext repMap rest (i + 1) rows'
              | .err e => .err e
              | .panic p => .panic p) = .panic p) := by
        intro cell
        obtain ⟨cols', h1, h2⟩ := appendAt_of_lt cell rows.columns i hi
        obtain ⟨i1, i2, i3⟩ := ih (i + 1) { columns := cols' } (by simp only; rw [h2, hrows])
        simp only [Rows.appendToColumn, h1]
        refine ⟨?_, i2, i3⟩
        intro cells hc
        obtain ⟨hl, cols, hc1, hc2, hc3⟩ := i1 cells hc
        exact ⟨by simp [hl], cols, by simp only [appendCells, h1]; exact hc1, hc2, hc3⟩
      simp only
      rcases hev : eval.eval ext repMap with val | e | p
      · rcases val with _ | val
        · simp only
          obtain ⟨s1, s2, s3⟩ := step .null
          rcases hrec : m.evalCellsLoop ext repMap rest (i + 1) with cells | e | p
          · simp only [Result.ok.injEq, forall_eq', reduceCtorEq, false_implies, implies_true,
              and_true]
            exact s1 cells hrec
          · simp only [reduceCtorEq, false_implies, implies_true, Result.err.injEq, forall_eq',
              true_and, and_true]
            exact s2 e hrec
          · simp only [reduceCtorEq, false_implies, implies_true, Result.panic.injEq, forall_eq',
              true_and]
            exact s3 p hrec
        · simp only
          rcases hco : coerceCell ext colType val with e | cell
          · simp
          · simp only
            obtain ⟨s1, s2, s3⟩ := step cell
            rcases hrec : m.evalCellsLoop ext repMap rest (i + 1) with cells | e | p
            · simp only [Result.ok.injEq, forall_eq', reduceCtorEq, false_implies, implies_true,
                and_true]
              exact s1 cells hrec
            · simp only [reduceCtorEq, false_implies, implies_true, Result.err.injEq, forall_eq',
                true_and, and_true]
              exact s2 e hrec
            · simp only [reduceCtorEq, false_implies, implies_true, Result.panic.injEq,
                forall_eq', true_and]
              exact s3 p hrec
      · simp
      · simp

end PranaDB

namespace PranaDB

/-- One message of the loop of `ParseMessages`, on rows that have one column per column
type: an error or a panic of the row of the message ends the loop with it; otherwise the
cells of the row are appended to the columns and the loop goes on. -/
theorem parseLoop_cons (ext : ParserExternals) (m : MessageParser) (msg : KafkaMessage)
    (rest : List KafkaMessage) (rows : Rows)
    (hrows : rows.columns.length = m.sourceInfo.TableInfo.ColumnTypes.length) :
    (∀ cells, m.parseRow ext msg = .ok cells →
      cells.length = m.colEvals.length ∧
      ∃ cols, appendCells rows.columns 0 cells = some cols ∧
        cols.length = m.sourceInfo.TableInfo.ColumnTypes.length ∧
        m.parseLoop ext (msg :: rest) rows = m.parseLoop ext rest { columns := cols }) ∧
    (∀ e, m.parseRow ext msg = .err e → m.parseLoop ext (msg :: rest) rows = .err e) ∧
    (∀ p, m.parseRow ext msg = .panic p → m.parseLoop ext (msg :: rest) rows = .panic p) := by
  rw [MessageParser.parseLoop]
  unfold MessageParser.parseRow MessageParser.evalColumns
  rcases hdec : m.decodeMessage ext msg with repMap | e | p
  · obtain ⟨c1, c2, c3⟩ := evalColumnsLoop_cells ext m repMap m.colEvals 0 rows hrows
    simp only
    refine ⟨?_, ?_, ?_⟩
    · intro cells hc
      obtain ⟨hl, cols, h1, h2, h3⟩ := c1 cells hc
      exact ⟨hl, cols, h1, h2, by rw [h3]⟩
    · intro e he
      rw [c2 e he]
    · intro p hp
      rw [c3 p hp]
  · simp
  · simp

/-- An error in the row of a message ends `ParseMessages` with that error, whatever
messages precede it, as long as their rows have no error, and whatever messages follow. -/
theorem parseLoop_error (ext : ParserExternals) (m : MessageParser) (bad : KafkaMessage)
    (post : List KafkaMessage) (e : PranaError) (hbad : m.parseRow ext bad = .err e) :
    ∀ (pre : List KafkaMessage) (rows : Rows),
      rows.columns.length = m.sourceInfo.TableInfo.ColumnTypes.length →
      (∀ x ∈ pre, ∃ cells, m.parseRow ext x = .ok cells) →
      m.parseLoop ext (pre ++ bad :: post) rows = .err e := by
  intro pre
  induction pre with
  | nil =>
    intro rows hrows _
    exact (parseLoop_cons ext m bad post rows hrows).2.1 e hbad
  | cons x pre ih =>
    intro rows hrows hpre
    obtain ⟨cells, hx⟩ := hpre x (List.mem_cons_self _ _)
    obtain ⟨-, cols, -, hlen, hstep⟩ :=
      (parseLoop_cons ext m x (pre ++ bad :: post) rows hrows).1 cells hx
    rw [List.cons_append, hstep]
    exact ih { columns := cols } hlen fun y hy => hpre y (List.mem_cons_of_mem _ hy)

/-- When `ParseMessages` returns rows, the row of every message was computed without
error. -/
theorem parseLoop_ok_all (ext : ParserExternals) (m : MessageParser) :
    ∀ (msgs : List KafkaMessage) (rows rows' : Rows),
      rows.columns.length = m.sourceInfo.TableInfo.ColumnTypes.length →
      m.parseLoop ext msgs rows = .ok rows' →
      ∀ x ∈ msgs, ∃ cells, m.parseRow ext x = .ok cells := by
  intro msgs
  induction msgs with
  | nil => intro _ _ _ _ x hx; cases hx
  | cons msg rest ih =>
    intro rows rows' hrows hok x hx
    obtain ⟨c1, c2, c3⟩ := parseLoop_cons ext m msg rest rows hrows
    rcases hrow : m.parseRow ext msg with cells | e | p
    · obtain ⟨-, cols, -, hlen, hstep⟩ := c1 cells hrow
      rcases List.mem_cons.mp hx with rfl | hx
      · exact ⟨cells, hrow⟩
      · rw [hstep] at hok
        exact ih _ _ hlen hok x hx
    · rw [c2 e hrow] at hok
      cases hok
    · rw [c3 p hrow] at hok
      cases hok

theorem newRows_length (colTypes : List ColumnType) :
    (NewRows colTypes).columns.length = colTypes.length := by
  simp [NewRows]

/-- `ParseMessages` on one message ends as the row of the message ends. -/
theorem parseMessages_single (ext : ParserExternals) (m : MessageParser) (msg : KafkaMessage) :
    ((∃ r, m.ParseMessages ext [msg] = .ok r) ↔ ∃ cells, m.parseRow ext msg = .ok cells) ∧
    (∀ e, m.ParseMessages ext [msg] = .err e ↔ m.parseRow ext msg = .err e) := by
  obtain ⟨c1, c2, c3⟩ := parseLoop_cons ext m msg []
    (NewRows m.sourceInfo.TableInfo.ColumnTypes) (newRows_length _)
  unfold MessageParser.ParseMessages
  rcases hrow : m.parseRow ext msg with cells | e | p
  · obtain ⟨-, cols, -, -, hstep⟩ := c1 cells hrow
    rw [hstep]
    simp [MessageParser.parseLoop]
  · rw [c2 e hrow]
    simp
  · rw [c3 p hrow]
    simp

/-- C26, counterexample. The parser of `events` on two batches: the message whose key is
not a JSON document alone, and the same message after two messages that parse. Both
calls return the same error, the error of the decoder, so the error tells nothing of the
position of the failing message, 0 in the first batch and 2 in the second: no function
reads the position off the result. -/
theorem parseMessages_error_has_no_position :
    eventsParser.ParseMessages testParserExternals [badMessage]
      = .err (.other "invalid character") ∧
    eventsParser.ParseMessages testParserExternals [goodMessage 5, goodMessage 6, badMessage]
      = .err (.other "invalid character") ∧
    (∃ r, eventsParser.ParseMessages testParserExternals [goodMessage 5, goodMessage 6]
      = .ok r) ∧
    ¬ ∃ position : Result Rows → Nat,
      position (eventsParser.ParseMessages testParserExternals [badMessage]) = 0 ∧
      position (eventsParser.ParseMessages testParserExternals
        [goodMessage 5, goodMessage 6, badMessage]) = 2 := by
  have h1 : eventsParser.ParseMessages testParserExternals [badMessage]
      = .err (.other "invalid character") := by decide
  have h2 : eventsParser.ParseMessages testParserExternals
      [goodMessage 5, goodMessage 6, badMessage] = .err (.other "invalid character") := by
    decide
  refine ⟨h1, h2, ⟨_, rfl⟩, ?_⟩
  rintro ⟨position, p1, p2⟩
  rw [h1] at p1
  rw [h2, p1] at p2
  cases p2

/-- C26, as amended. For every list of messages, if decoding or column evaluation fails
for the message at position `i` (parsing that message alone returns the error `e`) and
the messages before it parse, `ParseMessages` returns that same error `e` and no rows at
all, not the rows of the messages before; the error is the one that the message gives
alone, whatever its position. And `ParseMessages` returns rows only when every message
parses. -/
theorem parseMessages_error_aborts (ext : ParserExternals) (m : MessageParser)
    (pre : List KafkaMessage) (bad : KafkaMessage) (post : List KafkaMessage) (e : PranaError)
    (hpre : ∀ x ∈ pre, ∃ r, m.ParseMessages ext [x] = .ok r)
    (hbad : m.ParseMessages ext [bad] = .err e) :
    m.ParseMessages ext (pre ++ bad :: post) = .err e ∧
    (∀ rows, m.ParseMessages ext (pre ++ bad :: post) ≠ .ok rows) ∧
    (∀ msgs rows, m.ParseMessages ext msgs = .ok rows →
      ∀ x ∈ msgs, ∃ r, m.ParseMessages ext [x] = .ok r) := by
  have hmain : m.ParseMessages ext (pre ++ bad :: post) = .err e :=
    parseLoop_error ext m bad post e (((parseMessages_single ext m bad).2 e).mp hbad) pre
      (NewRows m.sourceInfo.TableInfo.ColumnTypes) (newRows_length _)
      fun x hx => ((parseMessages_single ext m x).1).mp (hpre x hx)
  refine ⟨hmain, ?_, ?_⟩
  · intro rows h
    rw [hmain] at h
    cases h
  · intro msgs rows hok x hx
    exact ((parseMessages_single ext m x).1).mpr
      (parseLoop_ok_all ext m msgs _ rows (newRows_length _) hok x hx)

theorem parseMessages_error_aborts_witness :
    (∀ x ∈ [goodMessage 5, goodMessage 6],
      ∃ r, eventsParser.ParseMessages testParserExternals [x] = .ok r) ∧
    eventsParser.ParseMessages testParserExternals [badMessage]
      = .err (.other "invalid character") ∧
    eventsParser.ParseMessages testParserExternals
        ([goodMessage 5, goodMessage 6] ++ badMessage :: [goodMessage 8])
      = .err (.other "invalid character") :=
  have hpre : ∀ x ∈ [goodMessage 5, goodMessage 6],
      ∃ r, eventsParser.ParseMessages testParserExternals [x] = .ok r := by
    intro x hx
    simp only [List.mem_cons, List.mem_singleton, List.not_mem_nil, or_false] at hx
    rcases hx with rfl | rfl <;> exact ⟨_, rfl⟩
  ⟨hpre, by decide,
    (parseMessages_error_aborts testParserExternals eventsParser [goodMessage 5, goodMessage 6]
      badMessage [goodMessage 8] (.other "invalid character") hpre (by decide)).1⟩

end PranaDB

namespace PranaDB

/-- When there are as many selectors as column types, the rows that the loop of
`ParseMessages` returns are the rows it started from with the row of each message, in
order, appended across the columns. -/
theorem parseLoop_rows (ext : ParserExternals) (m : MessageParser)
    (hlen : m.colEvals.length = m.sourceInfo.TableInfo.ColumnTypes.length) :
    ∀ (msgs : List KafkaMessage) (rows rows' : Rows),
      rows.columns.length = m.sourceInfo.TableInfo.ColumnTypes.length →
      m.parseLoop ext msgs rows = .ok rows' →
      ∃ T : List (List Value),
        List.Forall₂ (fun msg cells => m.parseRow ext msg = .ok cells ∧
          cells.length = m.sourceInfo.TableInfo.ColumnTypes.length) msgs T ∧
        rows'.columns
          = T.foldl (fun cols cells => List.zipWith (fun col c => col ++ [c]) cols cells)
              rows.columns := by
  intro msgs
  induction msgs with
  | nil =>
    intro rows rows' _ hok
    simp only [MessageParser.parseLoop, Result.ok.injEq] at hok
    subst hok
    exact ⟨[], List.Forall₂.nil, rfl⟩
  | cons msg rest ih =>
    intro rows rows' hrows hok
    obtain ⟨c1, c2, c3⟩ := parseLoop_cons ext m msg rest rows hrows
    rcases hrow : m.parseRow ext msg with cells | e | p
    · obtain ⟨hcl, cols, happ, hcols, hstep⟩ := c1 cells hrow
      have hcells : cells.length = rows.columns.length := by rw [hcl, hlen, hrows]
      have hz := appendCells_zipWith rows.columns [] cells hcells
      simp only [List.nil_append, List.length_nil] at hz
      rw [hz] at happ
      cases happ
      rw [hstep] at hok
      obtain ⟨T, hT, hres⟩ := ih _ _ hcols hok
      exact ⟨cells :: T, List.Forall₂.cons ⟨hrow, by rw [hcl, hlen]⟩ hT, by
        rw [hres]; rfl⟩
    · rw [c2 e hrow] at hok
      cases hok
    · rw [c3 p hrow] at hok
      cases hok

theorem foldl_zipWith_length :
    ∀ (T : List (List Value)) (cols : List (List Value)),
      (∀ cells ∈ T, cells.length = cols.length) →
      (T.foldl (fun cols cells => List.zipWith (fun col c => col ++ [c]) cols cells)
        cols).length = cols.length := by
  intro T
  induction T with
  | nil => intro cols _; rfl
  | cons cells T ih =>
    intro cols h
    have h0 : cells.length = cols.length := h cells (List.mem_cons_self _ _)
    have hz : (List.zipWith (fun col c => col ++ [c]) cols cells).length = cols.length := by
      simp [h0]
    rw [List.foldl_cons, ih _ (fun c hc => by rw [hz]; exact h c (List.mem_cons_of_mem _ hc)), hz]

/-- Column `j` after the rows `T` are appended across the columns: its cells, then cell
`j` of each row in order. -/
theorem foldl_zipWith_get :
    ∀ (T : List (List Value)) (cols : List (List Value)),
      (∀ cells ∈ T, cells.length = cols.length) →
      ∀ (j : Nat) (col : List Value), cols.get? j = some col →
        (T.foldl (fun cols cells => List.zipWith (fun col c => col ++ [c]) cols cells)
          cols).get? j = some (col ++ T.map fun cells => cells.getD j .null) := by
  intro T
  induction T with
  | nil =>
    intro cols _ j col hj
    simpa using hj
  | cons cells T ih =>
    intro cols h j col hj
    have h0 : cells.length = cols.length := h cells (List.mem_cons_self _ _)
    have hz : (List.zipWith (fun col c => col ++ [c]) cols cells).length = cols.length := by
      simp [h0]
    have hjlt : j < cols.length := (List.get?_eq_some.mp hj).1
    have hc : cells.get? j = some (cells.getD j .null) := by
      rw [List.getD_eq_getElem?_getD, List.get?_eq_getElem?,
        List.getElem?_eq_getElem (by omega)]
      rfl
    have hstep : (List.zipWith (fun col c => col ++ [c]) cols cells).get? j
        = some (col ++ [cells.getD j .null]) := by
      rw [List.get?_eq_getElem?] at hj hc ⊢
      rw [List.getElem?_zipWith, hj, hc]
    rw [List.foldl_cons,
      ih _ (fun c hc' => by rw [hz]; exact h c (List.mem_cons_of_mem _ hc')) j _ hstep]
    simp

theorem newMessageParserLoop_length (ext : ParserExternals) (topic : TopicInfo) :
    ∀ (selectors : List String) (vars vars' : ParserVars) (evals evals' : List Evaluable),
      newMessageParserLoop ext topic selectors vars evals = .ok (vars', evals') →
      evals'.length = evals.length + selectors.length := by
  intro selectors
  induction selectors with
  | nil =>
    intro vars vars' evals evals' h
    simp only [newMessageParserLoop, Result.ok.injEq, Prod.mk.injEq] at h
    rw [← h.2]
    rfl
  | cons selector rest ih =>
    intro vars vars' evals evals' h
    rw [newMessageParserLoop] at h
    rcases hd : selectorDecoder ext topic selector vars with vars1 | e | p
    · rw [hd] at h
      simp only at h
      rcases hev : (if vars1.encoding.Encoding = .Protobuf then protoEvaluable ext selector
          else gvalEvaluable ext selector) with eval | e | p
      · rw [hev] at h
        have := ih _ _ _ _ h
        simp only [List.length_append, List.length_singleton, List.length_cons,
          List.length_nil] at this ⊢
        omega
      · rw [hev] at h
        cases h
      · rw [hev] at h
        cases h
    · rw [hd] at h
      cases h
    · rw [hd] at h
      cases h

/-- The parser that `NewMessageParser` returns keeps the source info and has one compiled
selector per column selector. -/
theorem newMessageParser_ok (ext : ParserExternals) (info : SourceInfo) (m : MessageParser)
    (h : NewMessageParser ext info = .ok m) :
    m.sourceInfo = info ∧ m.colEvals.length = info.TopicInfo.ColSelectors.length := by
  unfold NewMessageParser at h
  rcases hl : newMessageParserLoop ext info.TopicInfo info.TopicInfo.ColSelectors {} []
    with ⟨vars, evals⟩ | e | p
  · rw [hl] at h
    simp only [Result.ok.injEq] at h
    subst h
    have := newMessageParserLoop_length ext info.TopicInfo _ _ _ _ _ hl
    exact ⟨rfl, by simpa using this⟩
  · rw [hl] at h
    cases h
  · rw [hl] at h
    cases h

theorem zipWith_newRows (types : List ColumnType) :
    ∀ cells : List Value, cells.length = types.length →
      List.zipWith (fun col c => col ++ [c]) (types.map fun _ => ([] : List Value)) cells
        = cells.map fun v => [v] := by
  induction types with
  | nil =>
    intro cells h
    have : cells = [] := List.length_eq_zero.mp (by simpa using h)
    subst this
    rfl
  | cons t types ih =>
    intro cells h
    cases cells with
    | nil => simp at h
    | cons c cells =>
      simp only [List.map_cons, List.zipWith_cons_cons, List.nil_append, List.cons.injEq,
        true_and]
      exact ih cells (by simpa using h)

/-- `ParseMessages` on one message whose row has one cell per column type returns the
row. -/
theorem parseMessages_single_row (ext : ParserExternals) (m : MessageParser)
    (msg : KafkaMessage) (cells : List Value) (hrow : m.parseRow ext msg = .ok cells)
    (hcells : cells.length = m.sourceInfo.TableInfo.ColumnTypes.length) :
    m.ParseMessages ext [msg] = .ok { columns := cells.map fun v => [v] } := by
  obtain ⟨-, cols, happ, -, hstep⟩ := (parseLoop_cons ext m msg []
    (NewRows m.sourceInfo.TableInfo.ColumnTypes) (newRows_length _)).1 cells hrow
  have hz := appendCells_zipWith (NewRows m.sourceInfo.TableInfo.ColumnTypes).columns [] cells
    (by rw [hcells, newRows_length])
  simp only [List.nil_append, List.length_nil] at hz
  rw [hz] at happ
  cases happ
  unfold MessageParser.ParseMessages
  rw [hstep]
  simp only [MessageParser.parseLoop, NewRows, zipWith_newRows _ cells hcells]

/-- C27, counterexample. The statement of `sensor_readings` without column selectors is
accepted by `getSourceInfo`, with three columns; `NewMessageParser` accepts the source
info; and `ParseMessages` on a batch of two messages succeeds with rows that hold no cell
in any column: no row, where the batch has two messages. -/
theorem parseMessages_no_selectors_no_rows :
    (sensorReadingsCommand sensorReadingsNoSelectors).getSourceInfo KafkaEncodingFromString
        (some sensorReadingsNoSelectors) = .ok sensorReadingsNoSelectorsInfo ∧
    sensorReadingsNoSelectorsInfo.TableInfo.ColumnTypes.length = 3 ∧
    ∃ m, NewMessageParser testParserExternals sensorReadingsNoSelectorsInfo = .ok m ∧
      ∃ rows, m.ParseMessages testParserExternals [goodMessage 5, goodMessage 6] = .ok rows ∧
        rows.columns = [[], [], []] ∧ rows.RowCount = 0 ∧
        rows.GetRow 0 = [none, none, none] :=
  ⟨by decide, rfl, _, rfl, _, rfl, rfl, rfl, rfl⟩

end PranaDB

namespace PranaDB

/-- C27, as amended. For every source whose source info was accepted by `getSourceInfo`
and has column selectors, and every list of messages on which `ParseMessages` of its
parser succeeds: the rows have one column per declared column, every column holds exactly
one cell per message, so the result has exactly as many rows as messages; and row `i` is
the row of message `i`, with one cell (a value or NULL) for each declared column: it is
the row that `ParseMessages` returns for that message alone. -/
theorem parseMessages_one_row_per_message (encodingFromString : String → KafkaEncoding)
    (ext : ParserExternals) (c : CreateSourceCommand) (ast : CreateSource) (info : SourceInfo)
    (m : MessageParser) (msgs : List KafkaMessage) (rows : Rows)
    (hinfo : c.getSourceInfo encodingFromString (some ast) = .ok info)
    (hsel : info.TopicInfo.ColSelectors ≠ [])
    (hm : NewMessageParser ext info = .ok m)
    (hok : m.ParseMessages ext msgs = .ok rows) :
    rows.columns.length = info.TableInfo.ColumnTypes.length ∧
    (∀ col ∈ rows.columns, col.length = msgs.length) ∧
    rows.RowCount = msgs.length ∧
    ∀ (i : Nat) (hi : i < msgs.length),
      ∃ cells, m.parseRow ext (msgs.get ⟨i, hi⟩) = .ok cells ∧
        cells.length = info.TableInfo.ColumnTypes.length ∧
        rows.GetRow i = cells.map some ∧
        m.ParseMessages ext [msgs.get ⟨i, hi⟩] = .ok { columns := cells.map fun v => [v] } := by
  obtain ⟨vars, -, -, -, -, -, -, -, hcount, hti⟩ :=
    getSourceInfo_ok_inv encodingFromString c ast info hinfo
  obtain ⟨hms, hme⟩ := newMessageParser_ok ext info m hm
  have hselv : info.TopicInfo.ColSelectors = vars.colSelectors := by rw [hti]
  have hn : info.TopicInfo.ColSelectors.length = info.TableInfo.ColumnTypes.length := by
    rw [hselv] at hsel ⊢
    by_contra hne
    exact hcount ⟨List.length_pos.mpr hsel, hne⟩
  have hpos : 0 < info.TableInfo.ColumnTypes.length := by
    rw [← hn]
    exact List.length_pos.mpr hsel
  have hlen : m.colEvals.length = m.sourceInfo.TableInfo.ColumnTypes.length := by
    rw [hme, hms, hn]
  obtain ⟨T, hT, hcols⟩ := parseLoop_rows ext m hlen msgs
    (NewRows m.sourceInfo.TableInfo.ColumnTypes) rows (newRows_length _) hok
  rw [hms] at hT hcols
  have hTlen : T.length = msgs.length := (List.Forall₂.length_eq hT).symm
  have hTcells : ∀ cells ∈ T, cells.length = info.TableInfo.ColumnTypes.length := by
    intro cells hc
    obtain ⟨n, rfl⟩ := List.mem_iff_get.mp hc
    exact (List.Forall₂.get hT (by rw [← hTlen]; exact n.2) n.2).2
  have hT0 : ∀ cells ∈ T, cells.length = (NewRows info.TableInfo.ColumnTypes).columns.length := by
    intro cells hc
    rw [newRows_length]
    exact hTcells cells hc
  have hclen : rows.columns.length = info.TableInfo.ColumnTypes.length := by
    rw [hcols, foldl_zipWith_length T _ hT0, newRows_length]
  have hcolj : ∀ j, j < info.TableInfo.ColumnTypes.length →
      rows.columns.get? j = some (T.map fun cells => cells.getD j .null) := by
    intro j hj
    have h0 : (NewRows info.TableInfo.ColumnTypes).columns.get? j = some [] := by
      simp [NewRows, hj]
    rw [hcols, foldl_zipWith_get T _ hT0 j [] h0]
    simp
  refine ⟨hclen, ?_, ?_, ?_⟩
  · intro col hcol
    obtain ⟨j, hj⟩ := List.mem_iff_get?.mp hcol
    have hjlt : j < info.TableInfo.ColumnTypes.length := by
      rw [← hclen]
      exact (List.get?_eq_some.mp hj).1
    rw [hcolj j hjlt] at hj
    cases hj
    simp [hTlen]
  · have h0 := hcolj 0 hpos
    unfold Rows.RowCount
    rcases hc : rows.columns with _ | ⟨col, cols⟩
    · rw [hc] at h0
      cases h0
    · rw [hc] at h0
      simp only [List.get?_cons_zero, Option.some.injEq] at h0
      simp [h0, hTlen]
  · intro i hi
    have hiT : i < T.length := by rw [hTlen]; exact hi
    have hrel := List.Forall₂.get hT hi hiT
    have hTi : T[i]? = some (T.get ⟨i, hiT⟩) := List.getElem?_eq_getElem hiT
    generalize T.get ⟨i, hiT⟩ = row at hrel hTi
    refine ⟨row, hrel.1, hrel.2, ?_, ?_⟩
    · unfold Rows.GetRow
      apply List.ext_getElem?
      intro j
      by_cases hj : j < info.TableInfo.ColumnTypes.length
      · have hjc : j < row.length := by rw [hrel.2]; exact hj
        have hcj := hcolj j hj
        rw [List.get?_eq_getElem?] at hcj
        simp only [List.getElem?_map, hcj, Option.map_some', List.get?_eq_getElem?, hTi,
          List.getElem?_eq_getElem hjc, List.getD_eq_getElem?_getD, Option.getD_some]
      · have h1 : rows.columns[j]? = none := List.getElem?_eq_none (by omega)
        have h2 : row[j]? = none := List.getElem?_eq_none (by rw [hrel.2]; omega)
        rw [List.getElem?_map, h1, List.getElem?_map, h2]
        rfl
    · exact parseMessages_single_row ext m (msgs.get ⟨i, hi⟩) row hrel.1
        (by rw [hms]; exact hrel.2)

theorem parseMessages_one_row_per_message_witness :
    (sensorReadingsCommand eventsSource).getSourceInfo KafkaEncodingFromString
        (some eventsSource) = .ok eventsInfo ∧
    eventsInfo.TopicInfo.ColSelectors ≠ [] ∧
    NewMessageParser testParserExternals eventsInfo = .ok eventsParser ∧
    eventsParser.ParseMessages testParserExternals [goodMessage 5, goodMessage 6]
      = .ok { columns := [[.string [123, 125], .string [123, 125]], [.int64 5, .int64 6]] } ∧
    Rows.RowCount { columns := [[.string [123, 125], .string [123, 125]], [.int64 5, .int64 6]] }
      = [goodMessage 5, goodMessage 6].length :=
  ⟨by decide, by decide, by decide, by decide,
    (parseMessages_one_row_per_message KafkaEncodingFromString testParserExternals
      (sensorReadingsCommand eventsSource) eventsSource eventsInfo eventsParser
      [goodMessage 5, goodMessage 6]
      { columns := [[.string [123, 125], .string [123, 125]], [.int64 5, .int64 6]] }
      (by decide) (by decide) (by decide) (by decide)).2.2.1⟩

end PranaDB

namespace PranaDB

/-! ## `NewMessageParser`: how a selector is compiled -/

/-- A timestamp selector leaves the variable `encoding` of `NewMessageParser` as the
selector before it set it. -/
theorem selectorDecoder_timestamp (ext : ParserExternals) (topic : TopicInfo)
    (selector : String) (vars : ParserVars) (h : selector.data.head? = some 't') :
    selectorDecoder ext topic selector vars = .ok vars := by
  unfold selectorDecoder
  simp [h]

/-- C28, failing input. A source whose value encoding is protobuf, with the selectors
`v.name` and `t`. In the order `t`, `v.name` the list is accepted, `t` compiled as an
expression and `v.name` as a field path of the value. In the order `v.name`, `t` the list
is rejected: `t` is compiled as a protobuf field path, because the variable `encoding`
still holds the encoding of the value scope, and `t` is not a valid field path selector.
With `t.seconds` in place of `t` the list is accepted, and the timestamp selector is
compiled as a field path. -/
theorem newMessageParser_order_matters :
    eventsInfo.TopicInfo.ValueEncoding = { Encoding := .Protobuf, SchemaName := "squareup.Event" } ∧
    (∃ m, NewMessageParser testParserExternals (eventsInfoWith ["t", "v.name"]) = .ok m ∧
      m.colEvals = [.gval "t", .proto "v" "name"]) ∧
    NewMessageParser testParserExternals (eventsInfoWith ["v.name", "t"])
      = .err (.other "invalid protobuf selector t") ∧
    (∃ m, NewMessageParser testParserExternals (eventsInfoWith ["v.name", "t.seconds"]) = .ok m ∧
      m.colEvals = [.proto "v" "name", .proto "t" "seconds"]) ∧
    (∃ m, NewMessageParser testParserExternals (eventsInfoWith ["k", "t"]) = .ok m ∧
      m.colEvals = [.gval "k", .gval "t"]) :=
  ⟨rfl, ⟨_, rfl, rfl⟩, by decide, ⟨_, rfl, rfl⟩, ⟨_, rfl, rfl⟩⟩

end PranaDB

namespace PranaDB

/-! ## Primary key offsets when the columns come first -/

theorem mapGet_mapPut_self {β : Type} (m : List (String × β)) (k : String) (v : β) :
    mapGet (mapPut m k v) k = some v := by
  unfold mapGet mapPut
  rw [List.find?_append]
  have h : (m.filter fun p => decide (p.1 ≠ k)).find? (fun p => decide (p.1 = k)) = none := by
    rw [List.find?_eq_none]
    intro x hx
    simpa using (List.mem_filter.mp hx).2
  rw [h]
  simp

theorem mapGet_mapPut_ne {β : Type} (m : List (String × β)) (k k' : String) (v : β)
    (hne : k' ≠ k) : mapGet (mapPut m k v) k' = mapGet m k' := by
  unfold mapGet mapPut
  have h1 : ([(k, v)] : List (String × β)).find? (fun p => decide (p.1 = k')) = none := by
    rw [List.find?_eq_none]
    intro x hx
    rw [List.mem_singleton] at hx
    subst hx
    simpa using fun h => hne h.symm
  rw [List.find?_append, h1, Option.or_none]
  congr 1
  induction m with
  | nil => rfl
  | cons p m ih =>
    by_cases hp : p.1 = k
    · have hp' : ¬ p.1 = k' := fun h => hne (h.symm.trans hp)
      rw [List.filter_cons_of_neg (by simpa using hp), List.find?_cons_of_neg _ (by simpa using hp')]
      exact ih
    · rw [List.filter_cons_of_pos (by simpa using hp)]
      by_cases hp' : p.1 = k'
      · rw [List.find?_cons_of_pos _ (by simpa using hp'),
          List.find?_cons_of_pos _ (by simpa using hp')]
      · rw [List.find?_cons_of_neg _ (by simpa using hp'),
          List.find?_cons_of_neg _ (by simpa using hp')]
        exact ih

/-- The loop over column options only, from an option index that is the number of columns
so far: it ends with an index map that sends each column name to the offset of a column
of that name. -/
theorem sourceOptionsLoop_columns (cols : List SourceOption)
    (hcols : ∀ o ∈ cols, o.Column ≠ none) :
    ∀ (rest : List SourceOption) (colNames : List String) (colTypes : List ColumnType)
      (colIndex : List (String × Nat)) (pkCols : List Nat)
      (res : List String × List ColumnType × List Nat),
      (∀ name j, mapGet colIndex name = some j → colNames[j]? = some name) →
      sourceOptionsLoop (cols ++ rest) colNames.length colNames colTypes colIndex pkCols
        = .ok res →
      ∃ colNames1 colTypes1 colIndex1,
        (∀ name j, mapGet colIndex1 name = some j → colNames1[j]? = some name) ∧
        sourceOptionsLoop rest colNames1.length colNames1 colTypes1 colIndex1 pkCols
          = .ok res := by
  induction cols with
  | nil =>
    intro rest colNames colTypes colIndex pkCols res hinv h
    exact ⟨colNames, colTypes, colIndex, hinv, h⟩
  | cons o cols ih =>
    intro rest colNames colTypes colIndex pkCols res hinv h
    rw [List.cons_append, sourceOptionsLoop] at h
    rcases hc : o.Column with _ | col
    · exact absurd hc (hcols o (List.mem_cons_self _ _))
    · rw [hc] at h
      simp only at h
      rcases hty : col.columnType with e | colType
      · rw [hty] at h
        cases h
      · rw [hty] at h
        simp only at h
        have hlen : (colNames ++ [col.Name]).length = colNames.length + 1 := by simp
        rw [← hlen] at h
        refine ih (fun o' ho' => hcols o' (List.mem_cons_of_mem _ ho')) rest _ _ _ _ res ?_ h
        intro name j hj
        by_cases hn : name = col.Name
        · subst hn
          rw [mapGet_mapPut_self] at hj
          cases hj
          exact List.getElem?_concat_length _ _
        · rw [mapGet_mapPut_ne _ _ _ _ hn] at hj
          have := hinv name j hj
          have hjlt : j < colNames.length := (List.getElem?_eq_some.mp this).1
          rw [List.getElem?_append_left hjlt]
          exact this

/-- The loop over PRIMARY KEY options only: the columns stay, and each option adds the
offset that the index map has for its column name. -/
theorem sourceOptionsLoop_keys (keys : List SourceOption) (hkeys : ∀ o ∈ keys, o.Column = none)
    (colNames : List String) (colTypes : List ColumnType) (colIndex : List (String × Nat))
    (hinv : ∀ name j, mapGet colIndex name = some j → colNames[j]? = some name) :
    ∀ (i : Nat) (pkCols : List Nat) (colNames' : List String) (colTypes' : List ColumnType)
      (pkCols' : List Nat),
      sourceOptionsLoop keys i colNames colTypes colIndex pkCols
        = .ok (colNames', colTypes', pkCols') →
      colNames' = colNames ∧ colTypes' = colTypes ∧
      ∃ added, pkCols' = pkCols ++ added ∧
        List.Forall₂ (fun o j => colNames[j]? = some o.PrimaryKey) keys added := by
  induction keys with
  | nil =>
    intro i pkCols colNames' colTypes' pkCols' h
    simp only [sourceOptionsLoop, Result.ok.injEq, Prod.mk.injEq] at h
    obtain ⟨rfl, rfl, rfl⟩ := h
    exact ⟨rfl, rfl, [], (List.append_nil _).symm, List.Forall₂.nil⟩
  | cons o keys ih =>
    intro i pkCols colNames' colTypes' pkCols' h
    rw [sourceOptionsLoop, hkeys o (List.mem_cons_self _ _)] at h
    simp only at h
    by_cases hpk : o.PrimaryKey = ""
    · simp [hpk] at h
    · rw [if_pos hpk] at h
      rcases hget : mapGet colIndex o.PrimaryKey with _ | index
      · rw [hget] at h
        cases h
      · rw [hget] at h
        obtain ⟨h1, h2, added, h3, h4⟩ :=
          ih (fun o' ho' => hkeys o' (List.mem_cons_of_mem _ ho')) _ _ _ _ _ h
        exact ⟨h1, h2, index :: added, by rw [h3]; simp,
          List.Forall₂.cons (hinv _ _ hget) h4⟩

/-- When every COLUMN option of a statement precedes every PRIMARY KEY option, the
primary key offsets that the first loop of `getSourceInfo` returns are valid: there is
one per PRIMARY KEY option, in order, and the column at the offset has the name that the
option gives; there are as many column types as column names. -/
theorem sourceOptionsLoop_columns_first (cols keys : List SourceOption)
    (hcols : ∀ o ∈ cols, o.Column ≠ none) (hkeys : ∀ o ∈ keys, o.Column = none)
    (colNames : List String) (colTypes : List ColumnType) (pkCols : List Nat)
    (h : sourceOptionsLoop (cols ++ keys) 0 [] [] [] [] = .ok (colNames, colTypes, pkCols)) :
    List.Forall₂ (fun o j => colNames[j]? = some o.PrimaryKey) keys pkCols ∧
    colTypes.length = colNames.length := by
  have hlen := sourceOptionsLoop_ok (cols ++ keys) 0 [] [] [] [] _ _ _ h
  obtain ⟨names1, types1, index1, hinv, h1⟩ :=
    sourceOptionsLoop_columns cols hcols keys [] [] [] [] _
      (fun name j hj => by simp [mapGet] at hj) h
  obtain ⟨rfl, rfl, added, hadd, hrel⟩ :=
    sourceOptionsLoop_keys keys hkeys names1 types1 index1 hinv _ _ _ _ _ h1
  simp only [List.nil_append] at hadd
  subst hadd
  refine ⟨hrel, ?_⟩
  rw [hlen.2.1, hlen.1]
  simp

/-- The statement of `sensor_readings` lists its columns first: its one primary key
offset is the offset of the column `sensor_id`. -/
theorem sourceOptionsLoop_columns_first_example :
    List.Forall₂ (fun o j => ["sensor_id", "location", "temperature"][j]? = some o.PrimaryKey)
      (sensorReadingsSource.Options.drop 3) [0] :=
  (sourceOptionsLoop_columns_first (sensorReadingsSource.Options.take 3)
    (sensorReadingsSource.Options.drop 3)
    (fun o ho => by
      simp only [sensorReadingsSource, List.take, List.mem_cons, List.mem_nil_iff,
        or_false] at ho
      rcases ho with rfl | rfl | rfl <;> exact Option.some_ne_none _)
    (fun o ho => by
      simp only [sensorReadingsSource, List.drop, List.mem_cons, List.mem_nil_iff,
        or_false] at ho
      subst ho
      rfl)
    ["sensor_id", "location", "temperature"] [.BigInt, .Varchar, .Double] [0] rfl).1

end PranaDB
